import Mathlib

/-!
# dasv: depth-adaptive supervoxels, online engine

A shallow embedding of `src/dasv/dasv.cpp`.

Conventions of the embedding.

* `float` values are rationals: every arithmetic operation of the source is the exact
  operation on `ℚ`.  `std::exp` and `std::sqrt` are fields of `FloatOps`, a parameter of the
  functions that call them.  Where a bound or a discrete outcome depends on the rounding of
  binary32, the function has a second form, named `...Rounded`, that takes the rounding
  `rnd : ℚ → ℚ` applied after every arithmetic operation; with `rnd = id` it is the exact
  form, and `roundBinary32` is round-to-nearest-even on 24-bit significands.
* `int` values are `Int` (pixel coordinates, times) or `Nat` where the source value is a
  size, a level or an index that is never negative.  `uint16_t` depth samples are read
  modulo `2^16`, `unsigned char` colour channels modulo `2^8`.
* `Eigen::MatrixXf` and `Vector2D<T>` are records of their dimensions and a total cell
  function.  Reading outside the dimensions is undefined behaviour in the source; the cell
  function is total, and the value it has there is an artefact.
* `std::shared_ptr<Cluster>` values owned by a frame are the cluster records themselves; a
  pointer stored in an assignment cell is the pair `(time, id)` of the cluster it points to.
  After `CreateFrame` the only writes to a cluster are those of `UpdateClusterCenters`,
  which go through `frames[t]->clusters[k]`.
* `assert` failures make a function return `none`.  The two compression-error routines
  return `Except Fault`, which tells a failed assertion from a write outside an array, and
  their quotients are `FloatQuotient` values, which keep `0/0` (NaN) and `x/0` apart from
  finite results.
* An input image is a record of its dimensions and a total sample function;
  `Image1ui16.inBounds` says that an index lies inside the buffer, and the value the sample
  function has outside it is an artefact.
* The global `std::mt19937 random_engine` is a stream of raw outputs and a read position.
-/

namespace dasv

/-! ## Constants -/

def DEPTH_TO_Z : ℚ := 1 / 1000
def CENTER_X : ℚ := 320
def CENTER_Y : ℚ := 240
def PX_FOCAL : ℚ := 528
def CLUSTER_RADIUS : ℚ := 25 / 1000
def CLUSTER_TIME_RADIUS : Int := 5
def CLUSTER_ITERATIONS : Nat := 5
def CLUSTER_RADIUS_MULT : ℚ := 17 / 10
def SPATIAL_TIME_INCREASE : ℚ := 0
def DEPTH_MIN : Nat := 0
def DEPTH_MAX : Nat := 2000
def PI : ℚ := 31415 / 10000

/-! ## Data model -/

structure Vec2 where
  x : ℚ
  y : ℚ
deriving DecidableEq

structure Vec3 where
  x : ℚ
  y : ℚ
  z : ℚ
deriving DecidableEq

def Vec3.zero : Vec3 := ⟨0, 0, 0⟩

def Vec3.add (a b : Vec3) : Vec3 := ⟨a.x + b.x, a.y + b.y, a.z + b.z⟩

def Vec3.sub (a b : Vec3) : Vec3 := ⟨a.x - b.x, a.y - b.y, a.z - b.z⟩

def Vec3.smul (s : ℚ) (a : Vec3) : Vec3 := ⟨s * a.x, s * a.y, s * a.z⟩

def Vec3.squaredNorm (a : Vec3) : ℚ := a.x * a.x + a.y * a.y + a.z * a.z

/-- One pixel of a frame grid (`struct Point`). -/
structure Point where
  valid : Bool
  color : Vec3
  position : Vec3
  normal : Vec3
  cluster_radius_px : ℚ
deriving DecidableEq

/-- A default-constructed `Point`; the source leaves its fields uninitialised. -/
def Point.dflt : Point := ⟨false, Vec3.zero, Vec3.zero, Vec3.zero, 0⟩

/-- The 2D array `Vector2D<T>`: `rows` is the width, `cols` the height, cells are `m(x,y)`. -/
structure Vector2D (α : Type) where
  rows : Nat
  cols : Nat
  get : Int → Int → α

abbrev RgbdData := Vector2D Point

/-- Modelled from the spec: `Vector2D::isValid` is declared in the header `dasv.hpp`, which
is not among the sources; "each seed coordinate becomes a Cluster only if the underlying
pixel is valid": the coordinate is inside the grid and the point there is valid. -/
def RgbdData.isValid (rgbd : RgbdData) (x y : Int) : Bool :=
  decide (0 ≤ x) && decide (x < rgbd.rows) && decide (0 ≤ y) && decide (y < rgbd.cols)
    && (rgbd.get x y).valid

/-- The matrix `Eigen::MatrixXf`, cells `m(x,y)` with `x < rows`, `y < cols`. -/
structure Mat where
  rows : Nat
  cols : Nat
  get : Nat → Nat → ℚ

/-- The matrix `Eigen::MatrixXf::Zero(rows, cols)`. -/
def Mat.Zero (rows cols : Nat) : Mat := ⟨rows, cols, fun _ _ => 0⟩

/-- A default-constructed `Eigen::MatrixXf` (no cells). -/
def Mat.empty : Mat := Mat.Zero 0 0

/-- The statement `m(x,y) = v`. -/
def Mat.set (m : Mat) (x y : Nat) (v : ℚ) : Mat :=
  { m with get := fun i j => if i = x ∧ j = y then v else m.get i j }

/-- The statement `m(x,y) += v`. -/
def Mat.addAt (m : Mat) (x y : Nat) (v : ℚ) : Mat := m.set x y (m.get x y + v)

/-- Sum of all cells of a matrix. -/
def Mat.total (m : Mat) : ℚ :=
  ∑ x in Finset.range m.rows, ∑ y in Finset.range m.cols, m.get x y

/-- The colour image `slimage::Image3ub`, pixels in row-major order `i = y*width + x`. -/
structure Image3ub where
  width : Nat
  height : Nat
  data : Nat → Nat × Nat × Nat

/-- The depth image `slimage::Image1ui16`, pixels in row-major order `i = y*width + x`. -/
structure Image1ui16 where
  width : Nat
  height : Nat
  data : Nat → Nat

/-- The raw depth sample `img_depth[i]` as a `uint16_t`.  The buffer of the image holds
`width*height` samples; a read at `i >= width*height` is outside it (undefined behaviour in
the source) and the value that `data` has there is an artefact: `Image1ui16.inBounds` states
that a read is inside the buffer. -/
def Image1ui16.read (img : Image1ui16) (i : Nat) : Nat := img.data i % 65536

/-- The colour sample `img_color[i]` as three `unsigned char` channels. -/
def Image3ub.read (img : Image3ub) (i : Nat) : Vec3 :=
  ⟨((img.data i).1 % 256 : Nat), ((img.data i).2.1 % 256 : Nat), ((img.data i).2.2 % 256 : Nat)⟩

/-! ## Point/Frame construction -/

/-- The loop of `ComputeRgbdDataNormals`: every cell of the grid gets the normal `(0,0,-1)`. -/
def ComputeRgbdDataNormals (rgbd : RgbdData) : RgbdData :=
  { rgbd with get := fun x y =>
      if 0 ≤ x ∧ x < rgbd.rows ∧ 0 ≤ y ∧ y < rgbd.cols then
        { rgbd.get x y with normal := ⟨0, 0, -1⟩ }
      else rgbd.get x y }

def CameraProject (p : Vec3) : Vec2 :=
  ⟨CENTER_X + PX_FOCAL * p.x / p.z, CENTER_Y + PX_FOCAL * p.y / p.z⟩

/-- The validity test of `CreateRgbdData`:
`depth != 0 && DEPTH_MIN <= depth && depth <= DEPTH_MAX`. -/
def depthValid (depth : Nat) : Bool :=
  (depth != 0) && decide (DEPTH_MIN ≤ depth) && decide (depth ≤ DEPTH_MAX)

/-- The body of the pixel loop of `CreateRgbdData` for pixel `(x,y)`, linear index `i`. -/
def CreateRgbdPoint (img_color : Image3ub) (img_depth : Image1ui16) (x y : Int) (i : Nat) :
    Point :=
  let depth := img_depth.read i
  let valid := depthValid depth
  if valid then
    let z_over_f : ℚ := DEPTH_TO_Z * (depth : ℚ) / PX_FOCAL
    { valid := valid
      color := Vec3.smul (1 / 255) (img_color.read i)
      position := Vec3.smul z_over_f ⟨(x : ℚ) - CENTER_X, (y : ℚ) - CENTER_Y, PX_FOCAL⟩
      normal := Point.dflt.normal
      cluster_radius_px := CLUSTER_RADIUS / z_over_f }
  else
    { Point.dflt with valid := valid }

def CreateRgbdData (img_color : Image3ub) (img_depth : Image1ui16) : RgbdData :=
  let NX := img_color.width
  let NY := img_color.height
  let rgbd : RgbdData :=
    { rows := NX
      cols := NY
      get := fun x y =>
        if 0 ≤ x ∧ x < NX ∧ 0 ≤ y ∧ y < NY then
          CreateRgbdPoint img_color img_depth x y (y * NX + x).toNat
        else Point.dflt }
  ComputeRgbdDataNormals rgbd

/-! ## Density estimator -/

/-- The library functions `std::exp` and `std::sqrt`, which have no rational counterpart. -/
structure FloatOps where
  exp : ℚ → ℚ
  sqrt : ℚ → ℚ

/-- The conversion `static_cast<int>(v)` of a float: truncation toward zero. -/
def truncToInt (v : ℚ) : Int := if 0 ≤ v then ⌊v⌋ else ⌈v⌉

/-- The integers `a, a+1, ..., b` of a loop `for(int i=a; i<=b; i++)`. -/
def intRange (a b : Int) : List Int :=
  (List.range (b + 1 - a).toNat).map (fun (i : Nat) => a + (i : Int))

def ComputeFrameDensity (rgbd : RgbdData) : Mat :=
  let NY := rgbd.cols
  let NX := rgbd.rows
  { rows := NX
    cols := NY
    get := fun x y =>
      if x < NX ∧ y < NY then
        let p := rgbd.get x y
        if p.valid then
          let A := p.cluster_radius_px * p.cluster_radius_px * PI * |p.normal.z|
          1 / A
        else 0
      else 0 }

/-- A tracked supervoxel (`struct Cluster`). -/
structure Cluster where
  time : Int
  id : Nat
  valid : Bool
  pixel : Vec2
  color : Vec3
  position : Vec3
  normal : Vec3
  cluster_radius_px : ℚ
deriving DecidableEq

/-- A default-constructed `Cluster`, as `std::vector<Cluster> clusters(n)` creates them;
`struct Cluster` is declared in the header `dasv.hpp`, which is not among the sources. -/
def Cluster.dflt : Cluster := ⟨0, 0, false, ⟨0, 0⟩, Vec3.zero, Vec3.zero, Vec3.zero, 0⟩

/-- The body of the cluster loop of `ComputeClusterDensity`: the kernel of `c` is added to
every cell of its clamped box. -/
def SplatCluster (ops : FloatOps) (rows cols : Nat) (density : Mat) (c : Cluster) : Mat :=
  if !c.valid then density
  else
    let cRange : ℚ := 121 / 100
    let sx := truncToInt (c.pixel.x + 1 / 2)
    let sy := truncToInt (c.pixel.y + 1 / 2)
    let sxf := c.pixel.x
    let syf := c.pixel.y
    let rho := 1 / (c.cluster_radius_px * c.cluster_radius_px * PI * |c.normal.z|)
    let R : Int := ⌈cRange / ops.sqrt rho⌉
    let xmin := max (sx - R) 0
    let xmax := min (sx + R) ((rows : Int) - 1)
    let ymin := max (sy - R) 0
    let ymax := min (sy + R) ((cols : Int) - 1)
    (intRange ymin ymax).foldl (fun (d : Mat) (yi : Int) =>
      (intRange xmin xmax).foldl (fun (d : Mat) (xi : Int) =>
        let dx := (xi : ℚ) - sxf
        let dy := (yi : ℚ) - syf
        let d2 := dx * dx + dy * dy
        let delta := rho * ops.exp (-PI * rho * d2)
        d.addAt xi.toNat yi.toNat delta) d) density

def ComputeClusterDensity (ops : FloatOps) (rows cols : Nat) (clusters : List Cluster) : Mat :=
  clusters.foldl (SplatCluster ops rows cols) (Mat.Zero rows cols)

/-! ## Blue-noise seed sampler -/

/-- The global `std::mt19937 random_engine`: the stream of its raw outputs and the number of
outputs consumed so far. -/
structure RandomEngine where
  stream : Nat → Nat
  pos : Nat

/-- One draw `delta(random_engine)` of `std::uniform_int_distribution<int> delta(a, b)`: a
value of `[a, b]` determined by the next raw output, which is consumed. -/
def RandomEngine.uniformInt (g : RandomEngine) (a b : Int) : Int × RandomEngine :=
  (a + ((g.stream g.pos : Int) % (b - a + 1)), { g with pos := g.pos + 1 })

/-- The retry loop `while(trials < 100)` of `FindValidSeedPoint`, with `n` trials left. -/
def FindValidSeedPointLoop (rgbd : RgbdData) (sx0 sy0 range : Int) :
    Nat → RandomEngine → Bool × Int × Int × RandomEngine
  | 0, g => (false, sx0, sy0, g)
  | n + 1, g =>
    let NY : Int := rgbd.cols
    let NX : Int := rgbd.rows
    let dx := g.uniformInt (-range) range
    let sx := sx0 + dx.1
    let dy := dx.2.uniformInt (-range) range
    let sy := sy0 + dy.1
    let g2 := dy.2
    if 0 ≤ sx ∧ sx < NX ∧ 0 ≤ sy ∧ sy < NY ∧ (rgbd.get sx sy).valid = true then
      (true, sx, sy, g2)
    else FindValidSeedPointLoop rgbd sx0 sy0 range n g2

/-- The result of `FindValidSeedPoint` with the final values of the reference parameters
`sx0`, `sy0`. -/
def FindValidSeedPoint (rgbd : RgbdData) (sx0 sy0 range : Int) (g : RandomEngine) :
    Bool × Int × Int × RandomEngine :=
  let NY : Int := rgbd.cols
  let NX : Int := rgbd.rows
  if range = 0 then
    (decide (0 ≤ sx0 ∧ sx0 < NX ∧ 0 ≤ sy0 ∧ sy0 < NY) && (rgbd.get sx0 sy0).valid, sx0, sy0, g)
  else FindValidSeedPointLoop rgbd sx0 sy0 range 100 g

/-- The mutable state of the recursion `SampleDensityImplRec`. -/
structure SamplerState where
  seeds : List Vec2
  carry_mipmaps : List Mat
  random_engine : RandomEngine

/-- The statement `v[i] = f(v[i])` on a `std::vector`. -/
def modifyAt {α : Type} (f : α → α) : Nat → List α → List α
  | _, [] => []
  | 0, m :: ms => f m :: ms
  | n + 1, m :: ms => m :: modifyAt f n ms

/-- The density of a cell, `v = mm(x, y) + carry_mm(x, y)`. -/
def cellValue (mipmaps carry_mipmaps : List Mat) (level x y : Nat) : ℚ :=
  (mipmaps.getD level Mat.empty).get x y + (carry_mipmaps.getD level Mat.empty).get x y

/-- The sum `q` of the weights of the in-bounds neighbours of cell `(x,y)`. -/
def diffusionWeight (mm_rows mm_cols x y : Nat) : ℚ :=
  let q : ℚ := 0
  let xm1ok := decide (0 < x)
  let xp1ok := decide (x + 1 < mm_rows)
  let yp1ok := decide (y + 1 < mm_cols)
  let q := if xp1ok then q + 7 else q
  if yp1ok then
    let q := if xm1ok then q + 3 else q
    let q := q + 5
    if xp1ok then q + 1 else q
  else q

/-- The block "distribute remaining density to neighbours" of `SampleDensityImplRec`. -/
def DistributeDensity (mm_rows mm_cols : Nat) (carry_mm : Mat) (x y : Nat) (v : ℚ) : Mat :=
  let xm1ok := decide (0 < x)
  let xp1ok := decide (x + 1 < mm_rows)
  let yp1ok := decide (y + 1 < mm_cols)
  let q := diffusionWeight mm_rows mm_cols x y
  if q > 0 then
    let scl := v / q
    let carry_mm := if xp1ok then carry_mm.addAt (x + 1) y (7 * scl) else carry_mm
    if yp1ok then
      let carry_mm := if xm1ok then carry_mm.addAt (x - 1) (y + 1) (3 * scl) else carry_mm
      let carry_mm := carry_mm.addAt x (y + 1) (5 * scl)
      if xp1ok then carry_mm.addAt (x + 1) (y + 1) (1 * scl) else carry_mm
    else carry_mm
  else carry_mm

/-- The seed attempt of a leaf: the state after the block `if(v >= 0.5f)`, with the value of
`v` after it.  The shift `1 << (level - 1)` is undefined for `level = 0`; there `half` is
taken to be `1`. -/
def SampleLeafSeed (rgbd : RgbdData) (level x y : Nat) (v : ℚ) (st : SamplerState) :
    ℚ × SamplerState :=
  if v ≥ 1 / 2 then
    let half : Nat := 2 ^ (level - 1)
    let sx : Int := ((x * 2 ^ level + half : Nat) : Int)
    let sy : Int := ((y * 2 ^ level + half : Nat) : Int)
    let found := FindValidSeedPoint rgbd sx sy ((half / 2 : Nat) : Int) st.random_engine
    let sx := found.2.1
    let sy := found.2.2.1
    let g := found.2.2.2
    if found.1 then
      (v - 1, { st with seeds := st.seeds ++ [⟨(sx : ℚ), (sy : ℚ)⟩], random_engine := g })
    else (v, { st with random_engine := g })
  else (v, st)

/-- The leaf branch of `SampleDensityImplRec` (`level <= 1 || v <= 1.5f`). -/
def SampleLeaf (rgbd : RgbdData) (mipmaps : List Mat) (level x y : Nat) (st : SamplerState) :
    SamplerState :=
  let mm := mipmaps.getD level Mat.empty
  let v := cellValue mipmaps st.carry_mipmaps level x y
  let seeded := SampleLeafSeed rgbd level x y v st
  let v := seeded.1
  let st := seeded.2
  let distribute := fun carry_mm => DistributeDensity mm.rows mm.cols carry_mm x y v
  { st with carry_mipmaps := modifyAt distribute level st.carry_mipmaps }

def SampleDensityImplRec (rgbd : RgbdData) (mipmaps : List Mat) :
    Nat → Nat → Nat → SamplerState → SamplerState
  | 0, x, y, st => SampleLeaf rgbd mipmaps 0 x y st
  | level + 1, x, y, st =>
    if level + 1 ≤ 1 ∨ cellValue mipmaps st.carry_mipmaps (level + 1) x y ≤ 3 / 2 then
      SampleLeaf rgbd mipmaps (level + 1) x y st
    else
      let st := SampleDensityImplRec rgbd mipmaps level (2 * x) (2 * y) st
      let st := SampleDensityImplRec rgbd mipmaps level (2 * x) (2 * y + 1) st
      let st := SampleDensityImplRec rgbd mipmaps level (2 * x + 1) (2 * y) st
      SampleDensityImplRec rgbd mipmaps level (2 * x + 1) (2 * y + 1) st

/-- The loop `while(a < x) a *= 2` of `find_next_pow2`, with a bound on its iterations. -/
def find_next_pow2_loop (x : Nat) : Nat → Nat → Nat
  | 0, a => a
  | fuel + 1, a => if a < x then find_next_pow2_loop x fuel (a * 2) else a

def find_next_pow2 (x : Nat) : Nat := find_next_pow2_loop x x 1

/-- The reduction `ComputeMipmap`; `none` when one of its two assertions fails. -/
def ComputeMipmap (data : Mat) : Option Mat :=
  let rows := data.rows
  let cols := data.cols
  if rows % 2 = 0 ∧ cols % 2 = 0 then
    let size := find_next_pow2 (max rows cols) / 2
    some
      { rows := size
        cols := size
        get := fun i j =>
          if 2 * i < rows ∧ 2 * j < cols then
            data.get (2 * i) (2 * j) + data.get (2 * i) (2 * j + 1)
              + data.get (2 * i + 1) (2 * j) + data.get (2 * i + 1) (2 * j + 1)
          else 0 }
  else none

/-- The loop `while(true)` of `ComputeMipmaps`, with a bound on its iterations: `mm` is the
vector built so far, `q` its last element. -/
def ComputeMipmapsLoop (min_size : Int) : Nat → List Mat → Mat → Option (List Mat)
  | 0, _, _ => none
  | fuel + 1, mm, q =>
    if (q.rows : Int) ≤ min_size ∨ (q.cols : Int) ≤ min_size then some mm
    else
      match ComputeMipmap q with
      | none => none
      | some x => ComputeMipmapsLoop min_size fuel (mm ++ [x]) x

/-- The pyramid `ComputeMipmaps`; `none` when an assertion of `ComputeMipmap` fails or
the loop does not end within `rows + cols + 2` iterations. -/
def ComputeMipmaps (data : Mat) (min_size : Int) : Option (List Mat) :=
  ComputeMipmapsLoop min_size (data.rows + data.cols + 2) [data] data

def SampleDensityImpl (rgbd : RgbdData) (density : Mat) (g : RandomEngine) :
    Option (List Vec2 × RandomEngine) :=
  match ComputeMipmaps density 1 with
  | none => none
  | some mipmaps =>
    let carry_mipmaps : List Mat :=
      match mipmaps with
      | [] => []
      | _ :: rest => Mat.empty :: rest.map (fun m => Mat.Zero m.rows m.cols)
    let st := SampleDensityImplRec rgbd mipmaps (mipmaps.length - 1) 0 0 ⟨[], carry_mipmaps, g⟩
    some (st.seeds, st.random_engine)

/-! ## Cluster instantiation -/

/-- The body of the loop of `SampleClustersFromDensity` for one seed `px`: a skipped slot
keeps its default-constructed cluster. -/
def ClusterFromSeed (rgbd : RgbdData) (px : Vec2) : Cluster :=
  let x := truncToInt px.x
  let y := truncToInt px.y
  if !rgbd.isValid x y then Cluster.dflt
  else
    let fp := rgbd.get x y
    { Cluster.dflt with
      pixel := px
      color := fp.color
      position := fp.position
      normal := fp.normal
      cluster_radius_px := fp.cluster_radius_px
      valid := true }

def SampleClustersFromDensity (rgbd : RgbdData) (density : Mat) (g : RandomEngine) :
    Option (List Cluster × RandomEngine) :=
  match SampleDensityImpl rgbd density g with
  | none => none
  | some (points, g) => some (points.map (ClusterFromSeed rgbd), g)

/-- Per-pixel assignment cell: the cluster pointer `cluster` (here the pair `(time, id)` of
the cluster pointed to, `none` for the null pointer) and the distance to it. -/
structure Assignment where
  cluster : Option (Int × Nat)
  distance : ℚ
deriving DecidableEq

abbrev FrameAssignment := Vector2D Assignment

structure Frame where
  time : Int
  rgbd : RgbdData
  clusters : List Cluster
  assignment : FrameAssignment

/-- The pointer value of a cluster owned by a frame. -/
def Cluster.ptr (c : Cluster) : Int × Nat := (c.time, c.id)

/-- The loop of `CreateFrame` from index `i` on: each cluster is copied and gets the frame
time and its index as id. -/
def CreateFrameClusters (time : Int) : Nat → List Cluster → List Cluster
  | _, [] => []
  | i, c :: cs => { c with time := time, id := i } :: CreateFrameClusters time (i + 1) cs

def VERY_LARGE_DISTANCE : ℚ := 1000000

def CreateFrame (time : Int) (rgbd : RgbdData) (clusters : List Cluster) : Frame :=
  { time := time
    rgbd := rgbd
    clusters := CreateFrameClusters time 0 clusters
    assignment := ⟨rgbd.rows, rgbd.cols, fun _ _ => ⟨none, VERY_LARGE_DISTANCE⟩⟩ }

/-! ## Timeseries -/

/-- Modelled from the spec: `struct Timeseries` is declared in the header `dasv.hpp`, which
is not among the sources (only its uses in `dasv.cpp` are).  "Ordered collection of Frames
covering a contiguous half-open interval `[begin, end)`".  The source clears it with
`series_.frames.clear()`, so the frames are its only state and `begin`, `end` are read off
them. -/
structure Timeseries where
  frames : List Frame

/-- Modelled from the spec: `Timeseries::getBeginTime` (header not among the sources), the
`begin` of the covered interval `[begin, end)`: the time of the oldest frame, `0` for an
empty series. -/
def Timeseries.getBeginTime (ts : Timeseries) : Int :=
  match ts.frames.head? with
  | some f => f.time
  | none => 0

/-- Modelled from the spec: `Timeseries::getEndTime` (header not among the sources), the
`end` of the covered interval `[begin, end)`: one past the time of the newest frame, `0`
for an empty series. -/
def Timeseries.getEndTime (ts : Timeseries) : Int :=
  match ts.frames.getLast? with
  | some f => f.time + 1
  | none => 0

/-- Modelled from the spec: `Timeseries::add` (header not among the sources), "`add` appends
at `end` and increments `end`". -/
def Timeseries.add (ts : Timeseries) (f : Frame) : Timeseries := ⟨ts.frames ++ [f]⟩

/-- Modelled from the spec: `Timeseries::purge` (header not among the sources),
"`purge(before)` removes and returns all Frames with `time < before`, advancing `begin`":
the removed frames and the series that is left. -/
def Timeseries.purgeFrames (ts : Timeseries) (before : Int) : List Frame × Timeseries :=
  (ts.frames.filter (fun f => decide (f.time < before)),
   ⟨ts.frames.filter (fun f => !decide (f.time < before))⟩)

/-- Modelled from the spec: the value `std::vector<ClusterPtr>` that `series_.purge(..)`
returns in `step`, "moving their clusters into the inactive pool": the clusters of the
removed frames, in frame order. -/
def Timeseries.purge (ts : Timeseries) (before : Int) : List Cluster × Timeseries :=
  (((ts.purgeFrames before).1.map (fun f => f.clusters)).flatten, (ts.purgeFrames before).2)

/-- Modelled from the spec: `Timeseries::getFrameRange` (header not among the sources), the
frames of "the active window `[t-R_T, t+R_T]` (clipped to what is retained)": the retained
frames with `t_begin <= time < t_end`, a contiguous run of the series. -/
def Timeseries.getFrameRange (ts : Timeseries) (t_begin t_end : Int) : List Frame :=
  (ts.frames.dropWhile (fun f => decide (f.time < t_begin))).takeWhile
    (fun f => decide (f.time < t_end))

/-- The series after the frames of `getFrameRange t_begin t_end`, which are shared with it
through `FramePtr`, have been mutated into `frames`. -/
def Timeseries.setFrameRange (ts : Timeseries) (t_begin t_end : Int) (frames : List Frame) :
    Timeseries :=
  ⟨ts.frames.takeWhile (fun f => decide (f.time < t_begin)) ++ frames ++
    (ts.frames.dropWhile (fun f => decide (f.time < t_begin))).dropWhile
      (fun f => decide (f.time < t_end))⟩

/-! ## Spatio-temporal clustering -/

/-- One call of the functor `f(c, frame_time, p, assignment(x,y))` inside `ClusterBox`: the
cluster `c`, the index `t` of the frame of the point, its time, the pixel and the point. -/
structure Visit where
  c : Cluster
  t : Nat
  frame_time : Int
  x : Int
  y : Int
  p : Point
deriving DecidableEq

/-- The innermost loops of `ClusterBox` for cluster `c` and frame `frames[t]`: the valid
points of the clamped box of `c`, rows `y1..y2` outside, columns `x1..x2` inside. -/
def ClusterBoxPoints (NX NY : Nat) (c : Cluster) (t : Nat) (frame : Frame) : List Visit :=
  let frame_time := frame.time
  let rpx := CLUSTER_RADIUS_MULT * c.cluster_radius_px
    * (1 + SPATIAL_TIME_INCREASE * ((|frame_time - c.time| : Int) : ℚ) / CLUSTER_RADIUS)
  let R := truncToInt (rpx + 1 / 2)
  let xc := truncToInt (c.pixel.x + 1 / 2)
  let yc := truncToInt (c.pixel.y + 1 / 2)
  let x1 := max 0 (xc - R)
  let x2 := min ((NX : Int) - 1) (xc + R)
  let y1 := max 0 (yc - R)
  let y2 := min ((NY : Int) - 1) (yc + R)
  (intRange y1 y2).flatMap (fun y =>
    (intRange x1 x2).filterMap (fun x =>
      let p := frame.rgbd.get x y
      if !p.valid then none else some ⟨c, t, frame_time, x, y, p⟩))

/-- The sequence of functor calls of `ClusterBox(frames, f)`, in the order the source makes
them.  Neither functor of the source writes to a cluster or to a point, so the sequence is
fixed by the frames at the start of the traversal. -/
def ClusterBoxVisits (frames : List Frame) : List Visit :=
  match frames with
  | [] => []
  | front :: _ =>
    let NY := front.rgbd.cols
    let NX := front.rgbd.rows
    frames.flatMap (fun fk =>
      fk.clusters.flatMap (fun c =>
        if !c.valid then []
        else frames.enum.flatMap (fun tf => ClusterBoxPoints NX NY c tf.1 tf.2)))

/-- The traversal `ClusterBox(frames, f)` with the state `σ` that the functor mutates; `none`
when the assertion `frames.size() > 0` fails. -/
def ClusterBox {σ : Type} (frames : List Frame) (f : Visit → σ → σ) (init : σ) : Option σ :=
  if frames.isEmpty then none
  else some ((ClusterBoxVisits frames).foldl (fun s v => f v s) init)

def PointClusterDistance (p_time : Int) (p : Point) (c : Cluster) : ℚ :=
  let mc := (p.color.sub c.color).squaredNorm
  let dti : Int := |p_time - c.time|
  let dt : ℚ := ((max 0 (dti - CLUSTER_TIME_RADIUS) : Int) : ℚ)
  let mt := dt * dt / ((CLUSTER_TIME_RADIUS * CLUSTER_TIME_RADIUS : Int) : ℚ)
  let r := CLUSTER_RADIUS + SPATIAL_TIME_INCREASE * (dti : ℚ)
  let mx := (p.position.sub c.position).squaredNorm / (r * r)
  67 / 100 * mc + 33 / 100 * (mt + mx)

/-- The statement `m(x,y) = v` on a `Vector2D`. -/
def Vector2D.set {α : Type} (m : Vector2D α) (x y : Int) (v : α) : Vector2D α :=
  { m with get := fun i j => if i = x ∧ j = y then v else m.get i j }

/-- The functor of `UpdateClusterAssignment` applied to the cell `assignment(x,y)` of a
frame. -/
def AssignPoint (v : Visit) (frame : Frame) : Frame :=
  let a := frame.assignment.get v.x v.y
  let d := PointClusterDistance v.frame_time v.p v.c
  if d < a.distance then
    { frame with assignment := frame.assignment.set v.x v.y ⟨some v.c.ptr, d⟩ }
  else frame

def UpdateClusterAssignment (frames : List Frame) : Option (List Frame) :=
  ClusterBox frames (fun v frames => modifyAt (AssignPoint v) v.t frames) frames

/-- The 3x3 matrix `Eigen::Matrix3f`, by rows. -/
structure Mat3 where
  r0 : Vec3
  r1 : Vec3
  r2 : Vec3

structure ClusterCenterAccumulator where
  num : Int
  mean_color : Vec3
  mean_position : Vec3
  mean_normal : Mat3

/-- The constructor `ClusterCenterAccumulator()`. -/
def ClusterCenterAccumulator.init : ClusterCenterAccumulator :=
  ⟨0, Vec3.zero, Vec3.zero, ⟨Vec3.zero, Vec3.zero, Vec3.zero⟩⟩

def ClusterCenterAccumulator.add (cca : ClusterCenterAccumulator) (p : Point) :
    ClusterCenterAccumulator :=
  { num := cca.num + 1
    mean_color := cca.mean_color.add p.color
    mean_position := cca.mean_position.add p.position
    mean_normal :=
      ⟨cca.mean_normal.r0.add (Vec3.smul p.normal.x p.normal),
       cca.mean_normal.r1.add (Vec3.smul p.normal.y p.normal),
       cca.mean_normal.r2.add (Vec3.smul p.normal.z p.normal)⟩ }

def ClusterCenterAccumulator.computeNormal (_cca : ClusterCenterAccumulator) : Vec3 :=
  ⟨0, 0, -1⟩

/-- The functor of `UpdateClusterCenters`: `if(a.cluster == c) ccas[c->time - t0][c->id].add(p)`;
`frames` are the frames of the traversal, which the functor only reads.  An index outside
the accumulators is undefined behaviour in the source and changes nothing here. -/
def AccumulatePoint (frames : List Frame) (t0 : Int) (v : Visit)
    (ccas : List (List ClusterCenterAccumulator)) : List (List ClusterCenterAccumulator) :=
  match frames.get? v.t with
  | none => ccas
  | some frame =>
    let a := frame.assignment.get v.x v.y
    if a.cluster = some v.c.ptr ∧ 0 ≤ v.c.time - t0 then
      modifyAt (modifyAt (fun cca => cca.add v.p) v.c.id) (v.c.time - t0).toNat ccas
    else ccas

/-- The body of the update loop of `UpdateClusterCenters` for cluster `c` and its
accumulator. -/
def UpdateCenter (c : Cluster) (cca : ClusterCenterAccumulator) : Cluster :=
  let c := if cca.num = 0 then { c with valid := false } else c
  if !c.valid then c
  else
    let scl : ℚ := 1 / (cca.num : ℚ)
    let position := Vec3.smul scl cca.mean_position
    { c with
      color := Vec3.smul scl cca.mean_color
      position := position
      normal := cca.computeNormal
      pixel := CameraProject position }

/-- The update loop of `UpdateClusterCenters`: cluster `k` of frame `t` is updated from
`ccas[t][k]`. -/
def ApplyCenters (ccas : List (List ClusterCenterAccumulator)) (frames : List Frame) :
    List Frame :=
  frames.enum.map (fun tf =>
    { tf.2 with clusters := tf.2.clusters.enum.map (fun kc =>
        UpdateCenter kc.2 ((ccas.getD tf.1 []).getD kc.1 ClusterCenterAccumulator.init)) })

def UpdateClusterCenters (frames : List Frame) : Option (List Frame) :=
  match frames with
  | [] => none
  | front :: _ =>
    let ccas := frames.map (fun f =>
      List.replicate f.clusters.length ClusterCenterAccumulator.init)
    let t0 := front.time
    match ClusterBox frames (AccumulatePoint frames t0) ccas with
    | none => none
    | some ccas => some (ApplyCenters ccas frames)

/-- The loop of `UpdateClusters` with `k` iterations left. -/
def UpdateClustersLoop : Nat → List Frame → Option (List Frame)
  | 0, frames => some frames
  | k + 1, frames =>
    match UpdateClusterAssignment frames with
    | none => none
    | some frames =>
      match UpdateClusterCenters frames with
      | none => none
      | some frames => UpdateClustersLoop k frames

def UpdateClusters (time : Int) (timeseries : Timeseries) : Option Timeseries :=
  let t_begin := time - CLUSTER_TIME_RADIUS
  let t_end := time + CLUSTER_TIME_RADIUS + 1
  match UpdateClustersLoop CLUSTER_ITERATIONS (timeseries.getFrameRange t_begin t_end) with
  | none => none
  | some frames => some (timeseries.setFrameRange t_begin t_end frames)

/-! ## Engine -/

/-- The pointwise difference `a - b` of two matrices. -/
def Mat.sub (a b : Mat) : Mat := { a with get := fun x y => a.get x y - b.get x y }

/-- The pointwise sum `a + b` of two matrices. -/
def Mat.add (a b : Mat) : Mat := { a with get := fun x y => a.get x y + b.get x y }

/-- The product `s * a` of a scalar and a matrix. -/
def Mat.smul (s : ℚ) (a : Mat) : Mat := { a with get := fun x y => s * a.get x y }

/-- The state of a `ContinuousSupervoxels` object, together with the global
`random_engine` that its `step` reads and advances. -/
structure ContinuousSupervoxels where
  is_first_ : Bool
  last_density_ : Mat
  series_ : Timeseries
  inactive_clusters_ : List Cluster
  random_engine : RandomEngine

/-- One frame of input to `step`: the colour image and the depth image. -/
structure StepInput where
  color : Image3ub
  depth : Image1ui16

def LAMBDA : ℚ := 1 - 1 / ((2 * CLUSTER_TIME_RADIUS + 1 : Int) : ℚ)

def ContinuousSupervoxels.start (sv : ContinuousSupervoxels) (_rows _cols : Int) :
    ContinuousSupervoxels :=
  { sv with is_first_ := true, series_ := ⟨[]⟩, inactive_clusters_ := [] }

/-- The matrix `sample_density` of `step`. -/
def ContinuousSupervoxels.sampleDensity (sv : ContinuousSupervoxels) (target_density : Mat) :
    Mat :=
  if sv.is_first_ then target_density
  else target_density.sub (Mat.smul LAMBDA sv.last_density_)

/-- The new value of `last_density_` in `step`. -/
def ContinuousSupervoxels.updateLastDensity (sv : ContinuousSupervoxels)
    (current_density : Mat) : Mat :=
  if sv.is_first_ then current_density
  else (Mat.smul LAMBDA sv.last_density_).add current_density

/-- The clusters `new_clusters` that `step` samples, with the random engine after
sampling; `none` when an assertion of the sampler fails. -/
def ContinuousSupervoxels.sampleNewClusters (sv : ContinuousSupervoxels) (inp : StepInput) :
    Option (List Cluster × RandomEngine) :=
  let rgbd := CreateRgbdData inp.color inp.depth
  let target_density := ComputeFrameDensity rgbd
  SampleClustersFromDensity rgbd (sv.sampleDensity target_density) sv.random_engine

/-- The series of `step` after the new frame is added and old frames are purged, with the
purged clusters. -/
def ContinuousSupervoxels.addAndPurge (sv : ContinuousSupervoxels) (rgbd : RgbdData)
    (new_clusters : List Cluster) : List Cluster × Timeseries :=
  let new_frame := CreateFrame sv.series_.getEndTime rgbd new_clusters
  let series := sv.series_.add new_frame
  series.purge (series.getEndTime - 2 * CLUSTER_TIME_RADIUS - 1)

/-- The active time `t` of `step` for the series after the purge. -/
def activeTime (series : Timeseries) : Int :=
  max series.getBeginTime (series.getEndTime - CLUSTER_TIME_RADIUS - 1)

/-- The method `ContinuousSupervoxels::step`; `none` when an assertion fails.  The debug
output (console line, `DebugCreateSuperpixelImage`, `slimage::gui::Show`) reads the state
and is left out. -/
def ContinuousSupervoxels.step (ops : FloatOps) (sv : ContinuousSupervoxels) (inp : StepInput) :
    Option ContinuousSupervoxels :=
  let rgbd := CreateRgbdData inp.color inp.depth
  match sv.sampleNewClusters inp with
  | none => none
  | some sampled =>
    let new_clusters := sampled.1
    let current_density := ComputeClusterDensity ops rgbd.rows rgbd.cols new_clusters
    let last_density := sv.updateLastDensity current_density
    let purged := sv.addAndPurge rgbd new_clusters
    let inactive_clusters := sv.inactive_clusters_ ++ purged.1
    let t := activeTime purged.2
    match UpdateClusters t purged.2 with
    | none => none
    | some series =>
      some
        { is_first_ := false
          last_density_ := last_density
          series_ := series
          inactive_clusters_ := inactive_clusters
          random_engine := sampled.2 }

/-- A run of `step` calls on the inputs in order; `none` when one of them fails. -/
def ContinuousSupervoxels.steps (ops : FloatOps) (sv : ContinuousSupervoxels) :
    List StepInput → Option ContinuousSupervoxels
  | [] => some sv
  | inp :: rest =>
    match sv.step ops inp with
    | none => none
    | some sv => ContinuousSupervoxels.steps ops sv rest

def ContinuousSupervoxels.numActiveClusters (sv : ContinuousSupervoxels) : Nat :=
  sv.series_.frames.foldl (fun a f => a + f.clusters.length) 0

def ContinuousSupervoxels.numInactiveClusters (sv : ContinuousSupervoxels) : Nat :=
  sv.inactive_clusters_.length

def ContinuousSupervoxels.getAllClusters (sv : ContinuousSupervoxels) : List Cluster :=
  sv.inactive_clusters_ ++ (sv.series_.frames.map (fun f => f.clusters)).flatten

/-! ## Compression error evaluation -/

/-- Modelled from the spec: `Vector2D::size` (header `dasv.hpp` is not among the sources),
the number of cells of the grid. -/
def Vector2D.size {α : Type} (m : Vector2D α) : Nat := m.rows * m.cols

/-- Modelled from the spec: `Vector2D::operator[]`, the access by linear index (header
`dasv.hpp` is not among the sources).  `Vector2D` "behaves like Eigen::MatrixXf", whose
storage order is column-major: cell `i` is `m(i % rows, i / rows)`. -/
def Vector2D.lin {α : Type} (m : Vector2D α) (i : Nat) : α :=
  m.get ((i % m.rows : Nat) : Int) ((i / m.rows : Nat) : Int)

/-- The running sums `pixel_mean_color`, `pixel_mean_position` and `num_pixels` of the first
loop of the two evaluation routines. -/
structure PixelMean where
  color : Vec3
  position : Vec3
  num_pixels : Int

/-- The first loop of `EvaluateComputeCompressionError` and of
`EvaluateComputeDownsampleCompressionError`: the sums over the valid points. -/
def ComputePixelMean (rgbd : RgbdData) : PixelMean :=
  (List.range rgbd.size).foldl (fun (acc : PixelMean) (i : Nat) =>
    let p := rgbd.lin i
    if !p.valid then acc
    else ⟨acc.color.add p.color, acc.position.add p.position, acc.num_pixels + 1⟩)
    ⟨Vec3.zero, Vec3.zero, 0⟩

/-- The ways in which a routine ends without a result: a failed `assert`, which aborts the
process, or an access outside the cells of a `Vector2D`, which is undefined behaviour. -/
inductive Fault where
  | assertion
  | outOfBounds
deriving DecidableEq

/-- The value of a `float` division `a / b`: a number, an infinity (`a != 0`, `b = 0`) or
NaN (`0 / 0`). -/
inductive FloatQuotient where
  | finite (v : ℚ)
  | infinite
  | nan
deriving DecidableEq

/-- The `float` division `a / b`. -/
def floatDiv (a b : ℚ) : FloatQuotient :=
  if b = 0 then (if a = 0 then FloatQuotient.nan else FloatQuotient.infinite)
  else FloatQuotient.finite (a / b)

/-- The four error sums of the evaluation routines. -/
structure CompressionErrors where
  cluster_error_color : ℚ
  cluster_error_position : ℚ
  pixel_error_color : ℚ
  pixel_error_position : ℚ

/-- The statements `+=` of the error loops for the cluster values `cc`, `cp` and point `p`. -/
def CompressionErrors.add (e : CompressionErrors) (mean_color mean_position : Vec3)
    (cc cp : Vec3) (p : Point) : CompressionErrors :=
  { cluster_error_color := e.cluster_error_color + (cc.sub mean_color).squaredNorm
    cluster_error_position := e.cluster_error_position + (cp.sub mean_position).squaredNorm
    pixel_error_color := e.pixel_error_color + (p.color.sub mean_color).squaredNorm
    pixel_error_position := e.pixel_error_position + (p.position.sub mean_position).squaredNorm }

/-- The returned pair of ratios `cluster_error / pixel_error`, two `float` divisions. -/
def CompressionErrors.ratios (e : CompressionErrors) : FloatQuotient × FloatQuotient :=
  (floatDiv e.cluster_error_color e.pixel_error_color,
   floatDiv e.cluster_error_position e.pixel_error_position)

/-- The routine `EvaluateComputeCompressionError`; it ends with `Fault.assertion` when its
assertion `num_pixels > 0` fails.  `heap` gives the cluster that a cluster pointer points
to. -/
def EvaluateComputeCompressionError (heap : Int × Nat → Cluster) (frame : Frame) :
    Except Fault (FloatQuotient × FloatQuotient) :=
  let n := frame.rgbd.size
  let rgbd := frame.rgbd
  let assignment := frame.assignment
  let sums := ComputePixelMean rgbd
  let num_pixels := sums.num_pixels
  if num_pixels > 0 then
    let pixel_mean_color := Vec3.smul (1 / (num_pixels : ℚ)) sums.color
    let pixel_mean_position := Vec3.smul (1 / (num_pixels : ℚ)) sums.position
    let errors := (List.range n).foldl (fun (e : CompressionErrors) (i : Nat) =>
      let p := rgbd.lin i
      match (assignment.lin i).cluster with
      | none => e
      | some ptr =>
        if !p.valid then e
        else e.add pixel_mean_color pixel_mean_position (heap ptr).color (heap ptr).position p)
      ⟨0, 0, 0, 0⟩
    Except.ok errors.ratios
  else Except.error Fault.assertion

/-- The accumulation grids `cluster_color`, `cluster_position` and `num` of
`EvaluateComputeDownsampleCompressionError`, three `Vector2D` of `sclrows x sclcols` cells. -/
structure DownsampleGrid where
  cluster_color : Int → Int → Vec3
  cluster_position : Int → Int → Vec3
  num : Int → Int → Int

/-- The pixels `(j, i)` of the loops `for(i<cols) for(j<rows)`, in loop order. -/
def gridPixels (rows cols : Nat) : List (Nat × Nat) :=
  (List.range cols).flatMap (fun (i : Nat) => (List.range rows).map (fun (j : Nat) => (j, i)))

/-- The dimension `sclrows` of the grids of `EvaluateComputeDownsampleCompressionError` for
`num_clusters` clusters. -/
def downsampleRows (ops : FloatOps) (num_clusters : Nat) : Int :=
  truncToInt (3464 / 1000 * ops.sqrt (num_clusters : ℚ) + 1 / 2)

/-- The dimension `sclcols` of the grids of `EvaluateComputeDownsampleCompressionError` for
`num_clusters` clusters. -/
def downsampleCols (ops : FloatOps) (num_clusters : Nat) : Int :=
  truncToInt (2598 / 1000 * ops.sqrt (num_clusters : ℚ) + 1 / 2)

/-- The cell `(sj, si)` of the grids that the pixel `(j, i)` of a `rows x cols` frame is
accumulated in. -/
def downsampleCell (rows cols : Nat) (sclrows sclcols : Int) (ji : Nat × Nat) : Int × Int :=
  (((ji.1 : Int) * sclrows) / (rows : Int), ((ji.2 : Int) * sclcols) / (cols : Int))

/-- The cell `(sj, si)` is a cell of a `Vector2D` of `sclrows x sclcols` cells. -/
def inGrid (sclrows sclcols : Int) (s : Int × Int) : Prop :=
  0 ≤ s.1 ∧ s.1 < sclrows ∧ 0 ≤ s.2 ∧ s.2 < sclcols

instance (sclrows sclcols : Int) (s : Int × Int) : Decidable (inGrid sclrows sclcols s) := by
  unfold inGrid
  infer_instance

/-- The body of the accumulation loop of `EvaluateComputeDownsampleCompressionError` for the
pixel `(j, i)`: the statements `cluster_color(sj,si) += p.color`,
`cluster_position(sj,si) += p.position`, `num(sj,si) ++`, which are out of bounds when
`(sj, si)` is not a cell of the grids. -/
def DownsampleAccumulate (rgbd : RgbdData) (sclrows sclcols : Int)
    (g : Except Fault DownsampleGrid) (ji : Nat × Nat) : Except Fault DownsampleGrid :=
  match g with
  | Except.error e => Except.error e
  | Except.ok g =>
    let p := rgbd.get ji.1 ji.2
    if !p.valid then Except.ok g
    else
      let s := downsampleCell rgbd.rows rgbd.cols sclrows sclcols ji
      if inGrid sclrows sclcols s then
        Except.ok
          { cluster_color := fun a b =>
              if a = s.1 ∧ b = s.2 then (g.cluster_color s.1 s.2).add p.color
              else g.cluster_color a b
            cluster_position := fun a b =>
              if a = s.1 ∧ b = s.2 then (g.cluster_position s.1 s.2).add p.position
              else g.cluster_position a b
            num := fun a b => if a = s.1 ∧ b = s.2 then g.num s.1 s.2 + 1 else g.num a b }
      else Except.error Fault.outOfBounds

/-- The body of the error loop of `EvaluateComputeDownsampleCompressionError` for the pixel
`(j, i)`; the read `num(sj,si)` is made for every pixel and is out of bounds when `(sj, si)`
is not a cell of the grids.  `cluster_color`, `cluster_position` are the grids after the
division by `num`. -/
def DownsampleError (rgbd : RgbdData) (sclrows sclcols : Int) (num : Int → Int → Int)
    (cluster_color cluster_position : Int → Int → Vec3)
    (pixel_mean_color pixel_mean_position : Vec3)
    (e : Except Fault CompressionErrors) (ji : Nat × Nat) : Except Fault CompressionErrors :=
  match e with
  | Except.error f => Except.error f
  | Except.ok e =>
    let s := downsampleCell rgbd.rows rgbd.cols sclrows sclcols ji
    let p := rgbd.get ji.1 ji.2
    if inGrid sclrows sclcols s then
      if num s.1 s.2 = 0 ∨ p.valid = false then Except.ok e
      else Except.ok (e.add pixel_mean_color pixel_mean_position (cluster_color s.1 s.2)
        (cluster_position s.1 s.2) p)
    else Except.error Fault.outOfBounds

/-- The routine `EvaluateComputeDownsampleCompressionError`; it ends with `Fault.assertion`
when its assertion `num_pixels > 0` fails and with `Fault.outOfBounds` when it accesses a
cell outside its `sclrows x sclcols` grids. -/
def EvaluateComputeDownsampleCompressionError (ops : FloatOps) (frame : Frame) :
    Except Fault (FloatQuotient × FloatQuotient) :=
  let rgbd := frame.rgbd
  let sums := ComputePixelMean rgbd
  let num_pixels := sums.num_pixels
  if num_pixels > 0 then
    let pixel_mean_color := Vec3.smul (1 / (num_pixels : ℚ)) sums.color
    let pixel_mean_position := Vec3.smul (1 / (num_pixels : ℚ)) sums.position
    let num_clusters : Nat := frame.clusters.length
    let rows := rgbd.rows
    let cols := rgbd.cols
    let sclrows := downsampleRows ops num_clusters
    let sclcols := downsampleCols ops num_clusters
    match (gridPixels rows cols).foldl (DownsampleAccumulate rgbd sclrows sclcols)
        (Except.ok ⟨fun _ _ => Vec3.zero, fun _ _ => Vec3.zero, fun _ _ => 0⟩) with
    | Except.error f => Except.error f
    | Except.ok grid =>
      let cluster_color := fun (a b : Int) =>
        if grid.num a b = 0 then grid.cluster_color a b
        else Vec3.smul (1 / (grid.num a b : ℚ)) (grid.cluster_color a b)
      let cluster_position := fun (a b : Int) =>
        if grid.num a b = 0 then grid.cluster_position a b
        else Vec3.smul (1 / (grid.num a b : ℚ)) (grid.cluster_position a b)
      match (gridPixels rows cols).foldl
          (DownsampleError rgbd sclrows sclcols grid.num cluster_color cluster_position
            pixel_mean_color pixel_mean_position) (Except.ok ⟨0, 0, 0, 0⟩) with
      | Except.error f => Except.error f
      | Except.ok errors => Except.ok errors.ratios
  else Except.error Fault.assertion

/-! ## Debug export -/

/-- One item inserted into a `std::ostream` by `operator<<`: an `int`, a `float`, a string
literal, or the manipulator `std::endl`.  The text of a number is made by the stream. -/
inductive Piece where
  | int (v : Int)
  | float (v : ℚ)
  | str (s : String)
  | endl
deriving DecidableEq

/-- The body of the loop of `DebugWriteClusters` for the cluster `c`: the stream `ofs` after
the items of `c` are inserted. -/
def WriteCluster (ofs : List Piece) (c : Cluster) : List Piece :=
  ofs ++ [Piece.int c.time]
    ++ [Piece.str "\t"] ++ [Piece.int c.id]
    ++ [Piece.str "\t"] ++ [Piece.int (if c.valid then 1 else 0)]
    ++ [Piece.str "\t"] ++ [Piece.float c.cluster_radius_px]
    ++ [Piece.str "\t"] ++ [Piece.float c.pixel.x] ++ [Piece.str "\t"] ++ [Piece.float c.pixel.y]
    ++ [Piece.str "\t"] ++ [Piece.float c.color.x] ++ [Piece.str "\t"] ++ [Piece.float c.color.y]
    ++ [Piece.str "\t"] ++ [Piece.float c.color.z]
    ++ [Piece.str "\t"] ++ [Piece.float c.position.x] ++ [Piece.str "\t"]
    ++ [Piece.float c.position.y] ++ [Piece.str "\t"] ++ [Piece.float c.position.z]
    ++ [Piece.str "\t"] ++ [Piece.float c.normal.x] ++ [Piece.str "\t"]
    ++ [Piece.float c.normal.y] ++ [Piece.str "\t"] ++ [Piece.float c.normal.z]
    ++ [Piece.endl]

/-- The routine `DebugWriteClusters`: the items written to the file, in order. -/
def DebugWriteClusters (clusters : List Cluster) : List Piece :=
  clusters.foldl WriteCluster []

/-! ## Specification-side definitions -/

/-- The sum of the carry increments that a leaf at cell `(x,y)` of a level with dimensions
`mm_rows x mm_cols` writes to its in-bounds neighbour cells among `(x+1,y)`, `(x-1,y+1)`,
`(x,y+1)`, `(x+1,y+1)`; `before` and `after` are the carry matrix of the level before and
after the leaf. -/
def distributedTotal (mm_rows mm_cols : Nat) (before after : Mat) (x y : Nat) : ℚ :=
  (if x + 1 < mm_rows then after.get (x + 1) y - before.get (x + 1) y else 0)
  + (if 0 < x ∧ y + 1 < mm_cols then after.get (x - 1) (y + 1) - before.get (x - 1) (y + 1)
      else 0)
  + (if y + 1 < mm_cols then after.get x (y + 1) - before.get x (y + 1) else 0)
  + (if x + 1 < mm_rows ∧ y + 1 < mm_cols then
      after.get (x + 1) (y + 1) - before.get (x + 1) (y + 1) else 0)

/-- A random engine whose raw outputs are all `0`. -/
def RandomEngine.zeros : RandomEngine := ⟨fun _ => 0, 0⟩

/-- A 2x2 grid of default (invalid) points. -/
def rgbdInvalid2x2 : RgbdData := ⟨2, 2, fun _ _ => Point.dflt⟩

/-- The 2x2 density field with `3/40` in every cell. -/
def density2x2 : Mat := ⟨2, 2, fun _ _ => 3 / 40⟩

/-- The pyramid of `density2x2`: the field and its 1x1 reduction, which holds `3/10`. -/
def pyramid2x2 : List Mat :=
  [density2x2,
   ⟨1, 1, fun i j =>
      if 2 * i < 2 ∧ 2 * j < 2 then
        density2x2.get (2 * i) (2 * j) + density2x2.get (2 * i) (2 * j + 1)
          + density2x2.get (2 * i + 1) (2 * j) + density2x2.get (2 * i + 1) (2 * j + 1)
      else 0⟩]

/-- The sampler state at the start of `SampleDensityImplRec` for `pyramid2x2`. -/
def samplerStart2x2 : SamplerState := ⟨[], [Mat.empty, Mat.Zero 1 1], RandomEngine.zeros⟩

/-- A later version `c'` of the cluster `c`: same time, id and radius, and invalid when `c`
is invalid. -/
def ClusterStep (c c' : Cluster) : Prop :=
  c'.time = c.time ∧ c'.id = c.id ∧ c'.cluster_radius_px = c.cluster_radius_px ∧
    (c.valid = false → c'.valid = false)

/-- A later version `f'` of the frame `f`: same time and points, and the clusters of `f'`
are, position by position, later versions of the clusters of `f`. -/
def FrameStep (f f' : Frame) : Prop :=
  f'.time = f.time ∧ f'.rgbd = f.rgbd ∧ List.Forall₂ ClusterStep f.clusters f'.clusters

/-- The times of the frames of a series, oldest first. -/
def Timeseries.times (ts : Timeseries) : List Int := ts.frames.map (fun f => f.time)

/-- The consecutive integers `b, b+1, ..., b+n-1`. -/
def consecutiveFrom (b : Int) (n : Nat) : List Int :=
  (List.range n).map (fun (i : Nat) => b + (i : Int))

/-- The pointers `(t,0), ..., (t,m-1)` of the `m` clusters created with the frame of time
`t`. -/
def keyRow (t : Nat) (m : Nat) : List (Int × Nat) :=
  (List.range m).map (fun (i : Nat) => ((t : Int), i))

/-- The rows of cluster pointers of the frames of times `0, 1, ...`, when `counts[t]`
clusters were created with the frame of time `t`. -/
def keyRows (counts : List Nat) : List (List (Int × Nat)) :=
  counts.enum.map (fun p => keyRow p.1 p.2)

/-- The number of frames purged after `n` calls of `step`: `n - (2*R_T+1)`, at least `0`. -/
def purgedCount (n : Nat) : Nat := n - (2 * CLUSTER_TIME_RADIUS + 1).toNat

/-- The numbers of clusters that the calls of `step` in a run create, one per call. -/
def ContinuousSupervoxels.createdCounts (ops : FloatOps) :
    ContinuousSupervoxels → List StepInput → List Nat
  | _, [] => []
  | sv, inp :: rest =>
    match sv.sampleNewClusters inp, sv.step ops inp with
    | some sampled, some sv' =>
      sampled.1.length :: ContinuousSupervoxels.createdCounts ops sv' rest
    | _, _ => []

/-- The shape of the engine state after `counts.length` calls of `step` that follow
`start` and created `counts[t]` clusters with the frame of time `t`: the retained times
are the last `2*R_T+1` ones, the pool holds the clusters of the purged frames and every
retained frame holds its own, each pointer being the frame time and the index. -/
structure ContinuousSupervoxels.After (sv : ContinuousSupervoxels) (counts : List Nat) :
    Prop where
  times : sv.series_.times
    = consecutiveFrom (purgedCount counts.length) (counts.length - purgedCount counts.length)
  inactive : sv.inactive_clusters_.map Cluster.ptr
    = ((keyRows counts).take (purgedCount counts.length)).flatten
  active : sv.series_.frames.map (fun f => f.clusters.map Cluster.ptr)
    = (keyRows counts).drop (purgedCount counts.length)

/-- Every cell function value of the matrix is `0`. -/
def Mat.isZero (m : Mat) : Prop := ∀ x y, m.get x y = 0

/-- Every sample of the depth image of the input is `0`. -/
def StepInput.zeroDepth (inp : StepInput) : Prop := ∀ i, inp.depth.read i = 0

/-- The frame of the input has an even width and an even height. -/
def StepInput.evenDims (inp : StepInput) : Prop :=
  inp.color.width % 2 = 0 ∧ inp.color.height % 2 = 0

/-- An engine state without clusters whose feedback density, once in use, is zero. -/
def ContinuousSupervoxels.quiet (sv : ContinuousSupervoxels) : Prop :=
  (sv.is_first_ = true ∨ sv.last_density_.isZero) ∧ sv.inactive_clusters_ = [] ∧
    ∀ f ∈ sv.series_.frames, f.clusters = []

/-- A 64x64 input whose depth image is all zeros. -/
def zeroInput64 : StepInput := ⟨⟨64, 64, fun _ => (0, 128, 128)⟩, ⟨64, 64, fun _ => 0⟩⟩

/-- An engine object before `start`. -/
def freshEngine : ContinuousSupervoxels := ⟨false, Mat.empty, ⟨[]⟩, [], RandomEngine.zeros⟩

/-- The seed `s` is a pixel `(sx, sy)` inside the grid whose point is valid. -/
def seedOk (rgbd : RgbdData) (s : Vec2) : Prop :=
  ∃ sx sy : Int, s = ⟨(sx : ℚ), (sy : ℚ)⟩ ∧ 0 ≤ sx ∧ sx < rgbd.rows ∧ 0 ≤ sy ∧ sy < rgbd.cols ∧
    (rgbd.get sx sy).valid = true

/-- The cluster that `SampleClustersFromDensity` and `CreateFrame` make of the seed `s` at
index `i` for the frame of time `time`. -/
def seedCluster (rgbd : RgbdData) (time : Int) (i : Nat) (s : Vec2) : Cluster :=
  { time := time
    id := i
    valid := true
    pixel := s
    color := (rgbd.get (truncToInt s.x) (truncToInt s.y)).color
    position := (rgbd.get (truncToInt s.x) (truncToInt s.y)).position
    normal := (rgbd.get (truncToInt s.x) (truncToInt s.y)).normal
    cluster_radius_px := (rgbd.get (truncToInt s.x) (truncToInt s.y)).cluster_radius_px }

/-- Every sample of the depth image of the input is `d`. -/
def StepInput.constDepth (inp : StepInput) (d : Nat) : Prop := ∀ i, inp.depth.read i = d

/-- The 64x64 input of constant colour and constant depth `1000`. -/
def uniformInput64 : StepInput := ⟨⟨64, 64, fun _ => (0, 128, 128)⟩, ⟨64, 64, fun _ => 1000⟩⟩

/-- The frame lists `l` and `l'` hold the same clusters up to the mutable fields: as many
frames, with the same times and as many clusters each, and every cluster of `l'` is the
cluster of `l` at the same place with only `valid`, `pixel`, `color`, `position` and
`normal` replaced. -/
def sameClusterIdentity (l l' : List Frame) : Prop :=
  l'.length = l.length ∧
  ∀ (i : Nat) (f : Frame), l.get? i = some f →
    ∃ f', l'.get? i = some f' ∧ f'.time = f.time ∧ f'.clusters.length = f.clusters.length ∧
      ∀ (j : Nat) (c : Cluster), f.clusters.get? j = some c →
        ∃ c', f'.clusters.get? j = some c' ∧
          c' = { c with valid := c'.valid, pixel := c'.pixel, color := c'.color,
                        position := c'.position, normal := c'.normal }

/-- The frame time `u` has a full lookahead in the series: the frames of times
`u, u+1, ..., u+R_T` are all retained. -/
def fullLookahead (ts : Timeseries) (u : Int) : Prop :=
  ∀ k : Int, 0 ≤ k → k ≤ CLUSTER_TIME_RADIUS → u + k ∈ ts.times

/-- The density `rho_c = 1 / (c.cluster_radius_px^2 * pi * |c.normal.z|)` of the kernel of
the cluster `c`. -/
def kernelRho (c : Cluster) : ℚ :=
  1 / (c.cluster_radius_px * c.cluster_radius_px * PI * |c.normal.z|)

/-- The pixel radius `R_c = ceil(1.21 / sqrt(rho_c))` of the kernel of the cluster `c`. -/
def kernelRange (ops : FloatOps) (c : Cluster) : Int :=
  ⌈(121 / 100 : ℚ) / ops.sqrt (kernelRho c)⌉

/-- The kernel value `rho_c * exp(-pi * rho_c * (dx^2 + dy^2))` of the cluster `c` at the
pixel `(xi, yi)`, `(dx, dy)` being the offset of the pixel from `c.pixel`. -/
def kernelValue (ops : FloatOps) (c : Cluster) (xi yi : Int) : ℚ :=
  kernelRho c * ops.exp (-PI * kernelRho c *
    (((xi : ℚ) - c.pixel.x) * ((xi : ℚ) - c.pixel.x)
      + ((yi : ℚ) - c.pixel.y) * ((yi : ℚ) - c.pixel.y)))

/-- The pixel `(xi, yi)` is in the disk of radius `R_c` around the pixel of `c`. -/
def inKernelDisk (ops : FloatOps) (c : Cluster) (xi yi : Int) : Prop :=
  ((xi : ℚ) - c.pixel.x) * ((xi : ℚ) - c.pixel.x)
    + ((yi : ℚ) - c.pixel.y) * ((yi : ℚ) - c.pixel.y)
    ≤ (kernelRange ops c : ℚ) * (kernelRange ops c : ℚ)

instance (ops : FloatOps) (c : Cluster) (xi yi : Int) : Decidable (inKernelDisk ops c xi yi) := by
  unfold inKernelDisk
  infer_instance

/-- The pixel `(xi, yi)` is in the box of the loops of `ComputeClusterDensity` for `c`: the
square of half side `R_c` around the rounded pixel of `c`, clamped to the `rows x cols`
grid. -/
def inKernelBox (ops : FloatOps) (rows cols : Nat) (c : Cluster) (xi yi : Int) : Prop :=
  max (truncToInt (c.pixel.x + 1 / 2) - kernelRange ops c) 0 ≤ xi ∧
  xi ≤ min (truncToInt (c.pixel.x + 1 / 2) + kernelRange ops c) ((rows : Int) - 1) ∧
  max (truncToInt (c.pixel.y + 1 / 2) - kernelRange ops c) 0 ≤ yi ∧
  yi ≤ min (truncToInt (c.pixel.y + 1 / 2) + kernelRange ops c) ((cols : Int) - 1)

instance (ops : FloatOps) (rows cols : Nat) (c : Cluster) (xi yi : Int) :
    Decidable (inKernelBox ops rows cols c xi yi) := by
  unfold inKernelBox
  infer_instance

/-- The cluster density at `(xi, yi)` as a sum over the disks: every valid cluster whose disk
contains the pixel contributes its kernel value there. -/
def diskDensity (ops : FloatOps) (clusters : List Cluster) (xi yi : Nat) : ℚ :=
  (clusters.map (fun c =>
    if c.valid = true ∧ inKernelDisk ops c xi yi then kernelValue ops c xi yi else 0)).sum

/-- The cluster density at `(xi, yi)` as a sum over the clamped boxes: every valid cluster
whose box contains the pixel contributes its kernel value there. -/
def boxDensity (ops : FloatOps) (rows cols : Nat) (clusters : List Cluster) (xi yi : Nat) : ℚ :=
  (clusters.map (fun c =>
    if c.valid = true ∧ inKernelBox ops rows cols c xi yi then kernelValue ops c xi yi
    else 0)).sum

/-- A valid cluster at pixel `(5,5)` whose kernel has density `rho = 1`. -/
def unitCluster : Cluster :=
  { Cluster.dflt with
    valid := true, pixel := ⟨5, 5⟩, normal := ⟨0, 0, 10000 / 31415⟩, cluster_radius_px := 1 }

/-- A 16x8 frame of constant raw depth `2000`. -/
def depthInput16x8 : StepInput := ⟨⟨16, 8, fun _ => (0, 128, 128)⟩, ⟨16, 8, fun _ => 2000⟩⟩

/-- The number of cells of mipmap level 1 of a `rows x cols` density field: the level is a
square of side `find_next_pow2(max(rows, cols)) / 2`. -/
def levelOneCells (rows cols : Nat) : Nat := (find_next_pow2 (max rows cols) / 2) ^ 2

/-- The parts of a stream of items between the occurrences of the item `sep`. -/
def splitPieces (sep : Piece) : List Piece → List (List Piece)
  | [] => [[]]
  | p :: ps =>
    if p = sep then [] :: splitPieces sep ps
    else
      match splitPieces sep ps with
      | [] => [[p]]
      | l :: ls => (p :: l) :: ls

/-- The lines of an output: the parts that are ended by a `std::endl`. -/
def outputLines (out : List Piece) : List (List Piece) := (splitPieces Piece.endl out).dropLast

/-- The tab-separated fields of a line. -/
def lineFields (line : List Piece) : List (List Piece) := splitPieces (Piece.str "\t") line

/-- The 15 fields of the record of a cluster, in the order of the export format. -/
def recordFields (c : Cluster) : List Piece :=
  [Piece.int c.time, Piece.int c.id, Piece.int (if c.valid then 1 else 0),
   Piece.float c.cluster_radius_px, Piece.float c.pixel.x, Piece.float c.pixel.y,
   Piece.float c.color.x, Piece.float c.color.y, Piece.float c.color.z,
   Piece.float c.position.x, Piece.float c.position.y, Piece.float c.position.z,
   Piece.float c.normal.x, Piece.float c.normal.y, Piece.float c.normal.z]

/-- The distance `d` that the functor of `UpdateClusterAssignment` computes at a visit. -/
def visitDistance (v : Visit) : ℚ := PointClusterDistance v.frame_time v.p v.c

/-- The statement `if(d < a.distance) { a.distance = d; a.cluster = c; }` of the functor of
`UpdateClusterAssignment` on the cell `a`, for the visit `v`. -/
def assignCell (a : Assignment) (v : Visit) : Assignment :=
  if visitDistance v < a.distance then ⟨some v.c.ptr, visitDistance v⟩ else a

/-- The visits of a traversal that are made at the pixel `(x,y)` of the frame of index `t`,
in the order of the traversal. -/
def visitsOf (vs : List Visit) (t : Nat) (x y : Int) : List Visit :=
  vs.filter (fun v => decide (v.t = t ∧ v.x = x ∧ v.y = y))

/-- The assignment pass when the visits are made in the order of the list `vs`. -/
def AssignVisits (vs : List Visit) (frames : List Frame) : List Frame :=
  vs.foldl (fun s v => modifyAt (AssignPoint v) v.t s) frames

/-- The pixel `(x,y)` is in the search box of the cluster `c` in a frame of time
`frame_time`, for a window whose first frame is `NX x NY`: the box of half side
`int(rpx + 0.5)` around the rounded pixel of `c`, clamped to the grid. -/
def inSearchBox (NX NY : Nat) (c : Cluster) (frame_time : Int) (x y : Int) : Prop :=
  max 0 (truncToInt (c.pixel.x + 1 / 2)
      - truncToInt (CLUSTER_RADIUS_MULT * c.cluster_radius_px
          * (1 + SPATIAL_TIME_INCREASE * ((|frame_time - c.time| : Int) : ℚ) / CLUSTER_RADIUS)
          + 1 / 2)) ≤ x ∧
  x ≤ min ((NX : Int) - 1) (truncToInt (c.pixel.x + 1 / 2)
      + truncToInt (CLUSTER_RADIUS_MULT * c.cluster_radius_px
          * (1 + SPATIAL_TIME_INCREASE * ((|frame_time - c.time| : Int) : ℚ) / CLUSTER_RADIUS)
          + 1 / 2)) ∧
  max 0 (truncToInt (c.pixel.y + 1 / 2)
      - truncToInt (CLUSTER_RADIUS_MULT * c.cluster_radius_px
          * (1 + SPATIAL_TIME_INCREASE * ((|frame_time - c.time| : Int) : ℚ) / CLUSTER_RADIUS)
          + 1 / 2)) ≤ y ∧
  y ≤ min ((NY : Int) - 1) (truncToInt (c.pixel.y + 1 / 2)
      + truncToInt (CLUSTER_RADIUS_MULT * c.cluster_radius_px
          * (1 + SPATIAL_TIME_INCREASE * ((|frame_time - c.time| : Int) : ℚ) / CLUSTER_RADIUS)
          + 1 / 2))

instance (NX NY : Nat) (c : Cluster) (frame_time : Int) (x y : Int) :
    Decidable (inSearchBox NX NY c frame_time x y) := by
  unfold inSearchBox
  infer_instance

/-- A 2x2 grid whose only valid point is the one of pixel `(0,0)`, at the origin. -/
def tieGrid : RgbdData :=
  ⟨2, 2, fun x y => if x = 0 ∧ y = 0 then ⟨true, Vec3.zero, Vec3.zero, Vec3.zero, 1⟩
    else Point.dflt⟩

/-- A valid cluster at pixel `(0,0)` and at the origin, of pixel radius `1`. -/
def originCluster : Cluster := { Cluster.dflt with valid := true, cluster_radius_px := 1 }

/-- The frame of time `0` on `tieGrid` with two clusters, `(0,0)` and `(0,1)`, that are at the
same distance `0` from the point of pixel `(0,0)`. -/
def tieFrame : Frame := CreateFrame 0 tieGrid [originCluster, originCluster]

/-- The cluster pointer held by the cell `(x,y)` of the frame of index `t` of a window. -/
def cellCluster (frames : List Frame) (t : Nat) (x y : Int) : Option (Int × Nat) :=
  match frames.get? t with
  | some frame => (frame.assignment.get x y).cluster
  | none => none

/-- The visits of the traversal of `UpdateClusterCenters` that are added to the accumulator
of the cluster `c`: the valid points inside the clamped search box of the cluster of pointer
`c.ptr` whose cell references that pointer. -/
def centerMembers (frames : List Frame) (c : Cluster) : List Visit :=
  (ClusterBoxVisits frames).filter (fun v =>
    decide (v.c.ptr = c.ptr ∧ cellCluster frames v.t v.x v.y = some c.ptr))

/-- The sum of a list of vectors. -/
def vecSum (l : List Vec3) : Vec3 := l.foldl Vec3.add Vec3.zero

/-- A 4x2 grid whose only valid point is the one of pixel `(3,0)`. -/
def farGrid : RgbdData :=
  ⟨4, 2, fun x y => if x = 3 ∧ y = 0 then ⟨true, Vec3.zero, Vec3.zero, Vec3.zero, 1⟩
    else Point.dflt⟩

/-- A frame of time `0` on `farGrid` with the cluster `(0,0)` at pixel `(0,0)`, whose search
box is `[0,2] x [0,1]`, and whose pixel `(3,0)` is assigned to that cluster. -/
def farFrame : Frame :=
  ⟨0, farGrid, [originCluster],
    ⟨4, 2, fun x y => if x = 3 ∧ y = 0 then ⟨some (0, 0), 5⟩ else ⟨none, VERY_LARGE_DISTANCE⟩⟩⟩

/-- The window of frames that `step` hands to `UpdateClusters`, for the grid `rgbd` and the
clusters `new_clusters` of the new frame: the frames around the active time of the series
after the purge. -/
def stepWindow (sv : ContinuousSupervoxels) (rgbd : RgbdData) (new_clusters : List Cluster) :
    List Frame :=
  (sv.addAndPurge rgbd new_clusters).2.getFrameRange
    (activeTime (sv.addAndPurge rgbd new_clusters).2 - CLUSTER_TIME_RADIUS)
    (activeTime (sv.addAndPurge rgbd new_clusters).2 + CLUSTER_TIME_RADIUS + 1)

/-- The series of `step` after `UpdateClusters` has left the window as `frames`. -/
def stepSeries (sv : ContinuousSupervoxels) (rgbd : RgbdData) (new_clusters : List Cluster)
    (frames : List Frame) : Timeseries :=
  (sv.addAndPurge rgbd new_clusters).2.setFrameRange
    (activeTime (sv.addAndPurge rgbd new_clusters).2 - CLUSTER_TIME_RADIUS)
    (activeTime (sv.addAndPurge rgbd new_clusters).2 + CLUSTER_TIME_RADIUS + 1) frames

/-- An event of the traversal of the sampler: the call `SampleDensityImplRec(level, x, y)`,
or the statement `carry_mm(x,y) += amount` on the carry matrix of level `level`. -/
inductive SamplerEvent where
  | visit (level x y : Nat)
  | carry (level x y : Nat) (amount : ℚ)
deriving DecidableEq

/-- The statements `carry_mm(..) += ..` of the block "distribute remaining density to
neighbours" at the cell `(x,y)` of level `level`, in the order of the source. -/
def DistributeEvents (mm_rows mm_cols level x y : Nat) (v : ℚ) : List SamplerEvent :=
  let xm1ok := decide (0 < x)
  let xp1ok := decide (x + 1 < mm_rows)
  let yp1ok := decide (y + 1 < mm_cols)
  let q := diffusionWeight mm_rows mm_cols x y
  if q > 0 then
    let scl := v / q
    (if xp1ok then [SamplerEvent.carry level (x + 1) y (7 * scl)] else []) ++
      (if yp1ok then
        (if xm1ok then [SamplerEvent.carry level (x - 1) (y + 1) (3 * scl)] else []) ++
          [SamplerEvent.carry level x (y + 1) (5 * scl)] ++
          (if xp1ok then [SamplerEvent.carry level (x + 1) (y + 1) (1 * scl)] else [])
      else [])
  else []

/-- The effect of an event on the carry matrix of its level. -/
def applyEvent (m : Mat) : SamplerEvent → Mat
  | SamplerEvent.visit _ _ _ => m
  | SamplerEvent.carry _ x y amount => m.addAt x y amount

/-- The level of the cell of an event. -/
def SamplerEvent.level : SamplerEvent → Nat
  | SamplerEvent.visit level _ _ => level
  | SamplerEvent.carry level _ _ _ => level

/-- The effect of an event on the vector of carry matrices. -/
def applyEventAt (carry_mipmaps : List Mat) (e : SamplerEvent) : List Mat :=
  modifyAt (fun m => applyEvent m e) e.level carry_mipmaps

/-- The events of the leaf branch of `SampleDensityImplRec` at the cell `(x,y)` of level
`level` in the state `st`. -/
def SampleLeafTrace (rgbd : RgbdData) (mipmaps : List Mat) (level x y : Nat)
    (st : SamplerState) : List SamplerEvent :=
  SamplerEvent.visit level x y ::
    DistributeEvents (mipmaps.getD level Mat.empty).rows (mipmaps.getD level Mat.empty).cols
      level x y
      (SampleLeafSeed rgbd level x y (cellValue mipmaps st.carry_mipmaps level x y) st).1

/-- The events of the call `SampleDensityImplRec(level, x, y)` in the state `st`, in the
order in which the source makes them. -/
def SampleTrace (rgbd : RgbdData) (mipmaps : List Mat) :
    Nat → Nat → Nat → SamplerState → List SamplerEvent
  | 0, x, y, st => SampleLeafTrace rgbd mipmaps 0 x y st
  | level + 1, x, y, st =>
    if level + 1 ≤ 1 ∨ cellValue mipmaps st.carry_mipmaps (level + 1) x y ≤ 3 / 2 then
      SampleLeafTrace rgbd mipmaps (level + 1) x y st
    else
      let st1 := SampleDensityImplRec rgbd mipmaps level (2 * x) (2 * y) st
      let st2 := SampleDensityImplRec rgbd mipmaps level (2 * x) (2 * y + 1) st1
      let st3 := SampleDensityImplRec rgbd mipmaps level (2 * x + 1) (2 * y) st2
      SamplerEvent.visit (level + 1) x y ::
        (SampleTrace rgbd mipmaps level (2 * x) (2 * y) st ++
          SampleTrace rgbd mipmaps level (2 * x) (2 * y + 1) st1 ++
          SampleTrace rgbd mipmaps level (2 * x + 1) (2 * y) st2 ++
          SampleTrace rgbd mipmaps level (2 * x + 1) (2 * y + 1) st3)

/-- The events of `SampleDensityImpl`: those of its call of `SampleDensityImplRec` at the
coarsest level; `none` when an assertion fails. -/
def SampleDensityImplTrace (rgbd : RgbdData) (density : Mat) (g : RandomEngine) :
    Option (List SamplerEvent) :=
  match ComputeMipmaps density 1 with
  | none => none
  | some mipmaps =>
    let carry_mipmaps : List Mat :=
      match mipmaps with
      | [] => []
      | _ :: rest => Mat.empty :: rest.map (fun m => Mat.Zero m.rows m.cols)
    some (SampleTrace rgbd mipmaps (mipmaps.length - 1) 0 0 ⟨[], carry_mipmaps, g⟩)

/-- The carries of a sequence of events that are written to a cell after the call at that
cell: such a carry is read by no call. -/
def carriesToVisited (events : List SamplerEvent) : List SamplerEvent :=
  (List.range events.length).filterMap (fun j =>
    match events.get? j with
    | some (SamplerEvent.carry level x y amount) =>
      if (events.take j).contains (SamplerEvent.visit level x y) then
        some (SamplerEvent.carry level x y amount)
      else none
    | _ => none)

/-- A 16x16 frame of constant raw depth `2000`. -/
def depthInput16x16 : StepInput :=
  ⟨⟨16, 16, fun _ => (0, 128, 128)⟩, ⟨16, 16, fun _ => 2000⟩⟩

/-- A 12x6 frame of constant raw depth `2000`. -/
def depthInput12x6 : StepInput := ⟨⟨12, 6, fun _ => (0, 128, 128)⟩, ⟨12, 6, fun _ => 2000⟩⟩

/-- The grid of `depthInput12x6`. -/
def grid12x6 : RgbdData := CreateRgbdData depthInput12x6.color depthInput12x6.depth

/-- The visits that `ClusterBox` makes for the cluster `c` in a window of one frame of time
`0` on the grid `rgbd`. -/
def gridVisits (rgbd : RgbdData) (c : Cluster) : List Visit :=
  ClusterBoxPoints rgbd.rows rgbd.cols c 0 ⟨0, rgbd, [], ⟨0, 0, fun _ _ => ⟨none, 0⟩⟩⟩

/-- The cluster `c` after a center update in which every visit of `gridVisits rgbd c` is
added to its accumulator. -/
def gridCenter (rgbd : RgbdData) (c : Cluster) : Cluster :=
  UpdateCenter c ((gridVisits rgbd c).foldl (fun cca v => cca.add v.p)
    ClusterCenterAccumulator.init)

/-- The cluster that the first `step` on `depthInput12x6` makes of its only seed, the pixel
`(4,4)`. -/
def seedCluster44 : Cluster := seedCluster grid12x6 0 0 ⟨4, 4⟩

/-- The cluster `(0,0)` at the mean of the 72 points of `grid12x6`, where one center update
over the whole grid puts `seedCluster44`. -/
def movedCluster : Cluster :=
  ⟨0, 0, true, ⟨11 / 2, 5 / 2⟩, ⟨0, 128 / 255, 128 / 255⟩, ⟨-629 / 528, -475 / 528, 2⟩,
    ⟨0, 0, -1⟩, 33 / 5⟩

/-- A window of one frame of time `0` on `grid12x6` whose only cluster is `movedCluster`,
whose 12x6 cells all reference the cluster `(0,0)`, and whose cell `(4,4)` holds the
distance `0`. -/
def settledWindow (frames : List Frame) : Prop :=
  ∃ f, frames = [f] ∧ f.time = 0 ∧ f.rgbd = grid12x6 ∧ f.clusters = [movedCluster] ∧
    (∀ x y : Int, 0 ≤ x → x ≤ 11 → 0 ≤ y → y ≤ 5 →
      (f.assignment.get x y).cluster = some (0, 0)) ∧
    f.assignment.get 4 4 = ⟨some (0, 0), 0⟩

/-- The pixel `p = (sx, sy)` is inside the grid and its point is valid: the test of
`FindValidSeedPoint`. -/
def validPixel (rgbd : RgbdData) (p : Int × Int) : Prop :=
  0 ≤ p.1 ∧ p.1 < (rgbd.rows : Int) ∧ 0 ≤ p.2 ∧ p.2 < (rgbd.cols : Int) ∧
    (rgbd.get p.1 p.2).valid = true

/-- The candidate positions `(sx, sy)` that the retry loop of `FindValidSeedPoint` tests, in
order, with `n` trials left; the loop stops after the first candidate that is a valid
pixel. -/
def SeedCandidatesLoop (rgbd : RgbdData) (sx0 sy0 range : Int) :
    Nat → RandomEngine → List (Int × Int)
  | 0, _ => []
  | n + 1, g =>
    let dx := g.uniformInt (-range) range
    let sx := sx0 + dx.1
    let dy := dx.2.uniformInt (-range) range
    let sy := sy0 + dy.1
    if 0 ≤ sx ∧ sx < (rgbd.rows : Int) ∧ 0 ≤ sy ∧ sy < (rgbd.cols : Int) ∧
        (rgbd.get sx sy).valid = true then
      [(sx, sy)]
    else (sx, sy) :: SeedCandidatesLoop rgbd sx0 sy0 range n dy.2

/-- The candidate positions that `FindValidSeedPoint` tests: the position `(sx0, sy0)` alone
when `range` is `0`, those of the retry loop with 100 trials otherwise. -/
def SeedCandidates (rgbd : RgbdData) (sx0 sy0 range : Int) (g : RandomEngine) :
    List (Int × Int) :=
  if range = 0 then [(sx0, sy0)] else SeedCandidatesLoop rgbd sx0 sy0 range 100 g

/-- A 4x4 grid whose only valid point is the one of pixel `(0,0)`. -/
def cornerGrid : RgbdData :=
  ⟨4, 4, fun x y => if x = 0 ∧ y = 0 then ⟨true, Vec3.zero, Vec3.zero, Vec3.zero, 1⟩
    else Point.dflt⟩

/-- The vector `carry_mipmaps` of `SampleDensityImpl` before the traversal: a zero matrix
of the dimensions of each level but the first, whose slot stays default-constructed. -/
def carryStart (mipmaps : List Mat) : List Mat :=
  match mipmaps with
  | [] => []
  | _ :: rest => Mat.empty :: rest.map (fun m => Mat.Zero m.rows m.cols)

/-- A 2x2 grid whose four points are valid. -/
def validGrid2x2 : RgbdData := ⟨2, 2, fun _ _ => ⟨true, Vec3.zero, Vec3.zero, Vec3.zero, 1⟩⟩

/-- A 2x2 density field whose column `x = 0` holds `5` and whose column `x = 1` holds `-5`:
a positive region cancelled by a negative one. -/
def cancelField : Mat := ⟨2, 2, fun x _ => if x = 0 then 5 else -5⟩

/-- The column `x` of the cell of an event. -/
def SamplerEvent.x : SamplerEvent → Nat
  | SamplerEvent.visit _ x _ => x
  | SamplerEvent.carry _ x _ _ => x

/-- The row `y` of the cell of an event. -/
def SamplerEvent.y : SamplerEvent → Nat
  | SamplerEvent.visit _ _ y => y
  | SamplerEvent.carry _ _ y _ => y

/-- The frame lists that the rounds of `UpdateClusters` pass to `UpdateClusterCenters`, in
order, for `k` rounds on the window `frames`: the result of the assignment pass of each
round. -/
def centerUpdateInputs : Nat → List Frame → List (List Frame)
  | 0, _ => []
  | k + 1, frames =>
    match UpdateClusterAssignment frames with
    | none => []
    | some mid =>
      mid :: (match UpdateClusterCenters mid with
        | none => []
        | some frames' => centerUpdateInputs k frames')

/-- The grid `rgbd` is the one `CreateRgbdData` builds of a colour image of width `W` and
height `H` and some depth image. -/
def gridOf (W H : Nat) (rgbd : RgbdData) : Prop :=
  ∃ (img_color : Image3ub) (img_depth : Image1ui16),
    rgbd = CreateRgbdData img_color img_depth ∧ img_color.width = W ∧ img_color.height = H

/-- The sum over the visits `ms` of `g`, each visit weighted with the depth `position.z` of
its point. -/
def weightedSum (ms : List Visit) (g : Visit → ℚ) : ℚ :=
  (ms.map (fun v => v.p.position.z * g v)).sum

/-- The loop of `natLog2` with a bound on its iterations. -/
def natLog2Loop : Nat → Nat → Nat
  | 0, _ => 0
  | fuel + 1, n => if 2 ≤ n then natLog2Loop fuel (n / 2) + 1 else 0

/-- The integer `floor(log2(n))` for a positive `n`. -/
def natLog2 (n : Nat) : Nat := natLog2Loop n n

/-- The integer `floor(log2(a/b))` for positive `a`, `b`. -/
def floorLog2 (a b : Nat) : Int :=
  let k : Int := (natLog2 a : Int) - (natLog2 b : Int)
  if 0 ≤ k then (if b * 2 ^ k.toNat ≤ a then k else k - 1)
  else (if b ≤ a * 2 ^ (-k).toNat then k else k - 1)

/-- The integer nearest to `n/d`, the even one of the two when `n/d` is half-way between two
integers. -/
def roundHalfEven (n d : Nat) : Nat :=
  if 2 * (n % d) < d then n / d
  else if d < 2 * (n % d) then n / d + 1
  else if (n / d) % 2 = 0 then n / d else n / d + 1

/-- The binary32 number nearest to `x`, the one with an even significand when `x` is
half-way between two of them (the rounding of every `float` operation): a multiple of
`2^(e-23)` for `2^e <= |x| < 2^(e+1)`, of `2^(-149)` below `2^(-126)`.  The overflow to an
infinity above `2^128` is not modelled. -/
def roundBinary32 (x : ℚ) : ℚ :=
  if x = 0 then 0
  else
    let a := x.num.natAbs
    let b := x.den
    let s : Int := max (floorLog2 a b) (-126) - 23
    let mag : ℚ :=
      if 0 ≤ s then ((roundHalfEven a (b * 2 ^ s.toNat) * 2 ^ s.toNat : Nat) : ℚ)
      else ((roundHalfEven (a * 2 ^ (-s).toNat) b : Nat) : ℚ) / ((2 ^ (-s).toNat : Nat) : ℚ)
    if x < 0 then -mag else mag

/-- The reduction `ComputeMipmap` with its three `float` additions
`data(x,y) + data(x,y+1) + data(x+1,y) + data(x+1,y+1)` rounded, left to right. -/
def ComputeMipmapRounded (rnd : ℚ → ℚ) (data : Mat) : Option Mat :=
  let rows := data.rows
  let cols := data.cols
  if rows % 2 = 0 ∧ cols % 2 = 0 then
    let size := find_next_pow2 (max rows cols) / 2
    some
      { rows := size
        cols := size
        get := fun i j =>
          if 2 * i < rows ∧ 2 * j < cols then
            rnd (rnd (rnd (data.get (2 * i) (2 * j) + data.get (2 * i) (2 * j + 1))
              + data.get (2 * i + 1) (2 * j)) + data.get (2 * i + 1) (2 * j + 1))
          else 0 }
  else none

/-- The loop of `ComputeMipmaps` over `ComputeMipmapRounded`. -/
def ComputeMipmapsLoopRounded (rnd : ℚ → ℚ) (min_size : Int) :
    Nat → List Mat → Mat → Option (List Mat)
  | 0, _, _ => none
  | fuel + 1, mm, q =>
    if (q.rows : Int) ≤ min_size ∨ (q.cols : Int) ≤ min_size then some mm
    else
      match ComputeMipmapRounded rnd q with
      | none => none
      | some x => ComputeMipmapsLoopRounded rnd min_size fuel (mm ++ [x]) x

/-- The pyramid `ComputeMipmaps` over `ComputeMipmapRounded`. -/
def ComputeMipmapsRounded (rnd : ℚ → ℚ) (data : Mat) (min_size : Int) : Option (List Mat) :=
  ComputeMipmapsLoopRounded rnd min_size (data.rows + data.cols + 2) [data] data

/-- The density of a cell, the rounded sum `v = mm(x, y) + carry_mm(x, y)`. -/
def cellValueRounded (rnd : ℚ → ℚ) (mipmaps carry_mipmaps : List Mat) (level x y : Nat) : ℚ :=
  rnd ((mipmaps.getD level Mat.empty).get x y + (carry_mipmaps.getD level Mat.empty).get x y)

/-- The statement `m(x,y) += v` with its addition rounded. -/
def Mat.addAtRounded (rnd : ℚ → ℚ) (m : Mat) (x y : Nat) (v : ℚ) : Mat :=
  m.set x y (rnd (m.get x y + v))

/-- The block "distribute remaining density to neighbours" with the division `v / q`, the
products `7.0f * scl, ...` and the additions to the carry rounded.  The sum `q` of the
weights is a small integer and exact. -/
def DistributeDensityRounded (rnd : ℚ → ℚ) (mm_rows mm_cols : Nat) (carry_mm : Mat) (x y : Nat)
    (v : ℚ) : Mat :=
  let xm1ok := decide (0 < x)
  let xp1ok := decide (x + 1 < mm_rows)
  let yp1ok := decide (y + 1 < mm_cols)
  let q := diffusionWeight mm_rows mm_cols x y
  if q > 0 then
    let scl := rnd (v / q)
    let carry_mm :=
      if xp1ok then carry_mm.addAtRounded rnd (x + 1) y (rnd (7 * scl)) else carry_mm
    if yp1ok then
      let carry_mm :=
        if xm1ok then carry_mm.addAtRounded rnd (x - 1) (y + 1) (rnd (3 * scl)) else carry_mm
      let carry_mm := carry_mm.addAtRounded rnd x (y + 1) (rnd (5 * scl))
      if xp1ok then carry_mm.addAtRounded rnd (x + 1) (y + 1) (rnd (1 * scl)) else carry_mm
    else carry_mm
  else carry_mm

/-- The seed attempt of a leaf with the subtraction `v -= 1.0f` rounded. -/
def SampleLeafSeedRounded (rnd : ℚ → ℚ) (rgbd : RgbdData) (level x y : Nat) (v : ℚ)
    (st : SamplerState) : ℚ × SamplerState :=
  if v ≥ 1 / 2 then
    let half : Nat := 2 ^ (level - 1)
    let sx : Int := ((x * 2 ^ level + half : Nat) : Int)
    let sy : Int := ((y * 2 ^ level + half : Nat) : Int)
    let found := FindValidSeedPoint rgbd sx sy ((half / 2 : Nat) : Int) st.random_engine
    let sx := found.2.1
    let sy := found.2.2.1
    let g := found.2.2.2
    if found.1 then
      (rnd (v - 1),
        { st with seeds := st.seeds ++ [⟨(sx : ℚ), (sy : ℚ)⟩], random_engine := g })
    else (v, { st with random_engine := g })
  else (v, st)

/-- The leaf branch of `SampleDensityImplRec` in rounded arithmetic. -/
def SampleLeafRounded (rnd : ℚ → ℚ) (rgbd : RgbdData) (mipmaps : List Mat) (level x y : Nat)
    (st : SamplerState) : SamplerState :=
  let mm := mipmaps.getD level Mat.empty
  let v := cellValueRounded rnd mipmaps st.carry_mipmaps level x y
  let seeded := SampleLeafSeedRounded rnd rgbd level x y v st
  let v := seeded.1
  let st := seeded.2
  let distribute := fun carry_mm => DistributeDensityRounded rnd mm.rows mm.cols carry_mm x y v
  { st with carry_mipmaps := modifyAt distribute level st.carry_mipmaps }

/-- The recursion `SampleDensityImplRec` in rounded arithmetic. -/
def SampleDensityImplRecRounded (rnd : ℚ → ℚ) (rgbd : RgbdData) (mipmaps : List Mat) :
    Nat → Nat → Nat → SamplerState → SamplerState
  | 0, x, y, st => SampleLeafRounded rnd rgbd mipmaps 0 x y st
  | level + 1, x, y, st =>
    if level + 1 ≤ 1 ∨ cellValueRounded rnd mipmaps st.carry_mipmaps (level + 1) x y ≤ 3 / 2 then
      SampleLeafRounded rnd rgbd mipmaps (level + 1) x y st
    else
      let st := SampleDensityImplRecRounded rnd rgbd mipmaps level (2 * x) (2 * y) st
      let st := SampleDensityImplRecRounded rnd rgbd mipmaps level (2 * x) (2 * y + 1) st
      let st := SampleDensityImplRecRounded rnd rgbd mipmaps level (2 * x + 1) (2 * y) st
      SampleDensityImplRecRounded rnd rgbd mipmaps level (2 * x + 1) (2 * y + 1) st

/-- The routine `SampleDensityImpl` in rounded arithmetic. -/
def SampleDensityImplRounded (rnd : ℚ → ℚ) (rgbd : RgbdData) (density : Mat)
    (g : RandomEngine) : Option (List Vec2 × RandomEngine) :=
  match ComputeMipmapsRounded rnd density 1 with
  | none => none
  | some mipmaps =>
    let carry_mipmaps : List Mat :=
      match mipmaps with
      | [] => []
      | _ :: rest => Mat.empty :: rest.map (fun m => Mat.Zero m.rows m.cols)
    let st := SampleDensityImplRecRounded rnd rgbd mipmaps (mipmaps.length - 1) 0 0
      ⟨[], carry_mipmaps, g⟩
    some (st.seeds, st.random_engine)

/-- A 2x2 density field of binary32 numbers, `10^8` and `-3/4` in the column `x = 0`,
`-10^8` and `1` in the column `x = 1`: a large positive entry cancelled by a negative one,
with the sum `1/4`. -/
def cancelField32 : Mat :=
  ⟨2, 2, fun x y =>
    if x = 0 then (if y = 0 then 100000000 else -3 / 4)
    else (if y = 0 then -100000000 else 1)⟩

/-- The sum of two vectors with the three additions rounded. -/
def Vec3.addRounded (rnd : ℚ → ℚ) (a b : Vec3) : Vec3 :=
  ⟨rnd (a.x + b.x), rnd (a.y + b.y), rnd (a.z + b.z)⟩

/-- The difference of two vectors with the three subtractions rounded. -/
def Vec3.subRounded (rnd : ℚ → ℚ) (a b : Vec3) : Vec3 :=
  ⟨rnd (a.x - b.x), rnd (a.y - b.y), rnd (a.z - b.z)⟩

/-- The product of a scalar and a vector with the three products rounded. -/
def Vec3.smulRounded (rnd : ℚ → ℚ) (s : ℚ) (a : Vec3) : Vec3 :=
  ⟨rnd (s * a.x), rnd (s * a.y), rnd (s * a.z)⟩

/-- The squared norm of a vector with its products and additions rounded. -/
def Vec3.squaredNormRounded (rnd : ℚ → ℚ) (a : Vec3) : ℚ :=
  rnd (rnd (rnd (a.x * a.x) + rnd (a.y * a.y)) + rnd (a.z * a.z))

/-- The projection `CameraProject` in rounded arithmetic: the product `PX_FOCAL*p.x`, the
division by `p.z` and the addition of the center are rounded. -/
def CameraProjectRounded (rnd : ℚ → ℚ) (p : Vec3) : Vec2 :=
  ⟨rnd (CENTER_X + rnd (rnd (PX_FOCAL * p.x) / p.z)),
   rnd (CENTER_Y + rnd (rnd (PX_FOCAL * p.y) / p.z))⟩

/-- The body of the pixel loop of `CreateRgbdData` in rounded arithmetic; the constants
`DEPTH_TO_Z = 0.001f`, `1.0f/255.0f` and `CLUSTER_RADIUS = 0.025f` are the rounded ones. -/
def CreateRgbdPointRounded (rnd : ℚ → ℚ) (img_color : Image3ub) (img_depth : Image1ui16)
    (x y : Int) (i : Nat) : Point :=
  let depth := img_depth.read i
  let valid := depthValid depth
  if valid then
    let z_over_f : ℚ := rnd (rnd (rnd DEPTH_TO_Z * (depth : ℚ)) / PX_FOCAL)
    { valid := valid
      color := Vec3.smulRounded rnd (rnd (1 / 255)) (img_color.read i)
      position := Vec3.smulRounded rnd z_over_f
        ⟨rnd ((x : ℚ) - CENTER_X), rnd ((y : ℚ) - CENTER_Y), PX_FOCAL⟩
      normal := Point.dflt.normal
      cluster_radius_px := rnd (rnd CLUSTER_RADIUS / z_over_f) }
  else
    { Point.dflt with valid := valid }

/-- The routine `CreateRgbdData` in rounded arithmetic. -/
def CreateRgbdDataRounded (rnd : ℚ → ℚ) (img_color : Image3ub) (img_depth : Image1ui16) :
    RgbdData :=
  let NX := img_color.width
  let NY := img_color.height
  let rgbd : RgbdData :=
    { rows := NX
      cols := NY
      get := fun x y =>
        if 0 ≤ x ∧ x < NX ∧ 0 ≤ y ∧ y < NY then
          CreateRgbdPointRounded rnd img_color img_depth x y (y * NX + x).toNat
        else Point.dflt }
  ComputeRgbdDataNormals rgbd

/-- The innermost loops of `ClusterBox` in rounded arithmetic: the radius `rpx` and the
sums `rpx + 0.5f`, `c->pixel.x() + 0.5f`, `c->pixel.y() + 0.5f` are rounded before the
conversion to `int`. -/
def ClusterBoxPointsRounded (rnd : ℚ → ℚ) (NX NY : Nat) (c : Cluster) (t : Nat)
    (frame : Frame) : List Visit :=
  let frame_time := frame.time
  let rpx := rnd (rnd (rnd CLUSTER_RADIUS_MULT * c.cluster_radius_px)
    * rnd (1 + rnd (rnd (SPATIAL_TIME_INCREASE * ((|frame_time - c.time| : Int) : ℚ))
        / rnd CLUSTER_RADIUS)))
  let R := truncToInt (rnd (rpx + 1 / 2))
  let xc := truncToInt (rnd (c.pixel.x + 1 / 2))
  let yc := truncToInt (rnd (c.pixel.y + 1 / 2))
  let x1 := max 0 (xc - R)
  let x2 := min ((NX : Int) - 1) (xc + R)
  let y1 := max 0 (yc - R)
  let y2 := min ((NY : Int) - 1) (yc + R)
  (intRange y1 y2).flatMap (fun y =>
    (intRange x1 x2).filterMap (fun x =>
      let p := frame.rgbd.get x y
      if !p.valid then none else some ⟨c, t, frame_time, x, y, p⟩))

/-- The sequence of functor calls of `ClusterBox(frames, f)` in rounded arithmetic. -/
def ClusterBoxVisitsRounded (rnd : ℚ → ℚ) (frames : List Frame) : List Visit :=
  match frames with
  | [] => []
  | front :: _ =>
    let NY := front.rgbd.cols
    let NX := front.rgbd.rows
    frames.flatMap (fun fk =>
      fk.clusters.flatMap (fun c =>
        if !c.valid then []
        else frames.enum.flatMap (fun tf => ClusterBoxPointsRounded rnd NX NY c tf.1 tf.2)))

/-- The traversal `ClusterBox(frames, f)` in rounded arithmetic. -/
def ClusterBoxRounded {σ : Type} (rnd : ℚ → ℚ) (frames : List Frame) (f : Visit → σ → σ)
    (init : σ) : Option σ :=
  if frames.isEmpty then none
  else some ((ClusterBoxVisitsRounded rnd frames).foldl (fun s v => f v s) init)

/-- The distance `PointClusterDistance` in rounded arithmetic; the constants `0.67f`,
`0.33f` and `CLUSTER_RADIUS` are the rounded ones. -/
def PointClusterDistanceRounded (rnd : ℚ → ℚ) (p_time : Int) (p : Point) (c : Cluster) : ℚ :=
  let mc := (p.color.subRounded rnd c.color).squaredNormRounded rnd
  let dti : Int := |p_time - c.time|
  let dt : ℚ := ((max 0 (dti - CLUSTER_TIME_RADIUS) : Int) : ℚ)
  let mt := rnd (rnd (dt * dt) / ((CLUSTER_TIME_RADIUS * CLUSTER_TIME_RADIUS : Int) : ℚ))
  let r := rnd (rnd CLUSTER_RADIUS + rnd (SPATIAL_TIME_INCREASE * (dti : ℚ)))
  let mx := rnd ((p.position.subRounded rnd c.position).squaredNormRounded rnd / rnd (r * r))
  rnd (rnd (rnd (67 / 100) * mc) + rnd (rnd (33 / 100) * rnd (mt + mx)))

/-- The functor of `UpdateClusterAssignment` in rounded arithmetic. -/
def AssignPointRounded (rnd : ℚ → ℚ) (v : Visit) (frame : Frame) : Frame :=
  let a := frame.assignment.get v.x v.y
  let d := PointClusterDistanceRounded rnd v.frame_time v.p v.c
  if d < a.distance then
    { frame with assignment := frame.assignment.set v.x v.y ⟨some v.c.ptr, d⟩ }
  else frame

/-- The pass `UpdateClusterAssignment` in rounded arithmetic. -/
def UpdateClusterAssignmentRounded (rnd : ℚ → ℚ) (frames : List Frame) :
    Option (List Frame) :=
  ClusterBoxRounded rnd frames (fun v frames => modifyAt (AssignPointRounded rnd v) v.t frames)
    frames

/-- The method `ClusterCenterAccumulator::add` in rounded arithmetic. -/
def ClusterCenterAccumulator.addRounded (rnd : ℚ → ℚ) (cca : ClusterCenterAccumulator)
    (p : Point) : ClusterCenterAccumulator :=
  { num := cca.num + 1
    mean_color := cca.mean_color.addRounded rnd p.color
    mean_position := cca.mean_position.addRounded rnd p.position
    mean_normal :=
      ⟨cca.mean_normal.r0.addRounded rnd (Vec3.smulRounded rnd p.normal.x p.normal),
       cca.mean_normal.r1.addRounded rnd (Vec3.smulRounded rnd p.normal.y p.normal),
       cca.mean_normal.r2.addRounded rnd (Vec3.smulRounded rnd p.normal.z p.normal)⟩ }

/-- The functor of `UpdateClusterCenters` in rounded arithmetic. -/
def AccumulatePointRounded (rnd : ℚ → ℚ) (frames : List Frame) (t0 : Int) (v : Visit)
    (ccas : List (List ClusterCenterAccumulator)) : List (List ClusterCenterAccumulator) :=
  match frames.get? v.t with
  | none => ccas
  | some frame =>
    let a := frame.assignment.get v.x v.y
    if a.cluster = some v.c.ptr ∧ 0 ≤ v.c.time - t0 then
      modifyAt (modifyAt (fun cca => cca.addRounded rnd v.p) v.c.id) (v.c.time - t0).toNat ccas
    else ccas

/-- The body of the update loop of `UpdateClusterCenters` in rounded arithmetic: the
division `1.0f / num`, the products with `scl` and the projection are rounded. -/
def UpdateCenterRounded (rnd : ℚ → ℚ) (c : Cluster) (cca : ClusterCenterAccumulator) :
    Cluster :=
  let c := if cca.num = 0 then { c with valid := false } else c
  if !c.valid then c
  else
    let scl : ℚ := rnd (1 / (cca.num : ℚ))
    let position := Vec3.smulRounded rnd scl cca.mean_position
    { c with
      color := Vec3.smulRounded rnd scl cca.mean_color
      position := position
      normal := cca.computeNormal
      pixel := CameraProjectRounded rnd position }

/-- The update loop of `UpdateClusterCenters` in rounded arithmetic. -/
def ApplyCentersRounded (rnd : ℚ → ℚ) (ccas : List (List ClusterCenterAccumulator))
    (frames : List Frame) : List Frame :=
  frames.enum.map (fun tf =>
    { tf.2 with clusters := tf.2.clusters.enum.map (fun kc =>
        UpdateCenterRounded rnd kc.2
          ((ccas.getD tf.1 []).getD kc.1 ClusterCenterAccumulator.init)) })

/-- The pass `UpdateClusterCenters` in rounded arithmetic. -/
def UpdateClusterCentersRounded (rnd : ℚ → ℚ) (frames : List Frame) : Option (List Frame) :=
  match frames with
  | [] => none
  | front :: _ =>
    let ccas := frames.map (fun f =>
      List.replicate f.clusters.length ClusterCenterAccumulator.init)
    let t0 := front.time
    match ClusterBoxRounded rnd frames (AccumulatePointRounded rnd frames t0) ccas with
    | none => none
    | some ccas => some (ApplyCentersRounded rnd ccas frames)

/-- A 4x4 input whose only valid depth sample is the one of the pixel `(3,3)`, the corner
of the last column and the last row, of raw depth `888`. -/
def edgeInput : StepInput :=
  ⟨⟨4, 4, fun _ => (0, 128, 128)⟩, ⟨4, 4, fun i => if i = 15 then 888 else 0⟩⟩

/-- The grid that `CreateRgbdData` makes of `edgeInput` in binary32. -/
def edgeGrid : RgbdData := CreateRgbdDataRounded roundBinary32 edgeInput.color edgeInput.depth

/-- The frame of time `0` on `edgeGrid` with the cluster that `SampleClustersFromDensity`
makes of the seed `(3,3)`. -/
def edgeFrame : Frame := CreateFrame 0 edgeGrid [ClusterFromSeed edgeGrid ⟨3, 3⟩]

/-- A 32x10 input of constant colour whose valid depth samples, of raw depth `2000`, are
the one of the pixel `(8,8)` and those of the columns `x >= 24`: 81 valid pixels, of which
only `(8,8)` lies in the search box `[0,19] x [0,9]` of a cluster at `(8,8)`. -/
def twinInput : StepInput :=
  ⟨⟨32, 10, fun _ => (0, 128, 128)⟩,
   ⟨32, 10, fun i => if i = 264 ∨ 24 ≤ i % 32 then 2000 else 0⟩⟩

/-- The grid of `twinInput`. -/
def twinGrid : RgbdData := CreateRgbdData twinInput.color twinInput.depth

/-- The cluster that `step` makes of the seed `(8,8)` on `twinGrid`, before `CreateFrame`
gives it the time of its frame. -/
def twinSeed : Cluster := seedCluster twinGrid 0 0 ⟨8, 8⟩

/-- A window of one frame of time `0` on `twinGrid` whose only cluster is `twinSeed`, whose
cell `(8,8)` references the cluster `(0,0)` or still holds a positive distance, and none of
whose cells references the cluster `(1,0)`. -/
def twinWindow (frames : List Frame) : Prop :=
  ∃ f, frames = [f] ∧ f.time = 0 ∧ f.rgbd = twinGrid ∧ f.clusters = [twinSeed] ∧
    ((f.assignment.get 8 8).cluster = some (0, 0) ∨ 0 < (f.assignment.get 8 8).distance) ∧
    ∀ x y : Int, (f.assignment.get x y).cluster ≠ some (1, 0)

/-! ## Auxiliary lemmas: sums and the mipmap pyramid -/

theorem sum_range_double (f : ℕ → ℚ) (n : ℕ) :
    ∑ x in Finset.range (2 * n), f x = ∑ i in Finset.range n, (f (2 * i) + f (2 * i + 1)) := by
  induction n with
  | zero => simp
  | succ n ih =>
    have h : 2 * (n + 1) = 2 * n + 1 + 1 := by ring
    rw [h, Finset.sum_range_succ, Finset.sum_range_succ, ih, Finset.sum_range_succ]
    ring

theorem sum_range_extend (f : ℕ → ℚ) (n m : ℕ) (hnm : n ≤ m) (hz : ∀ i, n ≤ i → f i = 0) :
    ∑ i in Finset.range m, f i = ∑ i in Finset.range n, f i := by
  symm
  apply Finset.sum_subset
  · intro i hi
    simp only [Finset.mem_range] at hi ⊢
    omega
  · intro i _ hi
    simp only [Finset.mem_range, not_lt] at hi
    exact hz i hi

theorem find_next_pow2_loop_spec (x : ℕ) :
    ∀ (fuel a j : ℕ), a = 2 ^ j → x ≤ a + fuel → (j = 0 ∨ a / 2 < x) →
      x ≤ find_next_pow2_loop x fuel a ∧
      (∃ k, find_next_pow2_loop x fuel a = 2 ^ k ∧ (k = 0 ∨ 2 ^ (k - 1) < x)) := by
  intro fuel
  induction fuel with
  | zero =>
    intro a j ha hx hmin
    simp only [find_next_pow2_loop]
    refine ⟨by omega, j, ha, ?_⟩
    rcases hmin with h | h
    · exact Or.inl h
    · by_cases hj : j = 0
      · exact Or.inl hj
      · right
        obtain ⟨i, rfl⟩ := Nat.exists_eq_succ_of_ne_zero hj
        rw [ha, pow_succ] at h
        simpa using h
  | succ fuel ih =>
    intro a j ha hx hmin
    simp only [find_next_pow2_loop]
    split_ifs with hlt
    · have hpos : 1 ≤ a := by rw [ha]; exact Nat.one_le_two_pow
      apply ih (a * 2) (j + 1)
      · rw [ha, pow_succ]
      · omega
      · right
        simpa using hlt
    · refine ⟨by omega, j, ha, ?_⟩
      rcases hmin with h | h
      · exact Or.inl h
      · by_cases hj : j = 0
        · exact Or.inl hj
        · right
          obtain ⟨i, rfl⟩ := Nat.exists_eq_succ_of_ne_zero hj
          rw [ha, pow_succ] at h
          simpa using h

theorem find_next_pow2_spec (x : ℕ) :
    x ≤ find_next_pow2 x ∧ ∃ k, find_next_pow2 x = 2 ^ k ∧ (k = 0 ∨ 2 ^ (k - 1) < x) := by
  unfold find_next_pow2
  exact find_next_pow2_loop_spec x x 1 0 (by simp) (by omega) (Or.inl rfl)

theorem find_next_pow2_pow (k : ℕ) : find_next_pow2 (2 ^ k) = 2 ^ k := by
  obtain ⟨hle, j, hj, hmin⟩ := find_next_pow2_spec (2 ^ k)
  rw [hj] at hle ⊢
  have hkj : k ≤ j := (Nat.pow_le_pow_iff_right (by norm_num)).mp hle
  rcases hmin with h | h
  · subst h
    have : k = 0 := by omega
    rw [this]
  · have : j - 1 < k := (Nat.pow_lt_pow_iff_right (by norm_num)).mp h
    have : j = k := by omega
    rw [this]

theorem ComputeMipmap_some (data m : Mat) (h : ComputeMipmap data = some m) :
    data.rows % 2 = 0 ∧ data.cols % 2 = 0 ∧
    m.rows = find_next_pow2 (max data.rows data.cols) / 2 ∧
    m.cols = find_next_pow2 (max data.rows data.cols) / 2 ∧
    ∀ i j, m.get i j =
      if 2 * i < data.rows ∧ 2 * j < data.cols then
        data.get (2 * i) (2 * j) + data.get (2 * i) (2 * j + 1)
          + data.get (2 * i + 1) (2 * j) + data.get (2 * i + 1) (2 * j + 1)
      else 0 := by
  unfold ComputeMipmap at h
  simp only at h
  split_ifs at h with he
  simp only [Option.some.injEq] at h
  subst h
  exact ⟨he.1, he.2, rfl, rfl, fun _ _ => rfl⟩

theorem ComputeMipmap_isSome (data : Mat) (hr : data.rows % 2 = 0) (hc : data.cols % 2 = 0) :
    ∃ m, ComputeMipmap data = some m := by
  unfold ComputeMipmap
  simp only
  rw [if_pos ⟨hr, hc⟩]
  exact ⟨_, rfl⟩

theorem ComputeMipmap_total (data m : Mat) (h : ComputeMipmap data = some m) :
    m.total = data.total := by
  obtain ⟨hr, hc, hmr, hmc, hget⟩ := ComputeMipmap_some data m h
  obtain ⟨hle, -⟩ := find_next_pow2_spec (max data.rows data.cols)
  have hrows : data.rows = 2 * (data.rows / 2) := by omega
  have hcols : data.cols = 2 * (data.cols / 2) := by omega
  have h1 : data.rows / 2 ≤ m.rows := by
    rw [hmr]; exact Nat.div_le_div_right (le_trans (le_max_left _ _) hle)
  have h2 : data.cols / 2 ≤ m.cols := by
    rw [hmc]; exact Nat.div_le_div_right (le_trans (le_max_right _ _) hle)
  unfold Mat.total
  rw [sum_range_extend _ (data.rows / 2) m.rows h1]
  · conv_rhs => rw [hrows, sum_range_double]
    apply Finset.sum_congr rfl
    intro i hi
    simp only [Finset.mem_range] at hi
    rw [sum_range_extend _ (data.cols / 2) m.cols h2]
    · conv_rhs => rw [hcols, sum_range_double, sum_range_double]
      rw [← Finset.sum_add_distrib]
      apply Finset.sum_congr rfl
      intro j hj
      simp only [Finset.mem_range] at hj
      rw [hget, if_pos ⟨by omega, by omega⟩]
      ring
    · intro j hj
      rw [hget, if_neg]
      omega
  · intro i hi
    apply Finset.sum_eq_zero
    intro j _
    rw [hget, if_neg]
    omega

theorem ComputeMipmapsLoop_total (min_size : Int) (T : ℚ) :
    ∀ (fuel : ℕ) (mm : List Mat) (q : Mat) (res : List Mat),
      (∀ m ∈ mm, m.total = T) → q.total = T →
      ComputeMipmapsLoop min_size fuel mm q = some res → ∀ m ∈ res, m.total = T := by
  intro fuel
  induction fuel with
  | zero => intro mm q res _ _ h; simp [ComputeMipmapsLoop] at h
  | succ fuel ih =>
    intro mm q res hmm hq h
    simp only [ComputeMipmapsLoop] at h
    split_ifs at h with hstop
    · simp only [Option.some.injEq] at h
      subst h
      exact hmm
    · cases hx : ComputeMipmap q with
      | none => simp [hx] at h
      | some x =>
        simp only [hx] at h
        have hxt : x.total = T := by rw [ComputeMipmap_total q x hx, hq]
        apply ih (mm ++ [x]) x res _ hxt h
        intro m hm
        rcases List.mem_append.mp hm with h' | h'
        · exact hmm m h'
        · simp only [List.mem_singleton] at h'
          rw [h', hxt]

theorem ComputeMipmapsLoop_succ (min_size : Int) (fuel : ℕ) (mm : List Mat) (q : Mat) :
    ComputeMipmapsLoop min_size (fuel + 1) mm q =
      if (q.rows : Int) ≤ min_size ∨ (q.cols : Int) ≤ min_size then some mm
      else
        match ComputeMipmap q with
        | none => none
        | some x => ComputeMipmapsLoop min_size fuel (mm ++ [x]) x := rfl

/-- The loop of `ComputeMipmaps` ends on a square level of side `2^k`. -/
theorem ComputeMipmapsLoop_square (min_size : Int) (hmin : 1 ≤ min_size) :
    ∀ (k fuel : ℕ) (mm : List Mat) (q : Mat), q.rows = 2 ^ k → q.cols = 2 ^ k → k < fuel →
      ∃ res, ComputeMipmapsLoop min_size fuel mm q = some res := by
  intro k
  induction k with
  | zero =>
    intro fuel mm q hr hc hf
    obtain ⟨f, rfl⟩ := Nat.exists_eq_succ_of_ne_zero (by omega : fuel ≠ 0)
    simp only [ComputeMipmapsLoop]
    rw [if_pos]
    · exact ⟨_, rfl⟩
    · left
      rw [hr]
      simpa using hmin
  | succ k ih =>
    intro fuel mm q hr hc hf
    obtain ⟨f, rfl⟩ := Nat.exists_eq_succ_of_ne_zero (by omega : fuel ≠ 0)
    simp only [ComputeMipmapsLoop]
    split_ifs with hstop
    · exact ⟨_, rfl⟩
    · have hre : q.rows % 2 = 0 := by rw [hr, pow_succ]; omega
      have hce : q.cols % 2 = 0 := by rw [hc, pow_succ]; omega
      obtain ⟨x, hx⟩ := ComputeMipmap_isSome q hre hce
      obtain ⟨-, -, hxr, hxc, -⟩ := ComputeMipmap_some q x hx
      rw [hr, hc, max_self, find_next_pow2_pow, pow_succ, Nat.mul_div_cancel _ (by norm_num)]
        at hxr hxc
      simp only [hx]
      exact ih f (mm ++ [x]) x hxr hxc (by omega)

theorem ComputeMipmaps_isSome (data : Mat) (min_size : Int) (hr : data.rows % 2 = 0)
    (hc : data.cols % 2 = 0) (hmin : 1 ≤ min_size) :
    ∃ mm, ComputeMipmaps data min_size = some mm := by
  unfold ComputeMipmaps
  rw [show data.rows + data.cols + 2 = (data.rows + data.cols + 1) + 1 from rfl,
    ComputeMipmapsLoop_succ]
  split_ifs with hstop
  · exact ⟨_, rfl⟩
  · obtain ⟨x, hx⟩ := ComputeMipmap_isSome data hr hc
    obtain ⟨-, -, hxr, hxc, -⟩ := ComputeMipmap_some data x hx
    obtain ⟨-, k, hk, hmink⟩ := find_next_pow2_spec (max data.rows data.cols)
    simp only [hx]
    have hpos : 2 ≤ max data.rows data.cols := by
      push_neg at hstop
      have h1 := hstop.1
      have : (1 : Int) < data.rows := lt_of_le_of_lt hmin h1
      have : 1 < data.rows := by exact_mod_cast this
      exact le_trans this (le_max_left _ _)
    have hk0 : k ≠ 0 := by
      intro h0
      subst h0
      have := (find_next_pow2_spec (max data.rows data.cols)).1
      rw [hk] at this
      simp at this
      omega
    obtain ⟨j, rfl⟩ := Nat.exists_eq_succ_of_ne_zero hk0
    rw [hk, pow_succ, Nat.mul_div_cancel _ (by norm_num)] at hxr hxc
    apply ComputeMipmapsLoop_square min_size hmin j _ _ x hxr hxc
    rcases hmink with h | h
    · omega
    · simp only [Nat.succ_eq_add_one, Nat.add_sub_cancel] at h
      have h2 : j < 2 ^ j := Nat.lt_two_pow j
      have h3 : max data.rows data.cols ≤ data.rows + data.cols := by
        rcases max_cases data.rows data.cols with ⟨h, -⟩ | ⟨h, -⟩ <;> omega
      omega

theorem ComputeMipmapsLoop_append (min_size : Int) :
    ∀ (fuel : ℕ) (mm : List Mat) (q : Mat) (res : List Mat),
      ComputeMipmapsLoop min_size fuel mm q = some res → ∃ rest, res = mm ++ rest := by
  intro fuel
  induction fuel with
  | zero => intro mm q res h; simp [ComputeMipmapsLoop] at h
  | succ fuel ih =>
    intro mm q res h
    rw [ComputeMipmapsLoop_succ] at h
    split_ifs at h with hstop
    · simp only [Option.some.injEq] at h
      exact ⟨[], by simp [h]⟩
    · cases hx : ComputeMipmap q with
      | none => simp [hx] at h
      | some x =>
        simp only [hx] at h
        obtain ⟨rest, hrest⟩ := ih (mm ++ [x]) x res h
        exact ⟨x :: rest, by simp [hrest]⟩

theorem CreateRgbdData_get (img_color : Image3ub) (img_depth : Image1ui16) (x y : Nat)
    (hx : x < img_color.width) (hy : y < img_color.height) :
    (CreateRgbdData img_color img_depth).get x y =
      { CreateRgbdPoint img_color img_depth x y (y * img_color.width + x) with
        normal := ⟨0, 0, -1⟩ } := by
  have hb : (0 : Int) ≤ x ∧ (x : Int) < img_color.width ∧ (0 : Int) ≤ y ∧
      (y : Int) < img_color.height := ⟨by omega, by omega, by omega, by omega⟩
  have hi : ((y : Int) * (img_color.width : Int) + (x : Int)).toNat = y * img_color.width + x := by
    have : ((y : Int) * (img_color.width : Int) + (x : Int)) = ((y * img_color.width + x : Nat) : Int) := by
      push_cast; ring
    rw [this, Int.toNat_natCast]
  simp only [CreateRgbdData, ComputeRgbdDataNormals]
  rw [if_pos hb, if_pos hb, hi]

theorem CreateRgbdPoint_valid (img_color : Image3ub) (img_depth : Image1ui16) (x y : Int)
    (i : Nat) :
    (CreateRgbdPoint img_color img_depth x y i).valid = depthValid (img_depth.read i) := by
  unfold CreateRgbdPoint
  simp only
  split_ifs with h
  · rfl
  · rfl

/-- C4 (mipmap mass conservation): for a density field with an even number of rows and of
columns, every level that `ComputeMipmaps` returns has the same total as the field, which
is the first level; the pyramid is returned for every `min_size >= 1`; and one reduction
`ComputeMipmap` puts the sum of the 2x2 block `(2i,2j), (2i,2j+1), (2i+1,2j), (2i+1,2j+1)`
in cell `(i,j)` of the halved data area and `0` in every other cell. -/
theorem mipmap_mass_conservation (data : Mat) (hr : data.rows % 2 = 0)
    (hc : data.cols % 2 = 0) :
    (∀ min_size mm, ComputeMipmaps data min_size = some mm →
      mm.head? = some data ∧ ∀ m ∈ mm, m.total = data.total) ∧
    (∀ min_size : Int, 1 ≤ min_size → ∃ mm, ComputeMipmaps data min_size = some mm) ∧
    (∃ m, ComputeMipmap data = some m ∧ m.total = data.total ∧
      ∀ i j, m.get i j =
        if i < data.rows / 2 ∧ j < data.cols / 2 then
          data.get (2 * i) (2 * j) + data.get (2 * i) (2 * j + 1)
            + data.get (2 * i + 1) (2 * j) + data.get (2 * i + 1) (2 * j + 1)
        else 0) := by
  refine ⟨?_, ?_, ?_⟩
  · intro min_size mm h
    constructor
    · obtain ⟨rest, hrest⟩ := ComputeMipmapsLoop_append min_size _ _ _ _ h
      rw [hrest]
      rfl
    · apply ComputeMipmapsLoop_total min_size data.total _ [data] data mm _ rfl h
      intro m hm
      simp only [List.mem_singleton] at hm
      rw [hm]
  · intro min_size hmin
    exact ComputeMipmaps_isSome data min_size hr hc hmin
  · obtain ⟨m, hm⟩ := ComputeMipmap_isSome data hr hc
    refine ⟨m, hm, ComputeMipmap_total data m hm, ?_⟩
    intro i j
    rw [(ComputeMipmap_some data m hm).2.2.2.2 i j]
    have e : (2 * i < data.rows ∧ 2 * j < data.cols) ↔
        (i < data.rows / 2 ∧ j < data.cols / 2) := by
      constructor <;> intro h <;> constructor <;> omega
    simp only [e]

/-- Witness of C4: a 2x2 field with cells 1, 2, 3, 4. -/
theorem mipmap_mass_conservation_witness :
    (∀ min_size mm,
      ComputeMipmaps ⟨2, 2, fun x y => (2 * x + y + 1 : Nat)⟩ min_size = some mm →
      mm.head? = some ⟨2, 2, fun x y => (2 * x + y + 1 : Nat)⟩ ∧
      ∀ m ∈ mm, m.total = (Mat.mk 2 2 (fun x y => (2 * x + y + 1 : Nat))).total) ∧
    (∀ min_size : Int, 1 ≤ min_size →
      ∃ mm, ComputeMipmaps ⟨2, 2, fun x y => (2 * x + y + 1 : Nat)⟩ min_size = some mm) ∧
    (∃ m, ComputeMipmap ⟨2, 2, fun x y => (2 * x + y + 1 : Nat)⟩ = some m ∧
      m.total = (Mat.mk 2 2 (fun x y => (2 * x + y + 1 : Nat))).total ∧
      ∀ i j, m.get i j =
        if i < (Mat.mk 2 2 (fun x y => (2 * x + y + 1 : Nat))).rows / 2 ∧
            j < (Mat.mk 2 2 (fun x y => (2 * x + y + 1 : Nat))).cols / 2 then
          (Mat.mk 2 2 (fun x y => (2 * x + y + 1 : Nat))).get (2 * i) (2 * j)
            + (Mat.mk 2 2 (fun x y => (2 * x + y + 1 : Nat))).get (2 * i) (2 * j + 1)
            + (Mat.mk 2 2 (fun x y => (2 * x + y + 1 : Nat))).get (2 * i + 1) (2 * j)
            + (Mat.mk 2 2 (fun x y => (2 * x + y + 1 : Nat))).get (2 * i + 1) (2 * j + 1)
        else 0) :=
  mipmap_mass_conservation ⟨2, 2, fun x y => (2 * x + y + 1 : Nat)⟩ (by decide) (by decide)

/-- C10 (point validity): at every pixel `(x,y)` of the image, with raw 16-bit depth `d`,
`CreateRgbdData` sets `valid = (d != 0 && DEPTH_MIN <= d && d <= DEPTH_MAX)`, which with
`DEPTH_MIN = 0` and `DEPTH_MAX = 2000` is true exactly when `1 <= d <= 2000`. -/
theorem CreateRgbdData_valid (img_color : Image3ub) (img_depth : Image1ui16) (x y : Nat)
    (hx : x < img_color.width) (hy : y < img_color.height) :
    img_depth.read (y * img_color.width + x) < 2 ^ 16 ∧
    ((CreateRgbdData img_color img_depth).get x y).valid =
      (img_depth.read (y * img_color.width + x) != 0
        && decide (DEPTH_MIN ≤ img_depth.read (y * img_color.width + x))
        && decide (img_depth.read (y * img_color.width + x) ≤ DEPTH_MAX)) ∧
    (((CreateRgbdData img_color img_depth).get x y).valid = true ↔
      1 ≤ img_depth.read (y * img_color.width + x) ∧
        img_depth.read (y * img_color.width + x) ≤ 2000) := by
  have hv : ((CreateRgbdData img_color img_depth).get x y).valid =
      depthValid (img_depth.read (y * img_color.width + x)) := by
    rw [CreateRgbdData_get img_color img_depth x y hx hy]
    exact CreateRgbdPoint_valid img_color img_depth x y _
  refine ⟨?_, ?_, ?_⟩
  · unfold Image1ui16.read
    exact Nat.mod_lt _ (by norm_num)
  · rw [hv]
    rfl
  · rw [hv]
    unfold depthValid DEPTH_MIN DEPTH_MAX
    simp only [Bool.and_eq_true, bne_iff_ne, decide_eq_true_eq]
    omega

/-- Witness of C10: pixel `(1,0)` of a 2x1 image whose depth samples are `0` and `1000`. -/
theorem CreateRgbdData_valid_witness :
    (1 < 2 ∧ 0 < 1) ∧
    ((CreateRgbdData ⟨2, 1, fun _ => (0, 128, 128)⟩ ⟨2, 1, fun i => 1000 * i⟩).get
      (1 : Nat) (0 : Nat)).valid = true := by
  refine ⟨⟨by decide, by decide⟩, ?_⟩
  have h := CreateRgbdData_valid ⟨2, 1, fun _ => (0, 128, 128)⟩ ⟨2, 1, fun i => 1000 * i⟩ 1 0
    (by decide) (by decide)
  exact h.2.2.mpr (by decide)

theorem Mat.addAt_get (m : Mat) (x y : Nat) (v : ℚ) (i j : Nat) :
    (m.addAt x y v).get i j = if i = x ∧ j = y then m.get x y + v else m.get i j := rfl

theorem DistributeDensity_total (mm_rows mm_cols : Nat) (carry_mm : Mat) (x y : Nat) (v : ℚ)
    (hq : x + 1 < mm_rows ∨ y + 1 < mm_cols) :
    distributedTotal mm_rows mm_cols carry_mm (DistributeDensity mm_rows mm_cols carry_mm x y v)
      x y = v := by
  unfold distributedTotal DistributeDensity diffusionWeight
  have e1 : x + 1 ≠ x - 1 := by omega
  have e2 : x + 1 ≠ x := by omega
  have e3 : y ≠ y + 1 := by omega
  by_cases h1 : x + 1 < mm_rows <;> by_cases h2 : y + 1 < mm_cols <;> by_cases h3 : 0 < x
  · have e4 : x ≠ x - 1 := by omega
    have e5 : x - 1 ≠ x + 1 := by omega
    have e6 : x - 1 ≠ x := by omega
    simp only [h1, h2, h3, decide_True, if_true, and_self]
    norm_num [Mat.addAt_get, e1, e2, e3, e4, e5, e6]
    ring
  · simp only [h1, h2, h3, decide_True, decide_False, if_true, if_false, and_self, false_and]
    norm_num [Mat.addAt_get, e1, e2, e3]
    ring
  · simp only [h1, h2, h3, decide_True, decide_False, if_true, if_false, and_self, false_and,
      and_false]
    norm_num [Mat.addAt_get, e1, e2, e3]
    ring
  · simp only [h1, h2, h3, decide_True, decide_False, if_true, if_false, and_self, false_and,
      and_false]
    norm_num [Mat.addAt_get, e1, e2, e3]
    ring
  · have e4 : x ≠ x - 1 := by omega
    have e6 : x - 1 ≠ x := by omega
    simp only [h1, h2, h3, decide_True, decide_False, if_true, if_false, and_self, false_and,
      and_false]
    norm_num [Mat.addAt_get, e1, e2, e3, e4, e6]
    ring
  · simp only [h1, h2, h3, decide_True, decide_False, if_true, if_false, and_self, false_and,
      and_false]
    norm_num [Mat.addAt_get, e1, e2, e3]
    ring
  · omega
  · omega

theorem DistributeDensity_none (mm_rows mm_cols : Nat) (carry_mm : Mat) (x y : Nat) (v : ℚ)
    (hx : ¬ x + 1 < mm_rows) (hy : ¬ y + 1 < mm_cols) :
    DistributeDensity mm_rows mm_cols carry_mm x y v = carry_mm := by
  unfold DistributeDensity diffusionWeight
  simp [hx, hy]

theorem SampleLeafSeed_carry (rgbd : RgbdData) (level x y : Nat) (v : ℚ) (st : SamplerState) :
    (SampleLeafSeed rgbd level x y v st).2.carry_mipmaps = st.carry_mipmaps := by
  unfold SampleLeafSeed
  simp only
  split_ifs <;> rfl

theorem SampleLeafSeed_noseed (rgbd : RgbdData) (level x y : Nat) (v : ℚ) (st : SamplerState)
    (h : (SampleLeafSeed rgbd level x y v st).2.seeds = st.seeds) :
    (SampleLeafSeed rgbd level x y v st).1 = v := by
  unfold SampleLeafSeed at h ⊢
  simp only at h ⊢
  split_ifs at h ⊢ with h1 h2
  · simp at h
  · rfl
  · rfl

theorem modifyAt_get? {α : Type} (f : α → α) :
    ∀ (n : Nat) (l : List α) (a : α), l.get? n = some a → (modifyAt f n l).get? n = some (f a)
  | _, [], _, h => by simp at h
  | 0, b :: l, a, h => by
    simp only [List.get?_cons_zero, Option.some.injEq] at h
    simp [modifyAt, h]
  | n + 1, b :: l, a, h => by
    simp only [List.get?_cons_succ] at h
    simp only [modifyAt, List.get?_cons_succ]
    exact modifyAt_get? f n l a h

theorem SampleLeaf_seeds (rgbd : RgbdData) (mipmaps : List Mat) (level x y : Nat)
    (st : SamplerState) :
    (SampleLeaf rgbd mipmaps level x y st).seeds =
      (SampleLeafSeed rgbd level x y (cellValue mipmaps st.carry_mipmaps level x y) st).2.seeds :=
  rfl

theorem SampleLeaf_carry (rgbd : RgbdData) (mipmaps : List Mat) (level x y : Nat)
    (st : SamplerState) :
    (SampleLeaf rgbd mipmaps level x y st).carry_mipmaps =
      modifyAt (fun carry_mm =>
        DistributeDensity (mipmaps.getD level Mat.empty).rows (mipmaps.getD level Mat.empty).cols
          carry_mm x y
          (SampleLeafSeed rgbd level x y (cellValue mipmaps st.carry_mipmaps level x y) st).1)
        level st.carry_mipmaps := by
  unfold SampleLeaf
  simp only [SampleLeafSeed_carry]

/-- C5 (diffusion conservation, as amended): at a leaf cell `(x,y)` of level `level` that
emits no seed and has at least one in-bounds neighbour (`x+1 < rows` or `y+1 < cols`), the
carry increments written to the in-bounds neighbours among `(x+1,y)`, `(x-1,y+1)`,
`(x,y+1)`, `(x+1,y+1)` sum to `v`, the mipmap value of the cell plus its carry. -/
theorem diffusion_conservation (rgbd : RgbdData) (mipmaps : List Mat) (level x y : Nat)
    (st : SamplerState) (mm carry_mm : Mat)
    (hmm : mipmaps.get? level = some mm)
    (hcarry : st.carry_mipmaps.get? level = some carry_mm)
    (hseed : (SampleLeaf rgbd mipmaps level x y st).seeds = st.seeds)
    (hq : x + 1 < mm.rows ∨ y + 1 < mm.cols) :
    ∃ carry_after,
      (SampleLeaf rgbd mipmaps level x y st).carry_mipmaps.get? level = some carry_after ∧
      distributedTotal mm.rows mm.cols carry_mm carry_after x y =
        cellValue mipmaps st.carry_mipmaps level x y := by
  have hget : mipmaps.getD level Mat.empty = mm := by
    rw [List.getD_eq_getElem?_getD, ← List.get?_eq_getElem?, hmm]
    rfl
  rw [SampleLeaf_seeds] at hseed
  have hv := SampleLeafSeed_noseed rgbd level x y _ st hseed
  have hc := modifyAt_get? (fun carry_mm =>
      DistributeDensity (mipmaps.getD level Mat.empty).rows (mipmaps.getD level Mat.empty).cols
        carry_mm x y
        (SampleLeafSeed rgbd level x y (cellValue mipmaps st.carry_mipmaps level x y) st).1)
    level st.carry_mipmaps carry_mm hcarry
  rw [← SampleLeaf_carry] at hc
  refine ⟨_, hc, ?_⟩
  simp only [hget, hv]
  exact DistributeDensity_total mm.rows mm.cols carry_mm x y _ hq

/-- Witness of C5: cell `(0,0)` of a 2x2 level whose cells hold `1/10`. -/
theorem diffusion_conservation_witness :
    ∃ carry_after,
      (SampleLeaf rgbdInvalid2x2 [Mat.Zero 4 4, ⟨2, 2, fun _ _ => 1 / 10⟩] 1 0 0
        ⟨[], [Mat.empty, Mat.Zero 2 2], RandomEngine.zeros⟩).carry_mipmaps.get? 1
        = some carry_after ∧
      distributedTotal 2 2 (Mat.Zero 2 2) carry_after 0 0 =
        cellValue [Mat.Zero 4 4, ⟨2, 2, fun _ _ => 1 / 10⟩] [Mat.empty, Mat.Zero 2 2] 1 0 0 :=
  diffusion_conservation rgbdInvalid2x2 [Mat.Zero 4 4, ⟨2, 2, fun _ _ => 1 / 10⟩] 1 0 0
    ⟨[], [Mat.empty, Mat.Zero 2 2], RandomEngine.zeros⟩ ⟨2, 2, fun _ _ => 1 / 10⟩ (Mat.Zero 2 2)
    rfl rfl
    (by
      rw [SampleLeaf_seeds]
      norm_num [SampleLeafSeed, cellValue, Mat.Zero, Mat.empty])
    (Or.inl (by decide))

/-- Counterexample to C5 as stated: the root cell `(0,0)` of the 1x1 top level of
the pyramid of `density2x2` is a leaf with `v = 3/10`; it emits no seed, it has no in-bounds neighbour, its
carry matrix is left as it was, and the increments written sum to `0`, not to `v`. -/
theorem diffusion_conservation_counterexample :
    ComputeMipmaps density2x2 1 = some pyramid2x2 ∧
    (SampleDensityImplRec rgbdInvalid2x2 pyramid2x2 1 0 0 samplerStart2x2).seeds
      = samplerStart2x2.seeds ∧
    (SampleDensityImplRec rgbdInvalid2x2 pyramid2x2 1 0 0 samplerStart2x2).carry_mipmaps
      = samplerStart2x2.carry_mipmaps ∧
    cellValue pyramid2x2 samplerStart2x2.carry_mipmaps 1 0 0 = 3 / 10 ∧
    distributedTotal 1 1 (Mat.Zero 1 1)
      ((SampleDensityImplRec rgbdInvalid2x2 pyramid2x2 1 0 0
        samplerStart2x2).carry_mipmaps.getD 1 Mat.empty) 0 0
      ≠ cellValue pyramid2x2 samplerStart2x2.carry_mipmaps 1 0 0 := by
  have hv : cellValue pyramid2x2 samplerStart2x2.carry_mipmaps 1 0 0 = 3 / 10 := by
    norm_num [cellValue, pyramid2x2, density2x2, samplerStart2x2, Mat.Zero]
  have hrec : SampleDensityImplRec rgbdInvalid2x2 pyramid2x2 1 0 0 samplerStart2x2
      = SampleLeaf rgbdInvalid2x2 pyramid2x2 1 0 0 samplerStart2x2 := by
    simp [SampleDensityImplRec]
  have hseed : (SampleLeaf rgbdInvalid2x2 pyramid2x2 1 0 0 samplerStart2x2).seeds
      = samplerStart2x2.seeds := by
    rw [SampleLeaf_seeds, hv]
    norm_num [SampleLeafSeed]
  have hcarry : (SampleLeaf rgbdInvalid2x2 pyramid2x2 1 0 0 samplerStart2x2).carry_mipmaps
      = samplerStart2x2.carry_mipmaps := by
    rw [SampleLeaf_carry]
    simp only [samplerStart2x2, modifyAt, pyramid2x2, List.getD_cons_succ, List.getD_cons_zero]
    rw [DistributeDensity_none _ _ _ _ _ _ (by decide) (by decide)]
  rw [hrec]
  refine ⟨rfl, hseed, hcarry, hv, ?_⟩
  rw [hv]
  norm_num [distributedTotal]

/-! ## Auxiliary lemmas: the update passes keep the shape of the frames -/

theorem ClusterStep_refl (c : Cluster) : ClusterStep c c := ⟨rfl, rfl, rfl, fun h => h⟩

theorem ClusterStep_trans {a b c : Cluster} (h1 : ClusterStep a b) (h2 : ClusterStep b c) :
    ClusterStep a c :=
  ⟨h2.1.trans h1.1, h2.2.1.trans h1.2.1, h2.2.2.1.trans h1.2.2.1, fun h => h2.2.2.2 (h1.2.2.2 h)⟩

theorem forall₂_refl_of {α : Type} {R : α → α → Prop} (hR : ∀ a, R a a) :
    ∀ l : List α, List.Forall₂ R l l
  | [] => List.Forall₂.nil
  | a :: l => List.Forall₂.cons (hR a) (forall₂_refl_of hR l)

theorem forall₂_trans_of {α : Type} (R : α → α → Prop)
    (hR : ∀ a b c, R a b → R b c → R a c) :
    ∀ {l1 l2 l3 : List α}, List.Forall₂ R l1 l2 → List.Forall₂ R l2 l3 → List.Forall₂ R l1 l3
  | _, _, _, List.Forall₂.nil, List.Forall₂.nil => List.Forall₂.nil
  | _, _, _, List.Forall₂.cons h1 t1, List.Forall₂.cons h2 t2 =>
    List.Forall₂.cons (hR _ _ _ h1 h2) (forall₂_trans_of R hR t1 t2)

theorem FrameStep_refl (f : Frame) : FrameStep f f :=
  ⟨rfl, rfl, forall₂_refl_of ClusterStep_refl _⟩

theorem FrameStep_trans {a b c : Frame} (h1 : FrameStep a b) (h2 : FrameStep b c) :
    FrameStep a c :=
  ⟨h2.1.trans h1.1, h2.2.1.trans h1.2.1,
    forall₂_trans_of ClusterStep (fun _ _ _ h h' => ClusterStep_trans h h') h1.2.2 h2.2.2⟩

theorem FramesStep_refl (l : List Frame) : List.Forall₂ FrameStep l l :=
  forall₂_refl_of FrameStep_refl l

theorem FramesStep_trans {l1 l2 l3 : List Frame} (h1 : List.Forall₂ FrameStep l1 l2)
    (h2 : List.Forall₂ FrameStep l2 l3) : List.Forall₂ FrameStep l1 l3 :=
  forall₂_trans_of FrameStep (fun _ _ _ h h' => FrameStep_trans h h') h1 h2

theorem forall₂_modifyAt {α : Type} {R : α → α → Prop} (hR : ∀ a, R a a) (f : α → α)
    (hf : ∀ a, R a (f a)) : ∀ (n : Nat) (l : List α), List.Forall₂ R l (modifyAt f n l)
  | n, [] => by cases n <;> exact List.Forall₂.nil
  | 0, a :: l => List.Forall₂.cons (hf a) (forall₂_refl_of hR l)
  | n + 1, a :: l => List.Forall₂.cons (hR a) (forall₂_modifyAt hR f hf n l)

theorem forall₂_enumFrom_map {α β : Type} {R : α → β → Prop} (g : Nat × α → β)
    (hg : ∀ i a, R a (g (i, a))) :
    ∀ (n : Nat) (l : List α), List.Forall₂ R l ((l.enumFrom n).map g)
  | _, [] => List.Forall₂.nil
  | n, a :: l => List.Forall₂.cons (hg n a) (forall₂_enumFrom_map g hg (n + 1) l)

theorem AssignPoint_step (v : Visit) (frame : Frame) : FrameStep frame (AssignPoint v frame) := by
  unfold AssignPoint
  simp only
  split_ifs
  · exact ⟨rfl, rfl, forall₂_refl_of ClusterStep_refl _⟩
  · exact FrameStep_refl frame

theorem foldl_step {σ ι : Type} (R : σ → σ → Prop) (hrefl : ∀ a, R a a)
    (htrans : ∀ a b c, R a b → R b c → R a c) (f : σ → ι → σ) (hf : ∀ s i, R s (f s i)) :
    ∀ (l : List ι) (s : σ), R s (l.foldl f s)
  | [], s => hrefl s
  | i :: l, s => htrans _ _ _ (hf s i) (foldl_step R hrefl htrans f hf l (f s i))

theorem UpdateClusterAssignment_step (frames frames' : List Frame)
    (h : UpdateClusterAssignment frames = some frames') :
    List.Forall₂ FrameStep frames frames' := by
  unfold UpdateClusterAssignment ClusterBox at h
  split_ifs at h
  simp only [Option.some.injEq] at h
  subst h
  apply foldl_step (List.Forall₂ FrameStep) FramesStep_refl
    (fun _ _ _ h h' => FramesStep_trans h h')
  intro s v
  exact forall₂_modifyAt FrameStep_refl _ (AssignPoint_step v) v.t s

theorem UpdateCenter_step (c : Cluster) (cca : ClusterCenterAccumulator) :
    ClusterStep c (UpdateCenter c cca) := by
  unfold UpdateCenter
  by_cases h0 : cca.num = 0 <;> by_cases hv : c.valid = true
  all_goals simp [h0, hv, ClusterStep]

theorem ApplyCenters_step (ccas : List (List ClusterCenterAccumulator)) (frames : List Frame) :
    List.Forall₂ FrameStep frames (ApplyCenters ccas frames) := by
  unfold ApplyCenters List.enum
  apply forall₂_enumFrom_map
  intro t f
  refine ⟨rfl, rfl, ?_⟩
  simp only [List.enum]
  apply forall₂_enumFrom_map
  intro k c
  exact UpdateCenter_step c _

theorem UpdateClusterCenters_step (frames frames' : List Frame)
    (h : UpdateClusterCenters frames = some frames') :
    List.Forall₂ FrameStep frames frames' := by
  unfold UpdateClusterCenters at h
  cases frames with
  | nil => simp at h
  | cons front rest =>
    simp only at h
    split at h
    · simp at h
    · simp only [Option.some.injEq] at h
      subst h
      exact ApplyCenters_step _ _

theorem UpdateClustersLoop_step :
    ∀ (k : Nat) (frames frames' : List Frame), UpdateClustersLoop k frames = some frames' →
      List.Forall₂ FrameStep frames frames'
  | 0, frames, frames', h => by
    simp only [UpdateClustersLoop, Option.some.injEq] at h
    subst h
    exact FramesStep_refl _
  | k + 1, frames, frames', h => by
    simp only [UpdateClustersLoop] at h
    cases h1 : UpdateClusterAssignment frames with
    | none => simp [h1] at h
    | some f1 =>
      simp only [h1] at h
      cases h2 : UpdateClusterCenters f1 with
      | none => simp [h2] at h
      | some f2 =>
        simp only [h2] at h
        exact FramesStep_trans (UpdateClusterAssignment_step _ _ h1)
          (FramesStep_trans (UpdateClusterCenters_step _ _ h2) (UpdateClustersLoop_step k f2 frames' h))

theorem UpdateClusters_step (time : Int) (ts ts' : Timeseries)
    (h : UpdateClusters time ts = some ts') : List.Forall₂ FrameStep ts.frames ts'.frames := by
  unfold UpdateClusters at h
  simp only at h
  split at h
  · simp at h
  · rename_i frames hloop
    simp only [Option.some.injEq] at h
    subst h
    have hs := UpdateClustersLoop_step _ _ _ hloop
    unfold Timeseries.getFrameRange at hs
    unfold Timeseries.setFrameRange
    simp only
    have e : ts.frames =
        ts.frames.takeWhile (fun f => decide (f.time < time - CLUSTER_TIME_RADIUS)) ++
        ((ts.frames.dropWhile (fun f => decide (f.time < time - CLUSTER_TIME_RADIUS))).takeWhile
            (fun f => decide (f.time < time + CLUSTER_TIME_RADIUS + 1))) ++
        (ts.frames.dropWhile (fun f => decide (f.time < time - CLUSTER_TIME_RADIUS))).dropWhile
            (fun f => decide (f.time < time + CLUSTER_TIME_RADIUS + 1)) := by
      rw [List.append_assoc, List.takeWhile_append_dropWhile, List.takeWhile_append_dropWhile]
    conv_lhs => rw [e]
    exact List.rel_append (List.rel_append (FramesStep_refl _) hs) (FramesStep_refl _)

/-! ## Auxiliary lemmas: the timeseries -/

theorem consecutiveFrom_succ (b : Int) (n : Nat) :
    consecutiveFrom b (n + 1) = b :: consecutiveFrom (b + 1) n := by
  unfold consecutiveFrom
  rw [List.range_succ_eq_map]
  simp only [List.map_cons, List.map_map, Nat.cast_zero, add_zero, List.cons.injEq, true_and]
  apply List.map_congr_left
  intro i _
  simp only [Function.comp, Nat.cast_succ]
  ring

theorem consecutiveFrom_append (b : Int) (n : Nat) :
    consecutiveFrom b (n + 1) = consecutiveFrom b n ++ [b + n] := by
  unfold consecutiveFrom
  rw [List.range_succ, List.map_append]
  rfl

theorem mem_consecutiveFrom (b : Int) (n : Nat) (t : Int) :
    t ∈ consecutiveFrom b n ↔ b ≤ t ∧ t < b + n := by
  unfold consecutiveFrom
  simp only [List.mem_map, List.mem_range]
  constructor
  · rintro ⟨i, hi, rfl⟩
    omega
  · intro h
    exact ⟨(t - b).toNat, by omega, by omega⟩

theorem consecutiveFrom_filter_ge (k : Int) :
    ∀ (n : Nat) (b : Int), (consecutiveFrom b n).filter (fun t => !decide (t < k))
      = consecutiveFrom (max b k) (n - (k - b).toNat)
  | 0, b => by simp [consecutiveFrom]
  | n + 1, b => by
    rw [consecutiveFrom_succ, List.filter_cons]
    by_cases h : b < k
    · have e1 : max b k = max (b + 1) k := by
        rw [max_eq_right (le_of_lt h), max_eq_right (by omega)]
      have e2 : n + 1 - (k - b).toNat = n - (k - (b + 1)).toNat := by omega
      simp only [h, decide_True, Bool.not_true, Bool.false_eq_true, if_false]
      rw [consecutiveFrom_filter_ge k n (b + 1), e1, e2]
    · have e1 : max b k = b := max_eq_left (by omega)
      have e2 : n + 1 - (k - b).toNat = n + 1 := by omega
      have e3 : max (b + 1) k = b + 1 := max_eq_left (by omega)
      have e4 : n - (k - (b + 1)).toNat = n := by omega
      simp only [h, decide_False, Bool.not_false, if_true]
      rw [consecutiveFrom_filter_ge k n (b + 1), e1, e2, e3, e4, consecutiveFrom_succ]

theorem consecutiveFrom_filter_lt (k : Int) :
    ∀ (n : Nat) (b : Int), (consecutiveFrom b n).filter (fun t => decide (t < k))
      = consecutiveFrom b (min n (k - b).toNat)
  | 0, b => by simp [consecutiveFrom]
  | n + 1, b => by
    rw [consecutiveFrom_succ, List.filter_cons]
    by_cases h : b < k
    · have e2 : min (n + 1) (k - b).toNat = min n (k - (b + 1)).toNat + 1 := by omega
      simp only [h, decide_True, if_true]
      rw [consecutiveFrom_filter_lt k n (b + 1), e2, consecutiveFrom_succ]
    · have e2 : min (n + 1) (k - b).toNat = 0 := by omega
      have e4 : min n (k - (b + 1)).toNat = 0 := by omega
      simp only [h, decide_False, Bool.false_eq_true, if_false]
      rw [consecutiveFrom_filter_lt k n (b + 1), e2, e4]
      rfl

/-- In a list in which `p` never holds after it has failed, `filter p` is `takeWhile p`. -/
theorem filter_eq_takeWhile_of_chain {α : Type} (p : α → Bool) :
    ∀ (l : List α), List.Chain' (fun a b => p b = true → p a = true) l →
      l.filter p = l.takeWhile p ∧ l.filter (fun a => !p a) = l.dropWhile p
  | [], _ => ⟨rfl, rfl⟩
  | [a], _ => by
    by_cases h : p a = true <;> simp [h]
  | a :: b :: l, hc => by
    rw [List.chain'_cons] at hc
    have ih := filter_eq_takeWhile_of_chain p (b :: l) hc.2
    by_cases h : p a = true
    · have hn : ¬ ((!p a) = true) := by simp [h]
      rw [List.filter_cons_of_pos h, List.takeWhile_cons_of_pos h,
        @List.filter_cons_of_neg _ (fun a => !p a) a (b :: l) hn,
        List.dropWhile_cons_of_pos h, ih.1, ih.2]
      exact ⟨rfl, rfl⟩
    · have hb : ¬ p b = true := fun hpb => h (hc.1 hpb)
      have hn : (!p a) = true := by simpa using h
      have ht : (b :: l).takeWhile p = [] := List.takeWhile_cons_of_neg hb
      have hd : (b :: l).dropWhile p = b :: l := List.dropWhile_cons_of_neg hb
      rw [List.filter_cons_of_neg h, List.takeWhile_cons_of_neg h,
        @List.filter_cons_of_pos _ (fun a => !p a) a (b :: l) hn,
        List.dropWhile_cons_of_neg h, ih.1, ih.2, ht, hd]
      exact ⟨rfl, rfl⟩

theorem chain'_consecutiveFrom :
    ∀ (n : Nat) (b : Int), List.Chain' (fun a c => c = a + 1) (consecutiveFrom b n)
  | 0, _ => by simp [consecutiveFrom]
  | 1, _ => List.chain'_singleton _
  | n + 2, b => by
    rw [consecutiveFrom_succ, consecutiveFrom_succ, List.chain'_cons]
    refine ⟨rfl, ?_⟩
    rw [← consecutiveFrom_succ]
    exact chain'_consecutiveFrom (n + 1) (b + 1)

/-- In a series with consecutive times, `purge` splits the frames into a prefix and the
rest. -/
theorem purgeFrames_split (ts : Timeseries) (b : Int) (n : Nat) (before : Int)
    (h : ts.times = consecutiveFrom b n) :
    (ts.purgeFrames before).1 = ts.frames.takeWhile (fun f => decide (f.time < before)) ∧
    (ts.purgeFrames before).2.frames = ts.frames.dropWhile (fun f => decide (f.time < before)) := by
  have hc : List.Chain' (fun f g : Frame =>
      decide (g.time < before) = true → decide (f.time < before) = true) ts.frames := by
    have h1 := chain'_consecutiveFrom n b
    rw [← h, Timeseries.times, List.chain'_map] at h1
    apply List.Chain'.imp _ h1
    intro f g hfg hg
    simp only [decide_eq_true_eq] at hg ⊢
    omega
  exact filter_eq_takeWhile_of_chain _ ts.frames hc

theorem purgeFrames_append (ts : Timeseries) (b : Int) (n : Nat) (before : Int)
    (h : ts.times = consecutiveFrom b n) :
    ts.frames = (ts.purgeFrames before).1 ++ (ts.purgeFrames before).2.frames := by
  obtain ⟨h1, h2⟩ := purgeFrames_split ts b n before h
  rw [h1, h2, List.takeWhile_append_dropWhile]

theorem purgeFrames_times (ts : Timeseries) (before : Int) :
    (ts.purgeFrames before).2.times = ts.times.filter (fun t => !decide (t < before)) ∧
    (ts.purgeFrames before).1.map (fun f => f.time)
      = ts.times.filter (fun t => decide (t < before)) := by
  unfold Timeseries.purgeFrames Timeseries.times
  simp only [List.filter_map]
  exact ⟨rfl, rfl⟩

/-! ## Auxiliary lemmas: one call of `step` -/

theorem getEndTime_eq (ts : Timeseries) :
    ts.getEndTime = match ts.times.getLast? with
      | some t => t + 1
      | none => 0 := by
  unfold Timeseries.getEndTime Timeseries.times
  rw [List.getLast?_map]
  cases ts.frames.getLast? <;> rfl

theorem getBeginTime_eq (ts : Timeseries) :
    ts.getBeginTime = match ts.times.head? with
      | some t => t
      | none => 0 := by
  unfold Timeseries.getBeginTime Timeseries.times
  rw [List.head?_map]
  cases ts.frames.head? <;> rfl

theorem getEndTime_consecutive (ts : Timeseries) (b : Nat) (n : Nat)
    (h : ts.times = consecutiveFrom b n) (hb : n = 0 → b = 0) : ts.getEndTime = b + n := by
  rw [getEndTime_eq, h]
  cases n with
  | zero => simp [consecutiveFrom, hb rfl]
  | succ n =>
    rw [consecutiveFrom_append, List.getLast?_append]
    simp only [List.getLast?_singleton, Option.or]
    push_cast
    ring

theorem FramesStep_times (l l' : List Frame) (h : List.Forall₂ FrameStep l l') :
    l'.map (fun f => f.time) = l.map (fun f => f.time) := by
  induction h with
  | nil => rfl
  | cons h1 _ ih => simp only [List.map_cons, ih, h1.1]

theorem ClustersStep_ptr (l l' : List Cluster) (h : List.Forall₂ ClusterStep l l') :
    l'.map Cluster.ptr = l.map Cluster.ptr := by
  induction h with
  | nil => rfl
  | cons h1 _ ih =>
    simp only [List.map_cons, ih, Cluster.ptr, h1.1, h1.2.1]

theorem FramesStep_ptrs (l l' : List Frame) (h : List.Forall₂ FrameStep l l') :
    l'.map (fun f => f.clusters.map Cluster.ptr) = l.map (fun f => f.clusters.map Cluster.ptr) := by
  induction h with
  | nil => rfl
  | cons h1 _ ih => simp only [List.map_cons, ih, ClustersStep_ptr _ _ h1.2.2]

theorem FramesStep_clusters (l l' : List Frame) (h : List.Forall₂ FrameStep l l') :
    List.Forall₂ ClusterStep (l.map (fun f => f.clusters)).flatten
      (l'.map (fun f => f.clusters)).flatten := by
  induction h with
  | nil => exact List.Forall₂.nil
  | cons h1 _ ih =>
    simp only [List.map_cons, List.flatten_cons]
    exact List.rel_append h1.2.2 ih

theorem step_some (ops : FloatOps) (sv sv' : ContinuousSupervoxels) (inp : StepInput)
    (h : sv.step ops inp = some sv') :
    ∃ sampled series,
      sv.sampleNewClusters inp = some sampled ∧
      UpdateClusters
          (activeTime (sv.addAndPurge (CreateRgbdData inp.color inp.depth) sampled.1).2)
          (sv.addAndPurge (CreateRgbdData inp.color inp.depth) sampled.1).2 = some series ∧
      sv' =
        { is_first_ := false
          last_density_ := sv.updateLastDensity
            (ComputeClusterDensity ops (CreateRgbdData inp.color inp.depth).rows
              (CreateRgbdData inp.color inp.depth).cols sampled.1)
          series_ := series
          inactive_clusters_ := sv.inactive_clusters_ ++
            (sv.addAndPurge (CreateRgbdData inp.color inp.depth) sampled.1).1
          random_engine := sampled.2 } := by
  unfold ContinuousSupervoxels.step at h
  simp only at h
  cases hs : sv.sampleNewClusters inp with
  | none => simp [hs] at h
  | some sampled =>
    simp only [hs] at h
    cases hu : UpdateClusters
        (activeTime (sv.addAndPurge (CreateRgbdData inp.color inp.depth) sampled.1).2)
        (sv.addAndPurge (CreateRgbdData inp.color inp.depth) sampled.1).2 with
    | none => simp [hu] at h
    | some series =>
      simp only [hu, Option.some.injEq] at h
      exact ⟨sampled, series, rfl, hu, h.symm⟩

theorem CreateFrameClusters_ptr (time : Int) :
    ∀ (cs : List Cluster) (i : Nat),
      (CreateFrameClusters time i cs).map Cluster.ptr
        = (List.range' i cs.length).map (fun (k : Nat) => (time, k))
  | [], _ => rfl
  | c :: cs, i => by
    simp only [CreateFrameClusters, List.map_cons, List.length_cons, List.range'_succ,
      CreateFrameClusters_ptr time cs (i + 1)]
    rfl

theorem CreateFrame_ptr (t : Nat) (rgbd : RgbdData) (cs : List Cluster) :
    (CreateFrame t rgbd cs).clusters.map Cluster.ptr = keyRow t cs.length := by
  unfold CreateFrame keyRow
  simp only [CreateFrameClusters_ptr, List.range_eq_range']

theorem keyRows_append (counts : List Nat) (m : Nat) :
    keyRows (counts ++ [m]) = keyRows counts ++ [keyRow counts.length m] := by
  unfold keyRows List.enum
  rw [List.enumFrom_append]
  simp

theorem keyRows_length (counts : List Nat) : (keyRows counts).length = counts.length := by
  unfold keyRows
  simp

theorem purgedCount_le (n : Nat) : purgedCount n ≤ n := by
  unfold purgedCount
  omega

theorem purgedCount_eq (n : Nat) : purgedCount n = n - 11 := by
  unfold purgedCount CLUSTER_TIME_RADIUS
  have e : (2 * 5 + 1 : Int).toNat = 11 := by decide
  rw [e]

theorem purgedCount_succ (n : Nat) :
    purgedCount n ≤ purgedCount (n + 1) ∧ purgedCount (n + 1) - purgedCount n ≤ 1 ∧
    ((purgedCount (n + 1) : Nat) : Int) = max ((purgedCount n : Nat) : Int) ((n : Int) - 10) := by
  unfold purgedCount CLUSTER_TIME_RADIUS
  have e : (2 * 5 + 1 : Int).toNat = 11 := by decide
  rw [e]
  omega

/-- The frames of `step` before the purge, cut into the purged and the retained ones. -/
theorem step_shape (ops : FloatOps) (sv sv' : ContinuousSupervoxels) (inp : StepInput)
    (counts : List Nat) (sampled : List Cluster × RandomEngine) (hinv : sv.After counts)
    (hs : sv.sampleNewClusters inp = some sampled) (h : sv.step ops inp = some sv') :
    ∃ purged retained : List Frame,
      sv.series_.frames ++
          [CreateFrame counts.length (CreateRgbdData inp.color inp.depth) sampled.1]
        = purged ++ retained ∧
      purged.length = purgedCount (counts.length + 1) - purgedCount counts.length ∧
      (∀ f ∈ purged, f ∈ sv.series_.frames) ∧
      sv'.inactive_clusters_
        = sv.inactive_clusters_ ++ (purged.map (fun f => f.clusters)).flatten ∧
      List.Forall₂ FrameStep retained sv'.series_.frames ∧
      sv'.After (counts ++ [sampled.1.length]) := by
  obtain ⟨sampled', series, hs', hu, hsv'⟩ := step_some ops sv sv' inp h
  rw [hs] at hs'
  simp only [Option.some.injEq] at hs'
  subst hs'
  have hL := purgedCount_le counts.length
  have hLe := purgedCount_eq counts.length
  have hLe1 := purgedCount_eq (counts.length + 1)
  have hL3 := (purgedCount_succ counts.length).2.2
  -- the end time of the series before the step
  have hend : sv.series_.getEndTime = counts.length := by
    rw [getEndTime_consecutive _ _ _ hinv.times (by clear hL3; omega)]
    omega
  -- the series with the new frame
  have htimes1 : (sv.series_.add (CreateFrame sv.series_.getEndTime
      (CreateRgbdData inp.color inp.depth) sampled.1)).times
      = consecutiveFrom (purgedCount counts.length)
          (counts.length - purgedCount counts.length + 1) := by
    rw [consecutiveFrom_append, ← hinv.times, hend]
    simp only [Timeseries.add, Timeseries.times, List.map_append, List.map_cons, List.map_nil,
      CreateFrame, List.append_cancel_left_eq, List.cons.injEq, and_true]
    omega
  have hend1 : (sv.series_.add (CreateFrame sv.series_.getEndTime
      (CreateRgbdData inp.color inp.depth) sampled.1)).getEndTime = counts.length + 1 := by
    rw [getEndTime_consecutive _ _ _ htimes1 (by omega)]
    push_cast
    omega
  have hbefore : (counts.length : Int) + 1 - 2 * CLUSTER_TIME_RADIUS - 1 = counts.length - 10 := by
    unfold CLUSTER_TIME_RADIUS
    ring
  have hsplit := purgeFrames_append _ _ _ ((counts.length : Int) - 10) htimes1
  have htimes2 := purgeFrames_times (sv.series_.add (CreateFrame sv.series_.getEndTime
      (CreateRgbdData inp.color inp.depth) sampled.1)) ((counts.length : Int) - 10)
  rw [htimes1, consecutiveFrom_filter_ge, consecutiveFrom_filter_lt] at htimes2
  have hpurge : sv.addAndPurge (CreateRgbdData inp.color inp.depth) sampled.1
      = ((((sv.series_.add (CreateFrame sv.series_.getEndTime
            (CreateRgbdData inp.color inp.depth) sampled.1)).purgeFrames
            ((counts.length : Int) - 10)).1.map (fun f => f.clusters)).flatten,
          ((sv.series_.add (CreateFrame sv.series_.getEndTime
            (CreateRgbdData inp.color inp.depth) sampled.1)).purgeFrames
            ((counts.length : Int) - 10)).2) := by
    unfold ContinuousSupervoxels.addAndPurge Timeseries.purge
    simp only [hend1, hbefore]
  rw [hpurge] at hu hsv'
  simp only at hu hsv'
  have hstep := UpdateClusters_step _ _ _ hu
  generalize hP : ((sv.series_.add (CreateFrame sv.series_.getEndTime
      (CreateRgbdData inp.color inp.depth) sampled.1)).purgeFrames
      ((counts.length : Int) - 10)) = P at hsplit htimes2 hu hsv' hstep
  have hlenP : P.1.length = purgedCount (counts.length + 1) - purgedCount counts.length := by
    have := congrArg List.length htimes2.2
    simp only [List.length_map, consecutiveFrom, List.length_range] at this
    rw [this]
    omega
  have hframes1 : sv.series_.frames ++
      [CreateFrame counts.length (CreateRgbdData inp.color inp.depth) sampled.1]
      = P.1 ++ P.2.frames := by
    rw [← hsplit, hend]
    rfl
  have hrows1 : (sv.series_.frames ++
      [CreateFrame counts.length (CreateRgbdData inp.color inp.depth) sampled.1]).map
        (fun f => f.clusters.map Cluster.ptr)
      = (keyRows (counts ++ [sampled.1.length])).drop (purgedCount counts.length) := by
    rw [List.map_append, hinv.active, keyRows_append,
      List.drop_append_of_le_length (by rw [keyRows_length]; exact hL)]
    simp only [List.map_cons, List.map_nil, CreateFrame_ptr]
  have hP1 : P.1 = (P.1 ++ P.2.frames).take
      (purgedCount (counts.length + 1) - purgedCount counts.length) := by
    rw [← hlenP, List.take_left']
    rfl
  have hP2 : P.2.frames = (P.1 ++ P.2.frames).drop
      (purgedCount (counts.length + 1) - purgedCount counts.length) := by
    rw [← hlenP, List.drop_left']
    rfl
  refine ⟨P.1, P.2.frames, hframes1, hlenP, ?_, ?_, ?_, ?_⟩
  · intro f hf
    have hmem : f ∈ sv.series_.frames ++
        [CreateFrame counts.length (CreateRgbdData inp.color inp.depth) sampled.1] := by
      rw [hframes1]
      exact List.mem_append_left _ hf
    rcases List.mem_append.mp hmem with h1 | h1
    · exact h1
    · exfalso
      simp only [List.mem_singleton] at h1
      have hft : f.time ∈ P.1.map (fun f => f.time) := List.mem_map_of_mem _ hf
      rw [htimes2.2, mem_consecutiveFrom] at hft
      rw [h1] at hft
      simp only [CreateFrame] at hft
      clear hL3
      omega
  · rw [hsv']
  · rw [hsv']
    exact hstep
  · constructor
    · rw [hsv']
      simp only [Timeseries.times, List.length_append, List.length_singleton]
      rw [FramesStep_times _ _ hstep]
      have := htimes2.1
      simp only [Timeseries.times] at this
      rw [this, ← hL3]
      congr 1
      omega
    · rw [hsv']
      simp only [List.map_append, List.length_append, List.length_singleton, List.map_flatten,
        List.map_map]
      rw [hinv.inactive]
      have e1 : (keyRows counts).take (purgedCount counts.length)
          = (keyRows (counts ++ [sampled.1.length])).take (purgedCount counts.length) := by
        rw [keyRows_append, List.take_append_of_le_length (by rw [keyRows_length]; exact hL)]
      have e2 : P.1.map ((fun l => l.map Cluster.ptr) ∘ fun f => f.clusters)
          = ((keyRows (counts ++ [sampled.1.length])).drop (purgedCount counts.length)).take
              (purgedCount (counts.length + 1) - purgedCount counts.length) := by
        rw [← hrows1, hframes1, ← List.map_take, ← hP1]
        rfl
      have e3 : purgedCount (counts.length + 1)
          = purgedCount counts.length
            + (purgedCount (counts.length + 1) - purgedCount counts.length) := by omega
      rw [e1, e2]
      conv_rhs => rw [e3, List.take_add, List.flatten_append]
    · rw [hsv']
      simp only [List.length_append, List.length_singleton]
      rw [FramesStep_ptrs _ _ hstep]
      have e3 : purgedCount (counts.length + 1)
          = purgedCount counts.length
            + (purgedCount (counts.length + 1) - purgedCount counts.length) := by omega
      conv_rhs => rw [e3, ← List.drop_drop, ← hrows1, hframes1, ← List.map_drop, ← hP2]

/-! ## Auxiliary lemmas: runs of `step` -/

theorem After_start (sv0 : ContinuousSupervoxels) (rows cols : Int) :
    (sv0.start rows cols).After [] := by
  constructor <;> rfl

theorem steps_cons (ops : FloatOps) (sv : ContinuousSupervoxels) (inp : StepInput)
    (rest : List StepInput) :
    sv.steps ops (inp :: rest) =
      match sv.step ops inp with
      | none => none
      | some sv1 => sv1.steps ops rest := rfl

theorem steps_append (ops : FloatOps) :
    ∀ (ins1 ins2 : List StepInput) (sv : ContinuousSupervoxels),
      sv.steps ops (ins1 ++ ins2) =
        match sv.steps ops ins1 with
        | none => none
        | some sv1 => sv1.steps ops ins2
  | [], _, _ => rfl
  | inp :: ins1, ins2, sv => by
    rw [List.cons_append, steps_cons, steps_cons]
    cases sv.step ops inp with
    | none => rfl
    | some sv1 => exact steps_append ops ins1 ins2 sv1

theorem createdCounts_cons (ops : FloatOps) (sv sv1 : ContinuousSupervoxels) (inp : StepInput)
    (rest : List StepInput) (sampled : List Cluster × RandomEngine)
    (hs : sv.sampleNewClusters inp = some sampled) (h : sv.step ops inp = some sv1) :
    sv.createdCounts ops (inp :: rest) = sampled.1.length :: sv1.createdCounts ops rest := by
  simp only [ContinuousSupervoxels.createdCounts, hs, h]

theorem After_steps (ops : FloatOps) :
    ∀ (inputs : List StepInput) (sv sv' : ContinuousSupervoxels) (counts : List Nat),
      sv.After counts → sv.steps ops inputs = some sv' →
      sv'.After (counts ++ sv.createdCounts ops inputs) ∧
      (sv.createdCounts ops inputs).length = inputs.length
  | [], sv, sv', counts, hinv, h => by
    simp only [ContinuousSupervoxels.steps, Option.some.injEq] at h
    subst h
    simp only [ContinuousSupervoxels.createdCounts, List.append_nil, List.length_nil, and_true]
    exact hinv
  | inp :: rest, sv, sv', counts, hinv, h => by
    rw [steps_cons] at h
    cases h1 : sv.step ops inp with
    | none => simp [h1] at h
    | some sv1 =>
      simp only [h1] at h
      obtain ⟨sampled, -, hs, -, -⟩ := step_some ops sv sv1 inp h1
      obtain ⟨-, -, -, -, -, -, -, hinv1⟩ := step_shape ops sv sv1 inp counts sampled hinv hs h1
      obtain ⟨h2, h3⟩ := After_steps ops rest sv1 sv' _ hinv1 h
      rw [createdCounts_cons ops sv sv1 inp rest sampled hs h1]
      refine ⟨?_, by simp [h3]⟩
      rw [List.append_assoc, List.singleton_append] at h2
      exact h2

/-- The state after a run of `step` calls that follows `start`. -/
theorem After_run (ops : FloatOps) (sv0 sv : ContinuousSupervoxels) (rows cols : Int)
    (inputs : List StepInput) (h : (sv0.start rows cols).steps ops inputs = some sv) :
    sv.After ((sv0.start rows cols).createdCounts ops inputs) ∧
    ((sv0.start rows cols).createdCounts ops inputs).length = inputs.length := by
  have := After_steps ops inputs _ sv [] (After_start sv0 rows cols) h
  simpa using this

theorem After_getEndTime (sv : ContinuousSupervoxels) (counts : List Nat) (h : sv.After counts) :
    sv.series_.getEndTime = counts.length := by
  have hL := purgedCount_eq counts.length
  rw [getEndTime_consecutive _ _ _ h.times (by omega)]
  omega

theorem intRange_eq_consecutiveFrom (a b : Int) :
    intRange a b = consecutiveFrom a (b + 1 - a).toNat := rfl

theorem getEndTime_consecutive_succ (ts : Timeseries) (b : Int) (n : Nat)
    (h : ts.times = consecutiveFrom b (n + 1)) :
    ts.getEndTime = b + n + 1 ∧ ts.getBeginTime = b := by
  constructor
  · rw [getEndTime_eq, h, consecutiveFrom_append, List.getLast?_append]
    simp only [List.getLast?_singleton, Option.or]
  · rw [getBeginTime_eq, h, consecutiveFrom_succ]
    rfl

theorem UpdateClusterAssignment_isSome (frames : List Frame) (hne : frames ≠ []) :
    ∃ frames', UpdateClusterAssignment frames = some frames' := by
  unfold UpdateClusterAssignment ClusterBox
  have : frames.isEmpty = false := by
    cases frames with
    | nil => exact absurd rfl hne
    | cons _ _ => rfl
  simp only [this, Bool.false_eq_true, if_false]
  exact ⟨_, rfl⟩

theorem UpdateClusterCenters_isSome (frames : List Frame) (hne : frames ≠ []) :
    ∃ frames', UpdateClusterCenters frames = some frames' := by
  unfold UpdateClusterCenters ClusterBox
  cases frames with
  | nil => exact absurd rfl hne
  | cons front rest =>
    simp only [List.isEmpty_cons, Bool.false_eq_true, if_false]
    exact ⟨_, rfl⟩

theorem forall₂_ne_nil {α : Type} {R : α → α → Prop} {l l' : List α}
    (h : List.Forall₂ R l l') (hne : l ≠ []) : l' ≠ [] := by
  cases h with
  | nil => exact absurd rfl hne
  | cons _ _ => exact List.cons_ne_nil _ _

theorem UpdateClustersLoop_isSome :
    ∀ (k : Nat) (frames : List Frame), frames ≠ [] →
      ∃ frames', UpdateClustersLoop k frames = some frames'
  | 0, frames, _ => ⟨frames, rfl⟩
  | k + 1, frames, hne => by
    obtain ⟨f1, h1⟩ := UpdateClusterAssignment_isSome frames hne
    have hne1 := forall₂_ne_nil (UpdateClusterAssignment_step _ _ h1) hne
    obtain ⟨f2, h2⟩ := UpdateClusterCenters_isSome f1 hne1
    have hne2 := forall₂_ne_nil (UpdateClusterCenters_step _ _ h2) hne1
    obtain ⟨f3, h3⟩ := UpdateClustersLoop_isSome k f2 hne2
    exact ⟨f3, by simp only [UpdateClustersLoop, h1, h2, h3]⟩

theorem getFrameRange_ne_nil (ts : Timeseries) (f : Frame) (rest : List Frame)
    (hfr : ts.frames = f :: rest) (t0 t1 : Int) (h0 : t0 ≤ f.time) (h1 : f.time < t1) :
    ts.getFrameRange t0 t1 ≠ [] := by
  have e0 : ¬ (f.time < t0) := by omega
  unfold Timeseries.getFrameRange
  rw [hfr]
  simp [List.dropWhile_cons, List.takeWhile_cons, e0, h1]

/-- The series of `step` after the purge, in a state reached from `start`. -/
theorem addAndPurge_times (sv : ContinuousSupervoxels) (counts : List Nat) (rgbd : RgbdData)
    (new_clusters : List Cluster) (hinv : sv.After counts) :
    (sv.addAndPurge rgbd new_clusters).2.times
      = consecutiveFrom (purgedCount (counts.length + 1))
          (counts.length + 1 - purgedCount (counts.length + 1)) := by
  have hL := purgedCount_eq counts.length
  have hL1 := purgedCount_eq (counts.length + 1)
  have hend := After_getEndTime sv counts hinv
  have htimes1 : (sv.series_.add (CreateFrame sv.series_.getEndTime rgbd new_clusters)).times
      = consecutiveFrom (purgedCount counts.length)
          (counts.length - purgedCount counts.length + 1) := by
    rw [consecutiveFrom_append, ← hinv.times, hend]
    simp only [Timeseries.add, Timeseries.times, List.map_append, List.map_cons, List.map_nil,
      CreateFrame, List.append_cancel_left_eq, List.cons.injEq, and_true]
    omega
  have hend1 := (getEndTime_consecutive_succ _ _ _ htimes1).1
  unfold ContinuousSupervoxels.addAndPurge Timeseries.purge
  simp only
  rw [(purgeFrames_times _ _).1, htimes1, consecutiveFrom_filter_ge, hend1]
  unfold CLUSTER_TIME_RADIUS
  congr 1
  · rw [hL, hL1]
    omega
  · rw [hL, hL1]
    omega

theorem UpdateClusters_isSome (sv : ContinuousSupervoxels) (counts : List Nat)
    (rgbd : RgbdData) (new_clusters : List Cluster) (hinv : sv.After counts) :
    ∃ series, UpdateClusters (activeTime (sv.addAndPurge rgbd new_clusters).2)
      (sv.addAndPurge rgbd new_clusters).2 = some series := by
  have ht := addAndPurge_times sv counts rgbd new_clusters hinv
  have hL1 := purgedCount_eq (counts.length + 1)
  generalize (sv.addAndPurge rgbd new_clusters).2 = ts at ht
  have hn : counts.length + 1 - purgedCount (counts.length + 1)
      = (counts.length - purgedCount (counts.length + 1)) + 1 := by omega
  rw [hn] at ht
  obtain ⟨hend, hbegin⟩ := getEndTime_consecutive_succ ts _ _ ht
  have hw : ts.getFrameRange (activeTime ts - CLUSTER_TIME_RADIUS)
      (activeTime ts + CLUSTER_TIME_RADIUS + 1) ≠ [] := by
    rw [consecutiveFrom_succ] at ht
    unfold Timeseries.times at ht
    cases hfr : ts.frames with
    | nil => rw [hfr] at ht; simp at ht
    | cons f rest =>
      rw [hfr] at ht
      simp only [List.map_cons, List.cons.injEq] at ht
      have hf := ht.1
      apply getFrameRange_ne_nil ts f rest hfr
      · unfold activeTime CLUSTER_TIME_RADIUS
        rw [hend, hbegin, hf]
        rcases max_cases (purgedCount (counts.length + 1) : Int)
          ((purgedCount (counts.length + 1) : Int)
            + ((counts.length - purgedCount (counts.length + 1) : Nat) : Int) + 1 - 5 - 1)
          with ⟨e, -⟩ | ⟨e, -⟩ <;> rw [e] <;> omega
      · unfold activeTime CLUSTER_TIME_RADIUS
        rw [hend, hbegin, hf]
        have := le_max_left (purgedCount (counts.length + 1) : Int)
          ((purgedCount (counts.length + 1) : Int)
            + ((counts.length - purgedCount (counts.length + 1) : Nat) : Int) + 1 - 5 - 1)
        omega
  obtain ⟨frames', hloop⟩ := UpdateClustersLoop_isSome CLUSTER_ITERATIONS _ hw
  unfold UpdateClusters
  simp only [hloop]
  exact ⟨_, rfl⟩

/-- In a state reached from `start`, `step` returns whenever its sampler does. -/
theorem step_isSome (ops : FloatOps) (sv : ContinuousSupervoxels) (counts : List Nat)
    (inp : StepInput) (sampled : List Cluster × RandomEngine) (hinv : sv.After counts)
    (hs : sv.sampleNewClusters inp = some sampled) :
    ∃ sv', sv.step ops inp = some sv' := by
  obtain ⟨series, hu⟩ := UpdateClusters_isSome sv counts
    (CreateRgbdData inp.color inp.depth) sampled.1 hinv
  unfold ContinuousSupervoxels.step
  simp only [hs, hu]
  exact ⟨_, rfl⟩

/-! ## Auxiliary lemmas: frames without a valid pixel -/

theorem CreateRgbdData_invalid (color : Image3ub) (depth : Image1ui16)
    (hz : ∀ i, depth.read i = 0) (x y : Int) :
    ((CreateRgbdData color depth).get x y).valid = false := by
  simp only [CreateRgbdData, ComputeRgbdDataNormals]
  split_ifs with hb
  · simp only [CreateRgbdPoint, hz]
    rfl
  · rfl

theorem ComputeFrameDensity_isZero (rgbd : RgbdData)
    (h : ∀ x y, (rgbd.get x y).valid = false) : (ComputeFrameDensity rgbd).isZero := by
  intro x y
  simp only [ComputeFrameDensity, h]
  split_ifs
  · exact absurd ‹False› id
  · rfl
  · rfl

theorem ComputeMipmap_isZero (data m : Mat) (h : ComputeMipmap data = some m)
    (hz : data.isZero) : m.isZero := by
  intro i j
  rw [(ComputeMipmap_some data m h).2.2.2.2 i j]
  split_ifs
  · rw [hz, hz, hz, hz]
    norm_num
  · rfl

theorem ComputeMipmapsLoop_isZero (min_size : Int) :
    ∀ (fuel : ℕ) (mm : List Mat) (q : Mat) (res : List Mat),
      (∀ m ∈ mm, m.isZero) → q.isZero →
      ComputeMipmapsLoop min_size fuel mm q = some res → ∀ m ∈ res, m.isZero := by
  intro fuel
  induction fuel with
  | zero => intro mm q res _ _ h; simp [ComputeMipmapsLoop] at h
  | succ fuel ih =>
    intro mm q res hmm hq h
    rw [ComputeMipmapsLoop_succ] at h
    split_ifs at h with hstop
    · simp only [Option.some.injEq] at h
      subst h
      exact hmm
    · cases hx : ComputeMipmap q with
      | none => simp [hx] at h
      | some x =>
        simp only [hx] at h
        have hxz := ComputeMipmap_isZero q x hx hq
        apply ih (mm ++ [x]) x res _ hxz h
        intro m hm
        rcases List.mem_append.mp hm with h' | h'
        · exact hmm m h'
        · simp only [List.mem_singleton] at h'
          rw [h']
          exact hxz

theorem getD_isZero (ms : List Mat) (h : ∀ m ∈ ms, m.isZero) (level : Nat) :
    (ms.getD level Mat.empty).isZero := by
  rw [List.getD_eq_getElem?_getD]
  cases hl : ms[level]? with
  | none => intro x y; rfl
  | some m => exact h m (List.getElem?_mem hl)

theorem cellValue_zero (mipmaps carry_mipmaps : List Mat) (h1 : ∀ m ∈ mipmaps, m.isZero)
    (h2 : ∀ m ∈ carry_mipmaps, m.isZero) (level x y : Nat) :
    cellValue mipmaps carry_mipmaps level x y = 0 := by
  unfold cellValue
  rw [getD_isZero mipmaps h1 level x y, getD_isZero carry_mipmaps h2 level x y]
  norm_num

theorem SampleLeaf_quiet (rgbd : RgbdData) (mipmaps : List Mat) (level x y : Nat)
    (st : SamplerState) (hv : cellValue mipmaps st.carry_mipmaps level x y = 0) :
    (SampleLeaf rgbd mipmaps level x y st).seeds = st.seeds ∧
    (SampleLeaf rgbd mipmaps level x y st).random_engine = st.random_engine := by
  unfold SampleLeaf
  simp only [hv, SampleLeafSeed]
  norm_num

theorem SampleDensityImplRec_quiet (rgbd : RgbdData) (mipmaps : List Mat) (level x y : Nat)
    (st : SamplerState) (hv : cellValue mipmaps st.carry_mipmaps level x y = 0) :
    (SampleDensityImplRec rgbd mipmaps level x y st).seeds = st.seeds ∧
    (SampleDensityImplRec rgbd mipmaps level x y st).random_engine = st.random_engine := by
  cases level with
  | zero => exact SampleLeaf_quiet rgbd mipmaps 0 x y st hv
  | succ level =>
    have hc : level + 1 ≤ 1 ∨ cellValue mipmaps st.carry_mipmaps (level + 1) x y ≤ 3 / 2 := by
      right
      rw [hv]
      norm_num
    simp only [SampleDensityImplRec, hc, if_true]
    exact SampleLeaf_quiet rgbd mipmaps (level + 1) x y st hv

theorem SampleDensityImpl_quiet (rgbd : RgbdData) (density : Mat) (g : RandomEngine)
    (hr : density.rows % 2 = 0) (hc : density.cols % 2 = 0) (hz : density.isZero) :
    SampleDensityImpl rgbd density g = some ([], g) := by
  obtain ⟨mipmaps, hmm⟩ := ComputeMipmaps_isSome density 1 hr hc (le_refl 1)
  have hzero : ∀ m ∈ mipmaps, m.isZero := by
    apply ComputeMipmapsLoop_isZero 1 _ [density] density mipmaps _ hz hmm
    intro m hm
    simp only [List.mem_singleton] at hm
    rw [hm]
    exact hz
  unfold SampleDensityImpl
  simp only [hmm]
  have hcarry : ∀ m ∈ (match mipmaps with
      | [] => ([] : List Mat)
      | _ :: rest => Mat.empty :: rest.map (fun (m : Mat) => Mat.Zero m.rows m.cols)),
      m.isZero := by
    intro m hm
    cases mipmaps with
    | nil => simp at hm
    | cons m0 rest =>
      simp only [List.mem_cons, List.mem_map] at hm
      rcases hm with h | ⟨a, -, h⟩
      · rw [h]; intro x y; rfl
      · rw [← h]; intro x y; rfl
  have hq := SampleDensityImplRec_quiet rgbd mipmaps (mipmaps.length - 1) 0 0
    ⟨[], _, g⟩ (cellValue_zero mipmaps _ hzero hcarry _ 0 0)
  simp only at hq
  rw [hq.1, hq.2]

theorem sampleDensity_isZero (sv : ContinuousSupervoxels) (target : Mat)
    (hq : sv.is_first_ = true ∨ sv.last_density_.isZero) (hz : target.isZero) :
    (sv.sampleDensity target).isZero ∧ (sv.sampleDensity target).rows = target.rows ∧
    (sv.sampleDensity target).cols = target.cols := by
  unfold ContinuousSupervoxels.sampleDensity
  by_cases h1 : sv.is_first_ = true
  · simp only [h1, if_true]
    exact ⟨hz, trivial, trivial⟩
  · have hl : sv.last_density_.isZero := by
      rcases hq with h | h
      · exact absurd h h1
      · exact h
    simp only [h1, Bool.false_eq_true, if_false]
    refine ⟨?_, rfl, rfl⟩
    intro x y
    simp only [Mat.sub, Mat.smul, hz x y, hl x y]
    norm_num

theorem sampleNewClusters_quiet (sv : ContinuousSupervoxels) (inp : StepInput)
    (hq : sv.is_first_ = true ∨ sv.last_density_.isZero) (hz : inp.zeroDepth)
    (he : inp.evenDims) :
    sv.sampleNewClusters inp = some ([], sv.random_engine) := by
  have h1 := ComputeFrameDensity_isZero _ (CreateRgbdData_invalid inp.color inp.depth hz)
  obtain ⟨h2, h3, h4⟩ := sampleDensity_isZero sv _ hq h1
  unfold ContinuousSupervoxels.sampleNewClusters SampleClustersFromDensity
  simp only
  rw [SampleDensityImpl_quiet _ _ _ (by rw [h3]; exact he.1) (by rw [h4]; exact he.2) h2]
  rfl

theorem ComputeClusterDensity_nil (ops : FloatOps) (rows cols : Nat) :
    (ComputeClusterDensity ops rows cols []).isZero := by
  intro x y
  rfl

theorem forall₂_nil_of_left {α : Type} {R : α → α → Prop} {l : List α}
    (h : List.Forall₂ R [] l) : l = [] := by
  cases h
  rfl

theorem FramesStep_clusters_nil (l l' : List Frame) (h : List.Forall₂ FrameStep l l')
    (hl : ∀ f ∈ l, f.clusters = []) : ∀ f ∈ l', f.clusters = [] := by
  induction h with
  | nil => intro f hf; simp at hf
  | @cons a b l1 l2 h1 _ ih =>
    intro f hf
    rcases List.mem_cons.mp hf with e | e
    · have ha := hl a (List.mem_cons_self _ _)
      have h2 := h1.2.2
      rw [ha] at h2
      rw [e]
      exact forall₂_nil_of_left h2
    · exact ih (fun g hg => hl g (List.mem_cons_of_mem _ hg)) f e

theorem flatten_clusters_nil (l : List Frame) (hl : ∀ f ∈ l, f.clusters = []) :
    (l.map (fun f => f.clusters)).flatten = [] := by
  induction l with
  | nil => rfl
  | cons a l ih =>
    simp only [List.map_cons, List.flatten_cons, hl a (List.mem_cons_self _ _), List.nil_append]
    exact ih (fun g hg => hl g (List.mem_cons_of_mem _ hg))

theorem numActiveClusters_eq (sv : ContinuousSupervoxels) :
    sv.numActiveClusters = (sv.series_.frames.map (fun f => f.clusters)).flatten.length := by
  unfold ContinuousSupervoxels.numActiveClusters
  have hgen : ∀ (l : List Frame) (a : Nat),
      l.foldl (fun a f => a + f.clusters.length) a
        = a + (l.map (fun f => f.clusters)).flatten.length := by
    intro l
    induction l with
    | nil => intro a; rfl
    | cons f l ih =>
      intro a
      simp only [List.foldl_cons, List.map_cons, List.flatten_cons, List.length_append, ih]
      omega
  rw [hgen]
  omega

/-- One call of `step` on an all-zero depth image of even dimensions, in a state without
clusters reached from `start`. -/
theorem quiet_step (ops : FloatOps) (sv : ContinuousSupervoxels) (counts : List Nat)
    (inp : StepInput) (hinv : sv.After counts) (hq : sv.quiet) (hz : inp.zeroDepth)
    (he : inp.evenDims) :
    ∃ sv', sv.step ops inp = some sv' ∧ sv'.quiet ∧ sv'.After (counts ++ [0]) ∧
      sv.sampleNewClusters inp = some ([], sv.random_engine) := by
  have hs := sampleNewClusters_quiet sv inp hq.1 hz he
  obtain ⟨sv', hstep⟩ := step_isSome ops sv counts inp _ hinv hs
  obtain ⟨purged, retained, hframes, -, hpurged, hinactive, hret, hinv'⟩ :=
    step_shape ops sv sv' inp counts _ hinv hs hstep
  obtain ⟨sampled, series, hs', -, hsv'⟩ := step_some ops sv sv' inp hstep
  rw [hs] at hs'
  simp only [Option.some.injEq] at hs'
  subst hs'
  refine ⟨sv', hstep, ⟨?_, ?_, ?_⟩, hinv', hs⟩
  · right
    rw [hsv']
    simp only
    unfold ContinuousSupervoxels.updateLastDensity
    split_ifs
    · exact ComputeClusterDensity_nil ops _ _
    · intro x y
      have hl : sv.last_density_.isZero := by
        rcases hq.1 with h | h
        · contradiction
        · exact h
      simp only [Mat.add, Mat.smul, hl x y, ComputeClusterDensity_nil ops _ _ x y]
      norm_num
  · rw [hinactive, hq.2.1, flatten_clusters_nil purged (fun f hf => hq.2.2 f (hpurged f hf))]
    rfl
  · apply FramesStep_clusters_nil retained _ hret
    intro f hf
    have hmem : f ∈ sv.series_.frames ++
        [CreateFrame counts.length (CreateRgbdData inp.color inp.depth) []] := by
      rw [hframes]
      exact List.mem_append_right _ hf
    rcases List.mem_append.mp hmem with h1 | h1
    · exact hq.2.2 f h1
    · simp only [List.mem_singleton] at h1
      rw [h1]
      rfl

theorem quiet_start (sv0 : ContinuousSupervoxels) (rows cols : Int) :
    (sv0.start rows cols).quiet :=
  ⟨Or.inl rfl, rfl, fun _ hf => by simp [ContinuousSupervoxels.start] at hf⟩

theorem quiet_steps (ops : FloatOps) :
    ∀ (inputs : List StepInput) (sv : ContinuousSupervoxels) (counts : List Nat),
      sv.After counts → sv.quiet → (∀ inp ∈ inputs, inp.zeroDepth ∧ inp.evenDims) →
      ∃ sv', sv.steps ops inputs = some sv' ∧ sv'.quiet ∧
        sv.createdCounts ops inputs = List.replicate inputs.length 0
  | [], sv, _, _, hq, _ => ⟨sv, rfl, hq, rfl⟩
  | inp :: rest, sv, counts, hinv, hq, hin => by
    obtain ⟨hz, he⟩ := hin inp (List.mem_cons_self _ _)
    obtain ⟨sv1, h1, hq1, hinv1, hs⟩ := quiet_step ops sv counts inp hinv hq hz he
    obtain ⟨sv', h2, hq2, hc⟩ := quiet_steps ops rest sv1 _ hinv1 hq1
      (fun i hi => hin i (List.mem_cons_of_mem _ hi))
    refine ⟨sv', ?_, hq2, ?_⟩
    · rw [steps_cons, h1]
      exact h2
    · rw [createdCounts_cons ops sv sv1 inp rest _ hs h1, hc]
      rfl

theorem keyRows_getElem? (counts : List Nat) (t : Nat) :
    (keyRows counts)[t]? = counts[t]?.map (keyRow t) := by
  unfold keyRows
  rw [List.getElem?_map, List.getElem?_enum]
  cases counts[t]? <;> rfl

theorem mem_keyRows_take (counts : List Nat) (L t i : Nat) (ht : t < L)
    (hi : i < counts.getD t 0) :
    ((t : Int), i) ∈ ((keyRows counts).take L).flatten := by
  have hlt : t < counts.length := by
    by_contra hge
    rw [List.getD_eq_getElem?_getD, List.getElem?_eq_none (by omega)] at hi
    simp at hi
  have hrow : ((keyRows counts).take L)[t]? = some (keyRow t (counts.getD t 0)) := by
    rw [List.getElem?_take_of_lt ht, keyRows_getElem?, List.getD_eq_getElem?_getD,
      List.getElem?_eq_getElem hlt]
    rfl
  apply List.mem_flatten_of_mem (List.getElem?_mem hrow)
  unfold keyRow
  exact List.mem_map.mpr ⟨i, List.mem_range.mpr hi, rfl⟩

theorem createdCounts_append (ops : FloatOps) :
    ∀ (ins1 ins2 : List StepInput) (sv sv1 : ContinuousSupervoxels),
      sv.steps ops ins1 = some sv1 →
      sv.createdCounts ops (ins1 ++ ins2)
        = sv.createdCounts ops ins1 ++ sv1.createdCounts ops ins2
  | [], _, sv, sv1, h => by
    simp only [ContinuousSupervoxels.steps, Option.some.injEq] at h
    subst h
    rfl
  | inp :: ins1, ins2, sv, sv1, h => by
    rw [steps_cons] at h
    cases h1 : sv.step ops inp with
    | none => simp [h1] at h
    | some sv2 =>
      simp only [h1] at h
      obtain ⟨sampled, -, hs, -, -⟩ := step_some ops sv sv2 inp h1
      rw [List.cons_append, createdCounts_cons ops sv sv2 inp _ sampled hs h1,
        createdCounts_cons ops sv sv2 inp _ sampled hs h1,
        createdCounts_append ops ins1 ins2 sv2 sv1 h]
      rfl

/-- C3 (retention window): let `step` be called `n = inputs.length + 1` times after `start`
and let `sv'` be the state after the `n`-th call.  The frame created by the `n`-th call has
time `n-1` and is the newest frame of the series; the series holds exactly the frames with
times `max(0, n-11), ..., n-1`, at most 11 of them; the `n`-th call purges at most one
frame, a frame of the series before the call, and appends its clusters to the inactive
pool; and for every frame time `t < n-11` the clusters `(t,0), ..., (t,m-1)` created with
that frame are in the inactive pool. -/
theorem retention_window (ops : FloatOps) (sv0 sv sv' : ContinuousSupervoxels)
    (rows cols : Int) (inputs : List StepInput) (inp : StepInput)
    (hrun : (sv0.start rows cols).steps ops inputs = some sv)
    (hstep : sv.step ops inp = some sv') :
    sv.series_.getEndTime = inputs.length ∧
    (∃ new_frame, sv'.series_.frames.getLast? = some new_frame ∧
      new_frame.time = inputs.length) ∧
    sv'.series_.times
      = intRange (max 0 ((inputs.length : Int) + 1 - (2 * CLUSTER_TIME_RADIUS + 1)))
          (inputs.length : Int) ∧
    sv'.series_.frames.length ≤ 2 * 5 + 1 ∧
    (∃ purged : List Frame, purged.length ≤ 1 ∧ (∀ f ∈ purged, f ∈ sv.series_.frames) ∧
      sv'.inactive_clusters_
        = sv.inactive_clusters_ ++ (purged.map (fun f => f.clusters)).flatten ∧
      sv.series_.frames.length + 1 = purged.length + sv'.series_.frames.length) ∧
    (∀ t i : Nat, (t : Int) < (inputs.length : Int) + 1 - (2 * CLUSTER_TIME_RADIUS + 1) →
      i < ((sv0.start rows cols).createdCounts ops (inputs ++ [inp])).getD t 0 →
      ((t : Int), i) ∈ sv'.inactive_clusters_.map Cluster.ptr) := by
  obtain ⟨hinv, hlen⟩ := After_run ops sv0 sv rows cols inputs hrun
  obtain ⟨sampled, -, hs, -, -⟩ := step_some ops sv sv' inp hstep
  have hcounts : (sv0.start rows cols).createdCounts ops (inputs ++ [inp])
      = (sv0.start rows cols).createdCounts ops inputs ++ [sampled.1.length] := by
    rw [createdCounts_append ops inputs [inp] _ sv hrun,
      createdCounts_cons ops sv sv' inp [] sampled hs hstep]
    rfl
  rw [hcounts]
  generalize (sv0.start rows cols).createdCounts ops inputs = counts at hinv hlen
  obtain ⟨purged, retained, hframes, hplen, hpmem, hinactive, hret, hinv'⟩ :=
    step_shape ops sv sv' inp counts sampled hinv hs hstep
  have hL := purgedCount_eq counts.length
  have hL1 := purgedCount_eq (counts.length + 1)
  have htimes' := hinv'.times
  simp only [List.length_append, List.length_singleton] at htimes'
  have hsize : counts.length + 1 - purgedCount (counts.length + 1)
      = (counts.length - purgedCount (counts.length + 1)) + 1 := by omega
  have hflen : sv'.series_.frames.length
      = counts.length + 1 - purgedCount (counts.length + 1) := by
    have := congrArg List.length htimes'
    simpa [Timeseries.times, consecutiveFrom] using this
  refine ⟨?_, ?_, ?_, ?_, ?_, ?_⟩
  · rw [After_getEndTime sv counts hinv, hlen]
  · have hlast : sv'.series_.times.getLast? = some (inputs.length : Int) := by
      rw [htimes', hsize, consecutiveFrom_append, List.getLast?_append]
      simp only [List.getLast?_singleton, Option.or, Option.some.injEq]
      omega
    unfold Timeseries.times at hlast
    rw [List.getLast?_map] at hlast
    cases hfl : sv'.series_.frames.getLast? with
    | none => rw [hfl] at hlast; simp at hlast
    | some f =>
      rw [hfl] at hlast
      simp only [Option.map_some', Option.some.injEq] at hlast
      exact ⟨f, rfl, hlast⟩
  · rw [htimes', intRange_eq_consecutiveFrom]
    unfold CLUSTER_TIME_RADIUS
    congr 1 <;> omega
  · rw [hflen]
    omega
  · refine ⟨purged, by omega, hpmem, hinactive, ?_⟩
    have := congrArg List.length hframes
    simp only [List.length_append, List.length_singleton] at this
    rw [this, (List.Forall₂.length_eq hret)]
  · intro t i ht hi
    rw [hinv'.inactive]
    apply mem_keyRows_take _ _ t i _ hi
    simp only [List.length_append, List.length_singleton]
    unfold CLUSTER_TIME_RADIUS at ht
    omega

/-- Witness of C3: the second call of `step` on 64x64 frames whose depth image is all
zeros. -/
theorem retention_window_witness :
    ∃ sv sv', (freshEngine.start 64 64).steps ⟨fun _ => 1, fun x => x⟩ [zeroInput64] = some sv ∧
      sv.step ⟨fun _ => 1, fun x => x⟩ zeroInput64 = some sv' ∧
      sv'.series_.times = intRange (max 0 (((1 : Nat) : Int) + 1 - (2 * CLUSTER_TIME_RADIUS + 1)))
        ((1 : Nat) : Int) := by
  have hin : ∀ inp ∈ [zeroInput64], inp.zeroDepth ∧ inp.evenDims := by
    intro inp hinp
    rw [List.mem_singleton.mp hinp]
    exact ⟨fun _ => rfl, by decide, by decide⟩
  obtain ⟨sv, hrun, hq, -⟩ := quiet_steps ⟨fun _ => 1, fun x => x⟩ [zeroInput64]
    (freshEngine.start 64 64) [] (After_start freshEngine 64 64) (quiet_start freshEngine 64 64) hin
  obtain ⟨hinv, -⟩ := After_run ⟨fun _ => 1, fun x => x⟩ freshEngine sv 64 64 [zeroInput64] hrun
  obtain ⟨sv', hstep, -⟩ := quiet_step ⟨fun _ => 1, fun x => x⟩ sv _ zeroInput64 hinv hq
    (fun _ => rfl) ⟨by decide, by decide⟩
  exact ⟨sv, sv', hrun, hstep,
    (retention_window ⟨fun _ => 1, fun x => x⟩ freshEngine sv sv' 64 64 [zeroInput64] zeroInput64
      hrun hstep).2.2.1⟩

/-! ## Auxiliary lemmas: the pointers of all clusters -/

theorem keyRows_flatten_append (counts : List Nat) (m : Nat) :
    (keyRows (counts ++ [m])).flatten = (keyRows counts).flatten ++ keyRow counts.length m := by
  rw [keyRows_append, List.flatten_append]
  simp

theorem mem_keyRow (t m : Nat) (k : Int × Nat) : k ∈ keyRow t m ↔ k.1 = t ∧ k.2 < m := by
  unfold keyRow
  simp only [List.mem_map, List.mem_range]
  constructor
  · rintro ⟨i, hi, rfl⟩
    exact ⟨rfl, hi⟩
  · rintro ⟨h1, h2⟩
    exact ⟨k.2, h2, by rw [← h1]⟩

theorem nodup_keyRow (t m : Nat) : (keyRow t m).Nodup := by
  unfold keyRow
  apply List.Nodup.map _ (List.nodup_range m)
  intro a b h
  simpa using h

theorem mem_keyRows_flatten (counts : List Nat) (k : Int × Nat)
    (h : k ∈ (keyRows counts).flatten) : 0 ≤ k.1 ∧ k.1 < counts.length := by
  induction counts using List.reverseRecOn with
  | nil => simp [keyRows] at h
  | append_singleton counts m ih =>
    rw [keyRows_flatten_append, List.mem_append] at h
    rw [List.length_append, List.length_singleton]
    rcases h with h | h
    · have := ih h
      omega
    · have := (mem_keyRow _ _ _).mp h
      omega

theorem nodup_keyRows (counts : List Nat) : (keyRows counts).flatten.Nodup := by
  induction counts using List.reverseRecOn with
  | nil => simp [keyRows]
  | append_singleton counts m ih =>
    rw [keyRows_flatten_append, List.nodup_append]
    refine ⟨ih, nodup_keyRow _ _, ?_⟩
    intro k h1 h2
    have a := mem_keyRows_flatten counts k h1
    have b := (mem_keyRow _ _ _).mp h2
    omega

theorem length_keyRows (counts : List Nat) : (keyRows counts).flatten.length = counts.sum := by
  induction counts using List.reverseRecOn with
  | nil => simp [keyRows]
  | append_singleton counts m ih =>
    rw [keyRows_flatten_append, List.length_append, ih, List.sum_append]
    simp [keyRow]

/-- The pointers of all clusters of a state reached from `start`. -/
theorem After_all_ptr (sv : ContinuousSupervoxels) (counts : List Nat) (h : sv.After counts) :
    sv.getAllClusters.map Cluster.ptr = (keyRows counts).flatten := by
  unfold ContinuousSupervoxels.getAllClusters
  rw [List.map_append, h.inactive, List.map_flatten, List.map_map]
  have := h.active
  simp only [Function.comp_def] at this ⊢
  rw [this, ← List.flatten_append, List.take_append_drop]

/-- One call of `step` keeps every cluster in its place in the list of all clusters, as a
later version of itself, and appends the clusters of the new frame. -/
theorem step_all (ops : FloatOps) (sv sv' : ContinuousSupervoxels) (inp : StepInput)
    (counts : List Nat) (sampled : List Cluster × RandomEngine) (hinv : sv.After counts)
    (hs : sv.sampleNewClusters inp = some sampled) (h : sv.step ops inp = some sv') :
    List.Forall₂ ClusterStep
      (sv.getAllClusters ++
        (CreateFrame counts.length (CreateRgbdData inp.color inp.depth) sampled.1).clusters)
      sv'.getAllClusters := by
  obtain ⟨purged, retained, hframes, -, -, hinactive, hret, -⟩ :=
    step_shape ops sv sv' inp counts sampled hinv hs h
  have e : sv.getAllClusters ++
      (CreateFrame counts.length (CreateRgbdData inp.color inp.depth) sampled.1).clusters
      = (sv.inactive_clusters_ ++ (purged.map (fun f => f.clusters)).flatten)
        ++ (retained.map (fun f => f.clusters)).flatten := by
    unfold ContinuousSupervoxels.getAllClusters
    rw [List.append_assoc, List.append_assoc, ← List.flatten_append, ← List.map_append,
      ← hframes, List.map_append, List.flatten_append]
    simp
  rw [e]
  unfold ContinuousSupervoxels.getAllClusters
  rw [hinactive]
  exact List.rel_append (forall₂_refl_of ClusterStep_refl _) (FramesStep_clusters _ _ hret)

theorem forall₂_get? {α : Type} {R : α → α → Prop} :
    ∀ {l l' : List α}, List.Forall₂ R l l' → ∀ (i : Nat) (a : α), l.get? i = some a →
      ∃ b, l'.get? i = some b ∧ R a b
  | _, _, List.Forall₂.nil, _, _, h => by simp at h
  | _, _, List.Forall₂.cons h1 _, 0, a, h => by
    simp only [List.get?_cons_zero, Option.some.injEq] at h
    subst h
    exact ⟨_, rfl, h1⟩
  | _, _, List.Forall₂.cons _ t, i + 1, a, h => by
    simp only [List.get?_cons_succ] at h ⊢
    exact forall₂_get? t i a h

theorem get?_append_some {α : Type} (l r : List α) (i : Nat) (a : α) (h : l.get? i = some a) :
    (l ++ r).get? i = some a := by
  have hi : i < l.length := by
    by_contra hge
    rw [List.get?_eq_none.mpr (by omega)] at h
    simp at h
  rw [List.get?_eq_getElem?, List.getElem?_append_left hi, ← List.get?_eq_getElem?]
  exact h

/-- A run of `step` keeps every cluster in its place in the list of all clusters, as a
later version of itself. -/
theorem steps_persist (ops : FloatOps) :
    ∀ (inputs : List StepInput) (sv sv' : ContinuousSupervoxels) (counts : List Nat),
      sv.After counts → sv.steps ops inputs = some sv' →
      ∀ (i : Nat) (c : Cluster), sv.getAllClusters.get? i = some c →
        ∃ c', sv'.getAllClusters.get? i = some c' ∧ ClusterStep c c'
  | [], sv, sv', _, _, h, i, c, hc => by
    simp only [ContinuousSupervoxels.steps, Option.some.injEq] at h
    subst h
    exact ⟨c, hc, ClusterStep_refl c⟩
  | inp :: rest, sv, sv', counts, hinv, h, i, c, hc => by
    rw [steps_cons] at h
    cases h1 : sv.step ops inp with
    | none => simp [h1] at h
    | some sv1 =>
      simp only [h1] at h
      obtain ⟨sampled, -, hs, -, -⟩ := step_some ops sv sv1 inp h1
      obtain ⟨-, -, -, -, -, -, -, hinv1⟩ := step_shape ops sv sv1 inp counts sampled hinv hs h1
      have hall := step_all ops sv sv1 inp counts sampled hinv hs h1
      obtain ⟨c1, hc1, hr1⟩ := forall₂_get? hall i c (get?_append_some _ _ i c hc)
      obtain ⟨c', hc', hr'⟩ := steps_persist ops rest sv1 sv' _ hinv1 h i c1 hc1
      exact ⟨c', hc', ClusterStep_trans hr1 hr'⟩

theorem steps_inactive (ops : FloatOps) :
    ∀ (inputs : List StepInput) (sv sv' : ContinuousSupervoxels),
      sv.steps ops inputs = some sv' →
      ∃ rest, sv'.inactive_clusters_ = sv.inactive_clusters_ ++ rest
  | [], sv, sv', h => by
    simp only [ContinuousSupervoxels.steps, Option.some.injEq] at h
    subst h
    exact ⟨[], by simp⟩
  | inp :: rest, sv, sv', h => by
    rw [steps_cons] at h
    cases h1 : sv.step ops inp with
    | none => simp [h1] at h
    | some sv1 =>
      simp only [h1] at h
      obtain ⟨sampled, series, -, -, hsv1⟩ := step_some ops sv sv1 inp h1
      obtain ⟨r, hr⟩ := steps_inactive ops rest sv1 sv' h
      refine ⟨(sv.addAndPurge (CreateRgbdData inp.color inp.depth) sampled.1).1 ++ r, ?_⟩
      rw [hr, hsv1, List.append_assoc]

/-- C1 (tombstone monotonicity): an assignment pass, a center-update pass and any number of
rounds of both keep every cluster of every frame in its place with its time and id, and a
cluster that is invalid before is invalid after.  In a run of `step` calls that follows
`start`, a cluster that is invalid in some state is invalid in every later state: at the
same place of the list of all clusters (inactive pool, then retained frames) there is a
cluster with the same time and id that is invalid, and no cluster of the later state with
that time and id is valid. -/
theorem tombstone_monotonicity (ops : FloatOps) (sv0 sv sv' : ContinuousSupervoxels)
    (rows cols : Int) (inputs later : List StepInput)
    (hrun : (sv0.start rows cols).steps ops inputs = some sv)
    (hlater : sv.steps ops later = some sv') :
    (∀ (frames frames' : List Frame) (rounds : Nat),
      (UpdateClusterAssignment frames = some frames' ∨
        UpdateClusterCenters frames = some frames' ∨
        UpdateClustersLoop rounds frames = some frames') →
      ∀ (t k : Nat) (f : Frame) (c : Cluster), frames.get? t = some f →
        f.clusters.get? k = some c → c.valid = false →
        ∃ f' c', frames'.get? t = some f' ∧ f'.clusters.get? k = some c' ∧
          c'.time = c.time ∧ c'.id = c.id ∧ c'.valid = false) ∧
    (∀ (i : Nat) (c : Cluster), sv.getAllClusters.get? i = some c → c.valid = false →
      ∃ c', sv'.getAllClusters.get? i = some c' ∧ c'.time = c.time ∧ c'.id = c.id ∧
        c'.valid = false) ∧
    (∀ c ∈ sv.getAllClusters, c.valid = false →
      ∀ c' ∈ sv'.getAllClusters, c'.time = c.time → c'.id = c.id → c'.valid = false) := by
  obtain ⟨hinv, -⟩ := After_run ops sv0 sv rows cols inputs hrun
  have hinv' := (After_steps ops later sv sv' _ hinv hlater).1
  have hpos := steps_persist ops later sv sv' _ hinv hlater
  refine ⟨?_, ?_, ?_⟩
  · intro frames frames' rounds hpass t k f c hf hc hv
    have hstep : List.Forall₂ FrameStep frames frames' := by
      rcases hpass with h | h | h
      · exact UpdateClusterAssignment_step _ _ h
      · exact UpdateClusterCenters_step _ _ h
      · exact UpdateClustersLoop_step _ _ _ h
    obtain ⟨f', hf', hff⟩ := forall₂_get? hstep t f hf
    obtain ⟨c', hc', hcc⟩ := forall₂_get? hff.2.2 k c hc
    exact ⟨f', c', hf', hc', hcc.1, hcc.2.1, hcc.2.2.2 hv⟩
  · intro i c hc hv
    obtain ⟨c', hc', hcc⟩ := hpos i c hc
    exact ⟨c', hc', hcc.1, hcc.2.1, hcc.2.2.2 hv⟩
  · intro c hc hv c' hc' ht hid
    obtain ⟨i, hi⟩ := List.mem_iff_get?.mp hc
    obtain ⟨c1, hc1, hcc⟩ := hpos i c hi
    have hnodup : (sv'.getAllClusters.map Cluster.ptr).Nodup := by
      rw [After_all_ptr sv' _ hinv']
      exact nodup_keyRows _
    have heq : c' = c1 := by
      apply List.inj_on_of_nodup_map hnodup hc' (List.get?_mem hc1)
      simp only [Cluster.ptr, ht, hid, hcc.1, hcc.2.1]
    rw [heq]
    exact hcc.2.2.2 hv

/-- C7 (purged clusters are frozen): every later run of `step` calls leaves every cluster
of the inactive pool in its place with all its fields, in the pool and in the result of
`getAllClusters`; the pool only grows at its end.  In a state reached from `start`, what
one call of `step` appends to the pool are the clusters of frames of the series before the
call, as they are before the call. -/
theorem purged_clusters_frozen (ops : FloatOps) (sv0 sv sv' : ContinuousSupervoxels)
    (rows cols : Int) (inputs later : List StepInput)
    (hrun : (sv0.start rows cols).steps ops inputs = some sv)
    (hlater : sv.steps ops later = some sv') :
    (∃ rest, sv'.inactive_clusters_ = sv.inactive_clusters_ ++ rest) ∧
    (∀ (i : Nat) (c : Cluster), sv.inactive_clusters_.get? i = some c →
      sv'.inactive_clusters_.get? i = some c ∧ sv'.getAllClusters.get? i = some c) ∧
    (∀ (inp : StepInput) (sv1 : ContinuousSupervoxels), sv.step ops inp = some sv1 →
      ∃ purged : List Frame, (∀ f ∈ purged, f ∈ sv.series_.frames) ∧
        sv1.inactive_clusters_
          = sv.inactive_clusters_ ++ (purged.map (fun f => f.clusters)).flatten) := by
  obtain ⟨rest, hrest⟩ := steps_inactive ops later sv sv' hlater
  refine ⟨⟨rest, hrest⟩, ?_, ?_⟩
  · intro i c hc
    have h1 : sv'.inactive_clusters_.get? i = some c := by
      rw [hrest]
      exact get?_append_some _ _ i c hc
    refine ⟨h1, ?_⟩
    unfold ContinuousSupervoxels.getAllClusters
    exact get?_append_some _ _ i c h1
  · intro inp sv1 hstep
    obtain ⟨hinv, -⟩ := After_run ops sv0 sv rows cols inputs hrun
    obtain ⟨sampled, -, hs, -, -⟩ := step_some ops sv sv1 inp hstep
    obtain ⟨purged, -, -, -, hmem, hinactive, -, -⟩ :=
      step_shape ops sv sv1 inp _ sampled hinv hs hstep
    exact ⟨purged, hmem, hinactive⟩

theorem filter_length_one_of_nodup {α β : Type} [DecidableEq β] (f : α → β) (b : β) :
    ∀ (l : List α), (l.map f).Nodup → b ∈ l.map f →
      (l.filter (fun x => decide (f x = b))).length = 1
  | [], _, h => by simp at h
  | a :: l, hn, h => by
    rw [List.map_cons, List.nodup_cons] at hn
    by_cases hab : f a = b
    · have hnone : l.filter (fun x => decide (f x = b)) = [] := by
        rw [List.filter_eq_nil_iff]
        intro x hx hfx
        simp only [decide_eq_true_eq] at hfx
        exact hn.1 (by rw [hab, ← hfx]; exact List.mem_map_of_mem f hx)
      rw [List.filter_cons_of_pos (by simpa using hab), hnone]
      rfl
    · have hb : b ∈ l.map f := by
        rcases List.mem_cons.mp h with e | e
        · exact absurd e.symm hab
        · exact e
      rw [List.filter_cons_of_neg (by simpa using hab)]
      exact filter_length_one_of_nodup f b l hn.2 hb

/-- C6 (`getAllClusters`): in a state reached from `start` by `step` calls,
`getAllClusters` lists the clusters of the inactive pool and then the clusters of the
retained frames in frame order; the pointers `(time, id)` of the listed clusters are
exactly the `(t, i)` of the clusters created by the calls so far (call `t` created
`counts[t]` of them), each once; the length of the list is
`numActiveClusters() + numInactiveClusters()`, the total number of clusters created; and
once more than `2*R_T+1` calls have been made, each cluster `(0, i)` of frame 0 is once in
the inactive pool and in no retained frame. -/
theorem getAllClusters_complete (ops : FloatOps) (sv0 sv : ContinuousSupervoxels)
    (rows cols : Int) (inputs : List StepInput)
    (hrun : (sv0.start rows cols).steps ops inputs = some sv) :
    sv.getAllClusters
      = sv.inactive_clusters_ ++ (sv.series_.frames.map (fun f => f.clusters)).flatten ∧
    ((sv0.start rows cols).createdCounts ops inputs).length = inputs.length ∧
    sv.getAllClusters.map Cluster.ptr
      = (keyRows ((sv0.start rows cols).createdCounts ops inputs)).flatten ∧
    (sv.getAllClusters.map Cluster.ptr).Nodup ∧
    (∀ (t : Int) (i : Nat), (t, i) ∈ sv.getAllClusters.map Cluster.ptr ↔
      ∃ n : Nat, t = n ∧ i < ((sv0.start rows cols).createdCounts ops inputs).getD n 0) ∧
    sv.getAllClusters.length = sv.numActiveClusters + sv.numInactiveClusters ∧
    sv.numActiveClusters + sv.numInactiveClusters
      = ((sv0.start rows cols).createdCounts ops inputs).sum ∧
    ((2 * CLUSTER_TIME_RADIUS + 1).toNat < inputs.length →
      ∀ i : Nat, i < ((sv0.start rows cols).createdCounts ops inputs).getD 0 0 →
        (sv.inactive_clusters_.filter (fun c => decide (c.ptr = ((0 : Int), i)))).length = 1 ∧
        ∀ f ∈ sv.series_.frames, ∀ c ∈ f.clusters, c.ptr ≠ ((0 : Int), i)) := by
  obtain ⟨hinv, hlen⟩ := After_run ops sv0 sv rows cols inputs hrun
  generalize (sv0.start rows cols).createdCounts ops inputs = counts at hinv hlen
  have hptr := After_all_ptr sv counts hinv
  have hnodup := nodup_keyRows counts
  have hsplit : (keyRows counts).flatten
      = ((keyRows counts).take (purgedCount counts.length)).flatten
        ++ ((keyRows counts).drop (purgedCount counts.length)).flatten := by
    rw [← List.flatten_append, List.take_append_drop]
  have hall_len : sv.getAllClusters.length = sv.numActiveClusters + sv.numInactiveClusters := by
    rw [numActiveClusters_eq]
    unfold ContinuousSupervoxels.getAllClusters ContinuousSupervoxels.numInactiveClusters
    rw [List.length_append]
    omega
  refine ⟨rfl, hlen, hptr, by rw [hptr]; exact hnodup, ?_, hall_len, ?_, ?_⟩
  · intro t i
    rw [hptr]
    constructor
    · intro hmem
      have hb := mem_keyRows_flatten counts (t, i) hmem
      refine ⟨t.toNat, by simp only at hb; omega, ?_⟩
      obtain ⟨row, hrow, hin⟩ := List.mem_flatten.mp hmem
      obtain ⟨n, hn⟩ := List.mem_iff_getElem?.mp hrow
      rw [keyRows_getElem?] at hn
      cases hcn : counts[n]? with
      | none => rw [hcn] at hn; simp at hn
      | some m =>
        rw [hcn] at hn
        simp only [Option.map_some', Option.some.injEq] at hn
        rw [← hn] at hin
        have hk := (mem_keyRow n m (t, i)).mp hin
        simp only at hk
        have htn : t.toNat = n := by omega
        rw [htn, List.getD_eq_getElem?_getD, hcn]
        exact hk.2
    · rintro ⟨n, rfl, hi⟩
      have hn : n < counts.length := by
        by_contra hge
        rw [List.getD_eq_getElem?_getD, List.getElem?_eq_none (by omega)] at hi
        simp at hi
      have := mem_keyRows_take counts counts.length n i hn hi
      rwa [List.take_of_length_le (by rw [keyRows_length])] at this
  · rw [← hall_len, ← List.length_map sv.getAllClusters Cluster.ptr, hptr, length_keyRows]
  · intro hslid i hi
    have hL := purgedCount_eq counts.length
    have hpos : 0 < purgedCount counts.length := by
      unfold CLUSTER_TIME_RADIUS at hslid
      have e : (2 * 5 + 1 : Int).toNat = 11 := by decide
      rw [e] at hslid
      omega
    have hmem : ((0 : Int), i) ∈ ((keyRows counts).take (purgedCount counts.length)).flatten := by
      have := mem_keyRows_take counts (purgedCount counts.length) 0 i hpos hi
      simpa using this
    rw [hsplit, List.nodup_append] at hnodup
    constructor
    · apply filter_length_one_of_nodup Cluster.ptr
      · rw [hinv.inactive]
        exact hnodup.1
      · rw [hinv.inactive]
        exact hmem
    · intro f hf c hc hcp
      have hc2 : c.ptr ∈ ((keyRows counts).drop (purgedCount counts.length)).flatten := by
        rw [← hinv.active]
        exact List.mem_flatten_of_mem (List.mem_map_of_mem _ hf) (List.mem_map_of_mem _ hc)
      rw [hcp] at hc2
      exact hnodup.2.2 hmem hc2

/-! ## Auxiliary lemmas: `step` returns on frames of even dimensions -/

theorem SampleDensityImpl_isSome (rgbd : RgbdData) (density : Mat) (g : RandomEngine)
    (hr : density.rows % 2 = 0) (hc : density.cols % 2 = 0) :
    ∃ res, SampleDensityImpl rgbd density g = some res := by
  obtain ⟨mipmaps, hmm⟩ := ComputeMipmaps_isSome density 1 hr hc (le_refl 1)
  unfold SampleDensityImpl
  simp only [hmm]
  exact ⟨_, rfl⟩

theorem sampleDensity_dims (sv : ContinuousSupervoxels) (target : Mat) :
    (sv.sampleDensity target).rows = target.rows ∧
    (sv.sampleDensity target).cols = target.cols := by
  unfold ContinuousSupervoxels.sampleDensity
  split_ifs
  · exact ⟨rfl, rfl⟩
  · exact ⟨rfl, rfl⟩

theorem sampleNewClusters_isSome (sv : ContinuousSupervoxels) (inp : StepInput)
    (he : inp.evenDims) : ∃ sampled, sv.sampleNewClusters inp = some sampled := by
  obtain ⟨h1, h2⟩ := sampleDensity_dims sv
    (ComputeFrameDensity (CreateRgbdData inp.color inp.depth))
  obtain ⟨res, hres⟩ := SampleDensityImpl_isSome (CreateRgbdData inp.color inp.depth)
    (sv.sampleDensity (ComputeFrameDensity (CreateRgbdData inp.color inp.depth)))
    sv.random_engine (by rw [h1]; exact he.1) (by rw [h2]; exact he.2)
  unfold ContinuousSupervoxels.sampleNewClusters SampleClustersFromDensity
  simp only [hres]
  exact ⟨_, rfl⟩

/-- In a state reached from `start`, every run of `step` calls on frames of even dimensions
returns. -/
theorem steps_isSome (ops : FloatOps) :
    ∀ (inputs : List StepInput) (sv : ContinuousSupervoxels) (counts : List Nat),
      sv.After counts → (∀ inp ∈ inputs, inp.evenDims) →
      ∃ sv', sv.steps ops inputs = some sv'
  | [], sv, _, _, _ => ⟨sv, rfl⟩
  | inp :: rest, sv, counts, hinv, hin => by
    obtain ⟨sampled, hs⟩ := sampleNewClusters_isSome sv inp (hin inp (List.mem_cons_self _ _))
    obtain ⟨sv1, h1⟩ := step_isSome ops sv counts inp sampled hinv hs
    obtain ⟨-, -, -, -, -, -, -, hinv1⟩ := step_shape ops sv sv1 inp counts sampled hinv hs h1
    obtain ⟨sv', h2⟩ := steps_isSome ops rest sv1 _ hinv1
      (fun i hi => hin i (List.mem_cons_of_mem _ hi))
    exact ⟨sv', by rw [steps_cons, h1]; exact h2⟩

/-! ## Auxiliary lemmas: seeds are valid pixels -/

theorem FindValidSeedPointLoop_valid (rgbd : RgbdData) (sx0 sy0 range : Int) :
    ∀ (n : Nat) (g : RandomEngine),
      (FindValidSeedPointLoop rgbd sx0 sy0 range n g).1 = true →
      0 ≤ (FindValidSeedPointLoop rgbd sx0 sy0 range n g).2.1 ∧
      (FindValidSeedPointLoop rgbd sx0 sy0 range n g).2.1 < rgbd.rows ∧
      0 ≤ (FindValidSeedPointLoop rgbd sx0 sy0 range n g).2.2.1 ∧
      (FindValidSeedPointLoop rgbd sx0 sy0 range n g).2.2.1 < rgbd.cols ∧
      (rgbd.get (FindValidSeedPointLoop rgbd sx0 sy0 range n g).2.1
        (FindValidSeedPointLoop rgbd sx0 sy0 range n g).2.2.1).valid = true
  | 0, g, h => by simp [FindValidSeedPointLoop] at h
  | n + 1, g, h => by
    simp only [FindValidSeedPointLoop] at h ⊢
    split_ifs at h ⊢ with hc
    · exact hc
    · exact FindValidSeedPointLoop_valid rgbd sx0 sy0 range n _ h

theorem FindValidSeedPoint_valid (rgbd : RgbdData) (sx0 sy0 range : Int) (g : RandomEngine)
    (h : (FindValidSeedPoint rgbd sx0 sy0 range g).1 = true) :
    0 ≤ (FindValidSeedPoint rgbd sx0 sy0 range g).2.1 ∧
    (FindValidSeedPoint rgbd sx0 sy0 range g).2.1 < rgbd.rows ∧
    0 ≤ (FindValidSeedPoint rgbd sx0 sy0 range g).2.2.1 ∧
    (FindValidSeedPoint rgbd sx0 sy0 range g).2.2.1 < rgbd.cols ∧
    (rgbd.get (FindValidSeedPoint rgbd sx0 sy0 range g).2.1
      (FindValidSeedPoint rgbd sx0 sy0 range g).2.2.1).valid = true := by
  unfold FindValidSeedPoint at h ⊢
  simp only at h ⊢
  split_ifs at h ⊢ with hr
  · simp only [Bool.and_eq_true, decide_eq_true_eq] at h
    exact ⟨h.1.1, h.1.2.1, h.1.2.2.1, h.1.2.2.2, h.2⟩
  · exact FindValidSeedPointLoop_valid rgbd sx0 sy0 range 100 g h

theorem SampleLeafSeed_seedOk (rgbd : RgbdData) (level x y : Nat) (v : ℚ) (st : SamplerState)
    (h : ∀ s ∈ st.seeds, seedOk rgbd s) :
    ∀ s ∈ (SampleLeafSeed rgbd level x y v st).2.seeds, seedOk rgbd s := by
  unfold SampleLeafSeed
  simp only
  split_ifs with h1 h2
  · intro s hs
    simp only [List.mem_append, List.mem_singleton] at hs
    rcases hs with hs | hs
    · exact h s hs
    · obtain ⟨a, b, c, d, e⟩ := FindValidSeedPoint_valid rgbd _ _ _ _ h2
      exact ⟨_, _, hs, a, b, c, d, e⟩
  · exact h
  · exact h

theorem SampleLeaf_seedOk (rgbd : RgbdData) (mipmaps : List Mat) (level x y : Nat)
    (st : SamplerState) (h : ∀ s ∈ st.seeds, seedOk rgbd s) :
    ∀ s ∈ (SampleLeaf rgbd mipmaps level x y st).seeds, seedOk rgbd s := by
  rw [SampleLeaf_seeds]
  exact SampleLeafSeed_seedOk rgbd level x y _ st h

theorem SampleDensityImplRec_seedOk (rgbd : RgbdData) (mipmaps : List Mat) :
    ∀ (level x y : Nat) (st : SamplerState), (∀ s ∈ st.seeds, seedOk rgbd s) →
      ∀ s ∈ (SampleDensityImplRec rgbd mipmaps level x y st).seeds, seedOk rgbd s
  | 0, x, y, st, h => SampleLeaf_seedOk rgbd mipmaps 0 x y st h
  | level + 1, x, y, st, h => by
    simp only [SampleDensityImplRec]
    split_ifs with hc
    · exact SampleLeaf_seedOk rgbd mipmaps (level + 1) x y st h
    · apply SampleDensityImplRec_seedOk rgbd mipmaps level
      apply SampleDensityImplRec_seedOk rgbd mipmaps level
      apply SampleDensityImplRec_seedOk rgbd mipmaps level
      apply SampleDensityImplRec_seedOk rgbd mipmaps level
      exact h

/-- Every seed that `SampleDensityImpl` returns is a valid pixel of the grid. -/
theorem SampleDensityImpl_seedOk (rgbd : RgbdData) (density : Mat) (g g' : RandomEngine)
    (seeds : List Vec2) (h : SampleDensityImpl rgbd density g = some (seeds, g')) :
    ∀ s ∈ seeds, seedOk rgbd s := by
  unfold SampleDensityImpl at h
  cases hmm : ComputeMipmaps density 1 with
  | none => simp [hmm] at h
  | some mipmaps =>
    simp only [hmm, Option.some.injEq, Prod.mk.injEq] at h
    rw [← h.1]
    apply SampleDensityImplRec_seedOk
    intro s hs
    simp at hs

theorem truncToInt_intCast (n : Int) : truncToInt (n : ℚ) = n := by
  unfold truncToInt
  split_ifs
  · exact Int.floor_intCast n
  · exact Int.ceil_intCast n

theorem ClusterFromSeed_seedOk (rgbd : RgbdData) (s : Vec2) (h : seedOk rgbd s) :
    ClusterFromSeed rgbd s = seedCluster rgbd 0 0 s := by
  obtain ⟨sx, sy, rfl, h1, h2, h3, h4, h5⟩ := h
  have hv : rgbd.isValid sx sy = true := by
    unfold RgbdData.isValid
    simp [h1, h2, h3, h4, h5]
  unfold ClusterFromSeed seedCluster
  simp only [truncToInt_intCast, hv, Bool.not_true, Bool.false_eq_true, if_false]
  rfl

theorem CreateFrameClusters_get? (time : Int) :
    ∀ (cs : List Cluster) (i k : Nat) (c : Cluster), cs.get? k = some c →
      (CreateFrameClusters time i cs).get? k = some { c with time := time, id := i + k }
  | [], _, _, _, h => by simp at h
  | a :: cs, i, 0, c, h => by
    simp only [List.get?_cons_zero, Option.some.injEq] at h
    subst h
    rfl
  | a :: cs, i, k + 1, c, h => by
    simp only [List.get?_cons_succ] at h
    simp only [CreateFrameClusters, List.get?_cons_succ]
    rw [CreateFrameClusters_get? time cs (i + 1) k c h]
    have e : i + 1 + k = i + (k + 1) := by omega
    rw [e]

theorem CreateFrameClusters_length (time : Int) :
    ∀ (cs : List Cluster) (i : Nat), (CreateFrameClusters time i cs).length = cs.length
  | [], _ => rfl
  | _ :: cs, i => by
    simp only [CreateFrameClusters, List.length_cons, CreateFrameClusters_length time cs (i + 1)]

/-- The clusters that `step` samples: one per seed, and every seed is a valid pixel. -/
theorem sampleNewClusters_some (sv : ContinuousSupervoxels) (inp : StepInput)
    (sampled : List Cluster × RandomEngine) (h : sv.sampleNewClusters inp = some sampled) :
    ∃ seeds,
      SampleDensityImpl (CreateRgbdData inp.color inp.depth)
        (sv.sampleDensity (ComputeFrameDensity (CreateRgbdData inp.color inp.depth)))
        sv.random_engine = some (seeds, sampled.2) ∧
      (∀ s ∈ seeds, seedOk (CreateRgbdData inp.color inp.depth) s) ∧
      sampled.1 = seeds.map (seedCluster (CreateRgbdData inp.color inp.depth) 0 0) := by
  unfold ContinuousSupervoxels.sampleNewClusters SampleClustersFromDensity at h
  simp only at h
  cases hs : SampleDensityImpl (CreateRgbdData inp.color inp.depth)
      (sv.sampleDensity (ComputeFrameDensity (CreateRgbdData inp.color inp.depth)))
      sv.random_engine with
  | none => simp [hs] at h
  | some res =>
    simp only [hs, Option.some.injEq] at h
    have hok := SampleDensityImpl_seedOk _ _ _ res.2 res.1 hs
    refine ⟨res.1, ?_, hok, ?_⟩
    · rw [← h]
    · rw [← h]
      apply List.map_congr_left
      intro s hs'
      exact ClusterFromSeed_seedOk _ s (hok s hs')

/-- C14 (cluster instantiation): for the frame that `step` builds from the sampled seeds,
every seed is a pixel inside the grid whose point is valid (no seed has an invalid pixel, so
none is dropped), the cluster list has one cluster per seed, and the cluster at index `i`
has `pixel` = the seed, `color`, `position`, `normal` and `cluster_radius_px` copied from
the point at that pixel, `valid = true`, `id = i` and `time` = the time of the frame. -/
theorem cluster_instantiation (sv : ContinuousSupervoxels) (inp : StepInput)
    (sampled : List Cluster × RandomEngine) (h : sv.sampleNewClusters inp = some sampled) :
    sv.addAndPurge (CreateRgbdData inp.color inp.depth) sampled.1
      = ((sv.series_.add (CreateFrame sv.series_.getEndTime
            (CreateRgbdData inp.color inp.depth) sampled.1)).purge
          ((sv.series_.add (CreateFrame sv.series_.getEndTime
            (CreateRgbdData inp.color inp.depth) sampled.1)).getEndTime
            - 2 * CLUSTER_TIME_RADIUS - 1)) ∧
    (CreateFrame sv.series_.getEndTime (CreateRgbdData inp.color inp.depth) sampled.1).time
      = sv.series_.getEndTime ∧
    ∃ seeds,
      SampleDensityImpl (CreateRgbdData inp.color inp.depth)
        (sv.sampleDensity (ComputeFrameDensity (CreateRgbdData inp.color inp.depth)))
        sv.random_engine = some (seeds, sampled.2) ∧
      (∀ s ∈ seeds, ∃ sx sy : Int, s = ⟨(sx : ℚ), (sy : ℚ)⟩ ∧
        truncToInt s.x = sx ∧ truncToInt s.y = sy ∧
        (CreateRgbdData inp.color inp.depth).isValid sx sy = true) ∧
      (CreateFrame sv.series_.getEndTime (CreateRgbdData inp.color inp.depth)
        sampled.1).clusters.length = seeds.length ∧
      ∀ (i : Nat) (s : Vec2), seeds.get? i = some s →
        (CreateFrame sv.series_.getEndTime (CreateRgbdData inp.color inp.depth)
          sampled.1).clusters.get? i
          = some
            { time := sv.series_.getEndTime
              id := i
              valid := true
              pixel := s
              color := ((CreateRgbdData inp.color inp.depth).get
                (truncToInt s.x) (truncToInt s.y)).color
              position := ((CreateRgbdData inp.color inp.depth).get
                (truncToInt s.x) (truncToInt s.y)).position
              normal := ((CreateRgbdData inp.color inp.depth).get
                (truncToInt s.x) (truncToInt s.y)).normal
              cluster_radius_px := ((CreateRgbdData inp.color inp.depth).get
                (truncToInt s.x) (truncToInt s.y)).cluster_radius_px } := by
  obtain ⟨seeds, hs, hok, hcl⟩ := sampleNewClusters_some sv inp sampled h
  refine ⟨rfl, rfl, seeds, hs, ?_, ?_, ?_⟩
  · intro s hs'
    obtain ⟨sx, sy, rfl, h1, h2, h3, h4, h5⟩ := hok s hs'
    refine ⟨sx, sy, rfl, truncToInt_intCast sx, truncToInt_intCast sy, ?_⟩
    unfold RgbdData.isValid
    simp [h1, h2, h3, h4, h5]
  · simp only [CreateFrame, CreateFrameClusters_length, hcl, List.length_map]
  · intro i s hi
    have hget : sampled.1.get? i
        = some (seedCluster (CreateRgbdData inp.color inp.depth) 0 0 s) := by
      rw [hcl, List.get?_eq_getElem?, List.getElem?_map, ← List.get?_eq_getElem?, hi]
      rfl
    simp only [CreateFrame]
    rw [CreateFrameClusters_get? _ _ 0 i _ hget]
    simp only [seedCluster, Nat.zero_add]

/-- Witness of C14: the first `step` after `start` on a 16x8 frame of constant depth `2000`,
where the sampler emits the one seed `(4,4)` and the frame gets the one cluster made of
it. -/
theorem cluster_instantiation_witness :
    ∃ sampled seeds,
      (freshEngine.start 16 8).sampleNewClusters depthInput16x8 = some sampled ∧
      SampleDensityImpl (CreateRgbdData depthInput16x8.color depthInput16x8.depth)
        ((freshEngine.start 16 8).sampleDensity
          (ComputeFrameDensity (CreateRgbdData depthInput16x8.color depthInput16x8.depth)))
        (freshEngine.start 16 8).random_engine = some (seeds, sampled.2) ∧
      seeds = [⟨4, 4⟩] ∧
      (CreateFrame (freshEngine.start 16 8).series_.getEndTime
        (CreateRgbdData depthInput16x8.color depthInput16x8.depth) sampled.1).clusters.length
        = seeds.length := by
  have hsome : ((freshEngine.start 16 8).sampleNewClusters depthInput16x8).isSome = true := by
    decide!
  have hseeds : (SampleDensityImpl (CreateRgbdData depthInput16x8.color depthInput16x8.depth)
      ((freshEngine.start 16 8).sampleDensity
        (ComputeFrameDensity (CreateRgbdData depthInput16x8.color depthInput16x8.depth)))
      (freshEngine.start 16 8).random_engine).map (fun r => r.1) = some [⟨4, 4⟩] := by
    decide!
  obtain ⟨sampled, hs⟩ := Option.isSome_iff_exists.mp hsome
  obtain ⟨-, -, seeds, h1, -, h2, -⟩ :=
    cluster_instantiation (freshEngine.start 16 8) depthInput16x8 sampled hs
  rw [h1] at hseeds
  simp only [Option.map_some', Option.some.injEq] at hseeds
  exact ⟨sampled, seeds, hs, h1, hseeds, h2⟩

/-! ## Auxiliary lemmas: the projected radius -/

theorem CreateRgbdData_get_int (img_color : Image3ub) (img_depth : Image1ui16) (x y : Int)
    (hb : 0 ≤ x ∧ x < img_color.width ∧ 0 ≤ y ∧ y < img_color.height) :
    (CreateRgbdData img_color img_depth).get x y =
      { CreateRgbdPoint img_color img_depth x y (y * img_color.width + x).toNat with
        normal := ⟨0, 0, -1⟩ } := by
  simp only [CreateRgbdData, ComputeRgbdDataNormals]
  rw [if_pos hb, if_pos hb]

theorem CreateRgbdPoint_radius (img_color : Image3ub) (img_depth : Image1ui16) (x y : Int)
    (i : Nat) (hv : (CreateRgbdPoint img_color img_depth x y i).valid = true) :
    1 ≤ img_depth.read i ∧ img_depth.read i ≤ 2000 ∧
    (CreateRgbdPoint img_color img_depth x y i).cluster_radius_px
      = CLUSTER_RADIUS / (DEPTH_TO_Z * (img_depth.read i : ℚ) / PX_FOCAL) ∧
    (CreateRgbdPoint img_color img_depth x y i).cluster_radius_px * (img_depth.read i : ℚ)
      = 13200 := by
  rw [CreateRgbdPoint_valid] at hv
  have hd : 1 ≤ img_depth.read i ∧ img_depth.read i ≤ 2000 := by
    unfold depthValid DEPTH_MIN DEPTH_MAX at hv
    simp only [Bool.and_eq_true, bne_iff_ne, decide_eq_true_eq] at hv
    omega
  have hr : (CreateRgbdPoint img_color img_depth x y i).cluster_radius_px
      = CLUSTER_RADIUS / (DEPTH_TO_Z * (img_depth.read i : ℚ) / PX_FOCAL) := by
    unfold CreateRgbdPoint
    simp only [hv, if_true]
  refine ⟨hd.1, hd.2, hr, ?_⟩
  rw [hr]
  have hpos : (img_depth.read i : ℚ) ≠ 0 := by
    have : (1 : ℚ) ≤ (img_depth.read i : ℚ) := by exact_mod_cast hd.1
    linarith
  unfold CLUSTER_RADIUS DEPTH_TO_Z PX_FOCAL
  field_simp
  ring

/-- The radius at a valid pixel of the grid that `CreateRgbdData` builds. -/
theorem CreateRgbdData_radius (img_color : Image3ub) (img_depth : Image1ui16) (x y : Int)
    (hb : 0 ≤ x ∧ x < img_color.width ∧ 0 ≤ y ∧ y < img_color.height)
    (hv : ((CreateRgbdData img_color img_depth).get x y).valid = true) :
    1 ≤ img_depth.read (y * img_color.width + x).toNat ∧
    img_depth.read (y * img_color.width + x).toNat ≤ 2000 ∧
    ((CreateRgbdData img_color img_depth).get x y).cluster_radius_px
      = CLUSTER_RADIUS
        / (DEPTH_TO_Z * (img_depth.read (y * img_color.width + x).toNat : ℚ) / PX_FOCAL) ∧
    ((CreateRgbdData img_color img_depth).get x y).cluster_radius_px
      * (img_depth.read (y * img_color.width + x).toNat : ℚ) = 13200 := by
  rw [CreateRgbdData_get_int img_color img_depth x y hb] at hv ⊢
  exact CreateRgbdPoint_radius img_color img_depth x y _ hv

theorem forall₂_mem_right {α : Type} {R : α → α → Prop} :
    ∀ {l l' : List α}, List.Forall₂ R l l' → ∀ b ∈ l', ∃ a ∈ l, R a b
  | _, _, List.Forall₂.nil, _, h => by simp at h
  | _, _, List.Forall₂.cons h1 t, b, h => by
    rcases List.mem_cons.mp h with e | e
    · exact ⟨_, List.mem_cons_self _ _, by rw [e]; exact h1⟩
    · obtain ⟨a, ha, hr⟩ := forall₂_mem_right t b e
      exact ⟨a, List.mem_cons_of_mem _ ha, hr⟩

theorem CreateFrameClusters_radius (time : Int) (P : ℚ → Prop) :
    ∀ (cs : List Cluster) (i : Nat), (∀ c ∈ cs, P c.cluster_radius_px) →
      ∀ c ∈ CreateFrameClusters time i cs, P c.cluster_radius_px
  | [], _, _, c, hc => by simp [CreateFrameClusters] at hc
  | a :: cs, i, h, c, hc => by
    simp only [CreateFrameClusters, List.mem_cons] at hc
    rcases hc with e | e
    · rw [e]
      exact h a (List.mem_cons_self _ _)
    · exact CreateFrameClusters_radius time P cs (i + 1)
        (fun c' hc' => h c' (List.mem_cons_of_mem _ hc')) c e

/-- The clusters sampled from a frame of constant depth `d` have radius `13200 / d`. -/
theorem sampleNewClusters_radius (sv : ContinuousSupervoxels) (inp : StepInput) (d : Nat)
    (sampled : List Cluster × RandomEngine) (hd : inp.constDepth d)
    (h : sv.sampleNewClusters inp = some sampled) :
    ∀ c ∈ sampled.1, c.cluster_radius_px * (d : ℚ) = 13200 := by
  obtain ⟨seeds, -, hok, hcl⟩ := sampleNewClusters_some sv inp sampled h
  intro c hc
  rw [hcl, List.mem_map] at hc
  obtain ⟨s, hs, rfl⟩ := hc
  obtain ⟨sx, sy, rfl, h1, h2, h3, h4, h5⟩ := hok s hs
  simp only [seedCluster, truncToInt_intCast]
  have hb : 0 ≤ sx ∧ sx < inp.color.width ∧ 0 ≤ sy ∧ sy < inp.color.height :=
    ⟨h1, h2, h3, h4⟩
  have := (CreateRgbdData_radius inp.color inp.depth sx sy hb h5).2.2.2
  rw [hd] at this
  exact this

/-- A run of `step` calls on frames of constant depth `d` keeps every cluster at radius
`13200 / d`. -/
theorem steps_radius (ops : FloatOps) (d : Nat) :
    ∀ (inputs : List StepInput) (sv sv' : ContinuousSupervoxels) (counts : List Nat),
      sv.After counts → (∀ inp ∈ inputs, inp.constDepth d) →
      (∀ c ∈ sv.getAllClusters, c.cluster_radius_px * (d : ℚ) = 13200) →
      sv.steps ops inputs = some sv' →
      ∀ c ∈ sv'.getAllClusters, c.cluster_radius_px * (d : ℚ) = 13200
  | [], sv, sv', _, _, _, hall, h => by
    simp only [ContinuousSupervoxels.steps, Option.some.injEq] at h
    subst h
    exact hall
  | inp :: rest, sv, sv', counts, hinv, hin, hall, h => by
    rw [steps_cons] at h
    cases h1 : sv.step ops inp with
    | none => simp [h1] at h
    | some sv1 =>
      simp only [h1] at h
      obtain ⟨sampled, -, hs, -, -⟩ := step_some ops sv sv1 inp h1
      obtain ⟨-, -, -, -, -, -, -, hinv1⟩ := step_shape ops sv sv1 inp counts sampled hinv hs h1
      have hstep := step_all ops sv sv1 inp counts sampled hinv hs h1
      have hnew := sampleNewClusters_radius sv inp d sampled
        (hin inp (List.mem_cons_self _ _)) hs
      apply steps_radius ops d rest sv1 sv' _ hinv1
        (fun i hi => hin i (List.mem_cons_of_mem _ hi)) _ h
      intro c hc
      obtain ⟨a, ha, hr⟩ := forall₂_mem_right hstep c hc
      rw [hr.2.2.1]
      rcases List.mem_append.mp ha with e | e
      · exact hall a e
      · exact CreateFrameClusters_radius _ (fun r => r * (d : ℚ) = 13200) sampled.1 0 hnew a e

/-- C11 (projected radius): at a valid pixel with raw depth `d`,
`cluster_radius_px = CLUSTER_RADIUS / (DEPTH_TO_Z * d / PX_FOCAL)`, that is
`cluster_radius_px * d = 13200`, and `13.2` at `d = 1000`; a valid pixel of larger depth has
a strictly smaller radius; and every cluster created from a frame of constant depth, at its
creation and in every state of a run on such frames, has the radius of that depth. -/
theorem projected_radius (img_color : Image3ub) (img_depth : Image1ui16) (x y : Nat)
    (hx : x < img_color.width) (hy : y < img_color.height)
    (hv : ((CreateRgbdData img_color img_depth).get x y).valid = true) :
    ((CreateRgbdData img_color img_depth).get x y).cluster_radius_px
      = CLUSTER_RADIUS
        / (DEPTH_TO_Z * (img_depth.read (y * img_color.width + x) : ℚ) / PX_FOCAL) ∧
    ((CreateRgbdData img_color img_depth).get x y).cluster_radius_px
      * (img_depth.read (y * img_color.width + x) : ℚ) = 13200 ∧
    (img_depth.read (y * img_color.width + x) = 1000 →
      ((CreateRgbdData img_color img_depth).get x y).cluster_radius_px = 132 / 10) ∧
    (∀ (color2 : Image3ub) (depth2 : Image1ui16) (x2 y2 : Nat), x2 < color2.width →
      y2 < color2.height → ((CreateRgbdData color2 depth2).get x2 y2).valid = true →
      img_depth.read (y * img_color.width + x) < depth2.read (y2 * color2.width + x2) →
      ((CreateRgbdData color2 depth2).get x2 y2).cluster_radius_px
        < ((CreateRgbdData img_color img_depth).get x y).cluster_radius_px) ∧
    (∀ (sv : ContinuousSupervoxels) (inp : StepInput) (d : Nat)
      (sampled : List Cluster × RandomEngine), inp.constDepth d →
      sv.sampleNewClusters inp = some sampled →
      ∀ c ∈ (CreateFrame sv.series_.getEndTime (CreateRgbdData inp.color inp.depth)
          sampled.1).clusters,
        c.cluster_radius_px * (d : ℚ) = 13200 ∧
        c.cluster_radius_px = CLUSTER_RADIUS / (DEPTH_TO_Z * (d : ℚ) / PX_FOCAL)) ∧
    (∀ (ops : FloatOps) (sv0 sv : ContinuousSupervoxels) (rows cols : Int)
      (inputs : List StepInput) (d : Nat), (∀ inp ∈ inputs, inp.constDepth d) →
      (sv0.start rows cols).steps ops inputs = some sv →
      ∀ c ∈ sv.getAllClusters,
        c.cluster_radius_px * (d : ℚ) = 13200 ∧
        c.cluster_radius_px = CLUSTER_RADIUS / (DEPTH_TO_Z * (d : ℚ) / PX_FOCAL)) := by
  have hform : ∀ (r : ℚ) (d : Nat), r * (d : ℚ) = 13200 →
      r = CLUSTER_RADIUS / (DEPTH_TO_Z * (d : ℚ) / PX_FOCAL) := by
    intro r d h
    have hd : (d : ℚ) ≠ 0 := by
      intro h0
      rw [h0] at h
      norm_num at h
    unfold CLUSTER_RADIUS DEPTH_TO_Z PX_FOCAL
    field_simp
    linarith
  have hidx : ∀ (w : Nat) (a b : Nat), ((b : Int) * (w : Int) + (a : Int)).toNat = b * w + a := by
    intro w a b
    have : ((b : Int) * (w : Int) + (a : Int)) = ((b * w + a : Nat) : Int) := by
      push_cast; ring
    rw [this, Int.toNat_natCast]
  have hpix : ∀ (color : Image3ub) (depth : Image1ui16) (a b : Nat), a < color.width →
      b < color.height → ((CreateRgbdData color depth).get a b).valid = true →
      1 ≤ depth.read (b * color.width + a) ∧
      ((CreateRgbdData color depth).get a b).cluster_radius_px
        * (depth.read (b * color.width + a) : ℚ) = 13200 := by
    intro color depth a b ha hb hval
    have := CreateRgbdData_radius color depth a b ⟨by omega, by omega, by omega, by omega⟩ hval
    rw [hidx] at this
    exact ⟨this.1, this.2.2.2⟩
  obtain ⟨hd1, hr1⟩ := hpix img_color img_depth x y hx hy hv
  refine ⟨hform _ _ hr1, hr1, ?_, ?_, ?_, ?_⟩
  · intro h1000
    rw [h1000] at hr1
    push_cast at hr1
    linarith
  · intro color2 depth2 x2 y2 hx2 hy2 hv2 hlt
    obtain ⟨hd2, hr2⟩ := hpix color2 depth2 x2 y2 hx2 hy2 hv2
    have p1 : (0 : ℚ) < (img_depth.read (y * img_color.width + x) : ℚ) := by
      exact_mod_cast hd1
    have p2 : (0 : ℚ) < (depth2.read (y2 * color2.width + x2) : ℚ) := by
      exact_mod_cast hd2
    have plt : (img_depth.read (y * img_color.width + x) : ℚ)
        < (depth2.read (y2 * color2.width + x2) : ℚ) := by exact_mod_cast hlt
    have e1 : ((CreateRgbdData img_color img_depth).get x y).cluster_radius_px
        = 13200 / (img_depth.read (y * img_color.width + x) : ℚ) := by
      field_simp
      linarith
    have e2 : ((CreateRgbdData color2 depth2).get x2 y2).cluster_radius_px
        = 13200 / (depth2.read (y2 * color2.width + x2) : ℚ) := by
      field_simp
      linarith
    rw [e1, e2]
    exact div_lt_div_of_pos_left (by norm_num) p1 plt
  · intro sv inp d sampled hd hs c hc
    have hall := CreateFrameClusters_radius sv.series_.getEndTime
      (fun r => r * (d : ℚ) = 13200) sampled.1 0
      (sampleNewClusters_radius sv inp d sampled hd hs) c hc
    exact ⟨hall, hform _ _ hall⟩
  · intro ops sv0 sv rows cols inputs d hin hrun c hc
    have hall := steps_radius ops d inputs (sv0.start rows cols) sv []
      (After_start sv0 rows cols) hin (fun c hc => by
        simp [ContinuousSupervoxels.getAllClusters, ContinuousSupervoxels.start] at hc) hrun c hc
    exact ⟨hall, hform _ _ hall⟩

/-- Witness of C11: pixel `(0,0)` of a 64x64 frame of constant depth `1000`. -/
theorem projected_radius_witness :
    ((CreateRgbdData uniformInput64.color uniformInput64.depth).get (0 : Nat)
      (0 : Nat)).cluster_radius_px = 132 / 10 :=
  (projected_radius uniformInput64.color uniformInput64.depth 0 0 (by decide) (by decide)
    (by
      rw [CreateRgbdData_get uniformInput64.color uniformInput64.depth 0 0 (by decide)
        (by decide)]
      exact CreateRgbdPoint_valid _ _ _ _ _)).2.2.1 rfl

/-- C12 (frame density): `ComputeFrameDensity` returns a field of the dimensions of the
grid whose value at a pixel of the grid is `1 / (cluster_radius_px^2 * PI * |normal.z|)`
when the point is valid and `0` when it is invalid; `PI` is the constant `3.1415` of the
source. -/
theorem frame_density (rgbd : RgbdData) (x y : Nat) (hx : x < rgbd.rows) (hy : y < rgbd.cols) :
    (ComputeFrameDensity rgbd).rows = rgbd.rows ∧
    (ComputeFrameDensity rgbd).cols = rgbd.cols ∧
    PI = 31415 / 10000 ∧
    ((rgbd.get x y).valid = true →
      (ComputeFrameDensity rgbd).get x y
        = 1 / ((rgbd.get x y).cluster_radius_px ^ 2 * PI * |(rgbd.get x y).normal.z|)) ∧
    ((rgbd.get x y).valid = false → (ComputeFrameDensity rgbd).get x y = 0) := by
  refine ⟨rfl, rfl, rfl, ?_, ?_⟩
  · intro hv
    simp only [ComputeFrameDensity, hx, hy, and_self, if_true, hv, pow_two]
  · intro hv
    simp only [ComputeFrameDensity, hx, hy, and_self, if_true, hv, Bool.false_eq_true, if_false]

/-- Witness of C12: pixel `(0,0)` of the grid of a 64x64 frame of constant depth `1000`,
where the density is `1 / (13.2^2 * 3.1415)`. -/
theorem frame_density_witness :
    (ComputeFrameDensity (CreateRgbdData uniformInput64.color uniformInput64.depth)).get 0 0
      = 1 / ((132 / 10) ^ 2 * (31415 / 10000)) := by
  have hv : ((CreateRgbdData uniformInput64.color uniformInput64.depth).get (0 : Nat)
      (0 : Nat)).valid = true := by
    rw [CreateRgbdData_get uniformInput64.color uniformInput64.depth 0 0 (by decide) (by decide)]
    exact CreateRgbdPoint_valid _ _ _ _ _
  have h := (frame_density (CreateRgbdData uniformInput64.color uniformInput64.depth) 0 0
    (by decide) (by decide)).2.2.2.1 hv
  rw [h, CreateRgbdData_get uniformInput64.color uniformInput64.depth 0 0 (by decide)
    (by decide)]
  norm_num [CreateRgbdPoint, depthValid, Image1ui16.read, uniformInput64, DEPTH_MIN, DEPTH_MAX,
    CLUSTER_RADIUS, DEPTH_TO_Z, PX_FOCAL, PI]

/-- C15 (distance metric): `PointClusterDistance` is
`0.67*|color_p - color_c|^2 + 0.33*(m_t + m_x)` with
`m_t = max(0, |p_time - c.time| - R_T)^2 / R_T^2`, `m_x = |pos_p - pos_c|^2 / r^2` and
`r = CLUSTER_RADIUS + SPATIAL_TIME_INCREASE*|p_time - c.time|`; it is never negative; and
with `SPATIAL_TIME_INCREASE = 0` it has the same value at all point times within
`R_T = 5` of the cluster time. -/
theorem distance_metric (p_time : Int) (p : Point) (c : Cluster) :
    PointClusterDistance p_time p c
      = 67 / 100 * (p.color.sub c.color).squaredNorm
        + 33 / 100 *
          (((max 0 (|p_time - c.time| - CLUSTER_TIME_RADIUS) : Int) : ℚ) ^ 2
              / (CLUSTER_TIME_RADIUS : ℚ) ^ 2
            + (p.position.sub c.position).squaredNorm
              / (CLUSTER_RADIUS + SPATIAL_TIME_INCREASE * ((|p_time - c.time| : Int) : ℚ)) ^ 2) ∧
    0 ≤ PointClusterDistance p_time p c ∧
    SPATIAL_TIME_INCREASE = 0 ∧ CLUSTER_TIME_RADIUS = 5 ∧
    (|p_time - c.time| ≤ CLUSTER_TIME_RADIUS →
      PointClusterDistance p_time p c
        = 67 / 100 * (p.color.sub c.color).squaredNorm
          + 33 / 100 * ((p.position.sub c.position).squaredNorm / CLUSTER_RADIUS ^ 2)) ∧
    (∀ q_time : Int, |p_time - c.time| ≤ CLUSTER_TIME_RADIUS →
      |q_time - c.time| ≤ CLUSTER_TIME_RADIUS →
      PointClusterDistance q_time p c = PointClusterDistance p_time p c) := by
  have hsq : ∀ v : Vec3, 0 ≤ v.squaredNorm := by
    intro v
    unfold Vec3.squaredNorm
    nlinarith [mul_self_nonneg v.x, mul_self_nonneg v.y, mul_self_nonneg v.z]
  have hin : ∀ t : Int, |t - c.time| ≤ CLUSTER_TIME_RADIUS →
      PointClusterDistance t p c
        = 67 / 100 * (p.color.sub c.color).squaredNorm
          + 33 / 100 * ((p.position.sub c.position).squaredNorm / CLUSTER_RADIUS ^ 2) := by
    intro t ht
    have hm : max 0 (|t - c.time| - CLUSTER_TIME_RADIUS) = 0 := max_eq_left (by omega)
    unfold PointClusterDistance
    simp only [hm, SPATIAL_TIME_INCREASE]
    norm_num
    rw [pow_two]
  refine ⟨?_, ?_, rfl, rfl, hin p_time, ?_⟩
  · unfold PointClusterDistance
    simp only [CLUSTER_TIME_RADIUS]
    norm_num
    rw [pow_two, pow_two]
  · unfold PointClusterDistance
    simp only
    have h1 := hsq (p.color.sub c.color)
    have h2 := hsq (p.position.sub c.position)
    have h3 : (0 : ℚ) ≤ ((max 0 (|p_time - c.time| - CLUSTER_TIME_RADIUS) : Int) : ℚ)
        * ((max 0 (|p_time - c.time| - CLUSTER_TIME_RADIUS) : Int) : ℚ)
        / ((CLUSTER_TIME_RADIUS * CLUSTER_TIME_RADIUS : Int) : ℚ) := by
      apply div_nonneg (mul_self_nonneg _)
      unfold CLUSTER_TIME_RADIUS
      norm_num
    have h4 : (0 : ℚ) ≤ (p.position.sub c.position).squaredNorm
        / ((CLUSTER_RADIUS + SPATIAL_TIME_INCREASE * ((|p_time - c.time| : Int) : ℚ))
          * (CLUSTER_RADIUS + SPATIAL_TIME_INCREASE * ((|p_time - c.time| : Int) : ℚ))) :=
      div_nonneg h2 (mul_self_nonneg _)
    linarith
  · intro q_time hp hq
    rw [hin p_time hp, hin q_time hq]

/-- Witness of C15: point times `3` and `-2` for a cluster of time `0`. -/
theorem distance_metric_witness :
    PointClusterDistance (-2) Point.dflt Cluster.dflt
      = PointClusterDistance 3 Point.dflt Cluster.dflt :=
  (distance_metric 3 Point.dflt Cluster.dflt).2.2.2.2.2 (-2) (by decide) (by decide)

/-! ## Auxiliary lemmas: the identity of clusters -/

theorem sameClusterIdentity_of_step (l l' : List Frame) (h : List.Forall₂ FrameStep l l') :
    sameClusterIdentity l l' := by
  refine ⟨(List.Forall₂.length_eq h).symm, ?_⟩
  intro i f hf
  obtain ⟨f', hf', ht, -, hc⟩ := forall₂_get? h i f hf
  refine ⟨f', hf', ht, (List.Forall₂.length_eq hc).symm, ?_⟩
  intro j c hcj
  obtain ⟨c', hc', h1, h2, h3, -⟩ := forall₂_get? hc j c hcj
  refine ⟨c', hc', ?_⟩
  cases c
  cases c'
  simp only at h1 h2 h3
  simp only [h1, h2, h3]

/-- C18 (immutable cluster identity): `UpdateClusters` returns whenever its window of
frames is not empty, and the series it returns has as many frames, with the same times and
as many clusters each, every cluster being the cluster at the same place before the call
with only `valid`, `pixel`, `color`, `position` and `normal` replaced (same `time`, `id`
and `cluster_radius_px`); the same holds for one assignment pass, for one center-update
pass and for any number `k` of iterations of both on any non-empty list of frames. -/
theorem immutable_cluster_identity (time : Int) (ts : Timeseries)
    (hne : ts.getFrameRange (time - CLUSTER_TIME_RADIUS) (time + CLUSTER_TIME_RADIUS + 1) ≠ []) :
    (∃ ts', UpdateClusters time ts = some ts' ∧ sameClusterIdentity ts.frames ts'.frames) ∧
    (∀ frames : List Frame, frames ≠ [] →
      (∃ frames', UpdateClusterAssignment frames = some frames' ∧
        sameClusterIdentity frames frames') ∧
      (∃ frames', UpdateClusterCenters frames = some frames' ∧
        sameClusterIdentity frames frames') ∧
      ∀ k : Nat, ∃ frames', UpdateClustersLoop k frames = some frames' ∧
        sameClusterIdentity frames frames') := by
  constructor
  · obtain ⟨frames', hloop⟩ := UpdateClustersLoop_isSome CLUSTER_ITERATIONS _ hne
    have hu : UpdateClusters time ts = some (ts.setFrameRange (time - CLUSTER_TIME_RADIUS)
        (time + CLUSTER_TIME_RADIUS + 1) frames') := by
      unfold UpdateClusters
      simp only [hloop]
    exact ⟨_, hu, sameClusterIdentity_of_step _ _ (UpdateClusters_step time ts _ hu)⟩
  · intro frames hfr
    refine ⟨?_, ?_, ?_⟩
    · obtain ⟨frames', h⟩ := UpdateClusterAssignment_isSome frames hfr
      exact ⟨frames', h, sameClusterIdentity_of_step _ _ (UpdateClusterAssignment_step _ _ h)⟩
    · obtain ⟨frames', h⟩ := UpdateClusterCenters_isSome frames hfr
      exact ⟨frames', h, sameClusterIdentity_of_step _ _ (UpdateClusterCenters_step _ _ h)⟩
    · intro k
      obtain ⟨frames', h⟩ := UpdateClustersLoop_isSome k frames hfr
      exact ⟨frames', h, sameClusterIdentity_of_step _ _ (UpdateClustersLoop_step k _ _ h)⟩

/-- Witness of C18: `UpdateClusters` at time `0` on a series of one frame of time `0` that
holds one valid cluster. -/
theorem immutable_cluster_identity_witness :
    ∃ ts', UpdateClusters 0 ⟨[CreateFrame 0 rgbdInvalid2x2 [unitCluster]]⟩ = some ts' ∧
      sameClusterIdentity [CreateFrame 0 rgbdInvalid2x2 [unitCluster]] ts'.frames :=
  (immutable_cluster_identity 0 ⟨[CreateFrame 0 rgbdInvalid2x2 [unitCluster]]⟩
    (getFrameRange_ne_nil _ (CreateFrame 0 rgbdInvalid2x2 [unitCluster]) [] rfl _ _ (by decide)
      (by decide))).1

/-! ## Auxiliary lemmas: the active time -/

theorem activeTime_consecutive (ts : Timeseries) (n : Nat)
    (h : ts.times = consecutiveFrom (purgedCount (n + 1)) (n + 1 - purgedCount (n + 1))) :
    ts.getEndTime = (n : Int) + 1 ∧ ts.getBeginTime = max 0 ((n : Int) + 1 - 11) ∧
      activeTime ts = max 0 ((n : Int) + 1 - 6) := by
  have hL := purgedCount_eq (n + 1)
  have hn : n + 1 - purgedCount (n + 1) = (n - purgedCount (n + 1)) + 1 := by omega
  rw [hn] at h
  obtain ⟨hend, hbegin⟩ := getEndTime_consecutive_succ ts _ _ h
  have he : ts.getEndTime = (n : Int) + 1 := by rw [hend]; omega
  have hb : ts.getBeginTime = max 0 ((n : Int) + 1 - 11) := by
    rw [hbegin]
    rcases max_cases (0 : Int) ((n : Int) + 1 - 11) with ⟨e, -⟩ | ⟨e, -⟩ <;> rw [e] <;> omega
  refine ⟨he, hb, ?_⟩
  unfold activeTime CLUSTER_TIME_RADIUS
  rw [he, hb]
  simp only [max_def]
  split_ifs <;> omega

/-- C17 (active time), as the code has it: let `step` be called `n = inputs.length + 1`
times after `start`.  The refinement target of the `n`-th call is
`t = max(begin, end - R_T - 1) = max(0, n - 6)`, a retained frame time, with `end = n` and
`begin = max(0, n - 11)`.  From the sixth call on, `t + R_T = end - 1`, the frames
`t, t+1, ..., t+R_T` are all retained and `t` is the most recent frame time with such a
full lookahead.  In the first five calls no retained frame has a full lookahead, and
`t = begin = 0` is the oldest frame, with `t + R_T > end - 1`. -/
theorem active_time (ops : FloatOps) (sv0 sv sv' : ContinuousSupervoxels)
    (rows cols : Int) (inputs : List StepInput) (inp : StepInput)
    (sampled : List Cluster × RandomEngine)
    (hrun : (sv0.start rows cols).steps ops inputs = some sv)
    (hs : sv.sampleNewClusters inp = some sampled)
    (hstep : sv.step ops inp = some sv') :
    activeTime (sv.addAndPurge (CreateRgbdData inp.color inp.depth) sampled.1).2
      = activeTime sv'.series_ ∧
    activeTime sv'.series_
      = max sv'.series_.getBeginTime (sv'.series_.getEndTime - CLUSTER_TIME_RADIUS - 1) ∧
    sv'.series_.getEndTime = (inputs.length : Int) + 1 ∧
    sv'.series_.getBeginTime = max 0 ((inputs.length : Int) + 1 - 11) ∧
    activeTime sv'.series_ = max 0 ((inputs.length : Int) + 1 - 6) ∧
    activeTime sv'.series_ ∈ sv'.series_.times ∧
    (6 ≤ inputs.length + 1 →
      activeTime sv'.series_ + CLUSTER_TIME_RADIUS = sv'.series_.getEndTime - 1 ∧
      fullLookahead sv'.series_ (activeTime sv'.series_) ∧
      ∀ u : Int, fullLookahead sv'.series_ u → u ≤ activeTime sv'.series_) ∧
    (inputs.length + 1 < 6 →
      activeTime sv'.series_ = sv'.series_.getBeginTime ∧ activeTime sv'.series_ = 0 ∧
      sv'.series_.getEndTime - 1 < activeTime sv'.series_ + CLUSTER_TIME_RADIUS ∧
      ∀ u : Int, ¬ fullLookahead sv'.series_ u) := by
  obtain ⟨hinv, hlen⟩ := After_run ops sv0 sv rows cols inputs hrun
  generalize (sv0.start rows cols).createdCounts ops inputs = counts at hinv hlen
  obtain ⟨-, -, -, -, -, -, -, hinv'⟩ := step_shape ops sv sv' inp counts sampled hinv hs hstep
  have htimes' := hinv'.times
  simp only [List.length_append, List.length_singleton] at htimes'
  have hpre := addAndPurge_times sv counts (CreateRgbdData inp.color inp.depth) sampled.1 hinv
  rw [hlen] at htimes' hpre
  obtain ⟨he, hb, ht⟩ := activeTime_consecutive _ _ htimes'
  obtain ⟨-, -, ht0⟩ := activeTime_consecutive _ _ hpre
  have hL := purgedCount_eq (inputs.length + 1)
  have hmem : ∀ u : Int, u ∈ sv'.series_.times ↔
      max 0 ((inputs.length : Int) + 1 - 11) ≤ u ∧ u < (inputs.length : Int) + 1 := by
    intro u
    rw [htimes', mem_consecutiveFrom]
    rcases max_cases (0 : Int) ((inputs.length : Int) + 1 - 11) with ⟨e, h1⟩ | ⟨e, h1⟩ <;>
      rw [e] <;> constructor <;> intro h <;> omega
  refine ⟨by rw [ht0, ht], rfl, he, hb, ht, ?_, ?_, ?_⟩
  · rw [hmem, ht]
    rcases max_cases (0 : Int) ((inputs.length : Int) + 1 - 11) with ⟨e, h1⟩ | ⟨e, h1⟩ <;>
      rcases max_cases (0 : Int) ((inputs.length : Int) + 1 - 6) with ⟨e2, h2⟩ | ⟨e2, h2⟩ <;>
      rw [e, e2] <;> omega
  · intro h6
    have e2 : max 0 ((inputs.length : Int) + 1 - 6) = (inputs.length : Int) + 1 - 6 :=
      max_eq_right (by omega)
    rw [ht, he, e2]
    refine ⟨by unfold CLUSTER_TIME_RADIUS; omega, ?_, ?_⟩
    · intro k hk0 hk5
      rw [hmem]
      unfold CLUSTER_TIME_RADIUS at hk5
      rcases max_cases (0 : Int) ((inputs.length : Int) + 1 - 11) with ⟨e, h1⟩ | ⟨e, h1⟩ <;>
        rw [e] <;> omega
    · intro u hu
      have h5 := (hmem _).mp (hu CLUSTER_TIME_RADIUS (by decide) (le_refl _))
      unfold CLUSTER_TIME_RADIUS at h5
      omega
  · intro h6
    have e2 : max 0 ((inputs.length : Int) + 1 - 6) = 0 := max_eq_left (by omega)
    have e1 : max 0 ((inputs.length : Int) + 1 - 11) = 0 := max_eq_left (by omega)
    rw [ht, he, hb, e2, e1]
    refine ⟨rfl, rfl, by unfold CLUSTER_TIME_RADIUS; omega, ?_⟩
    intro u hu
    have h0 := (hmem _).mp (hu 0 (le_refl _) (by decide))
    have h5 := (hmem _).mp (hu CLUSTER_TIME_RADIUS (by decide) (le_refl _))
    rw [e1] at h0 h5
    unfold CLUSTER_TIME_RADIUS at h5
    omega

/-- Witness of C17: the first call of `step` after `start`, on a 64x64 frame whose depth
image is all zeros. -/
theorem active_time_witness :
    ∃ sv', (freshEngine.start 64 64).step ⟨fun _ => 1, fun x => x⟩ zeroInput64 = some sv' ∧
      activeTime sv'.series_ = max 0 ((([] : List StepInput).length : Int) + 1 - 6) := by
  obtain ⟨sv', hstep, -, -, hs⟩ := quiet_step ⟨fun _ => 1, fun x => x⟩ (freshEngine.start 64 64)
    [] zeroInput64 (After_start freshEngine 64 64) (quiet_start freshEngine 64 64)
    (fun _ => rfl) ⟨by decide, by decide⟩
  exact ⟨sv', hstep,
    (active_time ⟨fun _ => 1, fun x => x⟩ freshEngine (freshEngine.start 64 64) sv' 64 64 []
      zeroInput64 _ rfl hs hstep).2.2.2.2.1⟩

/-- Counterexample to C17 as stated: after the first call of `step` the target time is
`t = 0` and the series ends at `end = 1`, so `t + R_T = 5` is not `end - 1 = 0` and the
frame `t + 1` is not in the series. -/
theorem active_time_counterexample :
    ∃ sv', (freshEngine.start 64 64).step ⟨fun _ => 1, fun x => x⟩ zeroInput64 = some sv' ∧
      activeTime sv'.series_ = 0 ∧ sv'.series_.getEndTime = 1 ∧
      activeTime sv'.series_ + CLUSTER_TIME_RADIUS ≠ sv'.series_.getEndTime - 1 ∧
      activeTime sv'.series_ + 1 ∉ sv'.series_.times := by
  obtain ⟨sv', hstep, -, hinv, -⟩ := quiet_step ⟨fun _ => 1, fun x => x⟩
    (freshEngine.start 64 64) [] zeroInput64 (After_start freshEngine 64 64)
    (quiet_start freshEngine 64 64) (fun _ => rfl) ⟨by decide, by decide⟩
  have htimes := hinv.times
  obtain ⟨he, -, ht⟩ := activeTime_consecutive sv'.series_ 0 htimes
  have ht0 : activeTime sv'.series_ = 0 := by rw [ht]; decide
  have he1 : sv'.series_.getEndTime = 1 := by rw [he]; decide
  refine ⟨sv', hstep, ht0, he1, ?_, ?_⟩
  · rw [ht0, he1]
    decide
  · rw [ht0, htimes]
    decide

/-- C16 (assignment initialisation), as the code has it: the frame returned by
`CreateFrame` has an assignment grid of the dimensions of its point grid in which every
cell references no cluster and holds the distance `VERY_LARGE_DISTANCE = 1000000`, so that
the first visit of a cell assigns its cluster exactly when `PointClusterDistance` is below
`1000000`; this is the case whenever the time difference is at most `2*R_T`, the squared
colour distance at most `3` and the squared position distance at most `1000`. -/
theorem assignment_initialisation (time : Int) (rgbd : RgbdData) (clusters : List Cluster) :
    (CreateFrame time rgbd clusters).rgbd = rgbd ∧
    (CreateFrame time rgbd clusters).assignment.rows = (CreateFrame time rgbd clusters).rgbd.rows ∧
    (CreateFrame time rgbd clusters).assignment.cols = (CreateFrame time rgbd clusters).rgbd.cols ∧
    (∀ x y : Int,
      (CreateFrame time rgbd clusters).assignment.get x y = ⟨none, VERY_LARGE_DISTANCE⟩) ∧
    VERY_LARGE_DISTANCE = 1000000 ∧
    (∀ v : Visit,
      (AssignPoint v (CreateFrame time rgbd clusters)).assignment.get v.x v.y
        = if PointClusterDistance v.frame_time v.p v.c < 1000000
          then ⟨some v.c.ptr, PointClusterDistance v.frame_time v.p v.c⟩
          else ⟨none, VERY_LARGE_DISTANCE⟩) ∧
    (∀ (p_time : Int) (p : Point) (c : Cluster),
      |p_time - c.time| ≤ 2 * CLUSTER_TIME_RADIUS →
      (p.color.sub c.color).squaredNorm ≤ 3 →
      (p.position.sub c.position).squaredNorm ≤ 1000 →
      PointClusterDistance p_time p c < VERY_LARGE_DISTANCE) := by
  refine ⟨rfl, rfl, rfl, fun _ _ => rfl, rfl, ?_, ?_⟩
  · intro v
    unfold AssignPoint
    simp only [CreateFrame, VERY_LARGE_DISTANCE]
    split_ifs with h
    · simp only [Vector2D.set, and_self, if_true]
    · rfl
  · intro p_time p c ht hc hp
    have hD0 : (0 : Int) ≤ max 0 (|p_time - c.time| - CLUSTER_TIME_RADIUS) := le_max_left _ _
    have hD5 : max 0 (|p_time - c.time| - CLUSTER_TIME_RADIUS) ≤ 5 := by
      unfold CLUSTER_TIME_RADIUS at ht ⊢
      exact max_le (by decide) (by omega)
    unfold PointClusterDistance VERY_LARGE_DISTANCE
    simp only
    generalize max 0 (|p_time - c.time| - CLUSTER_TIME_RADIUS) = D at hD0 hD5
    have hq0 : (0 : ℚ) ≤ (D : ℚ) := by exact_mod_cast hD0
    have hq5 : (D : ℚ) ≤ 5 := by exact_mod_cast hD5
    have hDD : (D : ℚ) * D ≤ 25 := by nlinarith
    have h1 : (D : ℚ) * D / ((CLUSTER_TIME_RADIUS * CLUSTER_TIME_RADIUS : Int) : ℚ) ≤ 1 := by
      unfold CLUSTER_TIME_RADIUS
      rw [div_le_one (by norm_num)]
      norm_num
      exact hDD
    have h2 : (p.position.sub c.position).squaredNorm
        / ((CLUSTER_RADIUS + SPATIAL_TIME_INCREASE * ((|p_time - c.time| : Int) : ℚ))
          * (CLUSTER_RADIUS + SPATIAL_TIME_INCREASE * ((|p_time - c.time| : Int) : ℚ)))
        ≤ 1600000 := by
      unfold CLUSTER_RADIUS SPATIAL_TIME_INCREASE
      rw [div_le_iff₀ (by norm_num)]
      norm_num
      linarith
    linarith

/-- Counterexample to C16 as stated: a freshly created frame holds the distance `1000000`
in its cells, and the distance between the default point at time `10000` and the default
cluster of time `0` is not smaller, so that the visit leaves the cell without a cluster. -/
theorem assignment_initialisation_counterexample :
    (CreateFrame 10000 rgbdInvalid2x2 []).assignment.get 0 0 = ⟨none, 1000000⟩ ∧
    VERY_LARGE_DISTANCE ≤ PointClusterDistance 10000 Point.dflt Cluster.dflt ∧
    (AssignPoint ⟨Cluster.dflt, 0, 10000, 0, 0, Point.dflt⟩
      (CreateFrame 10000 rgbdInvalid2x2 [])).assignment.get 0 0 = ⟨none, 1000000⟩ := by
  have hd : VERY_LARGE_DISTANCE ≤ PointClusterDistance 10000 Point.dflt Cluster.dflt := by
    norm_num [PointClusterDistance, VERY_LARGE_DISTANCE, Point.dflt, Cluster.dflt, Vec3.sub,
      Vec3.zero, Vec3.squaredNorm, CLUSTER_TIME_RADIUS, CLUSTER_RADIUS, SPATIAL_TIME_INCREASE]
  refine ⟨rfl, hd, ?_⟩
  unfold AssignPoint
  simp only
  have hd2 : ¬ (PointClusterDistance 10000 Point.dflt Cluster.dflt
      < ((CreateFrame 10000 rgbdInvalid2x2 []).assignment.get 0 0).distance) := not_lt.mpr hd
  rw [if_neg hd2]
  rfl

/-! ## Auxiliary lemmas: the first frame of a run -/

theorem ComputePixelMean_foldl (rgbd : RgbdData) :
    ∀ (l : List Nat) (acc : PixelMean),
      (l.foldl (fun (acc : PixelMean) (i : Nat) =>
          if !(rgbd.lin i).valid then acc
          else ⟨acc.color.add (rgbd.lin i).color, acc.position.add (rgbd.lin i).position,
            acc.num_pixels + 1⟩) acc).num_pixels
        = acc.num_pixels + ((l.filter (fun i => (rgbd.lin i).valid)).length : Int)
  | [], acc => by simp
  | i :: l, acc => by
    rw [List.foldl_cons, ComputePixelMean_foldl rgbd l]
    cases hv : (rgbd.lin i).valid
    · simp [hv]
    · simp [hv]
      ring

theorem ComputePixelMean_num_pixels (rgbd : RgbdData) :
    (ComputePixelMean rgbd).num_pixels
      = (((List.range rgbd.size).filter (fun i => (rgbd.lin i).valid)).length : Int) := by
  unfold ComputePixelMean
  rw [ComputePixelMean_foldl rgbd]
  simp

theorem num_pixels_pos_iff (rgbd : RgbdData) :
    (ComputePixelMean rgbd).num_pixels > 0
      ↔ ∃ x y : Nat, x < rgbd.rows ∧ y < rgbd.cols ∧ (rgbd.get x y).valid = true := by
  rw [ComputePixelMean_num_pixels]
  constructor
  · intro h
    have hpos : 0 < ((List.range rgbd.size).filter (fun i => (rgbd.lin i).valid)).length := by
      omega
    obtain ⟨i, hi⟩ := List.exists_mem_of_length_pos hpos
    rw [List.mem_filter, List.mem_range] at hi
    obtain ⟨hlt, hv⟩ := hi
    unfold Vector2D.size at hlt
    have hr : 0 < rgbd.rows := by
      rcases Nat.eq_zero_or_pos rgbd.rows with h0 | h0
      · rw [h0] at hlt
        simp at hlt
      · exact h0
    refine ⟨i % rgbd.rows, i / rgbd.rows, Nat.mod_lt _ hr, ?_, hv⟩
    rw [Nat.div_lt_iff_lt_mul hr, Nat.mul_comm]
    exact hlt
  · rintro ⟨x, y, hx, hy, hv⟩
    have hmem : y * rgbd.rows + x ∈
        (List.range rgbd.size).filter (fun i => (rgbd.lin i).valid) := by
      rw [List.mem_filter, List.mem_range]
      constructor
      · unfold Vector2D.size
        have : (y + 1) * rgbd.rows ≤ rgbd.cols * rgbd.rows := Nat.mul_le_mul_right _ hy
        rw [Nat.mul_comm rgbd.rows]
        nlinarith
      · unfold Vector2D.lin
        have e1 : (y * rgbd.rows + x) % rgbd.rows = x := by
          rw [Nat.add_comm, Nat.add_mul_mod_self_right, Nat.mod_eq_of_lt hx]
        have e2 : (y * rgbd.rows + x) / rgbd.rows = y := by
          rw [Nat.add_comm, Nat.add_mul_div_right _ _ (by omega), Nat.div_eq_of_lt hx,
            Nat.zero_add]
        rw [e1, e2]
        exact hv
    have := List.length_pos_of_mem hmem
    omega

theorem mem_gridPixels (rows cols : Nat) (ji : Nat × Nat) :
    ji ∈ gridPixels rows cols ↔ ji.1 < rows ∧ ji.2 < cols := by
  unfold gridPixels
  simp only [List.mem_flatMap, List.mem_range, List.mem_map]
  constructor
  · rintro ⟨i, hi, j, hj, rfl⟩
    exact ⟨hj, hi⟩
  · rintro ⟨hj, hi⟩
    exact ⟨ji.2, hi, ji.1, hj, rfl⟩

theorem foldl_accumulate_error (rgbd : RgbdData) (sclrows sclcols : Int) (f : Fault) :
    ∀ l : List (Nat × Nat),
      l.foldl (DownsampleAccumulate rgbd sclrows sclcols) (Except.error f) = Except.error f
  | [] => rfl
  | _ :: l => by
    rw [List.foldl_cons]
    exact foldl_accumulate_error rgbd sclrows sclcols f l

theorem foldl_accumulate_ok (rgbd : RgbdData) (sclrows sclcols : Int) :
    ∀ (l : List (Nat × Nat)) (g : DownsampleGrid),
      (∀ ji ∈ l, (rgbd.get ji.1 ji.2).valid = true →
        inGrid sclrows sclcols (downsampleCell rgbd.rows rgbd.cols sclrows sclcols ji)) →
      ∃ g', l.foldl (DownsampleAccumulate rgbd sclrows sclcols) (Except.ok g) = Except.ok g'
  | [], g, _ => ⟨g, rfl⟩
  | ji :: l, g, h => by
    rw [List.foldl_cons]
    have hl : ∀ ji ∈ l, (rgbd.get ji.1 ji.2).valid = true →
        inGrid sclrows sclcols (downsampleCell rgbd.rows rgbd.cols sclrows sclcols ji) :=
      fun a ha => h a (List.mem_cons_of_mem _ ha)
    cases hv : (rgbd.get ji.1 ji.2).valid with
    | false =>
      have e : DownsampleAccumulate rgbd sclrows sclcols (Except.ok g) ji = Except.ok g := by
        simp [DownsampleAccumulate, hv]
      rw [e]
      exact foldl_accumulate_ok rgbd sclrows sclcols l g hl
    | true =>
      have hin := h ji (List.mem_cons_self _ _) hv
      obtain ⟨g1, e⟩ : ∃ g1, DownsampleAccumulate rgbd sclrows sclcols (Except.ok g) ji
          = Except.ok g1 := by
        simp only [DownsampleAccumulate, hv, Bool.not_true, Bool.false_eq_true, if_false,
          if_pos hin]
        exact ⟨_, rfl⟩
      rw [e]
      exact foldl_accumulate_ok rgbd sclrows sclcols l g1 hl

theorem foldl_accumulate_fault (rgbd : RgbdData) (sclrows sclcols : Int)
    (hno : ¬ (0 < sclrows ∧ 0 < sclcols)) :
    ∀ (l : List (Nat × Nat)) (g : DownsampleGrid),
      (∃ ji ∈ l, (rgbd.get ji.1 ji.2).valid = true) →
      l.foldl (DownsampleAccumulate rgbd sclrows sclcols) (Except.ok g)
        = Except.error Fault.outOfBounds
  | [], _, h => by
    obtain ⟨ji, hji, -⟩ := h
    exact absurd hji (List.not_mem_nil _)
  | ji :: l, g, h => by
    rw [List.foldl_cons]
    have hout : ¬ inGrid sclrows sclcols
        (downsampleCell rgbd.rows rgbd.cols sclrows sclcols ji) := by
      intro hin
      unfold inGrid at hin
      exact hno ⟨by omega, by omega⟩
    cases hv : (rgbd.get ji.1 ji.2).valid with
    | false =>
      have e : DownsampleAccumulate rgbd sclrows sclcols (Except.ok g) ji = Except.ok g := by
        simp [DownsampleAccumulate, hv]
      rw [e]
      apply foldl_accumulate_fault rgbd sclrows sclcols hno l g
      obtain ⟨a, ha, hav⟩ := h
      rcases List.mem_cons.mp ha with rfl | ha'
      · rw [hv] at hav
        exact absurd hav Bool.false_ne_true
      · exact ⟨a, ha', hav⟩
    | true =>
      have e : DownsampleAccumulate rgbd sclrows sclcols (Except.ok g) ji
          = Except.error Fault.outOfBounds := by
        simp only [DownsampleAccumulate, hv, Bool.not_true, Bool.false_eq_true, if_false,
          if_neg hout]
      rw [e]
      exact foldl_accumulate_error rgbd sclrows sclcols _ l

theorem foldl_error_ok (rgbd : RgbdData) (sclrows sclcols : Int) (num : Int → Int → Int)
    (cc cp : Int → Int → Vec3) (mc mp : Vec3) :
    ∀ (l : List (Nat × Nat)) (e : CompressionErrors),
      (∀ ji ∈ l, inGrid sclrows sclcols
        (downsampleCell rgbd.rows rgbd.cols sclrows sclcols ji)) →
      ∃ e', l.foldl (DownsampleError rgbd sclrows sclcols num cc cp mc mp) (Except.ok e)
        = Except.ok e'
  | [], e, _ => ⟨e, rfl⟩
  | ji :: l, e, h => by
    rw [List.foldl_cons]
    have hin := h ji (List.mem_cons_self _ _)
    obtain ⟨e1, he1⟩ : ∃ e1, DownsampleError rgbd sclrows sclcols num cc cp mc mp
        (Except.ok e) ji = Except.ok e1 := by
      simp only [DownsampleError, if_pos hin]
      split_ifs
      · exact ⟨_, rfl⟩
      · exact ⟨_, rfl⟩
    rw [he1]
    exact foldl_error_ok rgbd sclrows sclcols num cc cp mc mp l e1
      (fun a ha => h a (List.mem_cons_of_mem _ ha))

theorem downsampleCell_inGrid (rows cols : Nat) (sclrows sclcols : Int) (ji : Nat × Nat)
    (hr : 0 < sclrows) (hc : 0 < sclcols) (hj : ji.1 < rows) (hi : ji.2 < cols) :
    inGrid sclrows sclcols (downsampleCell rows cols sclrows sclcols ji) := by
  unfold inGrid downsampleCell
  have hrows : (0 : Int) < (rows : Int) := by omega
  have hcols : (0 : Int) < (cols : Int) := by omega
  have hj' : (ji.1 : Int) < (rows : Int) := by exact_mod_cast hj
  have hi' : (ji.2 : Int) < (cols : Int) := by exact_mod_cast hi
  have hj0 : (0 : Int) ≤ (ji.1 : Int) := Int.natCast_nonneg _
  have hi0 : (0 : Int) ≤ (ji.2 : Int) := Int.natCast_nonneg _
  refine ⟨Int.ediv_nonneg (mul_nonneg hj0 (le_of_lt hr)) (le_of_lt hrows),
    Int.ediv_lt_of_lt_mul hrows ?_,
    Int.ediv_nonneg (mul_nonneg hi0 (le_of_lt hc)) (le_of_lt hcols),
    Int.ediv_lt_of_lt_mul hcols ?_⟩
  · rw [mul_comm]
    exact mul_lt_mul_of_pos_left hj' hr
  · rw [mul_comm]
    exact mul_lt_mul_of_pos_left hi' hc

theorem foldl_unassigned (rgbd : RgbdData) (assignment : FrameAssignment)
    (heap : Int × Nat → Cluster) (mc mp : Vec3)
    (hnone : ∀ x y : Int, (assignment.get x y).cluster = none) :
    ∀ (l : List Nat) (e : CompressionErrors),
      l.foldl (fun (e : CompressionErrors) (i : Nat) =>
        match (assignment.lin i).cluster with
        | none => e
        | some ptr =>
          if !(rgbd.lin i).valid then e
          else e.add mc mp (heap ptr).color (heap ptr).position (rgbd.lin i)) e = e
  | [], _ => rfl
  | i :: l, e => by
    rw [List.foldl_cons]
    have h : (assignment.lin i).cluster = none := hnone _ _
    simp only [h]
    exact foldl_unassigned rgbd assignment heap mc mp hnone l e

/-- C20 (zero-pixel guard), as the code has it: both compression-error routines assert
`num_pixels > 0` after counting the valid pixels, so on a frame with zero valid pixels the
assertion fails (the process aborts) and no result is returned.  On a frame with a valid
pixel `EvaluateComputeCompressionError` returns its two quotients, which are NaN (`0/0`)
when no cell of the frame references a cluster.  On a frame with a valid pixel
`EvaluateComputeDownsampleCompressionError` returns its two quotients when its grids have
`sclrows > 0` and `sclcols > 0` cells, and accesses a cell outside its grids otherwise.  The
grids are `0 x 0` for a frame without clusters (`sqrt(0) = 0`) and at least `3 x 3` when
the square root of the number of clusters is at least `1`. -/
theorem zero_pixel_guard (ops : FloatOps) (heap : Int × Nat → Cluster) (frame : Frame) :
    ((∀ x y : Nat, x < frame.rgbd.rows → y < frame.rgbd.cols →
        (frame.rgbd.get x y).valid = false) →
      EvaluateComputeCompressionError heap frame = Except.error Fault.assertion ∧
      EvaluateComputeDownsampleCompressionError ops frame = Except.error Fault.assertion) ∧
    ((∃ x y : Nat, x < frame.rgbd.rows ∧ y < frame.rgbd.cols ∧
        (frame.rgbd.get x y).valid = true) →
      (∃ r, EvaluateComputeCompressionError heap frame = Except.ok r) ∧
      ((∀ x y : Int, (frame.assignment.get x y).cluster = none) →
        EvaluateComputeCompressionError heap frame
          = Except.ok (FloatQuotient.nan, FloatQuotient.nan)) ∧
      (0 < downsampleRows ops frame.clusters.length ∧
          0 < downsampleCols ops frame.clusters.length →
        ∃ r, EvaluateComputeDownsampleCompressionError ops frame = Except.ok r) ∧
      (¬ (0 < downsampleRows ops frame.clusters.length ∧
          0 < downsampleCols ops frame.clusters.length) →
        EvaluateComputeDownsampleCompressionError ops frame
          = Except.error Fault.outOfBounds)) ∧
    (ops.sqrt 0 = 0 → downsampleRows ops 0 = 0 ∧ downsampleCols ops 0 = 0) ∧
    (∀ n : Nat, 1 ≤ ops.sqrt (n : ℚ) →
      3 ≤ downsampleRows ops n ∧ 3 ≤ downsampleCols ops n) := by
  refine ⟨?_, ?_, ?_, ?_⟩
  · intro hz
    have hn : ¬ (ComputePixelMean frame.rgbd).num_pixels > 0 := by
      rw [num_pixels_pos_iff]
      rintro ⟨x, y, hx, hy, hv⟩
      rw [hz x y hx hy] at hv
      exact Bool.false_ne_true hv
    constructor
    · unfold EvaluateComputeCompressionError
      simp only
      rw [if_neg hn]
    · unfold EvaluateComputeDownsampleCompressionError
      simp only
      rw [if_neg hn]
  · intro hv
    have hp : (ComputePixelMean frame.rgbd).num_pixels > 0 := (num_pixels_pos_iff _).mpr hv
    refine ⟨?_, ?_, ?_, ?_⟩
    · unfold EvaluateComputeCompressionError
      simp only
      rw [if_pos hp]
      exact ⟨_, rfl⟩
    · intro hnone
      unfold EvaluateComputeCompressionError
      simp only
      rw [if_pos hp, foldl_unassigned frame.rgbd frame.assignment heap _ _ hnone]
      rfl
    · rintro ⟨hr, hc⟩
      obtain ⟨g, hg⟩ := foldl_accumulate_ok frame.rgbd (downsampleRows ops frame.clusters.length)
        (downsampleCols ops frame.clusters.length) (gridPixels frame.rgbd.rows frame.rgbd.cols)
        ⟨fun _ _ => Vec3.zero, fun _ _ => Vec3.zero, fun _ _ => 0⟩
        (fun ji hji _ => downsampleCell_inGrid _ _ _ _ ji hr hc
          ((mem_gridPixels _ _ ji).mp hji).1 ((mem_gridPixels _ _ ji).mp hji).2)
      unfold EvaluateComputeDownsampleCompressionError
      simp only
      rw [if_pos hp, hg]
      simp only
      obtain ⟨e, he⟩ := foldl_error_ok frame.rgbd (downsampleRows ops frame.clusters.length)
        (downsampleCols ops frame.clusters.length) g.num
        (fun (a b : Int) =>
          if g.num a b = 0 then g.cluster_color a b
          else Vec3.smul (1 / (g.num a b : ℚ)) (g.cluster_color a b))
        (fun (a b : Int) =>
          if g.num a b = 0 then g.cluster_position a b
          else Vec3.smul (1 / (g.num a b : ℚ)) (g.cluster_position a b))
        (Vec3.smul (1 / ((ComputePixelMean frame.rgbd).num_pixels : ℚ))
          (ComputePixelMean frame.rgbd).color)
        (Vec3.smul (1 / ((ComputePixelMean frame.rgbd).num_pixels : ℚ))
          (ComputePixelMean frame.rgbd).position)
        (gridPixels frame.rgbd.rows frame.rgbd.cols) ⟨0, 0, 0, 0⟩
        (fun ji hji => downsampleCell_inGrid _ _ _ _ ji hr hc
          ((mem_gridPixels _ _ ji).mp hji).1 ((mem_gridPixels _ _ ji).mp hji).2)
      rw [he]
      exact ⟨_, rfl⟩
    · intro hno
      obtain ⟨x, y, hx, hy, hxy⟩ := hv
      have hf := foldl_accumulate_fault frame.rgbd (downsampleRows ops frame.clusters.length)
        (downsampleCols ops frame.clusters.length) hno
        (gridPixels frame.rgbd.rows frame.rgbd.cols)
        ⟨fun _ _ => Vec3.zero, fun _ _ => Vec3.zero, fun _ _ => 0⟩
        ⟨(x, y), (mem_gridPixels _ _ _).mpr ⟨hx, hy⟩, hxy⟩
      unfold EvaluateComputeDownsampleCompressionError
      simp only
      rw [if_pos hp, hf]
  · intro h0
    unfold downsampleRows downsampleCols truncToInt
    simp only [Nat.cast_zero, h0, mul_zero, zero_add]
    norm_num
  · intro n hn
    unfold downsampleRows downsampleCols truncToInt
    have h1 : (0 : ℚ) ≤ 3464 / 1000 * ops.sqrt (n : ℚ) + 1 / 2 := by linarith
    have h2 : (0 : ℚ) ≤ 2598 / 1000 * ops.sqrt (n : ℚ) + 1 / 2 := by linarith
    rw [if_pos h1, if_pos h2]
    constructor
    · apply Int.le_floor.mpr
      push_cast
      linarith
    · apply Int.le_floor.mpr
      push_cast
      linarith

/-- Witness of C20: on the frame of a 2x2 grid of valid points without clusters and without
assigned cells, `EvaluateComputeCompressionError` returns two NaN and
`EvaluateComputeDownsampleCompressionError`, whose grids are `0 x 0`, accesses a cell outside
them. -/
theorem zero_pixel_guard_witness :
    downsampleRows ⟨fun _ => 1, fun x => x⟩ (CreateFrame 0 validGrid2x2 []).clusters.length = 0 ∧
    EvaluateComputeCompressionError (fun _ => Cluster.dflt) (CreateFrame 0 validGrid2x2 [])
      = Except.ok (FloatQuotient.nan, FloatQuotient.nan) ∧
    EvaluateComputeDownsampleCompressionError ⟨fun _ => 1, fun x => x⟩
      (CreateFrame 0 validGrid2x2 []) = Except.error Fault.outOfBounds := by
  obtain ⟨-, h2, h3, -⟩ := zero_pixel_guard ⟨fun _ => 1, fun x => x⟩ (fun _ => Cluster.dflt)
    (CreateFrame 0 validGrid2x2 [])
  have hv : ∃ x y : Nat, x < (CreateFrame 0 validGrid2x2 []).rgbd.rows ∧
      y < (CreateFrame 0 validGrid2x2 []).rgbd.cols ∧
      ((CreateFrame 0 validGrid2x2 []).rgbd.get x y).valid = true :=
    ⟨0, 0, by decide, by decide, rfl⟩
  obtain ⟨-, g2, -, g4⟩ := h2 hv
  have h0 := (h3 rfl).1
  refine ⟨h0, g2 (fun _ _ => rfl), g4 ?_⟩
  rintro ⟨hr, -⟩
  have e : (CreateFrame 0 validGrid2x2 []).clusters.length = 0 := rfl
  rw [e, h0] at hr
  exact absurd hr (lt_irrefl _)

/-- Counterexample to C20 as stated: on the frame of a 2x2 grid without a valid pixel both
routines fail their assertion, which aborts the process, and return no result. -/
theorem zero_pixel_guard_counterexample :
    (∀ x y : Int, ((CreateFrame 0 rgbdInvalid2x2 []).rgbd.get x y).valid = false) ∧
    EvaluateComputeCompressionError (fun _ => Cluster.dflt) (CreateFrame 0 rgbdInvalid2x2 [])
      = Except.error Fault.assertion ∧
    EvaluateComputeDownsampleCompressionError ⟨fun _ => 1, fun x => x⟩
      (CreateFrame 0 rgbdInvalid2x2 []) = Except.error Fault.assertion := by
  have hn : ¬ (ComputePixelMean (CreateFrame 0 rgbdInvalid2x2 []).rgbd).num_pixels > 0 := by
    rw [num_pixels_pos_iff]
    rintro ⟨x, y, -, -, hv⟩
    exact Bool.false_ne_true hv
  refine ⟨fun _ _ => rfl, ?_, ?_⟩
  · unfold EvaluateComputeCompressionError
    simp only
    rw [if_neg hn]
  · unfold EvaluateComputeDownsampleCompressionError
    simp only
    rw [if_neg hn]

/-! ## Auxiliary lemmas: the cells of a splatted kernel -/

theorem foldl_addAt_row (delta : Int → ℚ) (y0 : Nat) :
    ∀ (L : List Int) (d : Mat), (∀ a ∈ L, 0 ≤ a) → L.Nodup → ∀ i j : Nat,
      (L.foldl (fun (d : Mat) (xi : Int) => d.addAt xi.toNat y0 (delta xi)) d).get i j
        = d.get i j + if j = y0 ∧ (i : Int) ∈ L then delta i else 0
  | [], d, _, _, i, j => by simp
  | a :: L, d, h0, hn, i, j => by
    have ha : 0 ≤ a := h0 a (List.mem_cons_self _ _)
    have hnL := (List.nodup_cons.mp hn).2
    have haL := (List.nodup_cons.mp hn).1
    rw [List.foldl_cons, foldl_addAt_row delta y0 L _
      (fun b hb => h0 b (List.mem_cons_of_mem _ hb)) hnL, Mat.addAt_get]
    by_cases hij : i = a.toNat ∧ j = y0
    · obtain ⟨hi, hj⟩ := hij
      have hia : (i : Int) = a := by omega
      have hiL : ¬ ((i : Int) ∈ L) := by rw [hia]; exact haL
      simp only [hi, hj, and_self, if_true, true_and]
      rw [← hi]
      simp only [hiL, if_false, hia, List.mem_cons, true_or, if_true, add_zero, haL]
    · rw [if_neg hij]
      congr 1
      by_cases hj : j = y0
      · have hi : ¬ ((i : Int) = a) := by
          intro e
          exact hij ⟨by omega, hj⟩
        simp only [hj, true_and, List.mem_cons, hi, false_or]
      · simp only [hj, false_and]

theorem foldl_addAt_box (F : Int → Int → ℚ) (LX : List Int) (hx0 : ∀ a ∈ LX, 0 ≤ a)
    (hxn : LX.Nodup) :
    ∀ (LY : List Int) (d : Mat), (∀ a ∈ LY, 0 ≤ a) → LY.Nodup → ∀ i j : Nat,
      (LY.foldl (fun (d : Mat) (yi : Int) =>
          LX.foldl (fun (d : Mat) (xi : Int) => d.addAt xi.toNat yi.toNat (F xi yi)) d) d).get i j
        = d.get i j + if (i : Int) ∈ LX ∧ (j : Int) ∈ LY then F i j else 0
  | [], d, _, _, i, j => by simp
  | b :: LY, d, h0, hn, i, j => by
    have hb : 0 ≤ b := h0 b (List.mem_cons_self _ _)
    have hnL := (List.nodup_cons.mp hn).2
    have hbL := (List.nodup_cons.mp hn).1
    rw [List.foldl_cons, foldl_addAt_box F LX hx0 hxn LY _
      (fun a ha => h0 a (List.mem_cons_of_mem _ ha)) hnL,
      foldl_addAt_row (fun xi => F xi b) b.toNat LX d hx0 hxn, add_assoc]
    congr 1
    by_cases hi : (i : Int) ∈ LX
    · by_cases hj : j = b.toNat
      · have hjb : (j : Int) = b := by omega
        have hjL : ¬ ((j : Int) ∈ LY) := by rw [hjb]; exact hbL
        simp only [hi, hj, and_self, if_true, true_and, hjL, if_false, add_zero, List.mem_cons]
        rw [← hj]
        simp only [hjb, true_or, if_true, hjL]
        rw [← hjb]
        simp only [hjL, if_false, add_zero]
      · have hjb : ¬ ((j : Int) = b) := by omega
        simp only [hi, hj, false_and, if_false, zero_add, true_and, List.mem_cons, hjb, false_or]
    · simp only [hi, and_false, false_and, if_false, add_zero]

theorem mem_intRange (a b x : Int) : x ∈ intRange a b ↔ a ≤ x ∧ x ≤ b := by
  rw [intRange_eq_consecutiveFrom, mem_consecutiveFrom]
  omega

theorem nodup_intRange (a b : Int) : (intRange a b).Nodup := by
  unfold intRange
  apply List.Nodup.map _ (List.nodup_range _)
  intro i j h
  simp only at h
  omega

theorem SplatCluster_get (ops : FloatOps) (rows cols : Nat) (d : Mat) (c : Cluster)
    (i j : Nat) :
    (SplatCluster ops rows cols d c).get i j
      = d.get i j + if c.valid = true ∧ inKernelBox ops rows cols c i j
          then kernelValue ops c i j else 0 := by
  unfold SplatCluster
  cases hv : c.valid
  · simp
  · simp only [Bool.not_true, Bool.false_eq_true, if_false, true_and]
    refine Eq.trans (foldl_addAt_box (fun xi yi => kernelValue ops c xi yi) (intRange _ _)
      (fun a ha => le_trans (le_max_right _ _) ((mem_intRange _ _ _).mp ha).1)
      (nodup_intRange _ _) (intRange _ _) d
      (fun a ha => le_trans (le_max_right _ _) ((mem_intRange _ _ _).mp ha).1)
      (nodup_intRange _ _) i j) ?_
    congr 1
    simp only [mem_intRange, inKernelBox, kernelRange, kernelRho]
    congr 1
    apply propext
    constructor
    · rintro ⟨⟨h1, h2⟩, h3, h4⟩
      exact ⟨h1, h2, h3, h4⟩
    · rintro ⟨h1, h2, h3, h4⟩
      exact ⟨⟨h1, h2⟩, h3, h4⟩

theorem SplatCluster_dims (ops : FloatOps) (rows cols : Nat) (d : Mat) (c : Cluster) :
    (SplatCluster ops rows cols d c).rows = d.rows ∧
      (SplatCluster ops rows cols d c).cols = d.cols := by
  have hrow : ∀ (f : Int → Nat × Nat × ℚ) (L : List Int) (d : Mat),
      (L.foldl (fun (d : Mat) (xi : Int) => d.addAt (f xi).1 (f xi).2.1 (f xi).2.2) d).rows
          = d.rows ∧
        (L.foldl (fun (d : Mat) (xi : Int) => d.addAt (f xi).1 (f xi).2.1 (f xi).2.2) d).cols
          = d.cols := by
    intro f L
    induction L with
    | nil => intro d; exact ⟨rfl, rfl⟩
    | cons a L ih => intro d; rw [List.foldl_cons]; exact ih _
  have hbox : ∀ (f : Int → Int → Nat × Nat × ℚ) (LX LY : List Int) (d : Mat),
      (LY.foldl (fun (d : Mat) (yi : Int) => LX.foldl (fun (d : Mat) (xi : Int) =>
          d.addAt (f xi yi).1 (f xi yi).2.1 (f xi yi).2.2) d) d).rows = d.rows ∧
      (LY.foldl (fun (d : Mat) (yi : Int) => LX.foldl (fun (d : Mat) (xi : Int) =>
          d.addAt (f xi yi).1 (f xi yi).2.1 (f xi yi).2.2) d) d).cols = d.cols := by
    intro f LX LY
    induction LY with
    | nil => intro d; exact ⟨rfl, rfl⟩
    | cons b LY ih =>
      intro d
      rw [List.foldl_cons]
      obtain ⟨h1, h2⟩ := ih (LX.foldl (fun (d : Mat) (xi : Int) =>
          d.addAt (f xi b).1 (f xi b).2.1 (f xi b).2.2) d)
      obtain ⟨h3, h4⟩ := hrow (fun xi => f xi b) LX d
      exact ⟨h1.trans h3, h2.trans h4⟩
  unfold SplatCluster
  split_ifs
  · exact ⟨rfl, rfl⟩
  · exact hbox (fun xi yi => (xi.toNat, yi.toNat, kernelValue ops c xi yi)) _ _ d

theorem ComputeClusterDensity_foldl (ops : FloatOps) (rows cols : Nat) (i j : Nat) :
    ∀ (clusters : List Cluster) (d : Mat),
      (clusters.foldl (SplatCluster ops rows cols) d).get i j
          = d.get i j + boxDensity ops rows cols clusters i j ∧
        (clusters.foldl (SplatCluster ops rows cols) d).rows = d.rows ∧
        (clusters.foldl (SplatCluster ops rows cols) d).cols = d.cols
  | [], d => by simp [boxDensity]
  | c :: cs, d => by
    obtain ⟨h1, h2, h3⟩ := ComputeClusterDensity_foldl ops rows cols i j cs
      (SplatCluster ops rows cols d c)
    obtain ⟨h4, h5⟩ := SplatCluster_dims ops rows cols d c
    rw [List.foldl_cons]
    refine ⟨?_, h2.trans h4, h3.trans h5⟩
    rw [h1, SplatCluster_get]
    simp only [boxDensity, List.map_cons, List.sum_cons]
    ring

/-- C13 (cluster density), as the code has it: `ComputeClusterDensity` returns a
`rows x cols` field whose value at the pixel `(xi, yi)` is the sum, over the valid clusters
`c` whose box contains `(xi, yi)`, of `rho_c * exp(-pi * rho_c * (dx^2 + dy^2))`; the box
of `c` is the square of half side `R_c = ceil(1.21 / sqrt(rho_c))` around the rounded pixel
of `c`, clamped to the grid, `rho_c = 1 / (c.cluster_radius_px^2 * pi * |c.normal.z|)` and
`(dx, dy)` is the offset from `c.pixel`.  Invalid clusters and pixels outside the box
receive no contribution, and the value is the sum over the disks wherever box and disk
agree for every valid cluster. -/
theorem cluster_density (ops : FloatOps) (rows cols : Nat) (clusters : List Cluster)
    (xi yi : Nat) :
    (ComputeClusterDensity ops rows cols clusters).rows = rows ∧
    (ComputeClusterDensity ops rows cols clusters).cols = cols ∧
    (ComputeClusterDensity ops rows cols clusters).get xi yi
      = (clusters.map (fun c =>
          if c.valid = true ∧ inKernelBox ops rows cols c xi yi
          then kernelRho c * ops.exp (-PI * kernelRho c *
            (((xi : ℚ) - c.pixel.x) * ((xi : ℚ) - c.pixel.x)
              + ((yi : ℚ) - c.pixel.y) * ((yi : ℚ) - c.pixel.y)))
          else 0)).sum ∧
    ((∀ c ∈ clusters, c.valid = false ∨ ¬ inKernelBox ops rows cols c xi yi) →
      (ComputeClusterDensity ops rows cols clusters).get xi yi = 0) ∧
    ((∀ c ∈ clusters, c.valid = true →
        (inKernelBox ops rows cols c xi yi ↔ inKernelDisk ops c xi yi)) →
      (ComputeClusterDensity ops rows cols clusters).get xi yi
        = diskDensity ops clusters xi yi) := by
  obtain ⟨h1, h2, h3⟩ := ComputeClusterDensity_foldl ops rows cols xi yi clusters
    (Mat.Zero rows cols)
  have hget : (ComputeClusterDensity ops rows cols clusters).get xi yi
      = boxDensity ops rows cols clusters xi yi := by
    unfold ComputeClusterDensity
    rw [h1]
    simp [Mat.Zero]
  refine ⟨h2, h3, ?_, ?_, ?_⟩
  · rw [hget]
    rfl
  · intro hno
    rw [hget]
    unfold boxDensity
    apply List.sum_eq_zero
    intro q hq
    obtain ⟨c, hc, rfl⟩ := List.mem_map.mp hq
    rcases hno c hc with h | h
    · simp [h]
    · simp [h]
  · intro hagree
    rw [hget]
    unfold boxDensity diskDensity
    congr 1
    apply List.map_congr_left
    intro c hc
    cases hv : c.valid
    · simp
    · simp only [true_and, hagree c hc hv]

/-- Counterexample to C13 as stated: one valid cluster at pixel `(5,5)` with `rho = 1`, hence
`R = 2`, on an 11x11 grid.  The pixel `(7,7)` is outside the disk of radius `2` around
`(5,5)` (its squared distance is `8`), so the sum over the disks is `0` there, but it is in
the box `[3,7] x [3,7]` and `ComputeClusterDensity` adds the kernel value to it. -/
theorem cluster_density_counterexample :
    unitCluster.valid = true ∧ kernelRho unitCluster = 1 ∧
    kernelRange ⟨fun _ => 1, fun x => x⟩ unitCluster = 2 ∧
    ¬ inKernelDisk ⟨fun _ => 1, fun x => x⟩ unitCluster 7 7 ∧
    diskDensity ⟨fun _ => 1, fun x => x⟩ [unitCluster] 7 7 = 0 ∧
    (ComputeClusterDensity ⟨fun _ => 1, fun x => x⟩ 11 11 [unitCluster]).get 7 7 = 1 := by
  have hrho : kernelRho unitCluster = 1 := by
    have ha : |(10000 / 31415 : ℚ)| = 10000 / 31415 := abs_of_pos (by norm_num)
    simp only [kernelRho, unitCluster, Cluster.dflt, PI, ha]
    norm_num
  have hR : kernelRange ⟨fun _ => 1, fun x => x⟩ unitCluster = 2 := by
    unfold kernelRange
    rw [hrho, Int.ceil_eq_iff]
    norm_num
  have hs : truncToInt ((5 : ℚ) + 1 / 2) = 5 := by
    unfold truncToInt
    rw [if_pos (by norm_num), Int.floor_eq_iff]
    norm_num
  have hdisk : ¬ inKernelDisk ⟨fun _ => 1, fun x => x⟩ unitCluster 7 7 := by
    unfold inKernelDisk
    rw [hR]
    norm_num [unitCluster, Cluster.dflt]
  have hbox : inKernelBox ⟨fun _ => 1, fun x => x⟩ 11 11 unitCluster 7 7 := by
    unfold inKernelBox
    rw [hR]
    have e1 : unitCluster.pixel.x = 5 := rfl
    have e2 : unitCluster.pixel.y = 5 := rfl
    rw [e1, e2, hs]
    decide
  refine ⟨rfl, hrho, hR, hdisk, ?_, ?_⟩
  · unfold diskDensity
    have e : ((7 : Nat) : Int) = 7 := rfl
    simp only [List.map_cons, List.map_nil, List.sum_cons, List.sum_nil, e, hdisk, and_false,
      if_false, add_zero]
  · obtain ⟨h1, -, -⟩ := ComputeClusterDensity_foldl ⟨fun _ => 1, fun x => x⟩ 11 11 7 7
      [unitCluster] (Mat.Zero 11 11)
    unfold ComputeClusterDensity
    rw [h1]
    unfold boxDensity
    have e : ((7 : Nat) : Int) = 7 := rfl
    have hv : unitCluster.valid = true := rfl
    simp only [List.map_cons, List.map_nil, List.sum_cons, List.sum_nil, e, hbox, hv, and_self,
      if_true, add_zero, kernelValue, hrho]
    norm_num [Mat.Zero]

/-- C24 (leaf rule of the sampler): with `v` the mipmap value plus the carry of the cell,
`SampleDensityImplRec` runs the leaf branch when `level <= 1` or `v <= 1.5` and the four
calls on the children, in order, otherwise.  The leaf branch appends at most one seed.  When
`v >= 0.5` and `FindValidSeedPoint` succeeds for the centre of the cell, it appends the
pixel found and distributes `v - 1`; when `v < 0.5` or the search fails, it appends no seed
and distributes `v`. -/
theorem leaf_rule (rgbd : RgbdData) (mipmaps : List Mat) (level x y : Nat)
    (st : SamplerState) :
    ((level ≤ 1 ∨ cellValue mipmaps st.carry_mipmaps level x y ≤ 3 / 2) →
      SampleDensityImplRec rgbd mipmaps level x y st = SampleLeaf rgbd mipmaps level x y st) ∧
    (¬ (level ≤ 1 ∨ cellValue mipmaps st.carry_mipmaps level x y ≤ 3 / 2) →
      SampleDensityImplRec rgbd mipmaps level x y st
        = SampleDensityImplRec rgbd mipmaps (level - 1) (2 * x + 1) (2 * y + 1)
            (SampleDensityImplRec rgbd mipmaps (level - 1) (2 * x + 1) (2 * y)
              (SampleDensityImplRec rgbd mipmaps (level - 1) (2 * x) (2 * y + 1)
                (SampleDensityImplRec rgbd mipmaps (level - 1) (2 * x) (2 * y) st)))) ∧
    (∃ new : List Vec2, new.length ≤ 1 ∧
      (SampleLeaf rgbd mipmaps level x y st).seeds = st.seeds ++ new) ∧
    ((cellValue mipmaps st.carry_mipmaps level x y ≥ 1 / 2 ∧
        (FindValidSeedPoint rgbd ((x * 2 ^ level + 2 ^ (level - 1) : Nat) : Int)
          ((y * 2 ^ level + 2 ^ (level - 1) : Nat) : Int)
          ((2 ^ (level - 1) / 2 : Nat) : Int) st.random_engine).1 = true) →
      (SampleLeaf rgbd mipmaps level x y st).seeds
        = st.seeds ++
          [⟨(((FindValidSeedPoint rgbd ((x * 2 ^ level + 2 ^ (level - 1) : Nat) : Int)
              ((y * 2 ^ level + 2 ^ (level - 1) : Nat) : Int)
              ((2 ^ (level - 1) / 2 : Nat) : Int) st.random_engine).2.1 : Int) : ℚ),
            (((FindValidSeedPoint rgbd ((x * 2 ^ level + 2 ^ (level - 1) : Nat) : Int)
              ((y * 2 ^ level + 2 ^ (level - 1) : Nat) : Int)
              ((2 ^ (level - 1) / 2 : Nat) : Int) st.random_engine).2.2.1 : Int) : ℚ)⟩] ∧
      (SampleLeaf rgbd mipmaps level x y st).carry_mipmaps
        = modifyAt (fun carry_mm =>
            DistributeDensity (mipmaps.getD level Mat.empty).rows
              (mipmaps.getD level Mat.empty).cols carry_mm x y
              (cellValue mipmaps st.carry_mipmaps level x y - 1)) level st.carry_mipmaps) ∧
    (¬ (cellValue mipmaps st.carry_mipmaps level x y ≥ 1 / 2 ∧
        (FindValidSeedPoint rgbd ((x * 2 ^ level + 2 ^ (level - 1) : Nat) : Int)
          ((y * 2 ^ level + 2 ^ (level - 1) : Nat) : Int)
          ((2 ^ (level - 1) / 2 : Nat) : Int) st.random_engine).1 = true) →
      (SampleLeaf rgbd mipmaps level x y st).seeds = st.seeds ∧
      (SampleLeaf rgbd mipmaps level x y st).carry_mipmaps
        = modifyAt (fun carry_mm =>
            DistributeDensity (mipmaps.getD level Mat.empty).rows
              (mipmaps.getD level Mat.empty).cols carry_mm x y
              (cellValue mipmaps st.carry_mipmaps level x y)) level st.carry_mipmaps) := by
  refine ⟨?_, ?_, ?_, ?_, ?_⟩
  · intro h
    cases level with
    | zero => rfl
    | succ l =>
      simp only [SampleDensityImplRec]
      rw [if_pos h]
  · intro h
    cases level with
    | zero => exact absurd (Or.inl (Nat.zero_le 1)) h
    | succ l =>
      simp only [SampleDensityImplRec]
      rw [if_neg h]
      rfl
  · rw [SampleLeaf_seeds]
    unfold SampleLeafSeed
    simp only
    split_ifs
    · exact ⟨[_], le_refl 1, rfl⟩
    · exact ⟨[], Nat.zero_le 1, (List.append_nil _).symm⟩
    · exact ⟨[], Nat.zero_le 1, (List.append_nil _).symm⟩
  · rintro ⟨hv, hf⟩
    rw [SampleLeaf_seeds, SampleLeaf_carry]
    unfold SampleLeafSeed
    simp only
    rw [if_pos hv, if_pos hf]
    exact ⟨rfl, rfl⟩
  · intro h
    rw [SampleLeaf_seeds, SampleLeaf_carry]
    unfold SampleLeafSeed
    simp only
    split_ifs with hv hf
    · exact absurd ⟨hv, hf⟩ h
    · exact ⟨rfl, rfl⟩
    · exact ⟨rfl, rfl⟩

/-- C25 (seeds are valid pixels): for a density field of even dimensions `SampleDensityImpl`
returns, and for every grid, density field and random stream every seed it returns has
integer coordinates `(sx, sy)` with `0 <= sx < rows`, `0 <= sy < cols` and a valid point at
`rgbd(sx, sy)`, so that `rgbd.isValid` holds at the seed; `SampleClustersFromDensity`
then never takes its skip branch: it returns one cluster per seed, made of the point at the
seed, and every cluster it returns has `valid = true`. -/
theorem seeds_are_valid_pixels (rgbd : RgbdData) (density : Mat) (g : RandomEngine)
    (hr : density.rows % 2 = 0) (hc : density.cols % 2 = 0) :
    ∃ seeds g', SampleDensityImpl rgbd density g = some (seeds, g') ∧
      (∀ s ∈ seeds, ∃ sx sy : Int, s = ⟨(sx : ℚ), (sy : ℚ)⟩ ∧
        0 ≤ sx ∧ sx < rgbd.rows ∧ 0 ≤ sy ∧ sy < rgbd.cols ∧ (rgbd.get sx sy).valid = true ∧
        rgbd.isValid (truncToInt s.x) (truncToInt s.y) = true) ∧
      ∃ clusters, SampleClustersFromDensity rgbd density g = some (clusters, g') ∧
        clusters.length = seeds.length ∧
        (∀ c ∈ clusters, c.valid = true) ∧
        (∀ (i : Nat) (s : Vec2), seeds.get? i = some s →
          clusters.get? i = some (ClusterFromSeed rgbd s) ∧
          clusters.get? i = some (seedCluster rgbd 0 0 s)) := by
  obtain ⟨res, hres⟩ := SampleDensityImpl_isSome rgbd density g hr hc
  have hok := SampleDensityImpl_seedOk rgbd density g res.2 res.1 hres
  refine ⟨res.1, res.2, hres, ?_, res.1.map (ClusterFromSeed rgbd), ?_, ?_, ?_, ?_⟩
  · intro s hs
    obtain ⟨sx, sy, rfl, h1, h2, h3, h4, h5⟩ := hok s hs
    refine ⟨sx, sy, rfl, h1, h2, h3, h4, h5, ?_⟩
    unfold RgbdData.isValid
    simp [truncToInt_intCast, h1, h2, h3, h4, h5]
  · unfold SampleClustersFromDensity
    simp only [hres]
  · exact List.length_map _ _
  · intro c hc'
    obtain ⟨s, hs, rfl⟩ := List.mem_map.mp hc'
    rw [ClusterFromSeed_seedOk rgbd s (hok s hs)]
    rfl
  · intro i s hi
    have h1 : (res.1.map (ClusterFromSeed rgbd)).get? i = some (ClusterFromSeed rgbd s) := by
      rw [List.get?_eq_getElem?, List.getElem?_map, ← List.get?_eq_getElem?, hi]
      rfl
    refine ⟨h1, ?_⟩
    rw [h1, ClusterFromSeed_seedOk rgbd s (hok s (List.get?_mem hi))]

/-- Witness of C25: the sampler on the grid and the density of a 16x8 frame of constant
depth `2000`, where it returns the one seed `(4,4)`. -/
theorem seeds_are_valid_pixels_witness :
    ∃ seeds g',
      SampleDensityImpl (CreateRgbdData depthInput16x8.color depthInput16x8.depth)
        (ComputeFrameDensity (CreateRgbdData depthInput16x8.color depthInput16x8.depth))
        RandomEngine.zeros = some (seeds, g') ∧
      seeds = [⟨4, 4⟩] ∧
      ∃ clusters,
        SampleClustersFromDensity (CreateRgbdData depthInput16x8.color depthInput16x8.depth)
          (ComputeFrameDensity (CreateRgbdData depthInput16x8.color depthInput16x8.depth))
          RandomEngine.zeros = some (clusters, g') ∧
        ∀ c ∈ clusters, c.valid = true := by
  have hseeds : (SampleDensityImpl (CreateRgbdData depthInput16x8.color depthInput16x8.depth)
      (ComputeFrameDensity (CreateRgbdData depthInput16x8.color depthInput16x8.depth))
      RandomEngine.zeros).map (fun r => r.1) = some [⟨4, 4⟩] := by
    decide!
  obtain ⟨seeds, g', h1, -, clusters, h2, -, h3, -⟩ :=
    seeds_are_valid_pixels (CreateRgbdData depthInput16x8.color depthInput16x8.depth)
      (ComputeFrameDensity (CreateRgbdData depthInput16x8.color depthInput16x8.depth))
      RandomEngine.zeros (by decide) (by decide)
  rw [h1] at hseeds
  simp only [Option.map_some', Option.some.injEq] at hseeds
  exact ⟨seeds, g', h1, hseeds, clusters, h2, h3⟩

/-! ## Auxiliary lemmas: the number of seeds -/

theorem SampleLeaf_count (rgbd : RgbdData) (mipmaps : List Mat) (level x y : Nat)
    (st : SamplerState) :
    ∃ new : List Vec2, new.length ≤ 1 ∧
      (SampleLeaf rgbd mipmaps level x y st).seeds = st.seeds ++ new := by
  rw [SampleLeaf_seeds]
  unfold SampleLeafSeed
  simp only
  split_ifs
  · exact ⟨[_], le_refl 1, rfl⟩
  · exact ⟨[], Nat.zero_le 1, (List.append_nil _).symm⟩
  · exact ⟨[], Nat.zero_le 1, (List.append_nil _).symm⟩

theorem SampleDensityImplRec_count (rgbd : RgbdData) (mipmaps : List Mat) :
    ∀ (level x y : Nat) (st : SamplerState),
      ∃ new : List Vec2, new.length ≤ 4 ^ (level - 1) ∧
        (SampleDensityImplRec rgbd mipmaps level x y st).seeds = st.seeds ++ new
  | 0, x, y, st => by
    simp only [SampleDensityImplRec]
    exact SampleLeaf_count rgbd mipmaps 0 x y st
  | level + 1, x, y, st => by
    simp only [SampleDensityImplRec]
    split_ifs with h
    · obtain ⟨new, h1, h2⟩ := SampleLeaf_count rgbd mipmaps (level + 1) x y st
      exact ⟨new, le_trans h1 (Nat.one_le_pow _ _ (by norm_num)), h2⟩
    · have hl : 1 ≤ level := by
        by_contra hc
        exact h (Or.inl (by omega))
      obtain ⟨n1, b1, e1⟩ := SampleDensityImplRec_count rgbd mipmaps level (2 * x) (2 * y) st
      obtain ⟨n2, b2, e2⟩ := SampleDensityImplRec_count rgbd mipmaps level (2 * x) (2 * y + 1)
        (SampleDensityImplRec rgbd mipmaps level (2 * x) (2 * y) st)
      obtain ⟨n3, b3, e3⟩ := SampleDensityImplRec_count rgbd mipmaps level (2 * x + 1) (2 * y)
        (SampleDensityImplRec rgbd mipmaps level (2 * x) (2 * y + 1)
          (SampleDensityImplRec rgbd mipmaps level (2 * x) (2 * y) st))
      obtain ⟨n4, b4, e4⟩ := SampleDensityImplRec_count rgbd mipmaps level (2 * x + 1)
        (2 * y + 1)
        (SampleDensityImplRec rgbd mipmaps level (2 * x + 1) (2 * y)
          (SampleDensityImplRec rgbd mipmaps level (2 * x) (2 * y + 1)
            (SampleDensityImplRec rgbd mipmaps level (2 * x) (2 * y) st)))
      refine ⟨n1 ++ n2 ++ n3 ++ n4, ?_, ?_⟩
      · simp only [List.length_append, Nat.add_sub_cancel]
        have hp : 4 ^ level = 4 * 4 ^ (level - 1) := by
          obtain ⟨l, rfl⟩ := Nat.exists_eq_succ_of_ne_zero (by omega : level ≠ 0)
          rw [pow_succ]
          simp only [Nat.succ_sub_one]
          ring
        omega
      · rw [e4, e3, e2, e1]
        simp only [List.append_assoc]

theorem ComputeMipmapsLoop_length :
    ∀ (k fuel : ℕ) (mm : List Mat) (q : Mat) (res : List Mat), q.rows = 2 ^ k →
      q.cols = 2 ^ k → ComputeMipmapsLoop 1 fuel mm q = some res →
      res.length = mm.length + k := by
  intro k
  induction k with
  | zero =>
    intro fuel mm q res hr hc h
    cases fuel with
    | zero => simp [ComputeMipmapsLoop] at h
    | succ f =>
      rw [ComputeMipmapsLoop_succ, if_pos (Or.inl (by rw [hr]; simp))] at h
      simp only [Option.some.injEq] at h
      rw [← h]
      rfl
  | succ k ih =>
    intro fuel mm q res hr hc h
    cases fuel with
    | zero => simp [ComputeMipmapsLoop] at h
    | succ f =>
      have h2 : 2 ≤ 2 ^ (k + 1) := by
        rw [pow_succ]
        have := Nat.one_le_two_pow (n := k)
        omega
      have hstop : ¬ ((q.rows : Int) ≤ 1 ∨ (q.cols : Int) ≤ 1) := by
        rw [hr, hc]
        push_cast
        intro hh
        have h2' : (2 : Int) ≤ 2 ^ (k + 1) := by exact_mod_cast h2
        rcases hh with hh | hh <;> omega
      rw [ComputeMipmapsLoop_succ, if_neg hstop] at h
      cases hx : ComputeMipmap q with
      | none => simp [hx] at h
      | some x =>
        simp only [hx] at h
        obtain ⟨-, -, hxr, hxc, -⟩ := ComputeMipmap_some q x hx
        rw [hr, hc, max_self, find_next_pow2_pow, pow_succ, Nat.mul_div_cancel _ (by norm_num)]
          at hxr hxc
        rw [ih f (mm ++ [x]) x res hxr hxc h]
        simp only [List.length_append, List.length_singleton]
        omega

theorem ComputeMipmaps_length (data : Mat) (mipmaps : List Mat) (hr : 2 ≤ data.rows)
    (hc : 2 ≤ data.cols) (h : ComputeMipmaps data 1 = some mipmaps) :
    ∃ (k : Nat) (m1 : Mat), find_next_pow2 (max data.rows data.cols) / 2 = 2 ^ k ∧
      mipmaps.length = k + 2 ∧ mipmaps.get? 1 = some m1 ∧ m1.rows = 2 ^ k ∧ m1.cols = 2 ^ k := by
  unfold ComputeMipmaps at h
  have hstop : ¬ ((data.rows : Int) ≤ 1 ∨ (data.cols : Int) ≤ 1) := by
    intro hh
    rcases hh with hh | hh <;> omega
  rw [ComputeMipmapsLoop_succ, if_neg hstop] at h
  cases hx : ComputeMipmap data with
  | none => simp [hx] at h
  | some x =>
    simp only [hx] at h
    obtain ⟨-, -, hxr, hxc, -⟩ := ComputeMipmap_some data x hx
    obtain ⟨hle, j, hj, -⟩ := find_next_pow2_spec (max data.rows data.cols)
    have hj1 : 1 ≤ j := by
      by_contra hj0
      have : j = 0 := by omega
      rw [hj, this] at hle
      have := le_max_left data.rows data.cols
      omega
    obtain ⟨k, rfl⟩ := Nat.exists_eq_succ_of_ne_zero (by omega : j ≠ 0)
    have hS : find_next_pow2 (max data.rows data.cols) / 2 = 2 ^ k := by
      rw [hj, pow_succ, Nat.mul_div_cancel _ (by norm_num)]
    rw [hS] at hxr hxc
    have hlen := ComputeMipmapsLoop_length k _ _ x mipmaps hxr hxc h
    obtain ⟨rest, hrest⟩ := ComputeMipmapsLoop_append 1 _ _ x mipmaps h
    refine ⟨k, x, hS, ?_, ?_, hxr, hxc⟩
    · rw [hlen]
      simp only [List.length_append, List.length_singleton]
      omega
    · rw [hrest]
      simp

theorem SampleDensityImpl_count (rgbd : RgbdData) (density : Mat) (g g' : RandomEngine)
    (seeds : List Vec2) (hr : 2 ≤ density.rows) (hc : 2 ≤ density.cols)
    (h : SampleDensityImpl rgbd density g = some (seeds, g')) :
    seeds.length ≤ levelOneCells density.rows density.cols := by
  unfold SampleDensityImpl at h
  cases hmm : ComputeMipmaps density 1 with
  | none => simp [hmm] at h
  | some mipmaps =>
    simp only [hmm, Option.some.injEq, Prod.mk.injEq] at h
    obtain ⟨k, m1, hS, hlen, -, -, -⟩ := ComputeMipmaps_length density mipmaps hr hc hmm
    have hcount : ∀ carry : List Mat,
        (SampleDensityImplRec rgbd mipmaps (mipmaps.length - 1) 0 0 ⟨[], carry, g⟩).seeds.length
          ≤ 4 ^ k := by
      intro carry
      obtain ⟨new, hb, he⟩ := SampleDensityImplRec_count rgbd mipmaps (mipmaps.length - 1) 0 0
        ⟨[], carry, g⟩
      rw [he]
      simp only [List.nil_append]
      rw [hlen] at hb
      have e : k + 2 - 1 - 1 = k := by omega
      rw [e] at hb
      exact hb
    rw [← h.1]
    unfold levelOneCells
    rw [hS]
    have e2 : (2 ^ k) ^ 2 = 4 ^ k := by
      rw [← pow_mul, mul_comm, pow_mul]
      norm_num
    rw [e2]
    exact hcount _

theorem sampleNewClusters_count (sv : ContinuousSupervoxels) (inp : StepInput)
    (sampled : List Cluster × RandomEngine) (hW : 2 ≤ inp.color.width)
    (hH : 2 ≤ inp.color.height) (h : sv.sampleNewClusters inp = some sampled) :
    sampled.1.length ≤ levelOneCells inp.color.width inp.color.height := by
  obtain ⟨seeds, hs, -, hcl⟩ := sampleNewClusters_some sv inp sampled h
  obtain ⟨h1, h2⟩ := sampleDensity_dims sv
    (ComputeFrameDensity (CreateRgbdData inp.color inp.depth))
  have hr : (ComputeFrameDensity (CreateRgbdData inp.color inp.depth)).rows = inp.color.width :=
    rfl
  have hc : (ComputeFrameDensity (CreateRgbdData inp.color inp.depth)).cols
      = inp.color.height := rfl
  have hb := SampleDensityImpl_count _ _ _ _ seeds (by rw [h1, hr]; exact hW)
    (by rw [h2, hc]; exact hH) hs
  rw [h1, h2, hr, hc] at hb
  rw [hcl, List.length_map]
  exact hb

theorem createdCounts_bound (ops : FloatOps) (W H : Nat) (hW : 2 ≤ W) (hH : 2 ≤ H) :
    ∀ (inputs : List StepInput) (sv : ContinuousSupervoxels),
      (∀ inp ∈ inputs, inp.color.width = W ∧ inp.color.height = H) →
      ∀ c ∈ sv.createdCounts ops inputs, c ≤ levelOneCells W H
  | [], sv, _, c, hc => by simp [ContinuousSupervoxels.createdCounts] at hc
  | inp :: rest, sv, hdim, c, hc => by
    obtain ⟨hw, hh⟩ := hdim inp (List.mem_cons_self _ _)
    cases hs : sv.sampleNewClusters inp with
    | none => simp [ContinuousSupervoxels.createdCounts, hs] at hc
    | some sampled =>
      cases hstep : sv.step ops inp with
      | none => simp [ContinuousSupervoxels.createdCounts, hs, hstep] at hc
      | some sv1 =>
        rw [createdCounts_cons ops sv sv1 inp rest sampled hs hstep] at hc
        rcases List.mem_cons.mp hc with e | hmem
        · rw [e]
          have := sampleNewClusters_count sv inp sampled (by rw [hw]; exact hW)
            (by rw [hh]; exact hH) hs
          rw [hw, hh] at this
          exact this
        · exact createdCounts_bound ops W H hW hH rest sv1
            (fun i hi => hdim i (List.mem_cons_of_mem _ hi)) c hmem

theorem flatten_length_le {α β : Type} (f : α → List β) (B : Nat) :
    ∀ l : List α, (∀ a ∈ l, (f a).length ≤ B) → (l.map f).flatten.length ≤ l.length * B
  | [], _ => by simp
  | a :: l, h => by
    have h1 := h a (List.mem_cons_self _ _)
    have h2 := flatten_length_le f B l (fun b hb => h b (List.mem_cons_of_mem _ hb))
    simp only [List.map_cons, List.flatten_cons, List.length_append, List.length_cons]
    rw [Nat.add_mul]
    omega

theorem After_clusters_length (sv : ContinuousSupervoxels) (counts : List Nat)
    (h : sv.After counts) (B : Nat) (hB : ∀ c ∈ counts, c ≤ B) :
    ∀ f ∈ sv.series_.frames, f.clusters.length ≤ B := by
  intro f hf
  have hmem : f.clusters.map Cluster.ptr ∈ (keyRows counts).drop (purgedCount counts.length) := by
    rw [← h.active]
    exact List.mem_map.mpr ⟨f, hf, rfl⟩
  have hmem2 := List.mem_of_mem_drop hmem
  unfold keyRows at hmem2
  obtain ⟨p, hp, he⟩ := List.mem_map.mp hmem2
  have hlen : (f.clusters.map Cluster.ptr).length = p.2 := by
    rw [← he]
    simp [keyRow]
  rw [List.length_map] at hlen
  rw [hlen]
  apply hB
  obtain ⟨i, c⟩ := p
  have h3 := List.mk_mem_enum_iff_getElem?.mp hp
  exact List.getElem?_mem h3

/-- C22 (bounded active cluster count): let all frames of a run of `step` calls after `start`
be `W x H` with `W, H >= 2`.  Then `numActiveClusters` is at most `11 * levelOneCells W H`,
a bound without the number of calls: at most `2*R_T+1 = 11` frames are retained and every
call creates at most `levelOneCells W H` clusters.  For a `W x H` density field the pyramid
has a level 1 of `levelOneCells W H` cells, a leaf appends at most one seed, a call of
`SampleDensityImplRec` at level `level` appends at most `4^(level-1)` seeds, and
`SampleDensityImpl` returns at most `levelOneCells W H` seeds. -/
theorem bounded_active_clusters (ops : FloatOps) (sv0 sv : ContinuousSupervoxels)
    (rows cols : Int) (inputs : List StepInput) (W H : Nat) (hW : 2 ≤ W) (hH : 2 ≤ H)
    (hdim : ∀ inp ∈ inputs, inp.color.width = W ∧ inp.color.height = H)
    (hrun : (sv0.start rows cols).steps ops inputs = some sv) :
    sv.numActiveClusters ≤ (2 * 5 + 1) * levelOneCells W H ∧
    sv.series_.frames.length ≤ 2 * 5 + 1 ∧
    (∀ f ∈ sv.series_.frames, f.clusters.length ≤ levelOneCells W H) ∧
    (∀ c ∈ (sv0.start rows cols).createdCounts ops inputs, c ≤ levelOneCells W H) ∧
    (∀ (rgbd : RgbdData) (mipmaps : List Mat) (level x y : Nat) (st : SamplerState),
      (∃ new : List Vec2, new.length ≤ 1 ∧
        (SampleLeaf rgbd mipmaps level x y st).seeds = st.seeds ++ new) ∧
      ∃ new : List Vec2, new.length ≤ 4 ^ (level - 1) ∧
        (SampleDensityImplRec rgbd mipmaps level x y st).seeds = st.seeds ++ new) ∧
    (∀ (rgbd : RgbdData) (density : Mat) (g g' : RandomEngine) (seeds : List Vec2)
      (mipmaps : List Mat), density.rows = W → density.cols = H →
      ComputeMipmaps density 1 = some mipmaps →
      SampleDensityImpl rgbd density g = some (seeds, g') →
      ∃ m1, mipmaps.get? 1 = some m1 ∧ m1.rows * m1.cols = levelOneCells W H ∧
        seeds.length ≤ m1.rows * m1.cols) := by
  obtain ⟨hinv, hlen⟩ := After_run ops sv0 sv rows cols inputs hrun
  have hB := createdCounts_bound ops W H hW hH inputs (sv0.start rows cols) hdim
  have hfl : sv.series_.frames.length ≤ 2 * 5 + 1 := by
    have := congrArg List.length hinv.times
    simp only [Timeseries.times, consecutiveFrom, List.length_map, List.length_range] at this
    have hL := purgedCount_eq ((sv0.start rows cols).createdCounts ops inputs).length
    omega
  have hcl := After_clusters_length sv _ hinv _ hB
  refine ⟨?_, hfl, hcl, hB, ?_, ?_⟩
  · rw [numActiveClusters_eq]
    exact le_trans (flatten_length_le (fun (f : Frame) => f.clusters) _ _ hcl)
      (Nat.mul_le_mul_right _ hfl)
  · intro rgbd mipmaps level x y st
    exact ⟨SampleLeaf_count rgbd mipmaps level x y st,
      SampleDensityImplRec_count rgbd mipmaps level x y st⟩
  · intro rgbd density g g' seeds mipmaps hr hc hmm hs
    obtain ⟨k, m1, hS, -, hm1, h1, h2⟩ := ComputeMipmaps_length density mipmaps
      (by rw [hr]; exact hW) (by rw [hc]; exact hH) hmm
    have hcount := SampleDensityImpl_count rgbd density g g' seeds (by rw [hr]; exact hW)
      (by rw [hc]; exact hH) hs
    have hcells : m1.rows * m1.cols = levelOneCells W H := by
      unfold levelOneCells
      rw [← hr, ← hc, hS, h1, h2, pow_two]
    refine ⟨m1, hm1, hcells, ?_⟩
    rw [hcells, ← hr, ← hc]
    exact hcount

/-- Witness of C22: the first call of `step` after `start` on a 16x8 frame of constant depth
`2000`. -/
theorem bounded_active_clusters_witness :
    ∃ sv, (freshEngine.start 16 8).steps ⟨fun _ => 1, fun x => x⟩ [depthInput16x8] = some sv ∧
      sv.numActiveClusters ≤ (2 * 5 + 1) * levelOneCells 16 8 := by
  obtain ⟨sv, hrun⟩ := steps_isSome ⟨fun _ => 1, fun x => x⟩ [depthInput16x8]
    (freshEngine.start 16 8) [] (After_start freshEngine 16 8)
    (fun inp hinp => by
      rw [List.mem_singleton.mp hinp]
      exact ⟨by decide, by decide⟩)
  refine ⟨sv, hrun, ?_⟩
  exact (bounded_active_clusters ⟨fun _ => 1, fun x => x⟩ freshEngine sv 16 8 [depthInput16x8]
    16 8 (by decide) (by decide)
    (fun inp hinp => by
      rw [List.mem_singleton.mp hinp]
      exact ⟨rfl, rfl⟩) hrun).1

/-! ## Auxiliary lemmas: the export stream -/

theorem splitPieces_ne_nil (sep : Piece) : ∀ l : List Piece, splitPieces sep l ≠ []
  | [] => by simp [splitPieces]
  | p :: ps => by
    unfold splitPieces
    split_ifs
    · simp
    · split <;> simp

theorem splitPieces_line (sep : Piece) (rest : List Piece) :
    ∀ l : List Piece, sep ∉ l → splitPieces sep (l ++ sep :: rest) = l :: splitPieces sep rest
  | [], _ => by simp [splitPieces]
  | p :: ps, h => by
    have hp : ¬ (p = sep) := fun e => h (by rw [e]; exact List.mem_cons_self _ _)
    have hps : sep ∉ ps := fun hm => h (List.mem_cons_of_mem _ hm)
    rw [List.cons_append, splitPieces, if_neg hp, splitPieces_line sep rest ps hps]

theorem DebugWriteClusters_foldl :
    ∀ (clusters : List Cluster) (ofs : List Piece),
      clusters.foldl WriteCluster ofs
        = ofs ++ (clusters.map (fun c => WriteCluster [] c)).flatten
  | [], ofs => by simp
  | c :: cs, ofs => by
    rw [List.foldl_cons, DebugWriteClusters_foldl cs]
    simp only [List.map_cons, List.flatten_cons, WriteCluster, List.nil_append,
      List.append_assoc]

theorem splitPieces_pair (sep p : Piece) (rest : List Piece) (h : p ≠ sep) :
    splitPieces sep (p :: sep :: rest) = [p] :: splitPieces sep rest :=
  splitPieces_line sep rest [p] (by simpa using h.symm)

theorem splitPieces_single (sep p : Piece) (h : p ≠ sep) : splitPieces sep [p] = [[p]] := by
  simp [splitPieces, h]

theorem WriteCluster_fields (c : Cluster) :
    ∃ line : List Piece, WriteCluster [] c = line ++ [Piece.endl] ∧ Piece.endl ∉ line ∧
      lineFields line = (recordFields c).map (fun p => [p]) := by
  refine ⟨_, rfl, ?_, ?_⟩
  · simp
  · have hi : ∀ v : Int, Piece.int v ≠ Piece.str "\t" := fun _ => Piece.noConfusion
    have hf : ∀ v : ℚ, Piece.float v ≠ Piece.str "\t" := fun _ => Piece.noConfusion
    simp only [lineFields, recordFields, List.nil_append, List.append_assoc,
      List.singleton_append, List.map_cons, List.map_nil, List.cons_append]
    rw [splitPieces_pair _ _ _ (hi _), splitPieces_pair _ _ _ (hi _),
      splitPieces_pair _ _ _ (hi _), splitPieces_pair _ _ _ (hf _),
      splitPieces_pair _ _ _ (hf _), splitPieces_pair _ _ _ (hf _),
      splitPieces_pair _ _ _ (hf _), splitPieces_pair _ _ _ (hf _),
      splitPieces_pair _ _ _ (hf _), splitPieces_pair _ _ _ (hf _),
      splitPieces_pair _ _ _ (hf _), splitPieces_pair _ _ _ (hf _),
      splitPieces_pair _ _ _ (hf _), splitPieces_pair _ _ _ (hf _),
      splitPieces_single _ _ (hf _)]

theorem outputLines_flatten :
    ∀ (lines : List (List Piece)), (∀ l ∈ lines, Piece.endl ∉ l) →
      splitPieces Piece.endl ((lines.map (fun l => l ++ [Piece.endl])).flatten) = lines ++ [[]]
  | [], _ => by simp [splitPieces]
  | l :: ls, h => by
    simp only [List.map_cons, List.flatten_cons, List.append_assoc, List.singleton_append]
    rw [splitPieces_line _ _ l (h l (List.mem_cons_self _ _)),
      outputLines_flatten ls (fun a ha => h a (List.mem_cons_of_mem _ ha))]
    rfl

theorem WriteCluster_dropLast (c : Cluster) :
    WriteCluster [] c = (WriteCluster [] c).dropLast ++ [Piece.endl] ∧
      Piece.endl ∉ (WriteCluster [] c).dropLast ∧
      lineFields (WriteCluster [] c).dropLast = (recordFields c).map (fun p => [p]) := by
  obtain ⟨line, h1, h2, h3⟩ := WriteCluster_fields c
  have e : (WriteCluster [] c).dropLast = line := by
    rw [h1, List.dropLast_concat]
  rw [e]
  exact ⟨h1, h2, h3⟩

theorem DebugWriteClusters_lines (clusters : List Cluster) :
    DebugWriteClusters clusters
      = ((clusters.map (fun c => (WriteCluster [] c).dropLast)).map
          (fun l => l ++ [Piece.endl])).flatten := by
  have hfun : (fun c => WriteCluster [] c)
      = (fun l => l ++ [Piece.endl]) ∘ (fun c => (WriteCluster [] c).dropLast) :=
    funext (fun c => (WriteCluster_dropLast c).1)
  unfold DebugWriteClusters
  rw [DebugWriteClusters_foldl, List.nil_append, List.map_map, ← hfun]

theorem outputLines_DebugWriteClusters (clusters : List Cluster) :
    outputLines (DebugWriteClusters clusters)
      = clusters.map (fun c => (WriteCluster [] c).dropLast) := by
  unfold outputLines
  rw [DebugWriteClusters_lines, outputLines_flatten, List.dropLast_concat]
  intro l hl
  obtain ⟨c, -, rfl⟩ := List.mem_map.mp hl
  exact (WriteCluster_dropLast c).2.1

/-- C21 (export format): for every cluster list the stream written by `DebugWriteClusters` is
made of one line per cluster, in list order, each ended by `std::endl`, and nothing else; the
line of a cluster has exactly 15 tab-separated fields, each one number, in the order `time`,
`id`, `valid` as `1` or `0`, `cluster_radius_px`, `pixel.x`, `pixel.y`, `color` x y z,
`position` x y z, `normal` x y z. -/
theorem export_format (clusters : List Cluster) :
    (outputLines (DebugWriteClusters clusters)).length = clusters.length ∧
    DebugWriteClusters clusters
      = ((outputLines (DebugWriteClusters clusters)).map (fun l => l ++ [Piece.endl])).flatten ∧
    ∀ (i : Nat) (c : Cluster), clusters.get? i = some c →
      ∃ line, (outputLines (DebugWriteClusters clusters)).get? i = some line ∧
        (lineFields line).length = 15 ∧
        lineFields line
          = [[Piece.int c.time], [Piece.int c.id], [Piece.int (if c.valid then 1 else 0)],
             [Piece.float c.cluster_radius_px], [Piece.float c.pixel.x], [Piece.float c.pixel.y],
             [Piece.float c.color.x], [Piece.float c.color.y], [Piece.float c.color.z],
             [Piece.float c.position.x], [Piece.float c.position.y],
             [Piece.float c.position.z],
             [Piece.float c.normal.x], [Piece.float c.normal.y], [Piece.float c.normal.z]] := by
  rw [outputLines_DebugWriteClusters]
  refine ⟨List.length_map _ _, DebugWriteClusters_lines clusters, ?_⟩
  intro i c hi
  have hget : (clusters.map (fun c => (WriteCluster [] c).dropLast)).get? i
      = some ((WriteCluster [] c).dropLast) := by
    rw [List.get?_eq_getElem?, List.getElem?_map, ← List.get?_eq_getElem?, hi]
    rfl
  have hfields := (WriteCluster_dropLast c).2.2
  generalize (WriteCluster [] c).dropLast = line at hget hfields
  refine ⟨line, hget, ?_, ?_⟩
  · rw [hfields]
    rfl
  · rw [hfields]
    rfl

/-! ## Auxiliary lemmas: the cells of an assignment pass -/

theorem modifyAt_get?_ne {α : Type} (f : α → α) :
    ∀ (n m : Nat) (l : List α), m ≠ n → (modifyAt f n l).get? m = l.get? m
  | _, _, [], _ => by simp [modifyAt]
  | 0, 0, _ :: _, h => absurd rfl h
  | 0, m + 1, _ :: _, _ => rfl
  | n + 1, 0, _ :: _, _ => rfl
  | n + 1, m + 1, _ :: l, h => by
    simp only [modifyAt, List.get?_cons_succ]
    exact modifyAt_get?_ne f n m l (by omega)

theorem modifyAt_get?_none {α : Type} (f : α → α) :
    ∀ (n : Nat) (l : List α), l.get? n = none → (modifyAt f n l).get? n = none
  | _, [], _ => by simp [modifyAt]
  | 0, _ :: _, h => by simp at h
  | n + 1, _ :: l, h => by
    simp only [List.get?_cons_succ] at h
    simp only [modifyAt, List.get?_cons_succ]
    exact modifyAt_get?_none f n l h

theorem AssignPoint_cell (v : Visit) (f : Frame) (x y : Int) :
    (AssignPoint v f).rgbd = f.rgbd ∧ (AssignPoint v f).time = f.time ∧
    (AssignPoint v f).clusters = f.clusters ∧
    (AssignPoint v f).assignment.rows = f.assignment.rows ∧
    (AssignPoint v f).assignment.cols = f.assignment.cols ∧
    (AssignPoint v f).assignment.get x y
      = if v.x = x ∧ v.y = y then assignCell (f.assignment.get x y) v
        else f.assignment.get x y := by
  by_cases hd : PointClusterDistance v.frame_time v.p v.c < (f.assignment.get v.x v.y).distance
  · have e : AssignPoint v f = ⟨f.time, f.rgbd, f.clusters,
        f.assignment.set v.x v.y ⟨some v.c.ptr, PointClusterDistance v.frame_time v.p v.c⟩⟩ := by
      unfold AssignPoint
      simp only
      rw [if_pos hd]
    rw [e]
    refine ⟨rfl, rfl, rfl, rfl, rfl, ?_⟩
    simp only [Vector2D.set]
    by_cases hxy : v.x = x ∧ v.y = y
    · obtain ⟨rfl, rfl⟩ := hxy
      simp only [and_self, if_true, assignCell, visitDistance]
      rw [if_pos hd]
    · rw [if_neg hxy, if_neg]
      intro hh
      exact hxy ⟨hh.1.symm, hh.2.symm⟩
  · have e : AssignPoint v f = f := by
      unfold AssignPoint
      simp only
      rw [if_neg hd]
    rw [e]
    refine ⟨rfl, rfl, rfl, rfl, rfl, ?_⟩
    by_cases hxy : v.x = x ∧ v.y = y
    · obtain ⟨rfl, rfl⟩ := hxy
      simp only [and_self, if_true, assignCell, visitDistance]
      rw [if_neg hd]
    · rw [if_neg hxy]

theorem visitsOf_cons (v : Visit) (vs : List Visit) (t : Nat) (x y : Int) :
    visitsOf (v :: vs) t x y
      = if v.t = t ∧ v.x = x ∧ v.y = y then v :: visitsOf vs t x y else visitsOf vs t x y := by
  unfold visitsOf
  rw [List.filter_cons]
  by_cases h : v.t = t ∧ v.x = x ∧ v.y = y
  · simp only [h, and_self, decide_True, if_true]
  · simp only [h, decide_False, if_false, Bool.false_eq_true]

theorem AssignVisits_cell :
    ∀ (vs : List Visit) (frames : List Frame) (t : Nat) (f : Frame), frames.get? t = some f →
      ∃ f', (AssignVisits vs frames).get? t = some f' ∧ f'.rgbd = f.rgbd ∧ f'.time = f.time ∧
        f'.clusters = f.clusters ∧
        ∀ x y : Int, f'.assignment.get x y
          = (visitsOf vs t x y).foldl assignCell (f.assignment.get x y)
  | [], _, _, f, h => ⟨f, h, rfl, rfl, rfl, fun _ _ => rfl⟩
  | v :: vs, frames, t, f, h => by
    have hstep : AssignVisits (v :: vs) frames
        = AssignVisits vs (modifyAt (AssignPoint v) v.t frames) := rfl
    rw [hstep]
    by_cases ht : v.t = t
    · have hget : (modifyAt (AssignPoint v) v.t frames).get? t = some (AssignPoint v f) := by
        rw [ht]
        exact modifyAt_get? _ t frames f h
      obtain ⟨f', h1, h2, h3, h4, h5⟩ := AssignVisits_cell vs _ t _ hget
      refine ⟨f', h1, ?_, ?_, ?_, ?_⟩
      · rw [h2, (AssignPoint_cell v f 0 0).1]
      · rw [h3, (AssignPoint_cell v f 0 0).2.1]
      · rw [h4, (AssignPoint_cell v f 0 0).2.2.1]
      · intro x y
        rw [h5, (AssignPoint_cell v f x y).2.2.2.2.2, visitsOf_cons]
        by_cases hxy : v.x = x ∧ v.y = y
        · rw [if_pos hxy, if_pos ⟨ht, hxy⟩, List.foldl_cons]
        · rw [if_neg hxy, if_neg (fun hh => hxy hh.2)]
    · have hget : (modifyAt (AssignPoint v) v.t frames).get? t = some f := by
        rw [modifyAt_get?_ne _ _ _ _ (fun e => ht e.symm)]
        exact h
      obtain ⟨f', h1, h2, h3, h4, h5⟩ := AssignVisits_cell vs _ t _ hget
      refine ⟨f', h1, h2, h3, h4, ?_⟩
      intro x y
      rw [h5, visitsOf_cons, if_neg (fun hh => ht hh.1)]

theorem assignCell_pos (a : Assignment) (v : Visit) (h : visitDistance v < a.distance) :
    assignCell a v = ⟨some v.c.ptr, visitDistance v⟩ := by
  unfold assignCell
  rw [if_pos h]

theorem assignCell_neg (a : Assignment) (v : Visit) (h : ¬ visitDistance v < a.distance) :
    assignCell a v = a := by
  unfold assignCell
  rw [if_neg h]

theorem foldl_assignCell_le :
    ∀ (ws : List Visit) (a : Assignment), (ws.foldl assignCell a).distance ≤ a.distance
  | [], _ => le_refl _
  | w :: ws, a => by
    rw [List.foldl_cons]
    refine le_trans (foldl_assignCell_le ws _) ?_
    unfold assignCell
    split_ifs with h
    · exact le_of_lt h
    · exact le_refl _

theorem foldl_assignCell_le_mem :
    ∀ (ws : List Visit) (a : Assignment) (w : Visit), w ∈ ws →
      (ws.foldl assignCell a).distance ≤ visitDistance w
  | [], _, _, hw => by simp at hw
  | u :: ws, a, w, hw => by
    rw [List.foldl_cons]
    rcases List.mem_cons.mp hw with e | hmem
    · subst e
      refine le_trans (foldl_assignCell_le ws _) ?_
      unfold assignCell
      split_ifs with h
      · exact le_refl _
      · exact not_lt.mp h
    · exact foldl_assignCell_le_mem ws _ w hmem

theorem foldl_assignCell_attained :
    ∀ (ws : List Visit) (a : Assignment),
      ws.foldl assignCell a = a ∨
        ∃ w ∈ ws, visitDistance w < a.distance ∧
          ws.foldl assignCell a = ⟨some w.c.ptr, visitDistance w⟩
  | [], _ => Or.inl rfl
  | u :: ws, a => by
    rw [List.foldl_cons]
    by_cases h : visitDistance u < a.distance
    · have e : assignCell a u = ⟨some u.c.ptr, visitDistance u⟩ := by
        unfold assignCell
        rw [if_pos h]
      rcases foldl_assignCell_attained ws (assignCell a u) with h1 | ⟨w, hw, hlt, h1⟩
      · right
        exact ⟨u, List.mem_cons_self _ _, h, by rw [h1, e]⟩
      · right
        refine ⟨w, List.mem_cons_of_mem _ hw, ?_, h1⟩
        rw [e] at hlt
        exact lt_trans hlt h
    · have e : assignCell a u = a := by
        unfold assignCell
        rw [if_neg h]
      rw [e]
      rcases foldl_assignCell_attained ws a with h1 | ⟨w, hw, hlt, h1⟩
      · exact Or.inl h1
      · exact Or.inr ⟨w, List.mem_cons_of_mem _ hw, hlt, h1⟩

theorem foldl_assignCell_keep :
    ∀ (ws : List Visit) (a : Assignment), (∀ u ∈ ws, a.distance ≤ visitDistance u) →
      ws.foldl assignCell a = a
  | [], _, _ => rfl
  | u :: ws, a, h => by
    have e : assignCell a u = a := by
      unfold assignCell
      rw [if_neg (not_lt.mpr (h u (List.mem_cons_self _ _)))]
    rw [List.foldl_cons, e]
    exact foldl_assignCell_keep ws a (fun w hw => h w (List.mem_cons_of_mem _ hw))

theorem foldl_assignCell_first (pre post : List Visit) (w : Visit) (a : Assignment)
    (hpre : ∀ u ∈ pre, visitDistance w < visitDistance u)
    (hpost : ∀ u ∈ post, visitDistance w ≤ visitDistance u)
    (ha : visitDistance w < a.distance) :
    (pre ++ w :: post).foldl assignCell a = ⟨some w.c.ptr, visitDistance w⟩ := by
  rw [List.foldl_append, List.foldl_cons]
  have h1 : visitDistance w < (pre.foldl assignCell a).distance := by
    rcases foldl_assignCell_attained pre a with e | ⟨u, hu, -, e⟩
    · rw [e]
      exact ha
    · rw [e]
      exact hpre u hu
  rw [assignCell_pos _ _ h1]
  exact foldl_assignCell_keep post _ hpost

theorem foldl_assignCell_distance :
    ∀ (ws : List Visit) (a : Assignment),
      (ws.foldl assignCell a).distance = (ws.map visitDistance).foldl min a.distance
  | [], _ => rfl
  | u :: ws, a => by
    rw [List.foldl_cons, List.map_cons, List.foldl_cons, foldl_assignCell_distance ws]
    congr 1
    unfold assignCell
    split_ifs with h
    · exact (min_eq_right (le_of_lt h)).symm
    · exact (min_eq_left (not_lt.mp h)).symm

theorem foldl_min_perm (l1 l2 : List ℚ) (h : l1.Perm l2) (a : ℚ) :
    l1.foldl min a = l2.foldl min a := by
  induction h generalizing a with
  | nil => rfl
  | cons x _ ih => exact ih (min a x)
  | swap x y l =>
    simp only [List.foldl_cons]
    rw [min_assoc, min_comm y x, ← min_assoc]
  | trans _ _ ih1 ih2 => exact (ih1 a).trans (ih2 a)

theorem mem_ClusterBoxPoints (NX NY : Nat) (c : Cluster) (t : Nat) (frame : Frame)
    (v : Visit) :
    v ∈ ClusterBoxPoints NX NY c t frame ↔
      inSearchBox NX NY c frame.time v.x v.y ∧ (frame.rgbd.get v.x v.y).valid = true ∧
        v = ⟨c, t, frame.time, v.x, v.y, frame.rgbd.get v.x v.y⟩ := by
  unfold ClusterBoxPoints inSearchBox
  simp only [List.mem_flatMap, List.mem_filterMap, mem_intRange]
  constructor
  · rintro ⟨y, ⟨hy1, hy2⟩, x, ⟨hx1, hx2⟩, hv⟩
    by_cases hp : (frame.rgbd.get x y).valid = true
    · simp only [hp, Bool.not_true, Bool.false_eq_true, if_false, Option.some.injEq] at hv
      subst hv
      exact ⟨⟨hx1, hx2, hy1, hy2⟩, hp, rfl⟩
    · simp [hp] at hv
  · rintro ⟨⟨hx1, hx2, hy1, hy2⟩, hp, hv⟩
    refine ⟨v.y, ⟨hy1, hy2⟩, v.x, ⟨hx1, hx2⟩, ?_⟩
    simp only [hp, Bool.not_true, Bool.false_eq_true, if_false, Option.some.injEq]
    exact hv.symm

theorem mem_ClusterBoxVisits (front : Frame) (rest : List Frame) (v : Visit) :
    v ∈ ClusterBoxVisits (front :: rest) ↔
      ∃ fk ∈ front :: rest, ∃ c ∈ fk.clusters, c.valid = true ∧
        ∃ frame, (front :: rest).get? v.t = some frame ∧
          inSearchBox front.rgbd.rows front.rgbd.cols c frame.time v.x v.y ∧
          (frame.rgbd.get v.x v.y).valid = true ∧
          v = ⟨c, v.t, frame.time, v.x, v.y, frame.rgbd.get v.x v.y⟩ := by
  unfold ClusterBoxVisits
  simp only [List.mem_flatMap]
  constructor
  · rintro ⟨fk, hfk, c, hc, hv⟩
    by_cases hcv : c.valid = true
    · simp only [hcv, Bool.not_true, Bool.false_eq_true, if_false, List.mem_flatMap] at hv
      obtain ⟨tf, htf, hv⟩ := hv
      obtain ⟨hbox, hp, he⟩ := (mem_ClusterBoxPoints _ _ _ _ _ _).mp hv
      have ht : v.t = tf.1 := by rw [he]
      have hget : (front :: rest).get? v.t = some tf.2 := by
        rw [ht, List.get?_eq_getElem?]
        exact List.mk_mem_enum_iff_getElem?.mp htf
      refine ⟨fk, hfk, c, hc, hcv, tf.2, hget, hbox, hp, ?_⟩
      rw [ht]
      exact he
    · simp [hcv] at hv
  · rintro ⟨fk, hfk, c, hc, hcv, frame, hget, hbox, hp, he⟩
    refine ⟨fk, hfk, c, hc, ?_⟩
    simp only [hcv, Bool.not_true, Bool.false_eq_true, if_false, List.mem_flatMap]
    refine ⟨(v.t, frame), ?_, ?_⟩
    · rw [List.get?_eq_getElem?] at hget
      exact List.mk_mem_enum_iff_getElem?.mpr hget
    · exact (mem_ClusterBoxPoints _ _ _ _ _ _).mpr ⟨hbox, hp, he⟩

theorem UpdateClusterAssignment_eq (front : Frame) (rest : List Frame) :
    UpdateClusterAssignment (front :: rest)
      = some (AssignVisits (ClusterBoxVisits (front :: rest)) (front :: rest)) := rfl

theorem mem_visitsOf (vs : List Visit) (t : Nat) (x y : Int) (v : Visit) :
    v ∈ visitsOf vs t x y ↔ v ∈ vs ∧ v.t = t ∧ v.x = x ∧ v.y = y := by
  unfold visitsOf
  simp only [List.mem_filter, decide_eq_true_eq]

/-- C26 (the assignment pass is a minimum): `UpdateClusterAssignment` on a non-empty window
returns, and for the pixel `(x,y)` of the window frame of index `t`: the new distance is at
most the previous one; if the point is valid, it is at most `PointClusterDistance` to every
valid cluster of the window whose clamped search box contains the pixel; the cell is either
unchanged or holds such a cluster with its distance, which is then below the previous one;
an invalid point keeps its cell; and whatever the order in which the visits of the pass are
made, the resulting distance is the same. -/
theorem assignment_minimum (front : Frame) (rest : List Frame) (t : Nat) (f : Frame)
    (x y : Int) (ht : (front :: rest).get? t = some f) :
    ∃ frames' f', UpdateClusterAssignment (front :: rest) = some frames' ∧
      frames'.get? t = some f' ∧ f'.rgbd = f.rgbd ∧ f'.time = f.time ∧
      (f'.assignment.get x y).distance ≤ (f.assignment.get x y).distance ∧
      ((f.rgbd.get x y).valid = true →
        ∀ fk ∈ front :: rest, ∀ c ∈ fk.clusters, c.valid = true →
          inSearchBox front.rgbd.rows front.rgbd.cols c f.time x y →
          (f'.assignment.get x y).distance
            ≤ PointClusterDistance f.time (f.rgbd.get x y) c) ∧
      (f'.assignment.get x y = f.assignment.get x y ∨
        ((f.rgbd.get x y).valid = true ∧
          ∃ fk ∈ front :: rest, ∃ c ∈ fk.clusters, c.valid = true ∧
            inSearchBox front.rgbd.rows front.rgbd.cols c f.time x y ∧
            PointClusterDistance f.time (f.rgbd.get x y) c < (f.assignment.get x y).distance ∧
            f'.assignment.get x y
              = ⟨some c.ptr, PointClusterDistance f.time (f.rgbd.get x y) c⟩)) ∧
      ((f.rgbd.get x y).valid = false → f'.assignment.get x y = f.assignment.get x y) ∧
      (∀ vs : List Visit, vs.Perm (ClusterBoxVisits (front :: rest)) →
        ∃ f'', (AssignVisits vs (front :: rest)).get? t = some f'' ∧
          (f''.assignment.get x y).distance = (f'.assignment.get x y).distance) := by
  obtain ⟨f', h1, h2, h3, -, h5⟩ :=
    AssignVisits_cell (ClusterBoxVisits (front :: rest)) (front :: rest) t f ht
  have hvis : ∀ w ∈ visitsOf (ClusterBoxVisits (front :: rest)) t x y,
      (f.rgbd.get x y).valid = true ∧
      ∃ fk ∈ front :: rest, ∃ c ∈ fk.clusters, c.valid = true ∧
        inSearchBox front.rgbd.rows front.rgbd.cols c f.time x y ∧
        w = ⟨c, t, f.time, x, y, f.rgbd.get x y⟩ := by
    intro w hw
    obtain ⟨hmem, rfl, rfl, rfl⟩ := (mem_visitsOf _ _ _ _ _).mp hw
    obtain ⟨fk, hfk, c, hc, hcv, frame, hget, hbox, hp, he⟩ :=
      (mem_ClusterBoxVisits front rest w).mp hmem
    rw [ht] at hget
    simp only [Option.some.injEq] at hget
    subst hget
    exact ⟨hp, fk, hfk, c, hc, hcv, hbox, he⟩
  refine ⟨_, f', UpdateClusterAssignment_eq front rest, h1, h2, h3, ?_, ?_, ?_, ?_, ?_⟩
  · rw [h5]
    exact foldl_assignCell_le _ _
  · intro hp fk hfk c hc hcv hbox
    rw [h5]
    have hmem : (⟨c, t, f.time, x, y, f.rgbd.get x y⟩ : Visit)
        ∈ visitsOf (ClusterBoxVisits (front :: rest)) t x y := by
      rw [mem_visitsOf]
      refine ⟨?_, rfl, rfl, rfl⟩
      rw [mem_ClusterBoxVisits]
      exact ⟨fk, hfk, c, hc, hcv, f, ht, hbox, hp, rfl⟩
    have hle := foldl_assignCell_le_mem _ (f.assignment.get x y) _ hmem
    simp only [visitDistance] at hle
    exact hle
  · rw [h5]
    rcases foldl_assignCell_attained (visitsOf (ClusterBoxVisits (front :: rest)) t x y)
      (f.assignment.get x y) with e | ⟨w, hw, hlt, e⟩
    · exact Or.inl e
    · right
      obtain ⟨hp, fk, hfk, c, hc, hcv, hbox, rfl⟩ := hvis w hw
      simp only [visitDistance] at hlt e
      exact ⟨hp, fk, hfk, c, hc, hcv, hbox, hlt, e⟩
  · intro hp
    rw [h5]
    have hnil : visitsOf (ClusterBoxVisits (front :: rest)) t x y = [] := by
      apply List.eq_nil_iff_forall_not_mem.mpr
      intro w hw
      have := (hvis w hw).1
      rw [hp] at this
      exact Bool.false_ne_true this
    rw [hnil]
    rfl
  · intro vs hperm
    obtain ⟨f'', g1, -, -, -, g5⟩ := AssignVisits_cell vs (front :: rest) t f ht
    refine ⟨f'', g1, ?_⟩
    rw [g5, h5, foldl_assignCell_distance, foldl_assignCell_distance]
    apply foldl_min_perm
    apply List.Perm.map
    unfold visitsOf
    exact List.Perm.filter _ hperm

/-- Witness of C26: the pixel `(0,0)` of the one-frame window `tieFrame`, which the pass
assigns at distance `0`. -/
theorem assignment_minimum_witness :
    ∃ frames' f', UpdateClusterAssignment [tieFrame] = some frames' ∧
      frames'.get? 0 = some f' ∧
      (f'.assignment.get 0 0).distance
        ≤ PointClusterDistance tieFrame.time (tieFrame.rgbd.get 0 0)
            { originCluster with id := 1 } := by
  obtain ⟨frames', f', h1, h2, -, -, -, h3, -⟩ :=
    assignment_minimum tieFrame [] 0 tieFrame 0 0 rfl
  refine ⟨frames', f', h1, h2, ?_⟩
  apply h3 rfl tieFrame (List.mem_singleton.mpr rfl)
  · simp [tieFrame, CreateFrame, CreateFrameClusters, originCluster, Cluster.dflt]
  · rfl
  · norm_num [inSearchBox, tieFrame, CreateFrame, tieGrid, originCluster, Cluster.dflt,
      CLUSTER_RADIUS_MULT, SPATIAL_TIME_INCREASE, CLUSTER_RADIUS, truncToInt]

/-- C27 (tie-breaking), as the code has it: the update uses the strict test `d < a.distance`,
so a later visit at the same distance does not overwrite.  If `w` is a visit of the pass at
the pixel `(x,y)` of the window frame of index `t` whose distance is below the previous
distance of the cell, strictly below the distance of every earlier visit at that pixel and
at most the distance of every later one, the pass leaves the pixel assigned to the cluster
of `w`: of the clusters at the minimal distance the one visited first, and none that is
visited later. -/
theorem tie_breaking (front : Frame) (rest : List Frame) (t : Nat) (f : Frame) (x y : Int)
    (pre post : List Visit) (w : Visit) (ht : (front :: rest).get? t = some f)
    (hvis : visitsOf (ClusterBoxVisits (front :: rest)) t x y = pre ++ w :: post)
    (hpre : ∀ u ∈ pre, visitDistance w < visitDistance u)
    (hpost : ∀ u ∈ post, visitDistance w ≤ visitDistance u)
    (ha : visitDistance w < (f.assignment.get x y).distance) :
    ∃ frames' f', UpdateClusterAssignment (front :: rest) = some frames' ∧
      frames'.get? t = some f' ∧
      f'.assignment.get x y = ⟨some w.c.ptr, visitDistance w⟩ ∧
      ∀ u ∈ post, visitDistance u = visitDistance w → u.c.ptr ≠ w.c.ptr →
        (f'.assignment.get x y).cluster ≠ some u.c.ptr := by
  obtain ⟨f', h1, -, -, -, h5⟩ :=
    AssignVisits_cell (ClusterBoxVisits (front :: rest)) (front :: rest) t f ht
  have hcell : f'.assignment.get x y = ⟨some w.c.ptr, visitDistance w⟩ := by
    rw [h5, hvis]
    exact foldl_assignCell_first pre post w _ hpre hpost ha
  refine ⟨_, f', UpdateClusterAssignment_eq front rest, h1, hcell, ?_⟩
  intro u _ _ hne
  rw [hcell]
  intro e
  simp only [Option.some.injEq] at e
  exact hne e.symm

/-- Witness of C27: the pixel `(0,0)` of `tieFrame`, which the two clusters `(0,0)` and
`(0,1)` of the frame cover at the same distance `0`; the pass visits `(0,0)` first and leaves
the pixel assigned to it. -/
theorem tie_breaking_witness :
    ∃ frames' f', UpdateClusterAssignment [tieFrame] = some frames' ∧
      frames'.get? 0 = some f' ∧
      f'.assignment.get 0 0 = ⟨some ((0 : Int), 0), 0⟩ := by
  have hvis : visitsOf (ClusterBoxVisits [tieFrame]) 0 0 0
      = [] ++ (⟨{ originCluster with id := 0 }, 0, 0, 0, 0, tieGrid.get 0 0⟩ : Visit)
          :: [⟨{ originCluster with id := 1 }, 0, 0, 0, 0, tieGrid.get 0 0⟩] := by
    decide!
  obtain ⟨frames', f', h1, h2, h3, -⟩ := tie_breaking tieFrame [] 0 tieFrame 0 0 [] _ _ rfl hvis
    (fun u hu => by simp at hu)
    (fun u hu => by
      rw [List.mem_singleton.mp hu]
      decide!)
    (by decide!)
  refine ⟨frames', f', h1, h2, ?_⟩
  rw [h3]
  decide!

/-- Counterexample to C27 as stated: in `tieFrame` the clusters `(0,0)` and `(0,1)` both
cover the pixel `(0,0)` at the distance `0`, below the previous distance `1000000` of the
cell; the pass visits `(0,0)` first and `(0,1)` last, and leaves the pixel assigned to
`(0,0)`, not to the one visited last. -/
theorem tie_breaking_counterexample :
    tieFrame.clusters.map Cluster.ptr = [((0 : Int), 0), ((0 : Int), 1)] ∧
    (visitsOf (ClusterBoxVisits [tieFrame]) 0 0 0).map (fun v => (v.c.ptr, visitDistance v))
      = [(((0 : Int), 0), 0), (((0 : Int), 1), 0)] ∧
    tieFrame.assignment.get 0 0 = ⟨none, 1000000⟩ ∧
    (UpdateClusterAssignment [tieFrame]).map
        (fun frames => frames.map (fun f => f.assignment.get 0 0))
      = some [⟨some ((0 : Int), 0), 0⟩] := by
  refine ⟨by decide!, by decide!, by decide!, by decide!⟩

/-! ## Auxiliary lemmas: the accumulators of a center update -/

theorem AccumulatePoint_get? (frames : List Frame) (t0 : Int) (k i : Nat) (v : Visit)
    (ccas : List (List ClusterCenterAccumulator)) (row : List ClusterCenterAccumulator)
    (cca : ClusterCenterAccumulator) (hrow : ccas.get? k = some row)
    (hcca : row.get? i = some cca) :
    ∃ row', (AccumulatePoint frames t0 v ccas).get? k = some row' ∧
      row'.get? i = some
        (if cellCluster frames v.t v.x v.y = some v.c.ptr ∧ v.c.time - t0 = k ∧ v.c.id = i
          then cca.add v.p else cca) := by
  unfold AccumulatePoint cellCluster
  cases hf : frames.get? v.t with
  | none =>
    simp only
    refine ⟨row, hrow, ?_⟩
    rw [if_neg (by simp), hcca]
  | some frame =>
    simp only
    by_cases ha : (frame.assignment.get v.x v.y).cluster = some v.c.ptr ∧ 0 ≤ v.c.time - t0
    · rw [if_pos ha]
      by_cases hk : (v.c.time - t0).toNat = k
      · rw [hk]
        refine ⟨modifyAt (fun cca => cca.add v.p) v.c.id row, modifyAt_get? _ k ccas row hrow, ?_⟩
        have hk' : v.c.time - t0 = k := by omega
        by_cases hi : v.c.id = i
        · rw [hi, modifyAt_get? _ i row cca hcca, if_pos ⟨ha.1, hk', rfl⟩]
        · rw [modifyAt_get?_ne _ _ _ _ (fun e => hi e.symm), hcca, if_neg (fun h => hi h.2.2)]
      · refine ⟨row, ?_, ?_⟩
        · rw [modifyAt_get?_ne _ _ _ _ (fun e => hk e.symm)]
          exact hrow
        · rw [hcca, if_neg]
          intro h
          apply hk
          omega
    · rw [if_neg ha]
      refine ⟨row, hrow, ?_⟩
      rw [hcca, if_neg]
      intro h
      apply ha
      exact ⟨h.1, by omega⟩

theorem foldl_AccumulatePoint_get? (frames : List Frame) (t0 : Int) (k i : Nat) :
    ∀ (vs : List Visit) (ccas : List (List ClusterCenterAccumulator))
      (row : List ClusterCenterAccumulator) (cca : ClusterCenterAccumulator),
      ccas.get? k = some row → row.get? i = some cca →
      ∃ row', (vs.foldl (fun s v => AccumulatePoint frames t0 v s) ccas).get? k = some row' ∧
        row'.get? i = some
          ((vs.filter (fun v => decide (cellCluster frames v.t v.x v.y = some v.c.ptr ∧
              v.c.time - t0 = k ∧ v.c.id = i))).foldl (fun cca v => cca.add v.p) cca)
  | [], _, row, _, hrow, hcca => ⟨row, hrow, hcca⟩
  | v :: vs, ccas, row, cca, hrow, hcca => by
    obtain ⟨row1, h1, h2⟩ := AccumulatePoint_get? frames t0 k i v ccas row cca hrow hcca
    obtain ⟨row', h3, h4⟩ := foldl_AccumulatePoint_get? frames t0 k i vs _ row1 _ h1 h2
    refine ⟨row', ?_, ?_⟩
    · rw [List.foldl_cons]
      exact h3
    · rw [h4, List.filter_cons]
      by_cases hsel : cellCluster frames v.t v.x v.y = some v.c.ptr ∧
          v.c.time - t0 = k ∧ v.c.id = i
      · simp only [hsel, and_self, if_true, decide_True, List.foldl_cons]
      · simp only [hsel, if_false, decide_False, Bool.false_eq_true]

theorem foldl_add_sums :
    ∀ (ms : List Visit) (cca : ClusterCenterAccumulator),
      (ms.foldl (fun cca v => cca.add v.p) cca).num = cca.num + ms.length ∧
      (ms.foldl (fun cca v => cca.add v.p) cca).mean_color
        = (ms.map (fun v => v.p.color)).foldl Vec3.add cca.mean_color ∧
      (ms.foldl (fun cca v => cca.add v.p) cca).mean_position
        = (ms.map (fun v => v.p.position)).foldl Vec3.add cca.mean_position
  | [], _ => by simp
  | v :: ms, cca => by
    obtain ⟨h1, h2, h3⟩ := foldl_add_sums ms (cca.add v.p)
    simp only [List.foldl_cons, List.map_cons, List.length_cons]
    refine ⟨?_, ?_, ?_⟩
    · rw [h1]
      simp only [ClusterCenterAccumulator.add]
      push_cast
      ring
    · rw [h2]
      rfl
    · rw [h3]
      rfl

theorem ApplyCenters_get? (ccas : List (List ClusterCenterAccumulator)) (frames : List Frame)
    (k i : Nat) (fk : Frame) (c : Cluster) (hk : frames.get? k = some fk)
    (hi : fk.clusters.get? i = some c) :
    ∃ fk', (ApplyCenters ccas frames).get? k = some fk' ∧ fk'.time = fk.time ∧
      fk'.rgbd = fk.rgbd ∧ fk'.assignment = fk.assignment ∧
      fk'.clusters.get? i
        = some (UpdateCenter c ((ccas.getD k []).getD i ClusterCenterAccumulator.init)) := by
  unfold ApplyCenters
  rw [List.get?_eq_getElem?] at hk hi
  refine ⟨⟨fk.time, fk.rgbd, fk.clusters.enum.map (fun kc =>
      UpdateCenter kc.2 ((ccas.getD k []).getD kc.1 ClusterCenterAccumulator.init)),
    fk.assignment⟩, ?_, rfl, rfl, rfl, ?_⟩
  · rw [List.get?_eq_getElem?, List.getElem?_map, List.getElem?_enum, hk]
    rfl
  · simp only
    rw [List.get?_eq_getElem?, List.getElem?_map, List.getElem?_enum, hi]
    rfl

theorem getD_of_get? {α : Type} (l : List α) (n : Nat) (a d : α) (h : l.get? n = some a) :
    l.getD n d = a := by
  rw [List.getD_eq_getElem?_getD, ← List.get?_eq_getElem?, h]
  rfl

theorem UpdateClusterCenters_eq (front : Frame) (rest : List Frame) :
    UpdateClusterCenters (front :: rest)
      = some (ApplyCenters
          ((ClusterBoxVisits (front :: rest)).foldl
            (fun s v => AccumulatePoint (front :: rest) front.time v s)
            ((front :: rest).map (fun f =>
              List.replicate f.clusters.length ClusterCenterAccumulator.init)))
          (front :: rest)) := rfl

theorem mem_centerMembers (front : Frame) (rest : List Frame) (c : Cluster) (v : Visit) :
    v ∈ centerMembers (front :: rest) c ↔
      v.c.ptr = c.ptr ∧ ∃ fj ∈ front :: rest, v.c ∈ fj.clusters ∧ v.c.valid = true ∧
        ∃ frame, (front :: rest).get? v.t = some frame ∧ v.frame_time = frame.time ∧
          inSearchBox front.rgbd.rows front.rgbd.cols v.c frame.time v.x v.y ∧
          (frame.rgbd.get v.x v.y).valid = true ∧ v.p = frame.rgbd.get v.x v.y ∧
          (frame.assignment.get v.x v.y).cluster = some c.ptr := by
  unfold centerMembers
  rw [List.mem_filter, mem_ClusterBoxVisits]
  simp only [decide_eq_true_eq]
  constructor
  · rintro ⟨⟨fj, hfj, c', hc', hcv, frame, hget, hbox, hp, he⟩, hptr, hcell⟩
    have hc : v.c = c' := by rw [he]
    have hpt : v.p = frame.rgbd.get v.x v.y := by
      conv_lhs => rw [he]
    have hft : v.frame_time = frame.time := by
      conv_lhs => rw [he]
    unfold cellCluster at hcell
    rw [hget] at hcell
    refine ⟨hptr, fj, hfj, ?_, ?_, frame, hget, hft, ?_, hp, hpt, hcell⟩
    · rw [hc]; exact hc'
    · rw [hc]; exact hcv
    · rw [hc]; exact hbox
  · rintro ⟨hptr, fj, hfj, hc', hcv, frame, hget, hft, hbox, hp, hpt, hcell⟩
    refine ⟨⟨fj, hfj, v.c, hc', hcv, frame, hget, hbox, hp, ?_⟩, hptr, ?_⟩
    · rw [← hft, ← hpt]
    · unfold cellCluster
      rw [hget]
      exact hcell

theorem UpdateCenter_invalid (c : Cluster) (cca : ClusterCenterAccumulator)
    (h : c.valid = false) : UpdateCenter c cca = c := by
  unfold UpdateCenter
  cases c
  simp only at h
  subst h
  by_cases h0 : cca.num = 0 <;> simp [h0]

theorem UpdateCenter_empty (c : Cluster) (cca : ClusterCenterAccumulator)
    (h : cca.num = 0) : UpdateCenter c cca = { c with valid := false } := by
  unfold UpdateCenter
  simp [h]

theorem UpdateCenter_mean (c : Cluster) (cca : ClusterCenterAccumulator)
    (hv : c.valid = true) (h : cca.num ≠ 0) :
    UpdateCenter c cca
      = { c with
          color := Vec3.smul (1 / (cca.num : ℚ)) cca.mean_color
          position := Vec3.smul (1 / (cca.num : ℚ)) cca.mean_position
          normal := ⟨0, 0, -1⟩
          pixel := CameraProject (Vec3.smul (1 / (cca.num : ℚ)) cca.mean_position) } := by
  unfold UpdateCenter
  simp [h, hv, ClusterCenterAccumulator.computeNormal]

theorem UpdateClusterCenters_get? (front : Frame) (rest : List Frame) (k i : Nat)
    (fk : Frame) (c : Cluster) (hk : (front :: rest).get? k = some fk)
    (hi : fk.clusters.get? i = some c) (hptr : c.time = front.time + k ∧ c.id = i) :
    ∃ frames' fk', UpdateClusterCenters (front :: rest) = some frames' ∧
      frames'.get? k = some fk' ∧ fk'.time = fk.time ∧ fk'.rgbd = fk.rgbd ∧
      fk'.assignment = fk.assignment ∧
      fk'.clusters.get? i
        = some (UpdateCenter c
            ((centerMembers (front :: rest) c).foldl (fun cca v => cca.add v.p)
              ClusterCenterAccumulator.init)) := by
  have hilt : i < fk.clusters.length := by
    by_contra hge
    rw [List.get?_eq_none.mpr (by omega)] at hi
    simp at hi
  have hrow : ((front :: rest).map (fun f =>
      List.replicate f.clusters.length ClusterCenterAccumulator.init)).get? k
      = some (List.replicate fk.clusters.length ClusterCenterAccumulator.init) := by
    rw [List.get?_eq_getElem?, List.getElem?_map, ← List.get?_eq_getElem?, hk]
    rfl
  have hcca : (List.replicate fk.clusters.length ClusterCenterAccumulator.init).get? i
      = some ClusterCenterAccumulator.init := by
    rw [List.get?_eq_getElem?, List.getElem?_replicate, if_pos hilt]
  obtain ⟨row', h1, h2⟩ := foldl_AccumulatePoint_get? (front :: rest) front.time k i
    (ClusterBoxVisits (front :: rest)) _ _ _ hrow hcca
  have hfilter : (ClusterBoxVisits (front :: rest)).filter (fun v =>
        decide (cellCluster (front :: rest) v.t v.x v.y = some v.c.ptr ∧
          v.c.time - front.time = k ∧ v.c.id = i))
      = centerMembers (front :: rest) c := by
    unfold centerMembers
    apply List.filter_congr
    intro v _
    have hiff : (cellCluster (front :: rest) v.t v.x v.y = some v.c.ptr ∧
          v.c.time - front.time = k ∧ v.c.id = i)
        ↔ (v.c.ptr = c.ptr ∧ cellCluster (front :: rest) v.t v.x v.y = some c.ptr) := by
      unfold Cluster.ptr
      constructor
      · rintro ⟨h1, h2, h3⟩
        have e : (v.c.time, v.c.id) = (c.time, c.id) := by
          rw [hptr.1, hptr.2, h3]
          congr 1
          omega
        exact ⟨e, by rw [← e]; exact h1⟩
      · rintro ⟨h1, h2⟩
        have e1 : v.c.time = c.time := congrArg Prod.fst h1
        have e2 : v.c.id = c.id := congrArg Prod.snd h1
        refine ⟨by rw [h1]; exact h2, ?_, ?_⟩
        · rw [e1, hptr.1]
          omega
        · rw [e2, hptr.2]
    simp only [hiff]
  rw [hfilter] at h2
  obtain ⟨fk', g1, g2, g3, g4, g5⟩ := ApplyCenters_get?
    ((ClusterBoxVisits (front :: rest)).foldl
      (fun s v => AccumulatePoint (front :: rest) front.time v s)
      ((front :: rest).map (fun f =>
        List.replicate f.clusters.length ClusterCenterAccumulator.init)))
    (front :: rest) k i fk c hk hi
  refine ⟨_, fk', UpdateClusterCenters_eq front rest, g1, g2, g3, g4, ?_⟩
  rw [g5, getD_of_get? _ k row' [] h1, getD_of_get? _ i _ ClusterCenterAccumulator.init h2]

/-- C29 (center update), as the code has it: let `c` be the cluster of index `i` of the
window frame of index `k`, with `c.time` the time of that frame and `c.id = i`.  One
`UpdateClusterCenters` pass returns and leaves the assignment grids as they are.  The
accumulator of `c` collects `centerMembers`: the valid points that lie inside the clamped
search box of a valid window cluster of pointer `c.ptr` and whose cell references `c.ptr`;
a point assigned to `c` outside that box is not counted.  A valid `c` is marked invalid
exactly when there is no such point; otherwise its color and position become the arithmetic
means of the colors and positions of these points, its normal `(0,0,-1)` and its pixel
`CameraProject(position)`.  An invalid `c` is left as it is. -/
theorem center_update (front : Frame) (rest : List Frame) (k i : Nat) (fk : Frame)
    (c : Cluster) (hk : (front :: rest).get? k = some fk) (hi : fk.clusters.get? i = some c)
    (hptr : c.time = front.time + k ∧ c.id = i) :
    ∃ frames' fk' c', UpdateClusterCenters (front :: rest) = some frames' ∧
      frames'.get? k = some fk' ∧ fk'.assignment = fk.assignment ∧
      fk'.clusters.get? i = some c' ∧
      (∀ v : Visit, v ∈ centerMembers (front :: rest) c ↔
        v.c.ptr = c.ptr ∧ ∃ fj ∈ front :: rest, v.c ∈ fj.clusters ∧ v.c.valid = true ∧
          ∃ frame, (front :: rest).get? v.t = some frame ∧ v.frame_time = frame.time ∧
            inSearchBox front.rgbd.rows front.rgbd.cols v.c frame.time v.x v.y ∧
            (frame.rgbd.get v.x v.y).valid = true ∧ v.p = frame.rgbd.get v.x v.y ∧
            (frame.assignment.get v.x v.y).cluster = some c.ptr) ∧
      (c.valid = true → (c'.valid = false ↔ centerMembers (front :: rest) c = [])) ∧
      (c.valid = true → centerMembers (front :: rest) c ≠ [] →
        c'.valid = true ∧ c'.time = c.time ∧ c'.id = c.id ∧
        c'.cluster_radius_px = c.cluster_radius_px ∧
        c'.color = Vec3.smul (1 / ((centerMembers (front :: rest) c).length : ℚ))
          (vecSum ((centerMembers (front :: rest) c).map (fun v => v.p.color))) ∧
        c'.position = Vec3.smul (1 / ((centerMembers (front :: rest) c).length : ℚ))
          (vecSum ((centerMembers (front :: rest) c).map (fun v => v.p.position))) ∧
        c'.normal = ⟨0, 0, -1⟩ ∧
        c'.pixel = CameraProject c'.position) ∧
      (c.valid = false → c' = c) := by
  obtain ⟨frames', fk', h1, h2, -, -, h3, h4⟩ :=
    UpdateClusterCenters_get? front rest k i fk c hk hi hptr
  obtain ⟨hnum, hcol, hpos⟩ := foldl_add_sums (centerMembers (front :: rest) c)
    ClusterCenterAccumulator.init
  have hnum' : ((centerMembers (front :: rest) c).foldl (fun cca v => cca.add v.p)
      ClusterCenterAccumulator.init).num = ((centerMembers (front :: rest) c).length : Int) := by
    rw [hnum]
    simp [ClusterCenterAccumulator.init]
  refine ⟨frames', fk', _, h1, h2, h3, h4, mem_centerMembers front rest c, ?_, ?_, ?_⟩
  · intro hv
    constructor
    · intro hinv
      by_contra hne
      have hn0 : ((centerMembers (front :: rest) c).foldl (fun cca v => cca.add v.p)
          ClusterCenterAccumulator.init).num ≠ 0 := by
        rw [hnum']
        have := List.length_pos.mpr hne
        omega
      rw [UpdateCenter_mean c _ hv hn0] at hinv
      simp only at hinv
      rw [hv] at hinv
      exact Bool.noConfusion hinv
    · intro hnil
      rw [UpdateCenter_empty c _ (by rw [hnum', hnil]; rfl)]
  · intro hv hne
    have hn0 : ((centerMembers (front :: rest) c).foldl (fun cca v => cca.add v.p)
        ClusterCenterAccumulator.init).num ≠ 0 := by
      rw [hnum']
      have := List.length_pos.mpr hne
      omega
    rw [UpdateCenter_mean c _ hv hn0, hnum', hcol, hpos]
    exact ⟨hv, rfl, rfl, rfl, rfl, rfl, rfl, rfl⟩
  · intro hv
    exact UpdateCenter_invalid c _ hv

/-- Witness of C29: the cluster `(0,0)` of `tieFrame`, to which no point is assigned yet; the
pass marks it invalid. -/
theorem center_update_witness :
    ∃ frames' fk' c', UpdateClusterCenters [tieFrame] = some frames' ∧
      frames'.get? 0 = some fk' ∧ fk'.clusters.get? 0 = some c' ∧ c'.valid = false := by
  obtain ⟨frames', fk', c', h1, h2, -, h3, -, h4, -⟩ :=
    center_update tieFrame [] 0 0 tieFrame { originCluster with id := 0 } rfl rfl
      ⟨by decide, rfl⟩
  refine ⟨frames', fk', c', h1, h2, h3, (h4 rfl).mpr ?_⟩
  decide!

/-- Counterexample to C29 as stated: in `farFrame` the valid point of pixel `(3,0)` is
assigned to the valid cluster `(0,0)`, but lies outside its search box `[0,2] x [0,1]`; the
pass does not count it and marks the cluster invalid. -/
theorem center_update_counterexample :
    farFrame.clusters.map (fun c => (c.ptr, c.valid)) = [(((0 : Int), 0), true)] ∧
    (farFrame.rgbd.get 3 0).valid = true ∧
    (farFrame.assignment.get 3 0).cluster = some ((0 : Int), 0) ∧
    ¬ inSearchBox 4 2 originCluster 0 3 0 ∧
    (UpdateClusterCenters [farFrame]).map
        (fun frames => frames.map (fun f => f.clusters.map (fun c => c.valid)))
      = some [[false]] := by
  refine ⟨by decide!, by decide!, by decide!, by decide!, by decide!⟩

/-! ## Auxiliary lemmas: the last pass of `UpdateClusters` -/

theorem ApplyCenters_frame (ccas : List (List ClusterCenterAccumulator)) (frames : List Frame)
    (t : Nat) (f : Frame) (h : frames.get? t = some f) :
    ∃ f', (ApplyCenters ccas frames).get? t = some f' ∧ f'.time = f.time ∧
      f'.rgbd = f.rgbd ∧ f'.assignment = f.assignment := by
  unfold ApplyCenters
  rw [List.get?_eq_getElem?] at h
  refine ⟨⟨f.time, f.rgbd, f.clusters.enum.map (fun kc =>
      UpdateCenter kc.2 ((ccas.getD t []).getD kc.1 ClusterCenterAccumulator.init)),
    f.assignment⟩, ?_, rfl, rfl, rfl⟩
  rw [List.get?_eq_getElem?, List.getElem?_map, List.getElem?_enum, h]
  rfl

theorem UpdateClusterCenters_frame (mid frames' : List Frame)
    (h : UpdateClusterCenters mid = some frames') (t : Nat) (fm : Frame)
    (ht : mid.get? t = some fm) :
    ∃ f', frames'.get? t = some f' ∧ f'.time = fm.time ∧ f'.rgbd = fm.rgbd ∧
      f'.assignment = fm.assignment := by
  cases mid with
  | nil => simp [UpdateClusterCenters] at h
  | cons front rest =>
    rw [UpdateClusterCenters_eq, Option.some.injEq] at h
    rw [← h]
    exact ApplyCenters_frame _ _ t fm ht

theorem UpdateClustersLoop_last :
    ∀ (k : Nat) (frames frames' : List Frame), UpdateClustersLoop (k + 1) frames = some frames' →
      ∃ prev mid, UpdateClustersLoop k frames = some prev ∧
        UpdateClusterAssignment prev = some mid ∧ UpdateClusterCenters mid = some frames'
  | 0, frames, frames', h => by
    simp only [UpdateClustersLoop] at h
    cases h1 : UpdateClusterAssignment frames with
    | none => simp [h1] at h
    | some f1 =>
      simp only [h1] at h
      cases h2 : UpdateClusterCenters f1 with
      | none => simp [h2] at h
      | some f2 =>
        simp only [h2, Option.some.injEq] at h
        subst h
        exact ⟨frames, f1, rfl, h1, h2⟩
  | k + 1, frames, frames', h => by
    rw [UpdateClustersLoop] at h
    cases h1 : UpdateClusterAssignment frames with
    | none => simp [h1] at h
    | some f1 =>
      simp only [h1] at h
      cases h2 : UpdateClusterCenters f1 with
      | none => simp [h2] at h
      | some f2 =>
        simp only [h2] at h
        obtain ⟨prev, mid, g1, g2, g3⟩ := UpdateClustersLoop_last k f2 frames' h
        refine ⟨prev, mid, ?_, g2, g3⟩
        rw [UpdateClustersLoop]
        simp only [h1, h2]
        exact g1

theorem UpdateClusterAssignment_cells (front : Frame) (rest : List Frame) (t : Nat)
    (f : Frame) (ht : (front :: rest).get? t = some f) :
    ∃ frames' f', UpdateClusterAssignment (front :: rest) = some frames' ∧
      frames'.get? t = some f' ∧ f'.rgbd = f.rgbd ∧ f'.time = f.time ∧
      (∀ x y : Int, (f'.assignment.get x y).distance ≤ (f.assignment.get x y).distance) ∧
      (∀ x y : Int, (f.rgbd.get x y).valid = true →
        ∀ fk ∈ front :: rest, ∀ c ∈ fk.clusters, c.valid = true →
          inSearchBox front.rgbd.rows front.rgbd.cols c f.time x y →
          (f'.assignment.get x y).distance
            ≤ PointClusterDistance f.time (f.rgbd.get x y) c) ∧
      (∀ x y : Int, f'.assignment.get x y = f.assignment.get x y ∨
        ∃ fk ∈ front :: rest, ∃ c ∈ fk.clusters, c.valid = true ∧
          inSearchBox front.rgbd.rows front.rgbd.cols c f.time x y ∧
          f'.assignment.get x y
            = ⟨some c.ptr, PointClusterDistance f.time (f.rgbd.get x y) c⟩) := by
  obtain ⟨f', h1, h2, h3, -, h5⟩ :=
    AssignVisits_cell (ClusterBoxVisits (front :: rest)) (front :: rest) t f ht
  refine ⟨_, f', UpdateClusterAssignment_eq front rest, h1, h2, h3, ?_, ?_, ?_⟩
  · intro x y
    rw [h5]
    exact foldl_assignCell_le _ _
  · intro x y hp fk hfk c hc hcv hbox
    rw [h5]
    have hmem : (⟨c, t, f.time, x, y, f.rgbd.get x y⟩ : Visit)
        ∈ visitsOf (ClusterBoxVisits (front :: rest)) t x y := by
      rw [mem_visitsOf]
      refine ⟨?_, rfl, rfl, rfl⟩
      rw [mem_ClusterBoxVisits]
      exact ⟨fk, hfk, c, hc, hcv, f, ht, hbox, hp, rfl⟩
    have hle := foldl_assignCell_le_mem _ (f.assignment.get x y) _ hmem
    simp only [visitDistance] at hle
    exact hle
  · intro x y
    rw [h5]
    rcases foldl_assignCell_attained (visitsOf (ClusterBoxVisits (front :: rest)) t x y)
      (f.assignment.get x y) with e | ⟨w, hw, -, e⟩
    · exact Or.inl e
    · right
      obtain ⟨hmem, rfl, rfl, rfl⟩ := (mem_visitsOf _ _ _ _ _).mp hw
      obtain ⟨fk, hfk, c, hc, hcv, frame, hget, hbox, hp, he⟩ :=
        (mem_ClusterBoxVisits front rest w).mp hmem
      rw [ht] at hget
      simp only [Option.some.injEq] at hget
      subst hget
      rw [he] at e
      simp only [visitDistance] at e
      exact ⟨fk, hfk, c, hc, hcv, hbox, e⟩

/-- C28 (assignment is current), as the code has it: the cells are written by the assignment
passes only and are not recomputed when the centers move.  After `step`, the window is the
result of four rounds, one more assignment pass on the frames `front :: rest` they leave,
and one center update, which keeps every assignment grid.  So for every pixel of a window
frame the stored distance is at most the one before the last assignment pass and, for a
valid point, at most `PointClusterDistance` to every valid covering cluster as it is before
the last center update; the cell is either the one before that pass or holds such a cluster
with the distance to its center before the last center update. -/
theorem assignment_current (ops : FloatOps) (sv sv' : ContinuousSupervoxels) (inp : StepInput)
    (hstep : sv.step ops inp = some sv') :
    ∃ (sampled : List Cluster × RandomEngine) (front : Frame) (rest mid frames' : List Frame),
      sv.sampleNewClusters inp = some sampled ∧
      UpdateClustersLoop 4 (stepWindow sv (CreateRgbdData inp.color inp.depth) sampled.1)
        = some (front :: rest) ∧
      UpdateClusterAssignment (front :: rest) = some mid ∧
      UpdateClusterCenters mid = some frames' ∧
      sv'.series_ = stepSeries sv (CreateRgbdData inp.color inp.depth) sampled.1 frames' ∧
      ∀ (t : Nat) (fp : Frame), (front :: rest).get? t = some fp →
        ∃ fm f', mid.get? t = some fm ∧ frames'.get? t = some f' ∧ f'.time = fp.time ∧
          f'.rgbd = fp.rgbd ∧ f'.assignment = fm.assignment ∧
          ∀ x y : Int,
            (f'.assignment.get x y).distance ≤ (fp.assignment.get x y).distance ∧
            ((fp.rgbd.get x y).valid = true →
              ∀ fk ∈ front :: rest, ∀ c ∈ fk.clusters, c.valid = true →
                inSearchBox front.rgbd.rows front.rgbd.cols c fp.time x y →
                (f'.assignment.get x y).distance
                  ≤ PointClusterDistance fp.time (fp.rgbd.get x y) c) ∧
            (f'.assignment.get x y = fp.assignment.get x y ∨
              ∃ fk ∈ front :: rest, ∃ c ∈ fk.clusters, c.valid = true ∧
                inSearchBox front.rgbd.rows front.rgbd.cols c fp.time x y ∧
                f'.assignment.get x y
                  = ⟨some c.ptr, PointClusterDistance fp.time (fp.rgbd.get x y) c⟩) := by
  obtain ⟨sampled, series, hs, hu, hsv'⟩ := step_some ops sv sv' inp hstep
  unfold UpdateClusters at hu
  simp only at hu
  cases hloop : UpdateClustersLoop CLUSTER_ITERATIONS
      (stepWindow sv (CreateRgbdData inp.color inp.depth) sampled.1) with
  | none =>
    unfold stepWindow at hloop
    simp [hloop] at hu
  | some frames' =>
    have hser : series = stepSeries sv (CreateRgbdData inp.color inp.depth) sampled.1 frames' := by
      unfold stepWindow at hloop
      simp only [hloop, Option.some.injEq] at hu
      rw [← hu]
      rfl
    have h5 : CLUSTER_ITERATIONS = 4 + 1 := rfl
    rw [h5] at hloop
    obtain ⟨prev, mid, g1, g2, g3⟩ := UpdateClustersLoop_last 4 _ frames' hloop
    cases prev with
    | nil => simp [UpdateClusterAssignment, ClusterBox] at g2
    | cons front rest =>
      refine ⟨sampled, front, rest, mid, frames', hs, g1, g2, g3, ?_, ?_⟩
      · rw [hsv', ← hser]
      · intro t fp ht
        obtain ⟨frames1, fm, e1, e2, e3, e4, e5, e6, e7⟩ :=
          UpdateClusterAssignment_cells front rest t fp ht
        rw [g2, Option.some.injEq] at e1
        subst e1
        obtain ⟨f', k1, k2, k3, k4⟩ := UpdateClusterCenters_frame _ frames' g3 t fm e2
        refine ⟨fm, f', e2, k1, by rw [k2, e4], by rw [k3, e3], k4, ?_⟩
        intro x y
        rw [k4]
        exact ⟨e5 x y, e6 x y, e7 x y⟩

/-- Witness of C28: the first call of `step` after `start` on a 16x8 frame of constant depth
`2000`. -/
theorem assignment_current_witness :
    ∃ sv' front rest mid frames',
      (freshEngine.start 16 8).step ⟨fun _ => 1, fun x => x⟩ depthInput16x8 = some sv' ∧
      UpdateClusterAssignment (front :: rest) = some mid ∧
      UpdateClusterCenters mid = some frames' := by
  obtain ⟨sampled, hs⟩ := sampleNewClusters_isSome (freshEngine.start 16 8) depthInput16x8
    ⟨by decide, by decide⟩
  obtain ⟨sv', hstep⟩ := step_isSome ⟨fun _ => 1, fun x => x⟩ (freshEngine.start 16 8) []
    depthInput16x8 sampled (After_start freshEngine 16 8) hs
  obtain ⟨-, front, rest, mid, frames', -, -, h1, h2, -⟩ :=
    assignment_current ⟨fun _ => 1, fun x => x⟩ (freshEngine.start 16 8) sv' depthInput16x8 hstep
  exact ⟨sv', front, rest, mid, frames', hstep, h1, h2⟩

/-! ## Auxiliary lemmas: the events of the sampler -/

theorem DistributeDensity_events (mm_rows mm_cols level x y : Nat) (v : ℚ) (m : Mat) :
    DistributeDensity mm_rows mm_cols m x y v
      = (DistributeEvents mm_rows mm_cols level x y v).foldl applyEvent m := by
  unfold DistributeDensity DistributeEvents
  simp only
  by_cases hq : diffusionWeight mm_rows mm_cols x y > 0
  · rw [if_pos hq, if_pos hq]
    by_cases h1 : x + 1 < mm_rows <;> by_cases h2 : y + 1 < mm_cols <;>
      by_cases h3 : 0 < x <;>
      simp [h1, h2, h3, applyEvent]
  · rw [if_neg hq, if_neg hq]
    rfl

theorem modifyAt_id {α : Type} : ∀ (n : Nat) (l : List α), modifyAt (fun a => a) n l = l
  | _, [] => by simp [modifyAt]
  | 0, _ :: _ => rfl
  | n + 1, a :: l => by
    simp only [modifyAt]
    rw [modifyAt_id n l]

theorem modifyAt_comp {α : Type} (f g : α → α) :
    ∀ (n : Nat) (l : List α), modifyAt g n (modifyAt f n l) = modifyAt (fun a => g (f a)) n l
  | _, [] => by simp [modifyAt]
  | 0, _ :: _ => rfl
  | n + 1, a :: l => by
    simp only [modifyAt]
    rw [modifyAt_comp f g n l]

theorem foldl_applyEventAt_level (level : Nat) :
    ∀ (events : List SamplerEvent) (cm : List Mat), (∀ e ∈ events, e.level = level) →
      events.foldl applyEventAt cm = modifyAt (fun m => events.foldl applyEvent m) level cm
  | [], cm, _ => by
    simp only [List.foldl_nil]
    exact (modifyAt_id level cm).symm
  | e :: es, cm, h => by
    rw [List.foldl_cons, foldl_applyEventAt_level level es _
      (fun a ha => h a (List.mem_cons_of_mem _ ha))]
    unfold applyEventAt
    rw [h e (List.mem_cons_self _ _), modifyAt_comp]
    rfl

theorem DistributeEvents_level (mm_rows mm_cols level x y : Nat) (v : ℚ) :
    ∀ e ∈ DistributeEvents mm_rows mm_cols level x y v, e.level = level := by
  intro e he
  unfold DistributeEvents at he
  simp only at he
  split_ifs at he <;>
    simp only [List.mem_append, List.mem_singleton, List.mem_nil_iff, List.nil_append,
      List.append_nil, or_false, false_or] at he <;>
    (try rcases he with he | he | he | he) <;> (try rcases he with he | he | he) <;>
    (try rcases he with he | he) <;> (try rfl)

theorem SampleLeafTrace_carry (rgbd : RgbdData) (mipmaps : List Mat) (level x y : Nat)
    (st : SamplerState) :
    (SampleLeaf rgbd mipmaps level x y st).carry_mipmaps
      = (SampleLeafTrace rgbd mipmaps level x y st).foldl applyEventAt st.carry_mipmaps := by
  rw [SampleLeaf_carry]
  unfold SampleLeafTrace
  rw [foldl_applyEventAt_level level _ _ (by
    intro e he
    rcases List.mem_cons.mp he with h | h
    · rw [h]
      rfl
    · exact DistributeEvents_level _ _ _ _ _ _ e h)]
  congr 1
  funext m
  rw [List.foldl_cons]
  exact DistributeDensity_events _ _ level x y _ _

theorem SampleTrace_carry (rgbd : RgbdData) (mipmaps : List Mat) :
    ∀ (level x y : Nat) (st : SamplerState),
      (SampleDensityImplRec rgbd mipmaps level x y st).carry_mipmaps
        = (SampleTrace rgbd mipmaps level x y st).foldl applyEventAt st.carry_mipmaps
  | 0, x, y, st => by
    simp only [SampleDensityImplRec, SampleTrace]
    exact SampleLeafTrace_carry rgbd mipmaps 0 x y st
  | level + 1, x, y, st => by
    simp only [SampleDensityImplRec, SampleTrace]
    split_ifs with h
    · exact SampleLeafTrace_carry rgbd mipmaps (level + 1) x y st
    · rw [List.foldl_cons, List.foldl_append, List.foldl_append, List.foldl_append,
        SampleTrace_carry rgbd mipmaps level (2 * x + 1) (2 * y + 1),
        SampleTrace_carry rgbd mipmaps level (2 * x + 1) (2 * y),
        SampleTrace_carry rgbd mipmaps level (2 * x) (2 * y + 1),
        SampleTrace_carry rgbd mipmaps level (2 * x) (2 * y)]
      congr 4
      unfold applyEventAt
      exact (modifyAt_id _ _).symm

/-- C30 (causal carry order) on a 16x16 frame of constant depth `2000`: the call at the cell
`(0,1)` of level 3 is event 5 of the traversal of `SampleDensityImpl`, and event 8 is the
statement `carry_mm(0,1) += 3*scl` of the later leaf `(1,0)`, for its neighbour
`(x-1,y+1)`; this carry is written to a cell whose call is already over. -/
theorem carry_to_visited_cell :
    (SampleDensityImplTrace (CreateRgbdData depthInput16x16.color depthInput16x16.depth)
        (ComputeFrameDensity (CreateRgbdData depthInput16x16.color depthInput16x16.depth))
        RandomEngine.zeros).map
      (fun events => (events.get? 5, events.get? 7, events.get? 8, carriesToVisited events))
      = some (some (SamplerEvent.visit 3 0 1), some (SamplerEvent.visit 3 1 0),
          some (SamplerEvent.carry 3 0 1 (-24948431 / 237195816)),
          [SamplerEvent.carry 3 0 1 (-24948431 / 237195816)]) := by
  decide!

/-! ## Auxiliary lemmas: a window of one frame and one cluster -/

theorem forall₂_singleton {α β : Type} (R : α → β → Prop) (a : α) (l : List β)
    (h : List.Forall₂ R [a] l) : ∃ b, l = [b] ∧ R a b := by
  cases h with
  | cons h1 h2 =>
    cases h2
    exact ⟨_, rfl, h1⟩

theorem ClusterBoxVisits_single (f : Frame) (c : Cluster) (hc : f.clusters = [c])
    (hv : c.valid = true) (ht : f.time = 0) :
    ClusterBoxVisits [f] = gridVisits f.rgbd c := by
  obtain ⟨time, rgbd, clusters, assignment⟩ := f
  simp only at hc ht
  subst hc ht
  simp [ClusterBoxVisits, hv, List.enum, List.enumFrom, gridVisits, ClusterBoxPoints]

theorem mem_gridVisits (rgbd : RgbdData) (c : Cluster) (v : Visit) :
    v ∈ gridVisits rgbd c ↔
      inSearchBox rgbd.rows rgbd.cols c 0 v.x v.y ∧ (rgbd.get v.x v.y).valid = true ∧
        v = ⟨c, 0, 0, v.x, v.y, rgbd.get v.x v.y⟩ := by
  unfold gridVisits
  rw [mem_ClusterBoxPoints]

theorem UpdateClusterAssignment_single (f : Frame) (c : Cluster) (hc : f.clusters = [c])
    (hv : c.valid = true) (ht : f.time = 0) :
    ∃ f1, UpdateClusterAssignment [f] = some [f1] ∧ f1.time = 0 ∧ f1.rgbd = f.rgbd ∧
      f1.clusters = [c] ∧
      ∀ x y : Int, f1.assignment.get x y
        = (visitsOf (gridVisits f.rgbd c) 0 x y).foldl assignCell (f.assignment.get x y) := by
  obtain ⟨f1, h1, h2, h3, h4, h5⟩ := AssignVisits_cell (ClusterBoxVisits [f]) [f] 0 f rfl
  have hstep := UpdateClusterAssignment_step [f] _ (UpdateClusterAssignment_eq f [])
  obtain ⟨b, hb, -⟩ := forall₂_singleton _ _ _ hstep
  rw [hb] at h1
  simp only [List.get?_cons_zero, Option.some.injEq] at h1
  subst h1
  refine ⟨b, ?_, by rw [h3, ht], h2, by rw [h4, hc], ?_⟩
  · rw [UpdateClusterAssignment_eq, hb]
  · intro x y
    rw [h5, ClusterBoxVisits_single f c hc hv ht]

theorem UpdateClusterCenters_single (f : Frame) (c : Cluster) (hc : f.clusters = [c])
    (hv : c.valid = true) (ht : f.time = 0) (hct : c.time = 0) (hid : c.id = 0)
    (hptr : ∀ v ∈ gridVisits f.rgbd c, (f.assignment.get v.x v.y).cluster = some c.ptr) :
    ∃ f', UpdateClusterCenters [f] = some [f'] ∧ f'.time = 0 ∧ f'.rgbd = f.rgbd ∧
      f'.clusters = [gridCenter f.rgbd c] ∧ f'.assignment = f.assignment := by
  obtain ⟨frames', fk', h1, h2, h3, h4, h5, h6⟩ :=
    UpdateClusterCenters_get? f [] 0 0 f c rfl (by rw [hc]; rfl)
      ⟨by rw [hct, ht]; rfl, hid⟩
  have hmem : centerMembers [f] c = gridVisits f.rgbd c := by
    unfold centerMembers
    rw [ClusterBoxVisits_single f c hc hv ht, List.filter_eq_self]
    intro v hvm
    have hvm' := (mem_gridVisits _ _ _).mp hvm
    have e1 : v.c = c := by rw [hvm'.2.2]
    have e2 : v.t = 0 := by rw [hvm'.2.2]
    simp only [decide_eq_true_eq]
    refine ⟨by rw [e1], ?_⟩
    rw [e2]
    exact hptr v hvm
  rw [hmem] at h6
  obtain ⟨b, hb, hfs⟩ := forall₂_singleton _ _ _ (UpdateClusterCenters_step [f] frames' h1)
  rw [hb] at h2
  simp only [List.get?_cons_zero, Option.some.injEq] at h2
  subst h2
  have hcl := hfs.2.2
  rw [hc] at hcl
  obtain ⟨c', hc', -⟩ := forall₂_singleton _ _ _ hcl
  rw [hc'] at h6
  simp only [List.get?_cons_zero, Option.some.injEq] at h6
  refine ⟨b, by rw [h1, hb], by rw [h3, ht], h4, ?_, h5⟩
  rw [hc', h6]
  rfl

theorem inSearchBox_of_corners (NX NY : Nat) (c : Cluster) (t x0 y0 x1 y1 x y : Int)
    (h0 : inSearchBox NX NY c t x0 y0) (h1 : inSearchBox NX NY c t x1 y1)
    (hx0 : x0 ≤ x) (hx1 : x ≤ x1) (hy0 : y0 ≤ y) (hy1 : y ≤ y1) :
    inSearchBox NX NY c t x y :=
  ⟨le_trans h0.1 hx0, le_trans hx1 h1.2.1, le_trans h0.2.2.1 hy0, le_trans hy1 h1.2.2.2⟩

theorem inSearchBox_bounds (NX NY : Nat) (c : Cluster) (t x y : Int)
    (h : inSearchBox NX NY c t x y) :
    0 ≤ x ∧ x ≤ (NX : Int) - 1 ∧ 0 ≤ y ∧ y ≤ (NY : Int) - 1 :=
  ⟨le_trans (le_max_left _ _) h.1, le_trans h.2.1 (min_le_left _ _),
    le_trans (le_max_left _ _) h.2.2.1, le_trans h.2.2.2 (min_le_left _ _)⟩

/-! ## Auxiliary lemmas: the first step on a 12x6 frame -/

theorem seeds12x6 :
    (SampleDensityImpl grid12x6 (ComputeFrameDensity grid12x6) RandomEngine.zeros).map
      (fun r => r.1) = some [⟨4, 4⟩] := by
  decide!

theorem gridCenter_seedCluster44 : gridCenter grid12x6 seedCluster44 = movedCluster := by
  decide!

theorem gridCenter_movedCluster : gridCenter grid12x6 movedCluster = movedCluster := by
  decide!

theorem gridVisits_near :
    (gridVisits grid12x6 seedCluster44).all (fun v => decide (visitDistance v < 1000000))
      = true := by
  decide!

theorem corners12x6 :
    inSearchBox 12 6 seedCluster44 0 0 0 ∧ inSearchBox 12 6 seedCluster44 0 11 5 ∧
      inSearchBox 12 6 movedCluster 0 0 0 ∧ inSearchBox 12 6 movedCluster 0 11 5 := by
  decide!

theorem grid12x6_valid :
    (intRange 0 5).all (fun y => (intRange 0 11).all (fun x => (grid12x6.get x y).valid))
      = true := by
  decide!

theorem distance44 :
    PointClusterDistance 0 (grid12x6.get 4 4) seedCluster44 = 0 ∧
      PointClusterDistance 0 (grid12x6.get 4 4) movedCluster = 3 / 88 := by
  decide!
theorem gridVisits_mem12x6 (c : Cluster) (h0 : inSearchBox 12 6 c 0 0 0)
    (h1 : inSearchBox 12 6 c 0 11 5) (x y : Int) (hx0 : 0 ≤ x) (hx1 : x ≤ 11) (hy0 : 0 ≤ y)
    (hy1 : y ≤ 5) :
    (⟨c, 0, 0, x, y, grid12x6.get x y⟩ : Visit) ∈ gridVisits grid12x6 c := by
  rw [mem_gridVisits]
  refine ⟨inSearchBox_of_corners 12 6 c 0 0 0 11 5 x y h0 h1 hx0 hx1 hy0 hy1, ?_, rfl⟩
  have h := grid12x6_valid
  rw [List.all_eq_true] at h
  have h2 := h y ((mem_intRange 0 5 y).mpr ⟨hy0, hy1⟩)
  rw [List.all_eq_true] at h2
  exact h2 x ((mem_intRange 0 11 x).mpr ⟨hx0, hx1⟩)

theorem gridVisits_bounds12x6 (c : Cluster) (v : Visit) (h : v ∈ gridVisits grid12x6 c) :
    0 ≤ v.x ∧ v.x ≤ 11 ∧ 0 ≤ v.y ∧ v.y ≤ 5 := by
  have hb := inSearchBox_bounds 12 6 c 0 v.x v.y ((mem_gridVisits _ _ _).mp h).1
  have e1 : ((12 : Nat) : Int) - 1 = 11 := rfl
  have e2 : ((6 : Nat) : Int) - 1 = 5 := rfl
  rw [e1, e2] at hb
  exact hb

theorem round_single (c : Cluster) (f : Frame) (hc : f.clusters = [c]) (hv : c.valid = true)
    (ht : f.time = 0) (hr : f.rgbd = grid12x6) (hct : c.time = 0) (hid : c.id = 0)
    (h0 : inSearchBox 12 6 c 0 0 0) (h1 : inSearchBox 12 6 c 0 11 5)
    (hcells : ∀ x y : Int, 0 ≤ x → x ≤ 11 → 0 ≤ y → y ≤ 5 →
      (f.assignment.get x y).cluster = some (0, 0) ∨
        PointClusterDistance 0 (grid12x6.get x y) c < (f.assignment.get x y).distance) :
    ∃ f1 f', UpdateClusterAssignment [f] = some [f1] ∧ UpdateClusterCenters [f1] = some [f'] ∧
      f'.time = 0 ∧ f'.rgbd = grid12x6 ∧ f'.clusters = [gridCenter grid12x6 c] ∧
      (∀ x y : Int, 0 ≤ x → x ≤ 11 → 0 ≤ y → y ≤ 5 →
        (f'.assignment.get x y).cluster = some (0, 0)) ∧
      (∀ x y : Int, (f'.assignment.get x y).distance ≤ (f.assignment.get x y).distance) ∧
      (∀ x y : Int, 0 ≤ x → x ≤ 11 → 0 ≤ y → y ≤ 5 →
        (f'.assignment.get x y).distance ≤ PointClusterDistance 0 (grid12x6.get x y) c) ∧
      (∀ x y : Int, f'.assignment.get x y = f.assignment.get x y ∨
        f'.assignment.get x y
          = ⟨some (0, 0), PointClusterDistance 0 (grid12x6.get x y) c⟩) := by
  obtain ⟨f1, g1, g2, g3, g4, g5⟩ := UpdateClusterAssignment_single f c hc hv ht
  rw [hr] at g3 g5
  have hptr0 : c.ptr = (0, 0) := by
    unfold Cluster.ptr
    rw [hct, hid]
  have ha : ∀ x y : Int, (f1.assignment.get x y).distance ≤ (f.assignment.get x y).distance := by
    intro x y
    rw [g5]
    exact foldl_assignCell_le _ _
  have hb : ∀ x y : Int, 0 ≤ x → x ≤ 11 → 0 ≤ y → y ≤ 5 →
      (f1.assignment.get x y).distance ≤ PointClusterDistance 0 (grid12x6.get x y) c := by
    intro x y hx0 hx1 hy0 hy1
    rw [g5]
    have hmem : (⟨c, 0, 0, x, y, grid12x6.get x y⟩ : Visit)
        ∈ visitsOf (gridVisits grid12x6 c) 0 x y := by
      rw [mem_visitsOf]
      exact ⟨gridVisits_mem12x6 c h0 h1 x y hx0 hx1 hy0 hy1, rfl, rfl, rfl⟩
    have hle := foldl_assignCell_le_mem _ (f.assignment.get x y) _ hmem
    simp only [visitDistance] at hle
    exact hle
  have hcc : ∀ x y : Int, f1.assignment.get x y = f.assignment.get x y ∨
      f1.assignment.get x y
        = ⟨some (0, 0), PointClusterDistance 0 (grid12x6.get x y) c⟩ := by
    intro x y
    rw [g5]
    rcases foldl_assignCell_attained (visitsOf (gridVisits grid12x6 c) 0 x y)
      (f.assignment.get x y) with e | ⟨w, hw, -, e⟩
    · exact Or.inl e
    · right
      obtain ⟨hmem, -, rfl, rfl⟩ := (mem_visitsOf _ _ _ _ _).mp hw
      have he := ((mem_gridVisits _ _ _).mp hmem).2.2
      rw [he] at e
      simp only [visitDistance] at e
      rw [hptr0] at e
      exact e
  have hp : ∀ x y : Int, 0 ≤ x → x ≤ 11 → 0 ≤ y → y ≤ 5 →
      (f1.assignment.get x y).cluster = some (0, 0) := by
    intro x y hx0 hx1 hy0 hy1
    rcases hcc x y with e | e
    · rcases hcells x y hx0 hx1 hy0 hy1 with h | h
      · rw [e]
        exact h
      · have hle := hb x y hx0 hx1 hy0 hy1
        rw [e] at hle
        exact absurd h (not_lt.mpr hle)
    · rw [e]
  obtain ⟨f', k1, k2, k3, k4, k5⟩ := UpdateClusterCenters_single f1 c g4 hv g2 hct hid (by
    intro v hvm
    rw [g3] at hvm
    obtain ⟨b1, b2, b3, b4⟩ := gridVisits_bounds12x6 c v hvm
    rw [hptr0]
    exact hp v.x v.y b1 b2 b3 b4)
  rw [g3] at k3 k4
  refine ⟨f1, f', g1, k1, k2, k3, k4, ?_, ?_, ?_, ?_⟩
  · intro x y
    rw [k5]
    exact hp x y
  · intro x y
    rw [k5]
    exact ha x y
  · intro x y
    rw [k5]
    exact hb x y
  · intro x y
    rw [k5]
    exact hcc x y
theorem round_first :
    ∃ f1 frames', UpdateClusterAssignment [CreateFrame 0 grid12x6 [seedCluster44]] = some [f1] ∧
      UpdateClusterCenters [f1] = some frames' ∧ settledWindow frames' := by
  obtain ⟨h0, h1, -, -⟩ := corners12x6
  obtain ⟨f1, f', g1, g2, g3, g4, g5, g6, -, g8, g9⟩ :=
    round_single seedCluster44 (CreateFrame 0 grid12x6 [seedCluster44]) rfl rfl rfl rfl rfl rfl
      h0 h1 (by
        intro x y hx0 hx1 hy0 hy1
        right
        have hall := gridVisits_near
        rw [List.all_eq_true] at hall
        have h := hall _ (gridVisits_mem12x6 seedCluster44 h0 h1 x y hx0 hx1 hy0 hy1)
        simp only [decide_eq_true_eq, visitDistance] at h
        exact h)
  refine ⟨f1, [f'], g1, g2, f', rfl, g3, g4, ?_, g6, ?_⟩
  · rw [g5, gridCenter_seedCluster44]
  · have hle := g8 4 4 (by decide) (by decide) (by decide) (by decide)
    rw [distance44.1] at hle
    rcases g9 4 4 with e | e
    · rw [e] at hle
      exact absurd hle (by
        show ¬ ((1000000 : ℚ) ≤ 0)
        norm_num)
    · rw [e, distance44.1]

theorem round_next (frames : List Frame) (h : settledWindow frames) :
    ∃ f1 frames', UpdateClusterAssignment frames = some [f1] ∧
      UpdateClusterCenters [f1] = some frames' ∧ settledWindow frames' := by
  obtain ⟨f, rfl, ht, hr, hc, hp, hz⟩ := h
  obtain ⟨-, -, h0, h1⟩ := corners12x6
  obtain ⟨f1, f', g1, g2, g3, g4, g5, g6, g7, -, g9⟩ :=
    round_single movedCluster f hc rfl ht hr rfl rfl h0 h1
      (fun x y hx0 hx1 hy0 hy1 => Or.inl (hp x y hx0 hx1 hy0 hy1))
  refine ⟨f1, [f'], g1, g2, f', rfl, g3, g4, ?_, g6, ?_⟩
  · rw [g5, gridCenter_movedCluster]
  · have hle := g7 4 4
    rw [hz] at hle
    rcases g9 4 4 with e | e
    · rw [e, hz]
    · rw [e, distance44.2] at hle
      exact absurd hle (by
        show ¬ ((3 / 88 : ℚ) ≤ 0)
        norm_num)

theorem UpdateClustersLoop_settled :
    ∀ (k : Nat) (frames : List Frame), settledWindow frames →
      ∃ frames', UpdateClustersLoop k frames = some frames' ∧ settledWindow frames'
  | 0, frames, h => ⟨frames, rfl, h⟩
  | k + 1, frames, h => by
    obtain ⟨f1, frames1, g1, g2, g3⟩ := round_next frames h
    obtain ⟨frames', e1, e2⟩ := UpdateClustersLoop_settled k frames1 g3
    refine ⟨frames', ?_, e2⟩
    rw [UpdateClustersLoop]
    simp only [g1, g2]
    exact e1

theorem UpdateClustersLoop_first (k : Nat) :
    ∃ frames', UpdateClustersLoop (k + 1) [CreateFrame 0 grid12x6 [seedCluster44]]
        = some frames' ∧ settledWindow frames' := by
  obtain ⟨f1, frames1, g1, g2, g3⟩ := round_first
  obtain ⟨frames', e1, e2⟩ := UpdateClustersLoop_settled k frames1 g3
  refine ⟨frames', ?_, e2⟩
  rw [UpdateClustersLoop]
  simp only [g1, g2]
  exact e1

theorem UpdateClusters_some (time : Int) (ts series : Timeseries)
    (h : UpdateClusters time ts = some series) :
    ∃ frames', UpdateClustersLoop CLUSTER_ITERATIONS
        (ts.getFrameRange (time - CLUSTER_TIME_RADIUS) (time + CLUSTER_TIME_RADIUS + 1))
        = some frames' ∧
      series = ts.setFrameRange (time - CLUSTER_TIME_RADIUS) (time + CLUSTER_TIME_RADIUS + 1)
        frames' := by
  unfold UpdateClusters at h
  simp only at h
  cases hloop : UpdateClustersLoop CLUSTER_ITERATIONS
      (ts.getFrameRange (time - CLUSTER_TIME_RADIUS) (time + CLUSTER_TIME_RADIUS + 1)) with
  | none => simp [hloop] at h
  | some frames' =>
    simp only [hloop, Option.some.injEq] at h
    exact ⟨frames', rfl, h.symm⟩

theorem step12x6 (ops : FloatOps) :
    ∃ sv', (freshEngine.start 12 6).step ops depthInput12x6 = some sv' ∧
      settledWindow sv'.series_.frames := by
  obtain ⟨sampled, hs⟩ := sampleNewClusters_isSome (freshEngine.start 12 6) depthInput12x6
    ⟨by decide, by decide⟩
  obtain ⟨sv', hstep⟩ := step_isSome ops (freshEngine.start 12 6) [] depthInput12x6 sampled
    (After_start freshEngine 12 6) hs
  obtain ⟨sampled', series, hs', hu, hsv'⟩ := step_some ops _ sv' depthInput12x6 hstep
  obtain ⟨seeds, h1, -, h2⟩ := sampleNewClusters_some _ depthInput12x6 sampled' hs'
  have h1' : SampleDensityImpl grid12x6 (ComputeFrameDensity grid12x6) RandomEngine.zeros
      = some (seeds, sampled'.2) := h1
  have hseeds := seeds12x6
  rw [h1'] at hseeds
  simp only [Option.map_some', Option.some.injEq] at hseeds
  rw [hseeds] at h2
  have h2' : sampled'.1 = [seedCluster grid12x6 0 0 ⟨4, 4⟩] := h2
  obtain ⟨fr, hl, hs2⟩ := UpdateClusters_some _ _ _ hu
  rw [h2'] at hl hs2
  obtain ⟨frames', hloop, hset⟩ := UpdateClustersLoop_first 4
  have hrange : ((freshEngine.start 12 6).addAndPurge
      (CreateRgbdData depthInput12x6.color depthInput12x6.depth)
      [seedCluster grid12x6 0 0 ⟨4, 4⟩]).2
      = ⟨[CreateFrame 0 grid12x6 [seedCluster44]]⟩ := rfl
  rw [hrange] at hl hs2
  have hwin : (⟨[CreateFrame 0 grid12x6 [seedCluster44]]⟩ : Timeseries).getFrameRange
      (activeTime ⟨[CreateFrame 0 grid12x6 [seedCluster44]]⟩ - CLUSTER_TIME_RADIUS)
      (activeTime ⟨[CreateFrame 0 grid12x6 [seedCluster44]]⟩ + CLUSTER_TIME_RADIUS + 1)
      = [CreateFrame 0 grid12x6 [seedCluster44]] := rfl
  have h5 : CLUSTER_ITERATIONS = 4 + 1 := rfl
  rw [hwin, h5, hloop, Option.some.injEq] at hl
  have hser : ((⟨[CreateFrame 0 grid12x6 [seedCluster44]]⟩ : Timeseries).setFrameRange
      (activeTime ⟨[CreateFrame 0 grid12x6 [seedCluster44]]⟩ - CLUSTER_TIME_RADIUS)
      (activeTime ⟨[CreateFrame 0 grid12x6 [seedCluster44]]⟩ + CLUSTER_TIME_RADIUS + 1)
      fr).frames = fr := by
    show [] ++ fr ++ [] = fr
    simp
  have hser2 : sv'.series_ = series := congrArg (fun s => s.series_) hsv'
  refine ⟨sv', hstep, ?_⟩
  rw [hser2, hs2, hser, ← hl]
  exact hset

/-- Counterexample to C28 as stated: after the first call of `step` on a 12x6 frame of
constant depth `2000` the frame holds one valid cluster `c`, of pointer `(0,0)`; the pixel
`(4,4)` references it with the stored distance `0`, the distance to the center the cluster
had when the cell was written, while `PointClusterDistance` between the pixel and the
current center of `c` is `3/88`. -/
theorem assignment_current_counterexample :
    ∃ sv' f c,
      (freshEngine.start 12 6).step ⟨fun _ => 1, fun x => x⟩ depthInput12x6 = some sv' ∧
      sv'.series_.frames = [f] ∧ f.clusters = [c] ∧ c.valid = true ∧
      f.assignment.get 4 4 = ⟨some c.ptr, 0⟩ ∧
      PointClusterDistance f.time (f.rgbd.get 4 4) c = 3 / 88 := by
  obtain ⟨sv', hstep, f, hf, ht, hr, hc, -, hz⟩ := step12x6 ⟨fun _ => 1, fun x => x⟩
  refine ⟨sv', f, movedCluster, hstep, hf, hc, rfl, hz, ?_⟩
  rw [ht, hr]
  exact distance44.2

/-! ## Auxiliary lemmas: the projection of a point -/

theorem CameraProject_smul (s px py : ℚ) (hs : s ≠ 0) :
    CameraProject (Vec3.smul s ⟨px - CENTER_X, py - CENTER_Y, PX_FOCAL⟩) = ⟨px, py⟩ := by
  unfold CameraProject Vec3.smul
  have hF : PX_FOCAL ≠ 0 := by unfold PX_FOCAL; norm_num
  simp only [Vec2.mk.injEq]
  constructor
  · field_simp
    ring
  · field_simp
    ring

theorem CreateRgbdPoint_position (img_color : Image3ub) (img_depth : Image1ui16) (x y : Int)
    (i : Nat) (hv : (CreateRgbdPoint img_color img_depth x y i).valid = true) :
    (CreateRgbdPoint img_color img_depth x y i).position
      = Vec3.smul (DEPTH_TO_Z * (img_depth.read i : ℚ) / PX_FOCAL)
          ⟨(x : ℚ) - CENTER_X, (y : ℚ) - CENTER_Y, PX_FOCAL⟩ := by
  rw [CreateRgbdPoint_valid] at hv
  unfold CreateRgbdPoint
  simp only [hv, if_true]

theorem z_over_f_ne_zero (d : ℚ) (hd : 0 < d) : DEPTH_TO_Z * d / PX_FOCAL ≠ 0 := by
  unfold DEPTH_TO_Z PX_FOCAL
  have h : d ≠ 0 := ne_of_gt hd
  have h2 : (1 : ℚ) / 1000 * d / 528 = d / 528000 := by ring
  rw [h2]
  exact div_ne_zero h (by norm_num)

/-- C37 (projection round trip): for every pixel `(px, py)` and every depth `d > 0`,
`CameraProject` of `z_over_f * (px - CENTER_X, py - CENTER_Y, PX_FOCAL)`, with
`z_over_f = DEPTH_TO_Z * d / PX_FOCAL`, is exactly `(px, py)`; and at a pixel `(x,y)` of the
grid with a valid depth sample, that vector is the position `CreateRgbdData` computes, so
`CameraProject` of the position of the point is `(x, y)`. -/
theorem projection_round_trip (img_color : Image3ub) (img_depth : Image1ui16) (x y : Nat)
    (hx : x < img_color.width) (hy : y < img_color.height)
    (hd : depthValid (img_depth.read (y * img_color.width + x)) = true) :
    (∀ (px py : Int) (d : ℚ), 0 < d →
      CameraProject (Vec3.smul (DEPTH_TO_Z * d / PX_FOCAL)
        ⟨(px : ℚ) - CENTER_X, (py : ℚ) - CENTER_Y, PX_FOCAL⟩) = ⟨(px : ℚ), (py : ℚ)⟩) ∧
    0 < img_depth.read (y * img_color.width + x) ∧
    ((CreateRgbdData img_color img_depth).get x y).position
      = Vec3.smul (DEPTH_TO_Z * (img_depth.read (y * img_color.width + x) : ℚ) / PX_FOCAL)
          ⟨(x : ℚ) - CENTER_X, (y : ℚ) - CENTER_Y, PX_FOCAL⟩ ∧
    CameraProject ((CreateRgbdData img_color img_depth).get x y).position
      = ⟨(x : ℚ), (y : ℚ)⟩ := by
  have hgen : ∀ (px py : Int) (d : ℚ), 0 < d →
      CameraProject (Vec3.smul (DEPTH_TO_Z * d / PX_FOCAL)
        ⟨(px : ℚ) - CENTER_X, (py : ℚ) - CENTER_Y, PX_FOCAL⟩) = ⟨(px : ℚ), (py : ℚ)⟩ :=
    fun px py d h => CameraProject_smul _ _ _ (z_over_f_ne_zero d h)
  have hv : (CreateRgbdPoint img_color img_depth x y (y * img_color.width + x)).valid = true := by
    rw [CreateRgbdPoint_valid]
    exact hd
  have hpos := (CreateRgbdPoint_radius img_color img_depth x y _ hv).1
  have hp : ((CreateRgbdData img_color img_depth).get x y).position
      = Vec3.smul (DEPTH_TO_Z * (img_depth.read (y * img_color.width + x) : ℚ) / PX_FOCAL)
          ⟨(x : ℚ) - CENTER_X, (y : ℚ) - CENTER_Y, PX_FOCAL⟩ := by
    rw [CreateRgbdData_get img_color img_depth x y hx hy]
    exact CreateRgbdPoint_position img_color img_depth x y _ hv
  refine ⟨hgen, hpos, hp, ?_⟩
  rw [hp]
  have h := hgen x y (img_depth.read (y * img_color.width + x) : ℚ) (by exact_mod_cast hpos)
  exact h

/-- Witness of C37: the pixel `(4,4)` of the 16x8 frame of constant depth `2000`. -/
theorem projection_round_trip_witness :
    CameraProject
        ((CreateRgbdData depthInput16x8.color depthInput16x8.depth).get (4 : Nat) (4 : Nat)).position
      = ⟨((4 : Nat) : ℚ), ((4 : Nat) : ℚ)⟩ :=
  (projection_round_trip depthInput16x8.color depthInput16x8.depth 4 4 (by decide) (by decide)
    (by decide)).2.2.2

/-! ## Auxiliary lemmas: the shares of the diffusion -/

theorem diffusionWeight_eq (mm_rows mm_cols x y : Nat) :
    diffusionWeight mm_rows mm_cols x y
      = (if x + 1 < mm_rows then 7 else 0) + (if 0 < x ∧ y + 1 < mm_cols then 3 else 0)
        + (if y + 1 < mm_cols then 5 else 0)
        + (if x + 1 < mm_rows ∧ y + 1 < mm_cols then 1 else 0) := by
  unfold diffusionWeight
  by_cases h1 : x + 1 < mm_rows <;> by_cases h2 : y + 1 < mm_cols <;> by_cases h3 : 0 < x <;>
    simp [h1, h2, h3]

theorem diffusionWeight_pos (mm_rows mm_cols x y : Nat)
    (hq : x + 1 < mm_rows ∨ y + 1 < mm_cols) : 0 < diffusionWeight mm_rows mm_cols x y := by
  rw [diffusionWeight_eq]
  by_cases h1 : x + 1 < mm_rows <;> by_cases h2 : y + 1 < mm_cols <;> by_cases h3 : 0 < x
  all_goals first
    | (exfalso; omega)
    | (simp only [h1, h2, h3, if_true, if_false, and_self, and_true, true_and, and_false,
        false_and]; norm_num)

theorem DistributeDensity_shares (mm_rows mm_cols : Nat) (carry_mm : Mat) (x y : Nat) (v : ℚ)
    (hq : x + 1 < mm_rows ∨ y + 1 < mm_cols) :
    (x + 1 < mm_rows →
      (DistributeDensity mm_rows mm_cols carry_mm x y v).get (x + 1) y
        = carry_mm.get (x + 1) y + 7 * (v / diffusionWeight mm_rows mm_cols x y)) ∧
    (0 < x → y + 1 < mm_cols →
      (DistributeDensity mm_rows mm_cols carry_mm x y v).get (x - 1) (y + 1)
        = carry_mm.get (x - 1) (y + 1) + 3 * (v / diffusionWeight mm_rows mm_cols x y)) ∧
    (y + 1 < mm_cols →
      (DistributeDensity mm_rows mm_cols carry_mm x y v).get x (y + 1)
        = carry_mm.get x (y + 1) + 5 * (v / diffusionWeight mm_rows mm_cols x y)) ∧
    (x + 1 < mm_rows → y + 1 < mm_cols →
      (DistributeDensity mm_rows mm_cols carry_mm x y v).get (x + 1) (y + 1)
        = carry_mm.get (x + 1) (y + 1) + 1 * (v / diffusionWeight mm_rows mm_cols x y)) := by
  have hpos := diffusionWeight_pos mm_rows mm_cols x y hq
  have e1 : x + 1 ≠ x - 1 := by omega
  have e2 : x + 1 ≠ x := by omega
  have e3 : y ≠ y + 1 := by omega
  have e7 : x ≠ x + 1 := by omega
  unfold DistributeDensity
  simp only [gt_iff_lt, hpos, if_true]
  refine ⟨?_, ?_, ?_, ?_⟩
  · intro h1
    by_cases h2 : y + 1 < mm_cols <;> by_cases h3 : 0 < x
    all_goals simp [h1, h2, h3, Mat.addAt_get, e1, e2, e3, e7]
  · intro h3 h2
    have e4 : x ≠ x - 1 := by omega
    have e5 : x - 1 ≠ x + 1 := by omega
    have e6 : x - 1 ≠ x := by omega
    by_cases h1 : x + 1 < mm_rows
    all_goals simp [h1, h2, h3, Mat.addAt_get, e1, e2, e3, e4, e5, e6, e7]
  · intro h2
    by_cases h1 : x + 1 < mm_rows <;> by_cases h3 : 0 < x
    all_goals simp [h1, h2, h3, Mat.addAt_get, e1, e2, e3, e7]
    all_goals (intro h; omega)
  · intro h1 h2
    by_cases h3 : 0 < x
    all_goals simp [h1, h2, h3, Mat.addAt_get, e1, e2, e3, e7]

/-- C31 (edge policy), as the code has it: the leaf at the cell `(x,y)` of a level hands its
remaining density `v` to `DistributeDensity`, which renormalises.  When at least one
diffusion neighbour is in bounds, the sum `q` of the weights `7, 3, 5, 1` of the in-bounds
neighbours is positive, every in-bounds neighbour receives `weight * v / q`, and the
increments sum to `v`: the shares of the out-of-bounds neighbours are redistributed among
the in-bounds ones in proportion to their weights, and no density is lost. -/
theorem edge_policy (rgbd : RgbdData) (mipmaps : List Mat) (level x y : Nat)
    (st : SamplerState) (mm carry_mm : Mat)
    (hmm : mipmaps.get? level = some mm)
    (hcarry : st.carry_mipmaps.get? level = some carry_mm)
    (hq : x + 1 < mm.rows ∨ y + 1 < mm.cols) :
    ∃ (v : ℚ) (carry_after : Mat),
      v = (SampleLeafSeed rgbd level x y (cellValue mipmaps st.carry_mipmaps level x y) st).1 ∧
      (SampleLeaf rgbd mipmaps level x y st).carry_mipmaps.get? level = some carry_after ∧
      carry_after = DistributeDensity mm.rows mm.cols carry_mm x y v ∧
      0 < diffusionWeight mm.rows mm.cols x y ∧
      diffusionWeight mm.rows mm.cols x y
        = (if x + 1 < mm.rows then 7 else 0) + (if 0 < x ∧ y + 1 < mm.cols then 3 else 0)
          + (if y + 1 < mm.cols then 5 else 0)
          + (if x + 1 < mm.rows ∧ y + 1 < mm.cols then 1 else 0) ∧
      (x + 1 < mm.rows →
        carry_after.get (x + 1) y
          = carry_mm.get (x + 1) y + 7 * (v / diffusionWeight mm.rows mm.cols x y)) ∧
      (0 < x → y + 1 < mm.cols →
        carry_after.get (x - 1) (y + 1)
          = carry_mm.get (x - 1) (y + 1) + 3 * (v / diffusionWeight mm.rows mm.cols x y)) ∧
      (y + 1 < mm.cols →
        carry_after.get x (y + 1)
          = carry_mm.get x (y + 1) + 5 * (v / diffusionWeight mm.rows mm.cols x y)) ∧
      (x + 1 < mm.rows → y + 1 < mm.cols →
        carry_after.get (x + 1) (y + 1)
          = carry_mm.get (x + 1) (y + 1) + 1 * (v / diffusionWeight mm.rows mm.cols x y)) ∧
      distributedTotal mm.rows mm.cols carry_mm carry_after x y = v := by
  have hget : mipmaps.getD level Mat.empty = mm := by
    rw [List.getD_eq_getElem?_getD, ← List.get?_eq_getElem?, hmm]
    rfl
  have hc := modifyAt_get? (fun carry_mm =>
      DistributeDensity (mipmaps.getD level Mat.empty).rows (mipmaps.getD level Mat.empty).cols
        carry_mm x y
        (SampleLeafSeed rgbd level x y (cellValue mipmaps st.carry_mipmaps level x y) st).1)
    level st.carry_mipmaps carry_mm hcarry
  rw [← SampleLeaf_carry] at hc
  simp only [hget] at hc
  obtain ⟨s1, s2, s3, s4⟩ := DistributeDensity_shares mm.rows mm.cols carry_mm x y
    (SampleLeafSeed rgbd level x y (cellValue mipmaps st.carry_mipmaps level x y) st).1 hq
  exact ⟨_, _, rfl, hc, rfl, diffusionWeight_pos _ _ _ _ hq, diffusionWeight_eq _ _ _ _,
    s1, s2, s3, s4, DistributeDensity_total mm.rows mm.cols carry_mm x y _ hq⟩

/-- Witness of C31: the cell `(1,0)` of a 2x2 level whose cells hold `1/10`, on the right
edge of the level. -/
theorem edge_policy_witness :
    ∃ (v : ℚ) (carry_after : Mat),
      (SampleLeaf rgbdInvalid2x2 [Mat.Zero 4 4, ⟨2, 2, fun _ _ => 1 / 10⟩] 1 1 0
        ⟨[], [Mat.empty, Mat.Zero 2 2], RandomEngine.zeros⟩).carry_mipmaps.get? 1
        = some carry_after ∧
      distributedTotal 2 2 (Mat.Zero 2 2) carry_after 1 0 = v := by
  obtain ⟨v, carry_after, -, h1, -, -, -, -, -, -, -, h2⟩ :=
    edge_policy rgbdInvalid2x2 [Mat.Zero 4 4, ⟨2, 2, fun _ _ => 1 / 10⟩] 1 1 0
      ⟨[], [Mat.empty, Mat.Zero 2 2], RandomEngine.zeros⟩ ⟨2, 2, fun _ _ => 1 / 10⟩
      (Mat.Zero 2 2) rfl rfl (Or.inr (by decide))
  exact ⟨v, carry_after, h1, h2⟩

/-- Counterexample to C31 as stated: the leaf at the cell `(1,0)` of a 2x2 level, on the
right edge, with `v = 1/10` and no seed.  Its neighbours `(x+1,y)` and `(x+1,y+1)` are out
of bounds; the neighbour `(x-1,y+1) = (0,1)` receives `3/8 * v = 3/80`, not `3/16 * v`,
the neighbour `(x,y+1) = (1,1)` receives `5/8 * v = 1/16`, not `5/16 * v`, and the total
distributed is `v = 1/10`. -/
theorem edge_policy_counterexample :
    cellValue [Mat.Zero 4 4, ⟨2, 2, fun _ _ => 1 / 10⟩] [Mat.empty, Mat.Zero 2 2] 1 1 0
      = 1 / 10 ∧
    (SampleLeaf rgbdInvalid2x2 [Mat.Zero 4 4, ⟨2, 2, fun _ _ => 1 / 10⟩] 1 1 0
      ⟨[], [Mat.empty, Mat.Zero 2 2], RandomEngine.zeros⟩).seeds = [] ∧
    ((SampleLeaf rgbdInvalid2x2 [Mat.Zero 4 4, ⟨2, 2, fun _ _ => 1 / 10⟩] 1 1 0
      ⟨[], [Mat.empty, Mat.Zero 2 2], RandomEngine.zeros⟩).carry_mipmaps.getD 1
        Mat.empty).get 0 1 = 3 / 80 ∧
    ((SampleLeaf rgbdInvalid2x2 [Mat.Zero 4 4, ⟨2, 2, fun _ _ => 1 / 10⟩] 1 1 0
      ⟨[], [Mat.empty, Mat.Zero 2 2], RandomEngine.zeros⟩).carry_mipmaps.getD 1
        Mat.empty).get 1 1 = 1 / 16 ∧
    distributedTotal 2 2 (Mat.Zero 2 2)
      ((SampleLeaf rgbdInvalid2x2 [Mat.Zero 4 4, ⟨2, 2, fun _ _ => 1 / 10⟩] 1 1 0
        ⟨[], [Mat.empty, Mat.Zero 2 2], RandomEngine.zeros⟩).carry_mipmaps.getD 1 Mat.empty)
      1 0 = 1 / 10 := by
  decide!

/-! ## Auxiliary lemmas: the candidates of `FindValidSeedPoint` -/

theorem uniformInt_range (g : RandomEngine) (a b : Int) (hab : a ≤ b) :
    a ≤ (g.uniformInt a b).1 ∧ (g.uniformInt a b).1 ≤ b ∧
      (g.uniformInt a b).2.pos = g.pos + 1 ∧ (g.uniformInt a b).2.stream = g.stream := by
  unfold RandomEngine.uniformInt
  have hpos : 0 < b - a + 1 := by omega
  have h1 := Int.emod_nonneg (g.stream g.pos : Int) (ne_of_gt hpos)
  have h2 := Int.emod_lt_of_pos (g.stream g.pos : Int) hpos
  refine ⟨by simp only; omega, by simp only; omega, rfl, rfl⟩

theorem FindValidSeedPointLoop_candidates (rgbd : RgbdData) (sx0 sy0 range : Int)
    (hr : 0 ≤ range) :
    ∀ (n : Nat) (g : RandomEngine),
      (SeedCandidatesLoop rgbd sx0 sy0 range n g).length ≤ n ∧
      (FindValidSeedPointLoop rgbd sx0 sy0 range n g).2.2.2.pos
        = g.pos + 2 * (SeedCandidatesLoop rgbd sx0 sy0 range n g).length ∧
      (FindValidSeedPointLoop rgbd sx0 sy0 range n g).2.2.2.stream = g.stream ∧
      (∀ c ∈ SeedCandidatesLoop rgbd sx0 sy0 range n g,
        sx0 - range ≤ c.1 ∧ c.1 ≤ sx0 + range ∧ sy0 - range ≤ c.2 ∧ c.2 ≤ sy0 + range) ∧
      ((FindValidSeedPointLoop rgbd sx0 sy0 range n g).1 = true →
        (SeedCandidatesLoop rgbd sx0 sy0 range n g).getLast?
          = some ((FindValidSeedPointLoop rgbd sx0 sy0 range n g).2.1,
              (FindValidSeedPointLoop rgbd sx0 sy0 range n g).2.2.1) ∧
        validPixel rgbd ((FindValidSeedPointLoop rgbd sx0 sy0 range n g).2.1,
          (FindValidSeedPointLoop rgbd sx0 sy0 range n g).2.2.1) ∧
        ∀ c ∈ (SeedCandidatesLoop rgbd sx0 sy0 range n g).dropLast, ¬ validPixel rgbd c) ∧
      ((FindValidSeedPointLoop rgbd sx0 sy0 range n g).1 = false →
        (SeedCandidatesLoop rgbd sx0 sy0 range n g).length = n ∧
        (FindValidSeedPointLoop rgbd sx0 sy0 range n g).2.1 = sx0 ∧
        (FindValidSeedPointLoop rgbd sx0 sy0 range n g).2.2.1 = sy0 ∧
        ∀ c ∈ SeedCandidatesLoop rgbd sx0 sy0 range n g, ¬ validPixel rgbd c)
  | 0, g => by
    simp [FindValidSeedPointLoop, SeedCandidatesLoop]
  | n + 1, g => by
    obtain ⟨a1, a2, a3, a4⟩ := uniformInt_range g (-range) range (by omega)
    obtain ⟨b1, b2, b3, b4⟩ := uniformInt_range (g.uniformInt (-range) range).2 (-range) range
      (by omega)
    obtain ⟨i1, i2, i3, i4, i5, i6⟩ := FindValidSeedPointLoop_candidates rgbd sx0 sy0 range hr n
      ((g.uniformInt (-range) range).2.uniformInt (-range) range).2
    simp only [FindValidSeedPointLoop, SeedCandidatesLoop]
    split_ifs with hc
    · refine ⟨by simp, ?_, ?_, ?_, ?_, ?_⟩
      · simp only [List.length_singleton]
        rw [b3, a3]
      · rw [b4, a4]
      · intro c hcm
        simp only [List.mem_singleton] at hcm
        subst hcm
        simp only
        omega
      · intro _
        exact ⟨rfl, hc, by simp⟩
      · intro h
        simp at h
    · refine ⟨by simp only [List.length_cons]; omega, ?_, ?_, ?_, ?_, ?_⟩
      · rw [i2, b3, a3]
        simp only [List.length_cons]
        omega
      · rw [i3, b4, a4]
      · intro c hcm
        rcases List.mem_cons.mp hcm with e | hm
        · subst e
          simp only
          omega
        · exact i4 c hm
      · intro h
        obtain ⟨j1, j2, j3⟩ := i5 h
        refine ⟨?_, j2, ?_⟩
        · rw [List.getLast?_cons, j1]
          rfl
        · intro c hcm
          cases hl : SeedCandidatesLoop rgbd sx0 sy0 range n
              ((g.uniformInt (-range) range).2.uniformInt (-range) range).2 with
          | nil =>
            rw [hl] at j1
            simp at j1
          | cons d ds =>
            rw [hl, List.dropLast_cons₂] at hcm
            rcases List.mem_cons.mp hcm with e | hm
            · subst e
              exact hc
            · apply j3
              rw [hl]
              exact hm
      · intro h
        obtain ⟨j1, j2, j3, j4⟩ := i6 h
        refine ⟨by simp only [List.length_cons]; omega, j2, j3, ?_⟩
        intro c hcm
        rcases List.mem_cons.mp hcm with e | hm
        · subst e
          exact hc
        · exact j4 c hm
theorem FindValidSeedPoint_candidates (rgbd : RgbdData) (sx0 sy0 range : Int)
    (g : RandomEngine) (hr : 0 ≤ range) :
    (SeedCandidates rgbd sx0 sy0 range g).length ≤ 100 ∧
    (FindValidSeedPoint rgbd sx0 sy0 range g).2.2.2.pos
      = g.pos + (if range = 0 then 0 else 2 * (SeedCandidates rgbd sx0 sy0 range g).length) ∧
    (FindValidSeedPoint rgbd sx0 sy0 range g).2.2.2.stream = g.stream ∧
    (∀ c ∈ SeedCandidates rgbd sx0 sy0 range g,
      sx0 - range ≤ c.1 ∧ c.1 ≤ sx0 + range ∧ sy0 - range ≤ c.2 ∧ c.2 ≤ sy0 + range) ∧
    ((FindValidSeedPoint rgbd sx0 sy0 range g).1 = true →
      (SeedCandidates rgbd sx0 sy0 range g).getLast?
        = some ((FindValidSeedPoint rgbd sx0 sy0 range g).2.1,
            (FindValidSeedPoint rgbd sx0 sy0 range g).2.2.1) ∧
      validPixel rgbd ((FindValidSeedPoint rgbd sx0 sy0 range g).2.1,
        (FindValidSeedPoint rgbd sx0 sy0 range g).2.2.1) ∧
      ∀ c ∈ (SeedCandidates rgbd sx0 sy0 range g).dropLast, ¬ validPixel rgbd c) ∧
    ((FindValidSeedPoint rgbd sx0 sy0 range g).1 = false →
      (range ≠ 0 → (SeedCandidates rgbd sx0 sy0 range g).length = 100) ∧
      ∀ c ∈ SeedCandidates rgbd sx0 sy0 range g, ¬ validPixel rgbd c) := by
  unfold FindValidSeedPoint SeedCandidates
  by_cases h0 : range = 0
  · simp only [h0, if_true]
    refine ⟨by simp, by simp, trivial, ?_, ?_, ?_⟩
    · intro c hc
      simp only [List.mem_singleton] at hc
      subst hc
      simp
    · intro h
      simp only [Bool.and_eq_true, decide_eq_true_eq] at h
      refine ⟨rfl, ⟨h.1.1, h.1.2.1, h.1.2.2.1, h.1.2.2.2, h.2⟩, by simp⟩
    · intro h
      refine ⟨fun hne => absurd rfl hne, ?_⟩
      intro c hc
      simp only [List.mem_singleton] at hc
      subst hc
      intro hv
      have : (decide (0 ≤ sx0 ∧ sx0 < (rgbd.rows : Int) ∧ 0 ≤ sy0 ∧ sy0 < (rgbd.cols : Int))
          && (rgbd.get sx0 sy0).valid) = true := by
        simp only [Bool.and_eq_true, decide_eq_true_eq]
        exact ⟨⟨hv.1, hv.2.1, hv.2.2.1, hv.2.2.2.1⟩, hv.2.2.2.2⟩
      rw [this] at h
      exact Bool.noConfusion h
  · simp only [h0, if_false]
    obtain ⟨i1, i2, i3, i4, i5, i6⟩ :=
      FindValidSeedPointLoop_candidates rgbd sx0 sy0 range hr 100 g
    refine ⟨i1, i2, i3, i4, i5, ?_⟩
    intro h
    obtain ⟨j1, -, -, j4⟩ := i6 h
    exact ⟨fun _ => j1, j4⟩

theorem jitter_range (level : Nat) (hl : 1 ≤ level) :
    2 * 2 ^ (level - 1) = 2 ^ level ∧ (level = 1 → 2 ^ (level - 1) / 2 = 0) ∧
      (2 ≤ level → 4 * (2 ^ (level - 1) / 2) = 2 ^ level) ∧
      2 ^ (level - 1) / 2 < 2 ^ (level - 1) := by
  obtain ⟨l, rfl⟩ := Nat.exists_eq_succ_of_ne_zero (by omega : level ≠ 0)
  simp only [Nat.succ_sub_one, Nat.add_sub_cancel]
  have hp : 1 ≤ 2 ^ l := Nat.one_le_two_pow
  refine ⟨by rw [pow_succ]; ring, ?_, ?_, by omega⟩
  · intro h
    have : l = 0 := by omega
    subst this
    rfl
  · intro h
    obtain ⟨m, rfl⟩ := Nat.exists_eq_succ_of_ne_zero (by omega : l ≠ 0)
    rw [pow_succ, pow_succ, pow_succ, Nat.mul_div_cancel _ (by norm_num)]
    ring

/-- C32 (jitter radius), as the code has it: a leaf at the cell `(x,y)` of level `L >= 1`
whose density is at least `1/2` calls `FindValidSeedPoint` at the center pixel
`(x*2^L + 2^(L-1), y*2^L + 2^(L-1))` with `range = half/2`, `half = 2^(L-1)` being half the
cell size: `range` is a quarter of the cell size for `L >= 2` and `0` at level 1.  The
candidates tested are at most 100, each is within `range` of the center on both axes, the
search stops at the first candidate that is a valid pixel, which becomes the seed, and two
random numbers are drawn per candidate when `range` is not `0`, none when it is `0`. -/
theorem jitter_radius (rgbd : RgbdData) (level x y : Nat) (v : ℚ) (st : SamplerState)
    (hl : 1 ≤ level) (hv : v ≥ 1 / 2) :
    ∃ (found : Bool) (sx sy : Int) (g' : RandomEngine) (cs : List (Int × Int)),
      FindValidSeedPoint rgbd ((x * 2 ^ level + 2 ^ (level - 1) : Nat) : Int)
        ((y * 2 ^ level + 2 ^ (level - 1) : Nat) : Int) ((2 ^ (level - 1) / 2 : Nat) : Int)
        st.random_engine = (found, sx, sy, g') ∧
      cs = SeedCandidates rgbd ((x * 2 ^ level + 2 ^ (level - 1) : Nat) : Int)
        ((y * 2 ^ level + 2 ^ (level - 1) : Nat) : Int) ((2 ^ (level - 1) / 2 : Nat) : Int)
        st.random_engine ∧
      (SampleLeafSeed rgbd level x y v st).1 = (if found then v - 1 else v) ∧
      (SampleLeafSeed rgbd level x y v st).2.seeds
        = st.seeds ++ (if found then [⟨(sx : ℚ), (sy : ℚ)⟩] else []) ∧
      (SampleLeafSeed rgbd level x y v st).2.random_engine = g' ∧
      2 * 2 ^ (level - 1) = 2 ^ level ∧
      (level = 1 → 2 ^ (level - 1) / 2 = 0) ∧
      (2 ≤ level → 4 * (2 ^ (level - 1) / 2) = 2 ^ level) ∧
      cs.length ≤ 100 ∧
      (∀ c ∈ cs,
        ((x * 2 ^ level + 2 ^ (level - 1) : Nat) : Int) - ((2 ^ (level - 1) / 2 : Nat) : Int)
          ≤ c.1 ∧
        c.1 ≤ ((x * 2 ^ level + 2 ^ (level - 1) : Nat) : Int)
          + ((2 ^ (level - 1) / 2 : Nat) : Int) ∧
        ((y * 2 ^ level + 2 ^ (level - 1) : Nat) : Int) - ((2 ^ (level - 1) / 2 : Nat) : Int)
          ≤ c.2 ∧
        c.2 ≤ ((y * 2 ^ level + 2 ^ (level - 1) : Nat) : Int)
          + ((2 ^ (level - 1) / 2 : Nat) : Int)) ∧
      (found = true →
        cs.getLast? = some (sx, sy) ∧ validPixel rgbd (sx, sy) ∧
        ∀ c ∈ cs.dropLast, ¬ validPixel rgbd c) ∧
      (found = false →
        (2 ≤ level → cs.length = 100) ∧ ∀ c ∈ cs, ¬ validPixel rgbd c) ∧
      g'.pos = st.random_engine.pos + (if level = 1 then 0 else 2 * cs.length) ∧
      g'.stream = st.random_engine.stream := by
  obtain ⟨r1, r2, r3, r4⟩ := jitter_range level hl
  obtain ⟨c1, c2, c3, c4, c5, c6⟩ := FindValidSeedPoint_candidates rgbd
    ((x * 2 ^ level + 2 ^ (level - 1) : Nat) : Int)
    ((y * 2 ^ level + 2 ^ (level - 1) : Nat) : Int) ((2 ^ (level - 1) / 2 : Nat) : Int)
    st.random_engine (by omega)
  have hseed : SampleLeafSeed rgbd level x y v st
      = if (FindValidSeedPoint rgbd ((x * 2 ^ level + 2 ^ (level - 1) : Nat) : Int)
          ((y * 2 ^ level + 2 ^ (level - 1) : Nat) : Int)
          ((2 ^ (level - 1) / 2 : Nat) : Int) st.random_engine).1 = true then
          (v - 1, ⟨st.seeds ++
            [⟨((FindValidSeedPoint rgbd ((x * 2 ^ level + 2 ^ (level - 1) : Nat) : Int)
                ((y * 2 ^ level + 2 ^ (level - 1) : Nat) : Int)
                ((2 ^ (level - 1) / 2 : Nat) : Int) st.random_engine).2.1 : ℚ),
              ((FindValidSeedPoint rgbd ((x * 2 ^ level + 2 ^ (level - 1) : Nat) : Int)
                ((y * 2 ^ level + 2 ^ (level - 1) : Nat) : Int)
                ((2 ^ (level - 1) / 2 : Nat) : Int) st.random_engine).2.2.1 : ℚ)⟩],
            st.carry_mipmaps,
            (FindValidSeedPoint rgbd ((x * 2 ^ level + 2 ^ (level - 1) : Nat) : Int)
              ((y * 2 ^ level + 2 ^ (level - 1) : Nat) : Int)
              ((2 ^ (level - 1) / 2 : Nat) : Int) st.random_engine).2.2.2⟩)
        else
          (v, ⟨st.seeds, st.carry_mipmaps,
            (FindValidSeedPoint rgbd ((x * 2 ^ level + 2 ^ (level - 1) : Nat) : Int)
              ((y * 2 ^ level + 2 ^ (level - 1) : Nat) : Int)
              ((2 ^ (level - 1) / 2 : Nat) : Int) st.random_engine).2.2.2⟩) := by
    unfold SampleLeafSeed
    simp only [hv, if_true]
  rw [hseed]
  rcases hres : FindValidSeedPoint rgbd ((x * 2 ^ level + 2 ^ (level - 1) : Nat) : Int)
    ((y * 2 ^ level + 2 ^ (level - 1) : Nat) : Int) ((2 ^ (level - 1) / 2 : Nat) : Int)
    st.random_engine with ⟨found, sx, sy, g'⟩
  rw [hres] at c2 c3 c5 c6
  simp only at c2 c3 c5 c6
  refine ⟨found, sx, sy, g', _, rfl, rfl, ?_, ?_, ?_, r1, r2, r3, c1, c4, c5, ?_, ?_, c3⟩
  · cases found <;> simp
  · cases found <;> simp
  · cases found <;> simp
  · intro h
    obtain ⟨d1, d2⟩ := c6 h
    refine ⟨?_, d2⟩
    intro h2
    apply d1
    have := r3 h2
    have hp : 1 ≤ 2 ^ level := Nat.one_le_two_pow
    omega
  · rw [c2]
    by_cases h1 : level = 1
    · rw [if_pos h1, if_pos]
      have := r2 h1
      omega
    · rw [if_neg h1, if_neg]
      have := r3 (by omega)
      have hp : 1 ≤ 2 ^ level := Nat.one_le_two_pow
      omega

theorem cornerGrid_valid (x y : Int) (h : (cornerGrid.get x y).valid = true) :
    x = 0 ∧ y = 0 := by
  unfold cornerGrid at h
  simp only at h
  by_cases hxy : x = 0 ∧ y = 0
  · exact hxy
  · rw [if_neg hxy] at h
    exact Bool.noConfusion h

/-- Witness of C32: the leaf at the cell `(0,0)` of level 2, of center `(2,2)`, on the grid
`rgbdInvalid2x2`, which has no valid pixel, with density `1` and the random stream of
zeros. -/
theorem jitter_radius_witness :
    ∃ (cs : List (Int × Int)),
      cs = SeedCandidates rgbdInvalid2x2 2 2 1 RandomEngine.zeros ∧ cs.length ≤ 100 ∧
      ∀ c ∈ cs, (2 : Int) - 1 ≤ c.1 ∧ c.1 ≤ 2 + 1 ∧ (2 : Int) - 1 ≤ c.2 ∧ c.2 ≤ 2 + 1 := by
  obtain ⟨-, -, -, -, cs, -, h1, -, -, -, -, -, -, h2, h3, -⟩ :=
    jitter_radius rgbdInvalid2x2 2 0 0 1 ⟨[], [], RandomEngine.zeros⟩ (by decide) (by norm_num)
  exact ⟨cs, h1, h2, h3⟩

/-- Counterexample to C32 as stated: the leaf at the cell `(0,0)` of level 2 on a 4x4 grid
whose only valid pixel is `(0,0)`.  The cell is 4 pixels wide and its center is `(2,2)`, so
the pixel `(0,0)` is within half the cell size, `2`, of the center, and
`FindValidSeedPoint` with the range `2` and the random stream of zeros finds it; but the
leaf searches with the range `half/2 = 1` and emits no seed, for every random stream and
every density. -/
theorem jitter_radius_counterexample :
    (cornerGrid.get 0 0).valid = true ∧
    (((0 * 2 ^ 2 + 2 ^ (2 - 1) : Nat) : Int) - ((2 ^ 2 / 2 : Nat) : Int) = 0) ∧
    FindValidSeedPoint cornerGrid 2 2 2 RandomEngine.zeros
      = (true, 0, 0, ⟨fun _ => 0, 2⟩) ∧
    ∀ (g : RandomEngine) (v : ℚ) (seeds : List Vec2) (carry : List Mat),
      (SampleLeafSeed cornerGrid 2 0 0 v ⟨seeds, carry, g⟩).2.seeds = seeds := by
  refine ⟨rfl, by decide, ?_, ?_⟩
  · simp [FindValidSeedPoint, FindValidSeedPointLoop, RandomEngine.uniformInt,
      RandomEngine.zeros, cornerGrid]
  · intro g v seeds carry
    unfold SampleLeafSeed
    simp only
    split_ifs with h1 h2
    · exfalso
      obtain ⟨-, -, -, c4, c5, -⟩ := FindValidSeedPoint_candidates cornerGrid
        ((0 * 2 ^ 2 + 2 ^ (2 - 1) : Nat) : Int) ((0 * 2 ^ 2 + 2 ^ (2 - 1) : Nat) : Int)
        ((2 ^ (2 - 1) / 2 : Nat) : Int) g (by decide)
      obtain ⟨d1, d2, -⟩ := c5 h2
      have hb := c4 _ (List.mem_of_mem_getLast? d1)
      have hval := d2.2.2.2.2
      have hx : (FindValidSeedPoint cornerGrid ((0 * 2 ^ 2 + 2 ^ (2 - 1) : Nat) : Int)
          ((0 * 2 ^ 2 + 2 ^ (2 - 1) : Nat) : Int) ((2 ^ (2 - 1) / 2 : Nat) : Int) g).2.1
          ≠ 0 := by
        have := hb.1
        norm_num at this
        omega
      exact hx (cornerGrid_valid _ _ hval).1
    · rfl
    · rfl

/-- C36 (seeds stay in their cell): a leaf at the cell `(x,y)` of level `L >= 1` appends at
most one seed; its coordinates are a valid pixel inside the footprint
`[x*2^L, (x+1)*2^L) x [y*2^L, (y+1)*2^L)` of the cell.  At level 1 no random number is
drawn, the seed, if any, is `(2x+1, 2y+1)`, and the leaf emits no seed when the point of
that pixel is invalid. -/
theorem seeds_in_cell (rgbd : RgbdData) (mipmaps : List Mat) (level x y : Nat)
    (st : SamplerState) (hl : 1 ≤ level) :
    ∃ new : List Vec2,
      (SampleLeaf rgbd mipmaps level x y st).seeds = st.seeds ++ new ∧ new.length ≤ 1 ∧
      (∀ s ∈ new, ∃ sx sy : Int, s = ⟨(sx : ℚ), (sy : ℚ)⟩ ∧
        ((x * 2 ^ level : Nat) : Int) ≤ sx ∧ sx < (((x + 1) * 2 ^ level : Nat) : Int) ∧
        ((y * 2 ^ level : Nat) : Int) ≤ sy ∧ sy < (((y + 1) * 2 ^ level : Nat) : Int) ∧
        validPixel rgbd (sx, sy)) ∧
      (level = 1 →
        (SampleLeaf rgbd mipmaps level x y st).random_engine = st.random_engine ∧
        (∀ s ∈ new, s = ⟨((2 * x + 1 : Nat) : ℚ), ((2 * y + 1 : Nat) : ℚ)⟩) ∧
        ((rgbd.get ((2 * x + 1 : Nat) : Int) ((2 * y + 1 : Nat) : Int)).valid = false →
          new = [])) := by
  obtain ⟨r1, r2, r3, r4⟩ := jitter_range level hl
  obtain ⟨-, c2, c3, c4, c5, -⟩ := FindValidSeedPoint_candidates rgbd
    ((x * 2 ^ level + 2 ^ (level - 1) : Nat) : Int)
    ((y * 2 ^ level + 2 ^ (level - 1) : Nat) : Int) ((2 ^ (level - 1) / 2 : Nat) : Int)
    st.random_engine (by omega)
  have hengine : (SampleLeaf rgbd mipmaps level x y st).random_engine
      = (SampleLeafSeed rgbd level x y (cellValue mipmaps st.carry_mipmaps level x y)
          st).2.random_engine := rfl
  rw [SampleLeaf_seeds, hengine]
  unfold SampleLeafSeed
  simp only
  by_cases hv : cellValue mipmaps st.carry_mipmaps level x y ≥ 1 / 2
  · simp only [hv, if_true]
    rcases hres : FindValidSeedPoint rgbd ((x * 2 ^ level + 2 ^ (level - 1) : Nat) : Int)
      ((y * 2 ^ level + 2 ^ (level - 1) : Nat) : Int) ((2 ^ (level - 1) / 2 : Nat) : Int)
      st.random_engine with ⟨found, sx, sy, g'⟩
    rw [hres] at c2 c3 c5
    simp only at c2 c3 c5
    cases found with
    | false =>
      refine ⟨[], by simp, by simp, by simp, ?_⟩
      intro h1
      refine ⟨?_, by simp, fun _ => rfl⟩
      simp only [Bool.false_eq_true, if_false]
      have e0 : ((2 ^ (level - 1) / 2 : Nat) : Int) = 0 := by
        have := r2 h1
        omega
      rw [e0] at c2
      simp only [if_true, add_zero] at c2
      cases g' with
      | mk s p =>
        cases hg : st.random_engine with
        | mk s0 p0 =>
          rw [hg] at c2 c3
          simp only at c2 c3
          rw [c2, c3]
    | true =>
      obtain ⟨d1, d2, -⟩ := c5 rfl
      have hb := c4 _ (List.mem_of_mem_getLast? d1)
      simp only at hb
      refine ⟨[⟨(sx : ℚ), (sy : ℚ)⟩], by simp, by simp, ?_, ?_⟩
      · intro s hs
        simp only [List.mem_singleton] at hs
        refine ⟨sx, sy, hs, ?_, ?_, ?_, ?_, d2⟩
        · have := hb.1
          push_cast at this ⊢
          have h4 : ((2 ^ (level - 1) / 2 : Nat) : Int) < ((2 ^ (level - 1) : Nat) : Int) := by
            exact_mod_cast r4
          push_cast at h4
          omega
        · have := hb.2.1
          have h4 : ((2 ^ (level - 1) / 2 : Nat) : Int) < ((2 ^ (level - 1) : Nat) : Int) := by
            exact_mod_cast r4
          have h5 : (((x + 1) * 2 ^ level : Nat) : Int)
              = ((x * 2 ^ level + 2 ^ (level - 1) : Nat) : Int) + ((2 ^ (level - 1) : Nat) : Int) := by
            have : (x + 1) * 2 ^ level = x * 2 ^ level + 2 ^ (level - 1) + 2 ^ (level - 1) := by
              rw [← r1]
              ring
            rw [this]
            push_cast
            ring
          rw [h5]
          omega
        · have := hb.2.2.1
          push_cast at this ⊢
          have h4 : ((2 ^ (level - 1) / 2 : Nat) : Int) < ((2 ^ (level - 1) : Nat) : Int) := by
            exact_mod_cast r4
          push_cast at h4
          omega
        · have := hb.2.2.2
          have h4 : ((2 ^ (level - 1) / 2 : Nat) : Int) < ((2 ^ (level - 1) : Nat) : Int) := by
            exact_mod_cast r4
          have h5 : (((y + 1) * 2 ^ level : Nat) : Int)
              = ((y * 2 ^ level + 2 ^ (level - 1) : Nat) : Int) + ((2 ^ (level - 1) : Nat) : Int) := by
            have : (y + 1) * 2 ^ level = y * 2 ^ level + 2 ^ (level - 1) + 2 ^ (level - 1) := by
              rw [← r1]
              ring
            rw [this]
            push_cast
            ring
          rw [h5]
          omega
      · intro h1
        have e0 : ((2 ^ (level - 1) / 2 : Nat) : Int) = 0 := by
          have := r2 h1
          omega
        rw [e0] at c2 hb
        simp only [if_true, add_zero, sub_zero] at c2 hb
        have hsx : sx = ((2 * x + 1 : Nat) : Int) := by
          have := hb.1
          have := hb.2.1
          subst h1
          simp only [pow_one, Nat.sub_self, pow_zero] at *
          push_cast at *
          omega
        have hsy : sy = ((2 * y + 1 : Nat) : Int) := by
          have := hb.2.2.1
          have := hb.2.2.2
          subst h1
          simp only [pow_one, Nat.sub_self, pow_zero] at *
          push_cast at *
          omega
        refine ⟨?_, ?_, ?_⟩
        · simp only [if_true]
          cases g' with
          | mk s p =>
            cases hg : st.random_engine with
            | mk s0 p0 =>
              rw [hg] at c2 c3
              simp only at c2 c3
              rw [c2, c3]
        · intro s hs
          simp only [List.mem_singleton] at hs
          rw [hs, hsx, hsy]
          simp
        · intro hinv
          exfalso
          have hval := d2.2.2.2.2
          simp only at hval
          rw [hsx, hsy, hinv] at hval
          exact Bool.noConfusion hval
  · simp only [hv, if_false]
    refine ⟨[], by simp, by simp, by simp, ?_⟩
    intro _
    exact ⟨trivial, by simp, fun _ => rfl⟩

/-- Witness of C36: the level-1 cell `(0,0)` of the grid `cornerGrid`, whose pixel `(1,1)`
is invalid while its pixel `(0,0)` is valid; the leaf of density `1` emits no seed. -/
theorem seeds_in_cell_witness :
    (cornerGrid.get 0 0).valid = true ∧
    (SampleLeaf cornerGrid [Mat.Zero 4 4, ⟨2, 2, fun _ _ => 1⟩] 1 0 0
      ⟨[], [Mat.empty, Mat.Zero 2 2], RandomEngine.zeros⟩).seeds = [] := by
  obtain ⟨new, h1, -, -, h2⟩ := seeds_in_cell cornerGrid [Mat.Zero 4 4, ⟨2, 2, fun _ _ => 1⟩]
    1 0 0 ⟨[], [Mat.empty, Mat.Zero 2 2], RandomEngine.zeros⟩ (by decide)
  refine ⟨rfl, ?_⟩
  rw [h1, (h2 rfl).2.2 rfl]
  rfl

/-! ## Auxiliary lemmas: the shape of the pyramid -/

theorem chain_get? {α : Type} {R : α → α → Prop} :
    ∀ (l : List α) (a : α), List.Chain R a l →
      ∀ (i : Nat) (q m : α), (a :: l).get? i = some q → (a :: l).get? (i + 1) = some m → R q m
  | [], a, _, i, q, m, _, h2 => by
    cases i <;> simp at h2
  | b :: l, a, h, 0, q, m, h1, h2 => by
    simp only [List.get?_cons_zero, List.get?_cons_succ, Option.some.injEq] at h1 h2
    subst h1 h2
    exact (List.chain_cons.mp h).1
  | b :: l, a, h, i + 1, q, m, h1, h2 => by
    simp only [List.get?_cons_succ] at h1 h2
    exact chain_get? l b (List.chain_cons.mp h).2 i q m h1 h2

theorem ComputeMipmapsLoop_shape :
    ∀ (k fuel : ℕ) (mm : List Mat) (q : Mat) (res : List Mat), q.rows = 2 ^ k →
      q.cols = 2 ^ k → ComputeMipmapsLoop 1 fuel mm q = some res →
      ∃ rest, res = mm ++ rest ∧ rest.length = k ∧
        List.Chain (fun a b => ComputeMipmap a = some b) q rest ∧
        ∀ i, i < k → ∃ m, rest.get? i = some m ∧ m.rows = 2 ^ (k - 1 - i) ∧
          m.cols = 2 ^ (k - 1 - i) := by
  intro k
  induction k with
  | zero =>
    intro fuel mm q res hr hc h
    cases fuel with
    | zero => simp [ComputeMipmapsLoop] at h
    | succ f =>
      rw [ComputeMipmapsLoop_succ, if_pos (Or.inl (by rw [hr]; simp))] at h
      simp only [Option.some.injEq] at h
      refine ⟨[], by rw [← h]; simp, rfl, List.Chain.nil, ?_⟩
      intro i hi
      omega
  | succ k ih =>
    intro fuel mm q res hr hc h
    cases fuel with
    | zero => simp [ComputeMipmapsLoop] at h
    | succ f =>
      have h2 : 2 ≤ 2 ^ (k + 1) := by
        rw [pow_succ]
        have := Nat.one_le_two_pow (n := k)
        omega
      have hstop : ¬ ((q.rows : Int) ≤ 1 ∨ (q.cols : Int) ≤ 1) := by
        rw [hr, hc]
        push_cast
        intro hh
        have h2' : (2 : Int) ≤ 2 ^ (k + 1) := by exact_mod_cast h2
        rcases hh with hh | hh <;> omega
      rw [ComputeMipmapsLoop_succ, if_neg hstop] at h
      cases hx : ComputeMipmap q with
      | none => simp [hx] at h
      | some x =>
        simp only [hx] at h
        obtain ⟨-, -, hxr, hxc, -⟩ := ComputeMipmap_some q x hx
        rw [hr, hc, max_self, find_next_pow2_pow, pow_succ, Nat.mul_div_cancel _ (by norm_num)]
          at hxr hxc
        obtain ⟨rest, e1, e2, e3, e4⟩ := ih f (mm ++ [x]) x res hxr hxc h
        refine ⟨x :: rest, by rw [e1]; simp, by simp [e2], List.Chain.cons hx e3, ?_⟩
        intro i hi
        cases i with
        | zero =>
          refine ⟨x, rfl, ?_, ?_⟩
          · rw [hxr]
            simp
          · rw [hxc]
            simp
        | succ j =>
          obtain ⟨m, g1, g2, g3⟩ := e4 j (by omega)
          refine ⟨m, by simpa using g1, ?_, ?_⟩
          · rw [g2]
            congr 1
            omega
          · rw [g3]
            congr 1
            omega

theorem ComputeMipmaps_levels (data : Mat) (hr : data.rows % 2 = 0) (hc : data.cols % 2 = 0)
    (hr2 : 2 ≤ data.rows) (hc2 : 2 ≤ data.cols) :
    ∃ (k : Nat) (mipmaps : List Mat),
      ComputeMipmaps data 1 = some mipmaps ∧
      find_next_pow2 (max data.rows data.cols) = 2 ^ (k + 1) ∧
      mipmaps.length = k + 2 ∧ mipmaps.get? 0 = some data ∧
      List.Chain' (fun a b => ComputeMipmap a = some b) mipmaps ∧
      ∀ l, 1 ≤ l → l ≤ k + 1 → ∃ m, mipmaps.get? l = some m ∧ m.rows = 2 ^ (k + 1 - l) ∧
        m.cols = 2 ^ (k + 1 - l) := by
  obtain ⟨mipmaps, hmm⟩ := ComputeMipmaps_isSome data 1 hr hc (le_refl 1)
  have h := hmm
  unfold ComputeMipmaps at h
  have hstop : ¬ ((data.rows : Int) ≤ 1 ∨ (data.cols : Int) ≤ 1) := by
    intro hh
    rcases hh with hh | hh <;> omega
  rw [ComputeMipmapsLoop_succ, if_neg hstop] at h
  cases hx : ComputeMipmap data with
  | none => simp [hx] at h
  | some x =>
    simp only [hx] at h
    obtain ⟨-, -, hxr, hxc, -⟩ := ComputeMipmap_some data x hx
    obtain ⟨hle, j, hj, -⟩ := find_next_pow2_spec (max data.rows data.cols)
    have hmax : 2 ≤ max data.rows data.cols := le_trans hr2 (le_max_left _ _)
    have hj1 : 1 ≤ j := by
      by_contra hj0
      have : j = 0 := by omega
      rw [hj, this] at hle
      omega
    obtain ⟨k, rfl⟩ := Nat.exists_eq_succ_of_ne_zero (by omega : j ≠ 0)
    have hS : find_next_pow2 (max data.rows data.cols) / 2 = 2 ^ k := by
      rw [hj, pow_succ, Nat.mul_div_cancel _ (by norm_num)]
    rw [hS] at hxr hxc
    obtain ⟨rest, e1, e2, e3, e4⟩ := ComputeMipmapsLoop_shape k _ _ x mipmaps hxr hxc h
    have hlist : mipmaps = data :: x :: rest := by
      rw [e1]
      rfl
    refine ⟨k, mipmaps, hmm, hj, ?_, ?_, ?_, ?_⟩
    · rw [hlist]
      simp only [List.length_cons, e2]
    · rw [hlist]
      rfl
    · rw [hlist]
      exact List.Chain.cons hx e3
    · intro l hl1 hl2
      obtain ⟨i', rfl⟩ := Nat.exists_eq_succ_of_ne_zero (by omega : l ≠ 0)
      cases i' with
      | zero =>
        refine ⟨x, by rw [hlist]; rfl, ?_, ?_⟩
        · rw [hxr]
          congr 1
        · rw [hxc]
          congr 1
      | succ i'' =>
        obtain ⟨m, g1, g2, g3⟩ := e4 i'' (by omega)
        refine ⟨m, by rw [hlist]; simpa using g1, ?_, ?_⟩
        · rw [g2]
          congr 1
          omega
        · rw [g3]
          congr 1
          omega

/-- C33 (pyramid shape and termination): for a field with even `rows`, `cols >= 2`,
`ComputeMipmaps(field, 1)` returns.  With `P = find_next_pow2(max(rows, cols)) = 2^k`, the
smallest power of two that is at least `max(rows, cols)`, the pyramid has `k + 1` levels:
level 0 is the field and level `i = 1..k` is square of side `P / 2^i`, the last one 1x1;
every level after the first is the reduction `ComputeMipmap` of the level before it, whose
rows and columns are even. -/
theorem pyramid_shape (data : Mat) (hr : data.rows % 2 = 0) (hc : data.cols % 2 = 0)
    (hr2 : 2 ≤ data.rows) (hc2 : 2 ≤ data.cols) :
    ∃ (k : Nat) (mipmaps : List Mat),
      ComputeMipmaps data 1 = some mipmaps ∧
      find_next_pow2 (max data.rows data.cols) = 2 ^ k ∧
      max data.rows data.cols ≤ 2 ^ k ∧ 2 ^ (k - 1) < max data.rows data.cols ∧ 1 ≤ k ∧
      mipmaps.length = k + 1 ∧ mipmaps.get? 0 = some data ∧
      (∀ i, 1 ≤ i → i ≤ k → ∃ m, mipmaps.get? i = some m ∧ m.rows = 2 ^ k / 2 ^ i ∧
        m.cols = 2 ^ k / 2 ^ i) ∧
      (∃ m, mipmaps.get? k = some m ∧ m.rows = 1 ∧ m.cols = 1) ∧
      (∀ (i : Nat) (q m : Mat), mipmaps.get? i = some q → mipmaps.get? (i + 1) = some m →
        q.rows % 2 = 0 ∧ q.cols % 2 = 0 ∧ ComputeMipmap q = some m) := by
  obtain ⟨k, mipmaps, hmm, hP, hlen, h0, hchain, hlev⟩ :=
    ComputeMipmaps_levels data hr hc hr2 hc2
  obtain ⟨hle, j, hj, hmin⟩ := find_next_pow2_spec (max data.rows data.cols)
  have hjk : j = k + 1 := by
    rw [hP] at hj
    exact (Nat.pow_right_injective (le_refl 2) hj).symm
  subst hjk
  have hlevel : ∀ i, 1 ≤ i → i ≤ k + 1 → ∃ m, mipmaps.get? i = some m ∧
      m.rows = 2 ^ (k + 1) / 2 ^ i ∧ m.cols = 2 ^ (k + 1) / 2 ^ i := by
    intro i hi1 hi2
    rw [Nat.pow_div hi2 (by norm_num)]
    exact hlev i hi1 hi2
  refine ⟨k + 1, mipmaps, hmm, hP, by rw [← hP]; exact hle, ?_, by omega, hlen, h0, hlevel,
    ?_, ?_⟩
  · rcases hmin with h1 | h1
    · omega
    · exact h1
  · obtain ⟨m, g1, g2, g3⟩ := hlev (k + 1) (by omega) (le_refl _)
    refine ⟨m, g1, ?_, ?_⟩
    · rw [g2]
      simp
    · rw [g3]
      simp
  · intro i q m h1 h2
    cases hl : mipmaps with
    | nil =>
      rw [hl] at h1
      simp at h1
    | cons a l =>
      rw [hl] at h1 h2 hchain
      have hcm := chain_get? l a hchain i q m h1 h2
      obtain ⟨a1, a2, -⟩ := ComputeMipmap_some q m hcm
      exact ⟨a1, a2, hcm⟩

/-- Witness of C33: the pyramids of a 640x480 field and of a 64x64 field have 11 and 7
levels. -/
theorem pyramid_shape_witness :
    (∃ mipmaps, ComputeMipmaps (Mat.Zero 640 480) 1 = some mipmaps ∧ mipmaps.length = 11) ∧
    (∃ mipmaps, ComputeMipmaps (Mat.Zero 64 64) 1 = some mipmaps ∧ mipmaps.length = 7) := by
  constructor
  · obtain ⟨k, mipmaps, h1, h2, -, -, -, h3, -⟩ :=
      pyramid_shape (Mat.Zero 640 480) (by decide) (by decide) (by decide) (by decide)
    have e : find_next_pow2 (max (Mat.Zero 640 480).rows (Mat.Zero 640 480).cols) = 2 ^ 10 := by
      decide
    rw [e] at h2
    have hk : k = 10 := (Nat.pow_right_injective (le_refl 2) h2).symm
    exact ⟨mipmaps, h1, by rw [h3, hk]⟩
  · obtain ⟨k, mipmaps, h1, h2, -, -, -, h3, -⟩ :=
      pyramid_shape (Mat.Zero 64 64) (by decide) (by decide) (by decide) (by decide)
    have e : find_next_pow2 (max (Mat.Zero 64 64).rows (Mat.Zero 64 64).cols) = 2 ^ 6 := by
      decide
    rw [e] at h2
    have hk : k = 6 := (Nat.pow_right_injective (le_refl 2) h2).symm
    exact ⟨mipmaps, h1, by rw [h3, hk]⟩

/-! ## Auxiliary lemmas: the root of the pyramid -/

theorem SampleDensityImpl_eq (rgbd : RgbdData) (density : Mat) (g : RandomEngine) :
    SampleDensityImpl rgbd density g
      = match ComputeMipmaps density 1 with
        | none => none
        | some mipmaps =>
          some ((SampleDensityImplRec rgbd mipmaps (mipmaps.length - 1) 0 0
              ⟨[], carryStart mipmaps, g⟩).seeds,
            (SampleDensityImplRec rgbd mipmaps (mipmaps.length - 1) 0 0
              ⟨[], carryStart mipmaps, g⟩).random_engine) := rfl

theorem carryStart_get? (mipmaps : List Mat) (l : Nat) (m : Mat) (hl : 1 ≤ l)
    (h : mipmaps.get? l = some m) :
    (carryStart mipmaps).get? l = some (Mat.Zero m.rows m.cols) := by
  obtain ⟨i, rfl⟩ := Nat.exists_eq_succ_of_ne_zero (by omega : l ≠ 0)
  cases mipmaps with
  | nil => simp at h
  | cons a rest =>
    simp only [List.get?_cons_succ] at h
    simp only [carryStart, List.get?_cons_succ]
    rw [List.get?_eq_getElem?, List.getElem?_map, ← List.get?_eq_getElem?, h]
    rfl

theorem getD_of_get?_mat (l : List Mat) (i : Nat) (m : Mat) (h : l.get? i = some m) :
    l.getD i Mat.empty = m := by
  rw [List.getD_eq_getElem?_getD, ← List.get?_eq_getElem?, h]
  rfl

theorem ComputeMipmaps_total (data : Mat) (mipmaps : List Mat)
    (h : ComputeMipmaps data 1 = some mipmaps) : ∀ m ∈ mipmaps, m.total = data.total := by
  unfold ComputeMipmaps at h
  apply ComputeMipmapsLoop_total 1 data.total _ [data] data mipmaps _ rfl h
  intro m hm
  simp only [List.mem_singleton] at hm
  rw [hm]

theorem rootValue (data : Mat) (hr : data.rows % 2 = 0) (hc : data.cols % 2 = 0)
    (hr2 : 2 ≤ data.rows) (hc2 : 2 ≤ data.cols) :
    ∃ mipmaps, ComputeMipmaps data 1 = some mipmaps ∧ 1 ≤ mipmaps.length - 1 ∧
      cellValue mipmaps (carryStart mipmaps) (mipmaps.length - 1) 0 0 = data.total := by
  obtain ⟨k, mipmaps, hmm, -, hlen, -, -, hlev⟩ := ComputeMipmaps_levels data hr hc hr2 hc2
  obtain ⟨m, g1, g2, g3⟩ := hlev (k + 1) (by omega) (le_refl _)
  have hl : mipmaps.length - 1 = k + 1 := by omega
  refine ⟨mipmaps, hmm, by omega, ?_⟩
  rw [hl]
  unfold cellValue
  rw [getD_of_get?_mat _ _ _ g1, getD_of_get?_mat _ _ _ (carryStart_get? _ _ _ (by omega) g1)]
  have ht := ComputeMipmaps_total data mipmaps hmm m (List.get?_mem g1)
  rw [← ht]
  unfold Mat.total
  rw [g2, g3]
  simp [Mat.Zero]

theorem ComputeMipmapRounded_id (data : Mat) :
    ComputeMipmapRounded id data = ComputeMipmap data := rfl

theorem SampleLeafRounded_id (rgbd : RgbdData) (mipmaps : List Mat) (level x y : Nat)
    (st : SamplerState) :
    SampleLeafRounded id rgbd mipmaps level x y st = SampleLeaf rgbd mipmaps level x y st := rfl

theorem ComputeMipmapsLoopRounded_id (min_size : Int) :
    ∀ (fuel : Nat) (mm : List Mat) (q : Mat),
      ComputeMipmapsLoopRounded id min_size fuel mm q = ComputeMipmapsLoop min_size fuel mm q
  | 0, _, _ => rfl
  | fuel + 1, mm, q => by
    simp only [ComputeMipmapsLoopRounded, ComputeMipmapsLoop, ComputeMipmapRounded_id]
    split_ifs
    · rfl
    · cases ComputeMipmap q with
      | none => rfl
      | some x => exact ComputeMipmapsLoopRounded_id min_size fuel _ x

theorem SampleDensityImplRecRounded_id (rgbd : RgbdData) (mipmaps : List Mat) :
    ∀ (level x y : Nat) (st : SamplerState),
      SampleDensityImplRecRounded id rgbd mipmaps level x y st
        = SampleDensityImplRec rgbd mipmaps level x y st
  | 0, _, _, _ => rfl
  | level + 1, x, y, st => by
    simp only [SampleDensityImplRecRounded, SampleDensityImplRec, SampleLeafRounded_id,
      SampleDensityImplRecRounded_id rgbd mipmaps level]
    rfl

/-- With the rounding `id` the rounded sampler is the exact one. -/
theorem SampleDensityImplRounded_id (rgbd : RgbdData) (density : Mat) (g : RandomEngine) :
    SampleDensityImplRounded id rgbd density g = SampleDensityImpl rgbd density g := by
  unfold SampleDensityImplRounded SampleDensityImpl ComputeMipmapsRounded ComputeMipmaps
  rw [ComputeMipmapsLoopRounded_id]
  cases ComputeMipmapsLoop 1 (density.rows + density.cols + 2) [density] density with
  | none => rfl
  | some mipmaps =>
    simp only [SampleDensityImplRecRounded_id]


theorem ComputeMipmapRounded_dims (rnd : ℚ → ℚ) (q q' : Mat) (hr : q.rows = q'.rows)
    (hc : q.cols = q'.cols) (x : Mat) (h : ComputeMipmap q = some x) :
    ∃ x', ComputeMipmapRounded rnd q' = some x' ∧ x.rows = x'.rows ∧ x.cols = x'.cols := by
  unfold ComputeMipmap at h
  unfold ComputeMipmapRounded
  simp only at h ⊢
  rw [← hr, ← hc]
  split_ifs at h ⊢ with he
  simp only [Option.some.injEq] at h
  subst h
  exact ⟨_, rfl, rfl, rfl⟩

theorem ComputeMipmapsLoopRounded_isSome (rnd : ℚ → ℚ) (min_size : Int) :
    ∀ (fuel : Nat) (mm mm' : List Mat) (q q' : Mat) (res : List Mat),
      q.rows = q'.rows → q.cols = q'.cols →
      ComputeMipmapsLoop min_size fuel mm q = some res →
      ∃ res', ComputeMipmapsLoopRounded rnd min_size fuel mm' q' = some res'
  | 0, _, _, _, _, _, _, _, h => by simp [ComputeMipmapsLoop] at h
  | fuel + 1, mm, mm', q, q', res, hr, hc, h => by
    rw [ComputeMipmapsLoop_succ] at h
    simp only [ComputeMipmapsLoopRounded]
    rw [← hr, ← hc]
    split_ifs at h ⊢ with hstop
    · exact ⟨_, rfl⟩
    · cases hx : ComputeMipmap q with
      | none => simp [hx] at h
      | some x =>
        simp only [hx] at h
        obtain ⟨x', hx', e1, e2⟩ := ComputeMipmapRounded_dims rnd q q' hr hc x hx
        simp only [hx']
        exact ComputeMipmapsLoopRounded_isSome rnd min_size fuel _ _ x x' res e1 e2 h

theorem ComputeMipmapsRounded_isSome (rnd : ℚ → ℚ) (data : Mat) (hr : data.rows % 2 = 0)
    (hc : data.cols % 2 = 0) : ∃ mipmaps, ComputeMipmapsRounded rnd data 1 = some mipmaps := by
  obtain ⟨mm, hmm⟩ := ComputeMipmaps_isSome data 1 hr hc (le_refl 1)
  unfold ComputeMipmaps at hmm
  exact ComputeMipmapsLoopRounded_isSome rnd 1 _ [data] [data] data data mm rfl rfl hmm

theorem SampleDensityImplRounded_eq (rnd : ℚ → ℚ) (rgbd : RgbdData) (density : Mat)
    (g : RandomEngine) :
    SampleDensityImplRounded rnd rgbd density g
      = match ComputeMipmapsRounded rnd density 1 with
        | none => none
        | some mipmaps =>
          some ((SampleDensityImplRecRounded rnd rgbd mipmaps (mipmaps.length - 1) 0 0
              ⟨[], carryStart mipmaps, g⟩).seeds,
            (SampleDensityImplRecRounded rnd rgbd mipmaps (mipmaps.length - 1) 0 0
              ⟨[], carryStart mipmaps, g⟩).random_engine) := rfl

theorem SampleDensityImplRecRounded_leaf (rnd : ℚ → ℚ) (rgbd : RgbdData) (mipmaps : List Mat)
    (level x y : Nat) (st : SamplerState)
    (h : cellValueRounded rnd mipmaps st.carry_mipmaps level x y ≤ 3 / 2) :
    SampleDensityImplRecRounded rnd rgbd mipmaps level x y st
      = SampleLeafRounded rnd rgbd mipmaps level x y st := by
  cases level with
  | zero => rfl
  | succ l =>
    simp only [SampleDensityImplRecRounded]
    rw [if_pos (Or.inr h)]

theorem SampleLeafRounded_seeds (rnd : ℚ → ℚ) (rgbd : RgbdData) (mipmaps : List Mat)
    (level x y : Nat) (st : SamplerState) :
    (SampleLeafRounded rnd rgbd mipmaps level x y st).seeds
      = (SampleLeafSeedRounded rnd rgbd level x y
          (cellValueRounded rnd mipmaps st.carry_mipmaps level x y) st).2.seeds := rfl

theorem SampleLeafSeedRounded_count (rnd : ℚ → ℚ) (rgbd : RgbdData) (level x y : Nat) (v : ℚ)
    (st : SamplerState) :
    ∃ new, new.length ≤ 1 ∧
      (SampleLeafSeedRounded rnd rgbd level x y v st).2.seeds = st.seeds ++ new ∧
      (v < 1 / 2 → new = []) := by
  unfold SampleLeafSeedRounded
  simp only
  split_ifs with h1 h2
  · exact ⟨[_], le_refl _, rfl, fun hv => absurd h1 (not_le.mpr hv)⟩
  · exact ⟨[], by simp, by simp, fun _ => rfl⟩
  · exact ⟨[], by simp, by simp, fun _ => rfl⟩

/-- C35 (global threshold at the root), as the code has it: the thresholds are applied to
the density of the root cell that the pyramid holds.  For a field with even `rows`,
`cols >= 2`, in exact arithmetic that density is the sum of the entries of the field: when
the sum is at most `3/2` the root cell is a leaf and `SampleDensityImpl` returns at most one
seed, and when the sum is less than `1/2` it returns no seed, however the density is
distributed over the field.  In rounded arithmetic, whatever the rounding `rnd` is, the
pyramid is built, and `SampleDensityImpl` returns at most one seed when the rounded density
of the root cell is at most `3/2` and no seed when it is less than `1/2`. -/
theorem root_threshold (rgbd : RgbdData) (density : Mat) (g : RandomEngine)
    (hr : density.rows % 2 = 0) (hc : density.cols % 2 = 0) (hr2 : 2 ≤ density.rows)
    (hc2 : 2 ≤ density.cols) :
    (∃ mipmaps, ComputeMipmaps density 1 = some mipmaps ∧
      cellValue mipmaps (carryStart mipmaps) (mipmaps.length - 1) 0 0 = density.total ∧
      (density.total ≤ 3 / 2 →
        SampleDensityImplRec rgbd mipmaps (mipmaps.length - 1) 0 0
            ⟨[], carryStart mipmaps, g⟩
          = SampleLeaf rgbd mipmaps (mipmaps.length - 1) 0 0 ⟨[], carryStart mipmaps, g⟩ ∧
        ∃ seeds g', SampleDensityImpl rgbd density g = some (seeds, g') ∧ seeds.length ≤ 1) ∧
      (density.total < 1 / 2 → ∃ g', SampleDensityImpl rgbd density g = some ([], g'))) ∧
    (∀ rnd : ℚ → ℚ, ∃ mipmaps, ComputeMipmapsRounded rnd density 1 = some mipmaps ∧
      (cellValueRounded rnd mipmaps (carryStart mipmaps) (mipmaps.length - 1) 0 0 ≤ 3 / 2 →
        SampleDensityImplRecRounded rnd rgbd mipmaps (mipmaps.length - 1) 0 0
            ⟨[], carryStart mipmaps, g⟩
          = SampleLeafRounded rnd rgbd mipmaps (mipmaps.length - 1) 0 0
              ⟨[], carryStart mipmaps, g⟩ ∧
        ∃ seeds g', SampleDensityImplRounded rnd rgbd density g = some (seeds, g') ∧
          seeds.length ≤ 1) ∧
      (cellValueRounded rnd mipmaps (carryStart mipmaps) (mipmaps.length - 1) 0 0 < 1 / 2 →
        ∃ g', SampleDensityImplRounded rnd rgbd density g = some ([], g'))) := by
  constructor
  · obtain ⟨mipmaps, hmm, hl, hv⟩ := rootValue density hr hc hr2 hc2
    have hleaf : density.total ≤ 3 / 2 →
        SampleDensityImplRec rgbd mipmaps (mipmaps.length - 1) 0 0 ⟨[], carryStart mipmaps, g⟩
          = SampleLeaf rgbd mipmaps (mipmaps.length - 1) 0 0 ⟨[], carryStart mipmaps, g⟩ := by
      intro ht
      obtain ⟨l, hl'⟩ := Nat.exists_eq_succ_of_ne_zero (by omega : mipmaps.length - 1 ≠ 0)
      rw [hl'] at hv ⊢
      simp only [SampleDensityImplRec]
      rw [if_pos]
      right
      rw [hv]
      exact ht
    refine ⟨mipmaps, hmm, hv, ?_, ?_⟩
    · intro ht
      refine ⟨hleaf ht,
        (SampleDensityImplRec rgbd mipmaps (mipmaps.length - 1) 0 0
          ⟨[], carryStart mipmaps, g⟩).seeds,
        (SampleDensityImplRec rgbd mipmaps (mipmaps.length - 1) 0 0
          ⟨[], carryStart mipmaps, g⟩).random_engine, ?_, ?_⟩
      · rw [SampleDensityImpl_eq, hmm]
      · rw [hleaf ht]
        obtain ⟨new, h1, h2⟩ := SampleLeaf_count rgbd mipmaps (mipmaps.length - 1) 0 0
          ⟨[], carryStart mipmaps, g⟩
        rw [h2]
        simpa using h1
    · intro ht
      have hseeds : (SampleDensityImplRec rgbd mipmaps (mipmaps.length - 1) 0 0
          ⟨[], carryStart mipmaps, g⟩).seeds = [] := by
        rw [hleaf (by linarith), SampleLeaf_seeds]
        unfold SampleLeafSeed
        simp only
        rw [if_neg]
        rw [hv]
        exact not_le.mpr ht
      refine ⟨(SampleDensityImplRec rgbd mipmaps (mipmaps.length - 1) 0 0
          ⟨[], carryStart mipmaps, g⟩).random_engine, ?_⟩
      rw [SampleDensityImpl_eq, hmm]
      simp only
      rw [hseeds]
  · intro rnd
    obtain ⟨mipmaps, hmm⟩ := ComputeMipmapsRounded_isSome rnd density hr hc
    obtain ⟨new, hn1, hn2, hn3⟩ := SampleLeafSeedRounded_count rnd rgbd (mipmaps.length - 1) 0 0
      (cellValueRounded rnd mipmaps (carryStart mipmaps) (mipmaps.length - 1) 0 0)
      ⟨[], carryStart mipmaps, g⟩
    refine ⟨mipmaps, hmm, ?_, ?_⟩
    · intro ht
      have hleaf := SampleDensityImplRecRounded_leaf rnd rgbd mipmaps (mipmaps.length - 1) 0 0
        ⟨[], carryStart mipmaps, g⟩ ht
      refine ⟨hleaf,
        (SampleDensityImplRecRounded rnd rgbd mipmaps (mipmaps.length - 1) 0 0
          ⟨[], carryStart mipmaps, g⟩).seeds,
        (SampleDensityImplRecRounded rnd rgbd mipmaps (mipmaps.length - 1) 0 0
          ⟨[], carryStart mipmaps, g⟩).random_engine,
        by rw [SampleDensityImplRounded_eq, hmm], ?_⟩
      rw [hleaf, SampleLeafRounded_seeds, hn2]
      simpa using hn1
    · intro ht
      have hleaf := SampleDensityImplRecRounded_leaf rnd rgbd mipmaps (mipmaps.length - 1) 0 0
        ⟨[], carryStart mipmaps, g⟩ (by linarith)
      refine ⟨(SampleDensityImplRecRounded rnd rgbd mipmaps (mipmaps.length - 1) 0 0
          ⟨[], carryStart mipmaps, g⟩).random_engine, ?_⟩
      rw [SampleDensityImplRounded_eq, hmm]
      simp only
      rw [hleaf, SampleLeafRounded_seeds, hn2, hn3 ht]
      rfl

/-- Witness of C35: the 2x2 field `cancelField`, whose entries `5, 5, -5, -5` sum to `0`,
on a grid whose four points are valid: no seed is returned, in exact arithmetic and in
binary32. -/
theorem root_threshold_witness :
    cancelField.get 0 0 = 5 ∧ cancelField.total = 0 ∧
    (∃ g', SampleDensityImpl validGrid2x2 cancelField RandomEngine.zeros = some ([], g')) ∧
    ∃ g', SampleDensityImplRounded roundBinary32 validGrid2x2 cancelField RandomEngine.zeros
      = some ([], g') := by
  have ht : cancelField.total = 0 := by
    simp [Mat.total, cancelField, Finset.sum_range_succ]
  obtain ⟨⟨-, -, -, -, h⟩, h2⟩ := root_threshold validGrid2x2 cancelField RandomEngine.zeros
    (by decide) (by decide) (by decide) (by decide)
  obtain ⟨mipmaps, hmm, -, h3⟩ := h2 roundBinary32
  refine ⟨rfl, ht, h (by rw [ht]; norm_num), h3 ?_⟩
  have hm : ComputeMipmapsRounded roundBinary32 cancelField 1
      = some [cancelField, ⟨1, 1, fun i j =>
          if 2 * i < 2 ∧ 2 * j < 2 then
            roundBinary32 (roundBinary32 (roundBinary32
              (cancelField.get (2 * i) (2 * j) + cancelField.get (2 * i) (2 * j + 1))
              + cancelField.get (2 * i + 1) (2 * j)) + cancelField.get (2 * i + 1) (2 * j + 1))
          else 0⟩] := rfl
  rw [hm, Option.some.injEq] at hmm
  rw [← hmm]
  have hv : cellValueRounded roundBinary32
      [cancelField, ⟨1, 1, fun i j =>
          if 2 * i < 2 ∧ 2 * j < 2 then
            roundBinary32 (roundBinary32 (roundBinary32
              (cancelField.get (2 * i) (2 * j) + cancelField.get (2 * i) (2 * j + 1))
              + cancelField.get (2 * i + 1) (2 * j)) + cancelField.get (2 * i + 1) (2 * j + 1))
          else 0⟩]
      (carryStart [cancelField, ⟨1, 1, fun i j =>
          if 2 * i < 2 ∧ 2 * j < 2 then
            roundBinary32 (roundBinary32 (roundBinary32
              (cancelField.get (2 * i) (2 * j) + cancelField.get (2 * i) (2 * j + 1))
              + cancelField.get (2 * i + 1) (2 * j)) + cancelField.get (2 * i + 1) (2 * j + 1))
          else 0⟩]) 1 0 0 = 0 := by
    decide!
  exact lt_of_eq_of_lt hv (by norm_num)

/-- Counterexample to C35 as stated: the entries of the 2x2 field `cancelField32` are
binary32 numbers that sum to `1/4 < 1/2`, and in binary32 the reduction
`10^8 + (-3/4) + (-10^8) + 1` of `ComputeMipmap` is `1`, because `10^8 - 3/4` rounds to
`10^8`: on a grid of valid points `SampleDensityImpl` returns the seed `(1,1)`. -/
theorem root_threshold_counterexample :
    cancelField32.rows = 2 ∧ cancelField32.cols = 2 ∧
    roundBinary32 (cancelField32.get 0 0) = cancelField32.get 0 0 ∧
    roundBinary32 (cancelField32.get 0 1) = cancelField32.get 0 1 ∧
    roundBinary32 (cancelField32.get 1 0) = cancelField32.get 1 0 ∧
    roundBinary32 (cancelField32.get 1 1) = cancelField32.get 1 1 ∧
    cancelField32.get 0 0 + cancelField32.get 0 1 + cancelField32.get 1 0
      + cancelField32.get 1 1 = 1 / 4 ∧
    cancelField32.total = 1 / 4 ∧
    (ComputeMipmapsRounded roundBinary32 cancelField32 1).map
      (fun mipmaps => cellValueRounded roundBinary32 mipmaps (carryStart mipmaps)
        (mipmaps.length - 1) 0 0) = some 1 ∧
    (SampleDensityImplRounded roundBinary32 validGrid2x2 cancelField32
      RandomEngine.zeros).map (fun r => r.1) = some [⟨1, 1⟩] := by
  refine ⟨rfl, rfl, by decide!, by decide!, by decide!, by decide!, by decide!, ?_, by decide!,
    by decide!⟩
  simp [Mat.total, cancelField32, Finset.sum_range_succ]
  norm_num

/-! ## Auxiliary lemmas: the cells of the traversal -/

theorem DistributeEvents_bounds (r c level x y : Nat) (v : ℚ) (hx : x < r) (hy : y < c) :
    ∀ e ∈ DistributeEvents r c level x y v, e.level = level ∧ e.x < r ∧ e.y < c := by
  intro e he
  unfold DistributeEvents at he
  simp only at he
  have hA : ∀ a : ℚ, x + 1 < r → (SamplerEvent.carry level (x + 1) y a).level = level ∧
      (SamplerEvent.carry level (x + 1) y a).x < r ∧
      (SamplerEvent.carry level (x + 1) y a).y < c := fun a h => ⟨rfl, h, hy⟩
  have hB : ∀ a : ℚ, y + 1 < c → (SamplerEvent.carry level (x - 1) (y + 1) a).level = level ∧
      (SamplerEvent.carry level (x - 1) (y + 1) a).x < r ∧
      (SamplerEvent.carry level (x - 1) (y + 1) a).y < c :=
    fun a h => ⟨rfl, lt_of_le_of_lt (Nat.sub_le _ _) hx, h⟩
  have hC : ∀ a : ℚ, y + 1 < c → (SamplerEvent.carry level x (y + 1) a).level = level ∧
      (SamplerEvent.carry level x (y + 1) a).x < r ∧
      (SamplerEvent.carry level x (y + 1) a).y < c := fun a h => ⟨rfl, hx, h⟩
  have hD : ∀ a : ℚ, x + 1 < r → y + 1 < c →
      (SamplerEvent.carry level (x + 1) (y + 1) a).level = level ∧
      (SamplerEvent.carry level (x + 1) (y + 1) a).x < r ∧
      (SamplerEvent.carry level (x + 1) (y + 1) a).y < c := fun a h h' => ⟨rfl, h, h'⟩
  by_cases hq : diffusionWeight r c x y > 0
  · rw [if_pos hq] at he
    rcases List.mem_append.mp he with h | h
    · by_cases h1 : x + 1 < r
      · simp only [h1, decide_True, if_true, List.mem_singleton] at h
        rw [h]
        exact hA _ h1
      · simp [h1] at h
    · by_cases h2 : y + 1 < c
      · simp only [h2, decide_True, if_true] at h
        rcases List.mem_append.mp h with h | h
        · rcases List.mem_append.mp h with h | h
          · by_cases h3 : 0 < x
            · simp only [h3, decide_True, if_true, List.mem_singleton] at h
              rw [h]
              exact hB _ h2
            · simp [h3] at h
          · simp only [List.mem_singleton] at h
            rw [h]
            exact hC _ h2
        · by_cases h1 : x + 1 < r
          · simp only [h1, decide_True, if_true, List.mem_singleton] at h
            rw [h]
            exact hD _ h1 h2
          · simp [h1] at h
      · simp [h2] at h
  · rw [if_neg hq] at he
    simp at he

theorem SampleLeafTrace_bounds (rgbd : RgbdData) (mipmaps : List Mat) (level x y : Nat)
    (st : SamplerState) (mm : Mat) (hmm : mipmaps.get? level = some mm) (hx : x < mm.rows)
    (hy : y < mm.cols) :
    ∀ e ∈ SampleLeafTrace rgbd mipmaps level x y st,
      e.level = level ∧ e.x < mm.rows ∧ e.y < mm.cols := by
  intro e he
  unfold SampleLeafTrace at he
  rw [getD_of_get?_mat _ _ _ hmm] at he
  rcases List.mem_cons.mp he with rfl | h
  · exact ⟨rfl, hx, hy⟩
  · exact DistributeEvents_bounds _ _ _ _ _ _ hx hy e h

theorem SampleTrace_bounds (rgbd : RgbdData) (mipmaps : List Mat) (K : Nat)
    (hdims : ∀ l, 1 ≤ l → l ≤ K → ∃ m, mipmaps.get? l = some m ∧ m.rows = 2 ^ (K - l) ∧
      m.cols = 2 ^ (K - l)) :
    ∀ (level x y : Nat) (st : SamplerState), 1 ≤ level → level ≤ K → x < 2 ^ (K - level) →
      y < 2 ^ (K - level) →
      ∀ e ∈ SampleTrace rgbd mipmaps level x y st,
        1 ≤ e.level ∧ e.level ≤ level ∧ e.x < 2 ^ (K - e.level) ∧ e.y < 2 ^ (K - e.level)
  | 0, _, _, _, h1, _, _, _ => by omega
  | level + 1, x, y, st, h1, hK, hx, hy => by
    obtain ⟨mm, g1, g2, g3⟩ := hdims (level + 1) h1 hK
    intro e he
    simp only [SampleTrace] at he
    split_ifs at he with hleaf
    · obtain ⟨a, b, c⟩ := SampleLeafTrace_bounds rgbd mipmaps (level + 1) x y st mm g1
        (by rw [g2]; exact hx) (by rw [g3]; exact hy) e he
      rw [a]
      rw [g2] at b
      rw [g3] at c
      exact ⟨h1, le_refl _, b, c⟩
    · have hl : 1 ≤ level := by
        by_contra hc
        exact hleaf (Or.inl (by omega))
      have hpow : 2 ^ (K - level) = 2 * 2 ^ (K - (level + 1)) := by
        have : K - level = (K - (level + 1)) + 1 := by omega
        rw [this, pow_succ]
        ring
      have hx0 : 2 * x < 2 ^ (K - level) := by omega
      have hx1 : 2 * x + 1 < 2 ^ (K - level) := by omega
      have hy0 : 2 * y < 2 ^ (K - level) := by omega
      have hy1 : 2 * y + 1 < 2 ^ (K - level) := by omega
      rcases List.mem_cons.mp he with rfl | h
      · exact ⟨h1, le_refl _, hx, hy⟩
      · simp only [List.mem_append] at h
        rcases h with ((h | h) | h) | h
        · obtain ⟨a, b, c, d⟩ := SampleTrace_bounds rgbd mipmaps K hdims level (2 * x) (2 * y) _
            hl (by omega) hx0 hy0 e h
          exact ⟨a, by omega, c, d⟩
        · obtain ⟨a, b, c, d⟩ := SampleTrace_bounds rgbd mipmaps K hdims level (2 * x)
            (2 * y + 1) _ hl (by omega) hx0 hy1 e h
          exact ⟨a, by omega, c, d⟩
        · obtain ⟨a, b, c, d⟩ := SampleTrace_bounds rgbd mipmaps K hdims level (2 * x + 1)
            (2 * y) _ hl (by omega) hx1 hy0 e h
          exact ⟨a, by omega, c, d⟩
        · obtain ⟨a, b, c, d⟩ := SampleTrace_bounds rgbd mipmaps K hdims level (2 * x + 1)
            (2 * y + 1) _ hl (by omega) hx1 hy1 e h
          exact ⟨a, by omega, c, d⟩

/-- C34 (level 0 is never visited): for a field with even `rows`, `cols >= 2` the pyramid
and the events of the traversal of `SampleDensityImpl` exist, and every event, the call
`SampleDensityImplRec(level, x, y)` or the statement `carry_mm(x,y) += ..` at level
`level`, has `1 <= level < mipmaps.size()` and `x < rows`, `y < cols` of `mipmaps[level]`,
whose carry matrix has the same dimensions: no call is made at level 0, the shift
`1 << (level - 1)` has a non-negative amount, and every access is in bounds. -/
theorem level_zero_unvisited (rgbd : RgbdData) (density : Mat) (g : RandomEngine)
    (hr : density.rows % 2 = 0) (hc : density.cols % 2 = 0) (hr2 : 2 ≤ density.rows)
    (hc2 : 2 ≤ density.cols) :
    ∃ (mipmaps : List Mat) (events : List SamplerEvent),
      ComputeMipmaps density 1 = some mipmaps ∧
      SampleDensityImplTrace rgbd density g = some events ∧
      events.head? = some (SamplerEvent.visit (mipmaps.length - 1) 0 0) ∧
      ∀ e ∈ events, 1 ≤ e.level ∧ e.level < mipmaps.length ∧
        ∃ mm, mipmaps.get? e.level = some mm ∧ e.x < mm.rows ∧ e.y < mm.cols ∧
          (carryStart mipmaps).get? e.level = some (Mat.Zero mm.rows mm.cols) := by
  obtain ⟨k, mipmaps, hmm, -, hlen, -, -, hlev⟩ := ComputeMipmaps_levels density hr hc hr2 hc2
  have hl : mipmaps.length - 1 = k + 1 := by omega
  have htrace : SampleDensityImplTrace rgbd density g
      = some (SampleTrace rgbd mipmaps (mipmaps.length - 1) 0 0
          ⟨[], carryStart mipmaps, g⟩) := by
    unfold SampleDensityImplTrace
    rw [hmm]
    rfl
  refine ⟨mipmaps, _, hmm, htrace, ?_, ?_⟩
  · rw [hl]
    simp only [SampleTrace]
    split_ifs <;> rfl
  · intro e he
    rw [hl] at he
    have hpos : 0 < 2 ^ (k + 1 - (k + 1)) := by simp
    obtain ⟨a, b, c, d⟩ := SampleTrace_bounds rgbd mipmaps (k + 1) hlev (k + 1) 0 0 _
      (by omega) (le_refl _) hpos hpos e he
    obtain ⟨mm, g1, g2, g3⟩ := hlev e.level a b
    refine ⟨a, by omega, mm, g1, by rw [g2]; exact c, by rw [g3]; exact d, ?_⟩
    exact carryStart_get? mipmaps e.level mm a g1

/-- Witness of C34: the traversal of the sampler on the 2x2 field `cancelField`, whose only
call is the one at the cell `(0,0)` of level 1. -/
theorem level_zero_unvisited_witness :
    ∃ (mipmaps : List Mat) (events : List SamplerEvent),
      ComputeMipmaps cancelField 1 = some mipmaps ∧
      SampleDensityImplTrace validGrid2x2 cancelField RandomEngine.zeros = some events ∧
      ∀ e ∈ events, 1 ≤ e.level := by
  obtain ⟨mipmaps, events, h1, h2, -, h3⟩ :=
    level_zero_unvisited validGrid2x2 cancelField RandomEngine.zeros (by decide) (by decide)
      (by decide) (by decide)
  exact ⟨mipmaps, events, h1, h2, fun e he => (h3 e he).1⟩

/-! ## Auxiliary lemmas: the window of `UpdateClusters` -/

theorem getFrameRange_all (ts : Timeseries) (lo hi : Int)
    (h : ∀ f ∈ ts.frames, lo ≤ f.time ∧ f.time < hi) :
    ts.getFrameRange lo hi = ts.frames := by
  unfold Timeseries.getFrameRange
  have hd : ts.frames.dropWhile (fun f => decide (f.time < lo)) = ts.frames := by
    cases hfr : ts.frames with
    | nil => rfl
    | cons f rest =>
      have := (h f (by rw [hfr]; exact List.mem_cons_self _ _)).1
      rw [List.dropWhile_cons_of_neg]
      simp only [decide_eq_true_eq, not_lt]
      exact this
  rw [hd, List.takeWhile_eq_self_iff]
  intro f hf
  simp only [decide_eq_true_eq]
  exact (h f hf).2

theorem setFrameRange_all (ts : Timeseries) (lo hi : Int) (frames : List Frame)
    (h : ∀ f ∈ ts.frames, lo ≤ f.time ∧ f.time < hi) :
    (ts.setFrameRange lo hi frames).frames = frames := by
  unfold Timeseries.setFrameRange
  have hd : ts.frames.dropWhile (fun f => decide (f.time < lo)) = ts.frames := by
    cases hfr : ts.frames with
    | nil => rfl
    | cons f rest =>
      have := (h f (by rw [hfr]; exact List.mem_cons_self _ _)).1
      rw [List.dropWhile_cons_of_neg]
      simp only [decide_eq_true_eq, not_lt]
      exact this
  have ht : ts.frames.takeWhile (fun f => decide (f.time < lo)) = [] := by
    cases hfr : ts.frames with
    | nil => rfl
    | cons f rest =>
      have := (h f (by rw [hfr]; exact List.mem_cons_self _ _)).1
      rw [List.takeWhile_cons_of_neg]
      simp only [decide_eq_true_eq, not_lt]
      exact this
  have hd2 : ts.frames.dropWhile (fun f => decide (f.time < hi)) = [] := by
    rw [List.dropWhile_eq_nil_iff]
    intro f hf
    simp only [decide_eq_true_eq]
    exact (h f hf).2
  simp only [hd, ht, hd2, List.nil_append, List.append_nil]

theorem addAndPurge_window (sv : ContinuousSupervoxels) (counts : List Nat) (rgbd : RgbdData)
    (new_clusters : List Cluster) (hinv : sv.After counts) :
    (sv.addAndPurge rgbd new_clusters).2.frames ≠ [] ∧
    activeTime (sv.addAndPurge rgbd new_clusters).2 - CLUSTER_TIME_RADIUS
      ≤ (sv.addAndPurge rgbd new_clusters).2.getBeginTime ∧
    (sv.addAndPurge rgbd new_clusters).2.getEndTime
      ≤ activeTime (sv.addAndPurge rgbd new_clusters).2 + CLUSTER_TIME_RADIUS + 1 ∧
    ∀ f ∈ (sv.addAndPurge rgbd new_clusters).2.frames,
      (sv.addAndPurge rgbd new_clusters).2.getBeginTime ≤ f.time ∧
      f.time < (sv.addAndPurge rgbd new_clusters).2.getEndTime := by
  have ht := addAndPurge_times sv counts rgbd new_clusters hinv
  have hL1 := purgedCount_eq (counts.length + 1)
  generalize (sv.addAndPurge rgbd new_clusters).2 = ts at ht ⊢
  have hn : counts.length + 1 - purgedCount (counts.length + 1)
      = (counts.length - purgedCount (counts.length + 1)) + 1 := by omega
  have ht2 := ht
  rw [hn] at ht2
  obtain ⟨hend, hbegin⟩ := getEndTime_consecutive_succ ts _ _ ht2
  refine ⟨?_, ?_, ?_, ?_⟩
  · intro hnil
    unfold Timeseries.times at ht2
    rw [hnil, consecutiveFrom_succ] at ht2
    simp at ht2
  · unfold activeTime CLUSTER_TIME_RADIUS
    rw [hend, hbegin]
    simp only [max_def]
    split_ifs <;> omega
  · unfold activeTime CLUSTER_TIME_RADIUS
    rw [hend, hbegin]
    simp only [max_def]
    split_ifs <;> omega
  · intro f hf
    have hm : f.time ∈ ts.times := List.mem_map_of_mem _ hf
    rw [ht2, mem_consecutiveFrom] at hm
    rw [hend, hbegin]
    omega

/-- C40 (refinement covers the whole retained window): in a run of `step` calls after
`start`, let `ts` be the series of a call after the new frame is added and the old frames
are purged, and `t = max(begin, end - R_T - 1)` its active time.  The series is not empty,
`t - R_T <= begin` and `end <= t + R_T + 1`, so the frames of the range
`[t - R_T, t + R_T + 1)` that `UpdateClusters` requests are all the retained frames; the
`CLUSTER_ITERATIONS = 5` rounds run on that list, and the frames they leave are the frames
of the series after the call, each a later version of the retained frame at its place. -/
theorem refinement_window (ops : FloatOps) (sv0 sv sv' : ContinuousSupervoxels)
    (rows cols : Int) (inputs : List StepInput) (inp : StepInput)
    (sampled : List Cluster × RandomEngine)
    (hrun : (sv0.start rows cols).steps ops inputs = some sv)
    (hs : sv.sampleNewClusters inp = some sampled)
    (hstep : sv.step ops inp = some sv') :
    ∃ (ts : Timeseries) (frames' : List Frame),
      ts = (sv.addAndPurge (CreateRgbdData inp.color inp.depth) sampled.1).2 ∧
      ts.frames ≠ [] ∧
      activeTime ts = max ts.getBeginTime (ts.getEndTime - CLUSTER_TIME_RADIUS - 1) ∧
      activeTime ts - CLUSTER_TIME_RADIUS ≤ ts.getBeginTime ∧
      ts.getEndTime ≤ activeTime ts + CLUSTER_TIME_RADIUS + 1 ∧
      (∀ f ∈ ts.frames, ts.getBeginTime ≤ f.time ∧ f.time < ts.getEndTime) ∧
      ts.getFrameRange (activeTime ts - CLUSTER_TIME_RADIUS)
        (activeTime ts + CLUSTER_TIME_RADIUS + 1) = ts.frames ∧
      stepWindow sv (CreateRgbdData inp.color inp.depth) sampled.1 = ts.frames ∧
      CLUSTER_ITERATIONS = 5 ∧
      UpdateClustersLoop CLUSTER_ITERATIONS ts.frames = some frames' ∧
      sv'.series_.frames = frames' ∧
      List.Forall₂ FrameStep ts.frames frames' := by
  obtain ⟨hinv, -⟩ := After_run ops sv0 sv rows cols inputs hrun
  generalize (sv0.start rows cols).createdCounts ops inputs = counts at hinv
  obtain ⟨hne, hlo, hhi, hmem⟩ := addAndPurge_window sv counts
    (CreateRgbdData inp.color inp.depth) sampled.1 hinv
  obtain ⟨sampled', series, hs', hu, hsv'⟩ := step_some ops sv sv' inp hstep
  rw [hs] at hs'
  simp only [Option.some.injEq] at hs'
  subst hs'
  obtain ⟨frames', hloop, hser⟩ := UpdateClusters_some _ _ _ hu
  have hall : ∀ f ∈ (sv.addAndPurge (CreateRgbdData inp.color inp.depth) sampled.1).2.frames,
      activeTime (sv.addAndPurge (CreateRgbdData inp.color inp.depth) sampled.1).2
          - CLUSTER_TIME_RADIUS ≤ f.time ∧
        f.time < activeTime (sv.addAndPurge (CreateRgbdData inp.color inp.depth) sampled.1).2
          + CLUSTER_TIME_RADIUS + 1 := by
    intro f hf
    obtain ⟨a, b⟩ := hmem f hf
    exact ⟨le_trans hlo a, lt_of_lt_of_le b hhi⟩
  have hrange := getFrameRange_all _ _ _ hall
  rw [hrange] at hloop
  have hfr : sv'.series_.frames = frames' := by
    have e : sv'.series_ = series := congrArg (fun s => s.series_) hsv'
    rw [e, hser]
    exact setFrameRange_all _ _ _ frames' hall
  refine ⟨_, frames', rfl, hne, rfl, hlo, hhi, hmem, hrange, ?_, rfl, hloop, hfr, ?_⟩
  · unfold stepWindow
    exact hrange
  · exact UpdateClustersLoop_step _ _ _ hloop

/-- Witness of C40: the first call of `step` after `start`, on a 16x8 frame of constant
depth `2000`. -/
theorem refinement_window_witness :
    ∃ (sv' : ContinuousSupervoxels) (ts : Timeseries) (frames' : List Frame),
      (freshEngine.start 16 8).step ⟨fun _ => 1, fun x => x⟩ depthInput16x8 = some sv' ∧
      ts.frames ≠ [] ∧
      ts.getFrameRange (activeTime ts - CLUSTER_TIME_RADIUS)
        (activeTime ts + CLUSTER_TIME_RADIUS + 1) = ts.frames ∧
      UpdateClustersLoop CLUSTER_ITERATIONS ts.frames = some frames' ∧
      sv'.series_.frames = frames' := by
  obtain ⟨sampled, hs⟩ := sampleNewClusters_isSome (freshEngine.start 16 8) depthInput16x8
    ⟨by decide, by decide⟩
  obtain ⟨sv', hstep⟩ := step_isSome ⟨fun _ => 1, fun x => x⟩ (freshEngine.start 16 8) []
    depthInput16x8 sampled (After_start freshEngine 16 8) hs
  obtain ⟨ts, frames', -, h1, -, -, -, -, h2, -, -, h3, h4, -⟩ :=
    refinement_window ⟨fun _ => 1, fun x => x⟩ freshEngine (freshEngine.start 16 8) sv' 16 8 []
      depthInput16x8 sampled rfl hs hstep
  exact ⟨sv', ts, frames', hstep, h1, h2, h3, h4⟩

/-! ## Auxiliary lemmas: the index of a cluster in its window -/

theorem step_window (ops : FloatOps) (sv sv' : ContinuousSupervoxels) (inp : StepInput)
    (counts : List Nat) (sampled : List Cluster × RandomEngine) (hinv : sv.After counts)
    (hs : sv.sampleNewClusters inp = some sampled) (hstep : sv.step ops inp = some sv') :
    ∃ frames',
      UpdateClustersLoop CLUSTER_ITERATIONS
        (sv.addAndPurge (CreateRgbdData inp.color inp.depth) sampled.1).2.frames
        = some frames' ∧
      stepWindow sv (CreateRgbdData inp.color inp.depth) sampled.1
        = (sv.addAndPurge (CreateRgbdData inp.color inp.depth) sampled.1).2.frames ∧
      sv'.series_.frames = frames' ∧
      (sv.addAndPurge (CreateRgbdData inp.color inp.depth) sampled.1).2.frames ≠ [] := by
  obtain ⟨hne, hlo, hhi, hmem⟩ := addAndPurge_window sv counts
    (CreateRgbdData inp.color inp.depth) sampled.1 hinv
  obtain ⟨sampled', series, hs', hu, hsv'⟩ := step_some ops sv sv' inp hstep
  rw [hs] at hs'
  simp only [Option.some.injEq] at hs'
  subst hs'
  obtain ⟨frames', hloop, hser⟩ := UpdateClusters_some _ _ _ hu
  have hall : ∀ f ∈ (sv.addAndPurge (CreateRgbdData inp.color inp.depth) sampled.1).2.frames,
      activeTime (sv.addAndPurge (CreateRgbdData inp.color inp.depth) sampled.1).2
          - CLUSTER_TIME_RADIUS ≤ f.time ∧
        f.time < activeTime (sv.addAndPurge (CreateRgbdData inp.color inp.depth) sampled.1).2
          + CLUSTER_TIME_RADIUS + 1 := by
    intro f hf
    obtain ⟨a, b⟩ := hmem f hf
    exact ⟨le_trans hlo a, lt_of_lt_of_le b hhi⟩
  have hrange := getFrameRange_all _ _ _ hall
  rw [hrange] at hloop
  have hfr : sv'.series_.frames = frames' := by
    have e : sv'.series_ = series := congrArg (fun s => s.series_) hsv'
    rw [e, hser]
    exact setFrameRange_all _ _ _ frames' hall
  refine ⟨frames', hloop, ?_, hfr, hne⟩
  unfold stepWindow
  exact hrange

theorem keyed_index (frames : List Frame) (b n : Nat) (counts : List Nat)
    (ht : frames.map (fun f => f.time) = consecutiveFrom b n)
    (hp : frames.map (fun f => f.clusters.map Cluster.ptr) = (keyRows counts).drop b)
    (k : Nat) (fk : Frame) (hk : frames.get? k = some fk) :
    fk.time = (b : Int) + k ∧
      ∀ (i : Nat) (c : Cluster), fk.clusters.get? i = some c → c.time = fk.time ∧ c.id = i := by
  rw [List.get?_eq_getElem?] at hk
  have h1 : (frames.map (fun f => f.time))[k]? = some fk.time := by
    rw [List.getElem?_map, hk]
    rfl
  have htime : fk.time = (b : Int) + k := by
    rw [ht] at h1
    unfold consecutiveFrom at h1
    rw [List.getElem?_map] at h1
    by_cases hkn : k < n
    · rw [List.getElem?_range hkn] at h1
      simp only [Option.map_some', Option.some.injEq] at h1
      exact h1.symm
    · rw [List.getElem?_eq_none (by simp; omega)] at h1
      simp at h1
  refine ⟨htime, ?_⟩
  intro i c hi
  rw [List.get?_eq_getElem?] at hi
  have h2 : (frames.map (fun f => f.clusters.map Cluster.ptr))[k]?
      = some (fk.clusters.map Cluster.ptr) := by
    rw [List.getElem?_map, hk]
    rfl
  rw [hp, List.getElem?_drop, keyRows_getElem?] at h2
  cases hm : counts[b + k]? with
  | none =>
    rw [hm] at h2
    simp at h2
  | some m =>
    rw [hm] at h2
    simp only [Option.map_some', Option.some.injEq] at h2
    have h3 : (fk.clusters.map Cluster.ptr)[i]? = some c.ptr := by
      rw [List.getElem?_map, hi]
      rfl
    rw [← h2] at h3
    unfold keyRow at h3
    rw [List.getElem?_map] at h3
    by_cases him : i < m
    · rw [List.getElem?_range him] at h3
      simp only [Option.map_some', Option.some.injEq] at h3
      have e1 : c.time = ((b + k : Nat) : Int) := (congrArg Prod.fst h3).symm
      have e2 : c.id = i := (congrArg Prod.snd h3).symm
      refine ⟨?_, e2⟩
      rw [e1, htime]
      push_cast
      rfl
    · rw [List.getElem?_eq_none (by simp; omega)] at h3
      simp at h3

theorem centerUpdateInputs_spec :
    ∀ (k : Nat) (frames frames' : List Frame), UpdateClustersLoop k frames = some frames' →
      (centerUpdateInputs k frames).length = k ∧
      ∀ mid ∈ centerUpdateInputs k frames, List.Forall₂ FrameStep frames mid
  | 0, frames, frames', _ => ⟨rfl, fun mid hm => by simp [centerUpdateInputs] at hm⟩
  | k + 1, frames, frames', h => by
    rw [UpdateClustersLoop] at h
    cases h1 : UpdateClusterAssignment frames with
    | none => simp [h1] at h
    | some mid =>
      simp only [h1] at h
      cases h2 : UpdateClusterCenters mid with
      | none => simp [h2] at h
      | some out =>
        simp only [h2] at h
        obtain ⟨a, b⟩ := centerUpdateInputs_spec k out frames' h
        have s1 := UpdateClusterAssignment_step _ _ h1
        have s2 := UpdateClusterCenters_step _ _ h2
        simp only [centerUpdateInputs, h1, h2]
        refine ⟨by simp [a], ?_⟩
        intro m hm
        rcases List.mem_cons.mp hm with rfl | hm'
        · exact s1
        · exact FramesStep_trans (FramesStep_trans s1 s2) (b m hm')

/-- C39 (accumulator indexing): in a run of `step` calls after `start`, every frame list
`mid` that one of the `CLUSTER_ITERATIONS = 5` rounds of a call passes to
`UpdateClusterCenters` is not empty, and with `t0` the time of its first frame, the frame at
index `k` has time `t0 + k` and the cluster `c` at index `i` of that frame has
`c.time - t0 = k` and `c.id = i`.  So `ccas[c.time - t0][c.id]` is inside the accumulators,
which have one row per frame and one entry per cluster of the frame, and the cluster is
updated from the points whose cell references its own pointer. -/
theorem accumulator_indexing (ops : FloatOps) (sv0 sv sv' : ContinuousSupervoxels)
    (rows cols : Int) (inputs : List StepInput) (inp : StepInput)
    (sampled : List Cluster × RandomEngine)
    (hrun : (sv0.start rows cols).steps ops inputs = some sv)
    (hs : sv.sampleNewClusters inp = some sampled)
    (hstep : sv.step ops inp = some sv') :
    (centerUpdateInputs CLUSTER_ITERATIONS
      (stepWindow sv (CreateRgbdData inp.color inp.depth) sampled.1)).length = 5 ∧
    ∀ mid ∈ centerUpdateInputs CLUSTER_ITERATIONS
        (stepWindow sv (CreateRgbdData inp.color inp.depth) sampled.1),
      ∃ (front : Frame) (rest : List Frame), mid = front :: rest ∧
        ∀ (k : Nat) (fk : Frame), mid.get? k = some fk →
          fk.time = front.time + k ∧
          ∀ (i : Nat) (c : Cluster), fk.clusters.get? i = some c →
            c.time - front.time = k ∧ c.id = i ∧
            (c.time - front.time).toNat < mid.length ∧ c.id < fk.clusters.length ∧
            ∃ frames' fk', UpdateClusterCenters mid = some frames' ∧
              frames'.get? k = some fk' ∧
              fk'.clusters.get? i
                = some (UpdateCenter c
                    ((centerMembers mid c).foldl (fun cca v => cca.add v.p)
                      ClusterCenterAccumulator.init)) := by
  obtain ⟨hinv, -⟩ := After_run ops sv0 sv rows cols inputs hrun
  generalize (sv0.start rows cols).createdCounts ops inputs = counts at hinv
  obtain ⟨frames', hloop, hwin, hfr, hne⟩ := step_window ops sv sv' inp counts sampled hinv hs
    hstep
  obtain ⟨-, -, -, -, -, -, -, hinv'⟩ := step_shape ops sv sv' inp counts sampled hinv hs hstep
  rw [hwin]
  obtain ⟨hlen, hmids⟩ := centerUpdateInputs_spec _ _ _ hloop
  have hsteps := UpdateClustersLoop_step _ _ _ hloop
  refine ⟨hlen, ?_⟩
  intro mid hmid
  have hm := hmids mid hmid
  have htimes : mid.map (fun f => f.time)
      = consecutiveFrom (purgedCount (counts ++ [sampled.1.length]).length)
          ((counts ++ [sampled.1.length]).length
            - purgedCount (counts ++ [sampled.1.length]).length) := by
    rw [FramesStep_times _ _ hm, ← FramesStep_times _ _ hsteps, ← hfr]
    exact hinv'.times
  have hptrs : mid.map (fun f => f.clusters.map Cluster.ptr)
      = (keyRows (counts ++ [sampled.1.length])).drop
          (purgedCount (counts ++ [sampled.1.length]).length) := by
    rw [FramesStep_ptrs _ _ hm, ← FramesStep_ptrs _ _ hsteps, ← hfr]
    exact hinv'.active
  have hmne : mid ≠ [] := forall₂_ne_nil hm hne
  cases hmid' : mid with
  | nil => exact absurd hmid' hmne
  | cons front rest =>
    refine ⟨front, rest, rfl, ?_⟩
    rw [hmid'] at htimes hptrs
    obtain ⟨hfront, -⟩ := keyed_index _ _ _ _ htimes hptrs 0 front rfl
    intro k fk hk
    obtain ⟨hkt, hkc⟩ := keyed_index _ _ _ _ htimes hptrs k fk hk
    refine ⟨by rw [hkt, hfront]; push_cast; ring, ?_⟩
    intro i c hi
    obtain ⟨hct, hcid⟩ := hkc i c hi
    have hd : c.time - front.time = k := by
      rw [hct, hkt, hfront]
      push_cast
      ring
    have hklt : k < (front :: rest).length := by
      by_contra hge
      rw [List.get?_eq_none.mpr (by omega)] at hk
      simp at hk
    have hilt : i < fk.clusters.length := by
      by_contra hge
      rw [List.get?_eq_none.mpr (by omega)] at hi
      simp at hi
    refine ⟨hd, hcid, ?_, by rw [hcid]; exact hilt, ?_⟩
    · rw [hd]
      simpa using hklt
    · obtain ⟨out, fk', g1, g2, -, -, -, g6⟩ :=
        UpdateClusterCenters_get? front rest k i fk c hk hi ⟨by omega, hcid⟩
      exact ⟨out, fk', g1, g2, g6⟩

/-- Witness of C39: the first call of `step` after `start`, on a 16x8 frame of constant
depth `2000`. -/
theorem accumulator_indexing_witness :
    ∃ (sv' : ContinuousSupervoxels) (sampled : List Cluster × RandomEngine),
      (freshEngine.start 16 8).step ⟨fun _ => 1, fun x => x⟩ depthInput16x8 = some sv' ∧
      (centerUpdateInputs CLUSTER_ITERATIONS
        (stepWindow (freshEngine.start 16 8)
          (CreateRgbdData depthInput16x8.color depthInput16x8.depth) sampled.1)).length
        = 5 := by
  obtain ⟨sampled, hs⟩ := sampleNewClusters_isSome (freshEngine.start 16 8) depthInput16x8
    ⟨by decide, by decide⟩
  obtain ⟨sv', hstep⟩ := step_isSome ⟨fun _ => 1, fun x => x⟩ (freshEngine.start 16 8) []
    depthInput16x8 sampled (After_start freshEngine 16 8) hs
  exact ⟨sv', sampled, hstep,
    (accumulator_indexing ⟨fun _ => 1, fun x => x⟩ freshEngine (freshEngine.start 16 8) sv' 16 8
      [] depthInput16x8 sampled rfl hs hstep).1⟩

/-! ## Auxiliary lemmas: the pixel of a cluster center -/

/-- A valid point of a grid that `CreateRgbdData` builds is inside the grid, its depth is
positive and its position is `z_over_f * (x - CENTER_X, y - CENTER_Y, PX_FOCAL)`. -/
theorem gridOf_point (W H : Nat) (rgbd : RgbdData) (hg : gridOf W H rgbd) (x y : Int)
    (hv : (rgbd.get x y).valid = true) :
    rgbd.rows = W ∧ rgbd.cols = H ∧ 0 ≤ x ∧ x < (W : Int) ∧ 0 ≤ y ∧ y < (H : Int) ∧
    ∃ d : Nat, 1 ≤ d ∧ (rgbd.get x y).position.z = DEPTH_TO_Z * (d : ℚ) ∧
      (rgbd.get x y).position
        = Vec3.smul (DEPTH_TO_Z * (d : ℚ) / PX_FOCAL)
            ⟨(x : ℚ) - CENTER_X, (y : ℚ) - CENTER_Y, PX_FOCAL⟩ := by
  obtain ⟨color, depth, rfl, rfl, rfl⟩ := hg
  have hb : 0 ≤ x ∧ x < (color.width : Int) ∧ 0 ≤ y ∧ y < (color.height : Int) := by
    by_contra hnb
    simp only [CreateRgbdData, ComputeRgbdDataNormals] at hv
    rw [if_neg hnb, if_neg hnb] at hv
    exact Bool.noConfusion hv
  rw [CreateRgbdData_get_int color depth x y hb] at hv ⊢
  have hv' : (CreateRgbdPoint color depth x y (y * color.width + x).toNat).valid = true := hv
  obtain ⟨h1, -, -, -⟩ := CreateRgbdPoint_radius color depth x y _ hv'
  have hp := CreateRgbdPoint_position color depth x y _ hv'
  refine ⟨rfl, rfl, hb.1, hb.2.1, hb.2.2.1, hb.2.2.2, _, h1, ?_, hp⟩
  show (CreateRgbdPoint color depth x y (y * color.width + x).toNat).position.z = _
  rw [hp]
  unfold Vec3.smul PX_FOCAL
  simp only
  field_simp

theorem foldl_add_sum :
    ∀ (l : List Vec3) (acc : Vec3),
      l.foldl Vec3.add acc
        = ⟨acc.x + (l.map (fun v => v.x)).sum, acc.y + (l.map (fun v => v.y)).sum,
            acc.z + (l.map (fun v => v.z)).sum⟩
  | [], acc => by simp
  | v :: l, acc => by
    rw [List.foldl_cons, foldl_add_sum l (acc.add v)]
    simp only [Vec3.add, List.map_cons, List.sum_cons, Vec3.mk.injEq]
    exact ⟨by ring, by ring, by ring⟩

theorem vecSum_eq (l : List Vec3) :
    vecSum l = ⟨(l.map (fun v => v.x)).sum, (l.map (fun v => v.y)).sum,
      (l.map (fun v => v.z)).sum⟩ := by
  unfold vecSum
  rw [foldl_add_sum]
  simp [Vec3.zero]

/-- The sums of the positions of the visits `ms` whose points have a positive depth and lie
on the ray of their pixel, the pixels being columns `0..W-1`. -/
theorem weighted_sums (W : ℚ) (cx : ℚ) (coord : Visit → ℚ) (comp : Vec3 → ℚ) :
    ∀ (ms : List Visit),
      (∀ v ∈ ms, 0 < v.p.position.z ∧ PX_FOCAL * comp v.p.position
          = v.p.position.z * (coord v - cx) ∧ 0 ≤ coord v ∧ coord v ≤ W) →
      PX_FOCAL * (ms.map (fun v => comp v.p.position)).sum
        = weightedSum ms coord - cx * weightedSum ms (fun _ => 1) ∧
      0 ≤ weightedSum ms (fun _ => 1) ∧ (ms ≠ [] → 0 < weightedSum ms (fun _ => 1)) ∧
      0 ≤ weightedSum ms coord ∧ weightedSum ms coord ≤ W * weightedSum ms (fun _ => 1) ∧
      weightedSum ms (fun _ => 1) = (ms.map (fun v => v.p.position.z)).sum
  | [], _ => by simp [weightedSum]
  | v :: ms, h => by
    obtain ⟨a1, a2, a3, a4, a5, a6⟩ := weighted_sums W cx coord comp ms
      (fun u hu => h u (List.mem_cons_of_mem _ hu))
    obtain ⟨b1, b2, b3, b4⟩ := h v (List.mem_cons_self _ _)
    have e1 : weightedSum (v :: ms) coord = v.p.position.z * coord v + weightedSum ms coord := by
      simp [weightedSum]
    have e2 : weightedSum (v :: ms) (fun _ => 1)
        = v.p.position.z + weightedSum ms (fun _ => 1) := by
      simp [weightedSum]
    rw [e1, e2]
    simp only [List.map_cons, List.sum_cons]
    refine ⟨?_, by linarith, fun _ => by linarith, ?_, ?_, by rw [a6]⟩
    · rw [mul_add, b2, a1]
      ring
    · have := mul_nonneg (le_of_lt b1) b3
      linarith
    · have := mul_le_mul_of_nonneg_left b4 (le_of_lt b1)
      linarith

/-- The pixel of the mean of the positions of a non-empty list of such visits is their
depth-weighted mean pixel, inside the grid. -/
theorem mean_pixel (W H : ℚ) (ms : List Visit) (hne : ms ≠ [])
    (h : ∀ v ∈ ms, 0 < v.p.position.z ∧
      PX_FOCAL * v.p.position.x = v.p.position.z * ((v.x : ℚ) - CENTER_X) ∧
      PX_FOCAL * v.p.position.y = v.p.position.z * ((v.y : ℚ) - CENTER_Y) ∧
      0 ≤ (v.x : ℚ) ∧ (v.x : ℚ) ≤ W ∧ 0 ≤ (v.y : ℚ) ∧ (v.y : ℚ) ≤ H) :
    0 < weightedSum ms (fun _ => 1) ∧
    0 < (Vec3.smul (1 / (ms.length : ℚ)) (vecSum (ms.map (fun v => v.p.position)))).z ∧
    (CameraProject
      (Vec3.smul (1 / (ms.length : ℚ)) (vecSum (ms.map (fun v => v.p.position))))).x
        * weightedSum ms (fun _ => 1) = weightedSum ms (fun v => (v.x : ℚ)) ∧
    (CameraProject
      (Vec3.smul (1 / (ms.length : ℚ)) (vecSum (ms.map (fun v => v.p.position))))).y
        * weightedSum ms (fun _ => 1) = weightedSum ms (fun v => (v.y : ℚ)) ∧
    0 ≤ (CameraProject
      (Vec3.smul (1 / (ms.length : ℚ)) (vecSum (ms.map (fun v => v.p.position))))).x ∧
    (CameraProject
      (Vec3.smul (1 / (ms.length : ℚ)) (vecSum (ms.map (fun v => v.p.position))))).x ≤ W ∧
    0 ≤ (CameraProject
      (Vec3.smul (1 / (ms.length : ℚ)) (vecSum (ms.map (fun v => v.p.position))))).y ∧
    (CameraProject
      (Vec3.smul (1 / (ms.length : ℚ)) (vecSum (ms.map (fun v => v.p.position))))).y
        ≤ H := by
  obtain ⟨x1, -, x3, x4, x5, x6⟩ := weighted_sums W CENTER_X (fun v => (v.x : ℚ))
    (fun p => p.x) ms (fun v hv => ⟨(h v hv).1, (h v hv).2.1, (h v hv).2.2.2.1,
      (h v hv).2.2.2.2.1⟩)
  obtain ⟨y1, -, -, y4, y5, -⟩ := weighted_sums H CENTER_Y (fun v => (v.y : ℚ))
    (fun p => p.y) ms (fun v hv => ⟨(h v hv).1, (h v hv).2.2.1, (h v hv).2.2.2.2.2.1,
      (h v hv).2.2.2.2.2.2⟩)
  have hS := x3 hne
  have hn : (0 : ℚ) < (ms.length : ℚ) := by
    have : 0 < ms.length := List.length_pos.mpr hne
    exact_mod_cast this
  have hF : (0 : ℚ) < PX_FOCAL := by unfold PX_FOCAL; norm_num
  rw [vecSum_eq]
  simp only [List.map_map, Function.comp_def, Vec3.smul, CameraProject]
  rw [← x6]
  set S := weightedSum ms (fun _ => 1) with hSdef
  set A := weightedSum ms (fun v => (v.x : ℚ)) with hAdef
  set B := weightedSum ms (fun v => (v.y : ℚ)) with hBdef
  set X := (ms.map (fun v => v.p.position.x)).sum with hXdef
  set Y := (ms.map (fun v => v.p.position.y)).sum with hYdef
  have hSne : S ≠ 0 := ne_of_gt hS
  have hnne : (ms.length : ℚ) ≠ 0 := ne_of_gt hn
  have hpx : CENTER_X + PX_FOCAL * (1 / (ms.length : ℚ) * X) / (1 / (ms.length : ℚ) * S)
      = A / S := by
    have : PX_FOCAL * X = A - CENTER_X * S := x1
    field_simp
    linarith
  have hpy : CENTER_Y + PX_FOCAL * (1 / (ms.length : ℚ) * Y) / (1 / (ms.length : ℚ) * S)
      = B / S := by
    have : PX_FOCAL * Y = B - CENTER_Y * S := y1
    field_simp
    linarith
  rw [hpx, hpy]
  refine ⟨hS, by positivity, by field_simp, by field_simp, div_nonneg x4 (le_of_lt hS), ?_,
    div_nonneg y4 (le_of_lt hS), ?_⟩
  · rw [div_le_iff₀ hS]
    exact x5
  · rw [div_le_iff₀ hS]
    exact y5

theorem mem_addAndPurge (sv : ContinuousSupervoxels) (rgbd : RgbdData)
    (new_clusters : List Cluster) (f : Frame)
    (hf : f ∈ (sv.addAndPurge rgbd new_clusters).2.frames) :
    f ∈ sv.series_.frames ∨ f = CreateFrame sv.series_.getEndTime rgbd new_clusters := by
  unfold ContinuousSupervoxels.addAndPurge Timeseries.purge Timeseries.purgeFrames
    Timeseries.add at hf
  simp only [List.mem_filter, List.mem_append, List.mem_singleton] at hf
  exact hf.1

theorem FramesStep_grid (W H : Nat) (l l' : List Frame) (h : List.Forall₂ FrameStep l l')
    (hg : ∀ f ∈ l, gridOf W H f.rgbd) : ∀ f ∈ l', gridOf W H f.rgbd := by
  induction h with
  | nil => intro f hf; simp at hf
  | cons h1 _ ih =>
    intro f hf
    rcases List.mem_cons.mp hf with rfl | hm
    · rw [h1.2.1]
      exact hg _ (List.mem_cons_self _ _)
    · exact ih (fun g hgm => hg g (List.mem_cons_of_mem _ hgm)) f hm

theorem step_grids (ops : FloatOps) (sv sv' : ContinuousSupervoxels) (inp : StepInput)
    (counts : List Nat) (sampled : List Cluster × RandomEngine) (W H : Nat)
    (hinv : sv.After counts) (hs : sv.sampleNewClusters inp = some sampled)
    (hstep : sv.step ops inp = some sv')
    (hg : ∀ f ∈ sv.series_.frames, gridOf W H f.rgbd)
    (hd : inp.color.width = W ∧ inp.color.height = H) :
    (∀ f ∈ (sv.addAndPurge (CreateRgbdData inp.color inp.depth) sampled.1).2.frames,
      gridOf W H f.rgbd) ∧
    ∀ f ∈ sv'.series_.frames, gridOf W H f.rgbd := by
  have h1 : ∀ f ∈ (sv.addAndPurge (CreateRgbdData inp.color inp.depth) sampled.1).2.frames,
      gridOf W H f.rgbd := by
    intro f hf
    rcases mem_addAndPurge _ _ _ f hf with h | h
    · exact hg f h
    · rw [h]
      exact ⟨inp.color, inp.depth, rfl, hd.1, hd.2⟩
  obtain ⟨frames', hloop, -, hfr, -⟩ := step_window ops sv sv' inp counts sampled hinv hs hstep
  refine ⟨h1, ?_⟩
  rw [hfr]
  exact FramesStep_grid W H _ _ (UpdateClustersLoop_step _ _ _ hloop) h1

theorem steps_grids (ops : FloatOps) (W H : Nat) :
    ∀ (inputs : List StepInput) (sv sv' : ContinuousSupervoxels) (counts : List Nat),
      sv.After counts → (∀ f ∈ sv.series_.frames, gridOf W H f.rgbd) →
      (∀ inp ∈ inputs, inp.color.width = W ∧ inp.color.height = H) →
      sv.steps ops inputs = some sv' → ∀ f ∈ sv'.series_.frames, gridOf W H f.rgbd
  | [], sv, sv', counts, _, hg, _, h => by
    simp only [ContinuousSupervoxels.steps, Option.some.injEq] at h
    subst h
    exact hg
  | inp :: rest, sv, sv', counts, hinv, hg, hd, h => by
    rw [steps_cons] at h
    cases h1 : sv.step ops inp with
    | none => simp [h1] at h
    | some sv1 =>
      simp only [h1] at h
      obtain ⟨sampled, -, hs, -, -⟩ := step_some ops sv sv1 inp h1
      obtain ⟨-, -, -, -, -, -, -, hinv1⟩ := step_shape ops sv sv1 inp counts sampled hinv hs h1
      have hg1 := (step_grids ops sv sv1 inp counts sampled W H hinv hs h1 hg
        (hd inp (List.mem_cons_self _ _))).2
      exact steps_grids ops W H rest sv1 sv' _ hinv1 hg1
        (fun i hi => hd i (List.mem_cons_of_mem _ hi)) h

theorem gridOf_ray (W H : Nat) (rgbd : RgbdData) (hg : gridOf W H rgbd) (x y : Int)
    (hv : (rgbd.get x y).valid = true) :
    0 < (rgbd.get x y).position.z ∧
    PX_FOCAL * (rgbd.get x y).position.x = (rgbd.get x y).position.z * ((x : ℚ) - CENTER_X) ∧
    PX_FOCAL * (rgbd.get x y).position.y = (rgbd.get x y).position.z * ((y : ℚ) - CENTER_Y) ∧
    0 ≤ (x : ℚ) ∧ (x : ℚ) ≤ (W : ℚ) - 1 ∧ 0 ≤ (y : ℚ) ∧ (y : ℚ) ≤ (H : ℚ) - 1 := by
  obtain ⟨-, -, b1, b2, b3, b4, d, hd, hz, hp⟩ := gridOf_point W H rgbd hg x y hv
  have hdq : (1 : ℚ) ≤ (d : ℚ) := by exact_mod_cast hd
  refine ⟨?_, ?_, ?_, by exact_mod_cast b1, ?_, by exact_mod_cast b3, ?_⟩
  · rw [hz]
    unfold DEPTH_TO_Z
    positivity
  · rw [hp]
    unfold Vec3.smul PX_FOCAL
    simp only
    ring
  · rw [hp]
    unfold Vec3.smul PX_FOCAL
    simp only
    ring
  · have : x ≤ (W : Int) - 1 := by omega
    have h2 : ((x : Int) : ℚ) ≤ (((W : Int) - 1 : Int) : ℚ) := by exact_mod_cast this
    push_cast at h2
    exact h2
  · have : y ≤ (H : Int) - 1 := by omega
    have h2 : ((y : Int) : ℚ) ≤ (((H : Int) - 1 : Int) : ℚ) := by exact_mod_cast this
    push_cast at h2
    exact h2

/-- C38 (cluster pixel stays inside the frame), in exact arithmetic: in a run of `step`
calls after `start` on frames of `W` columns and `H` rows, every cluster that a call
creates is valid, has a positive `position.z` and its pixel is a pixel of the frame.  Every
valid point of a window frame has `position.z = DEPTH_TO_Z * depth > 0`.  For every frame
list `mid` that a round passes to `UpdateClusterCenters` and every cluster `c` of it, the
pass returns, and when the updated cluster `c'` is valid its `position.z` is positive, its
pixel is `CameraProject(position)`, the depth-weighted mean of the pixel coordinates of the
points added to its accumulator, and `0 <= pixel.x <= W - 1`, `0 <= pixel.y <= H - 1`.  The
definitions of this statement are the exact ones (rounding `id`); in binary32 the
re-projection is rounded and the bound can fail by a rounding error. -/
theorem cluster_pixel_inside (ops : FloatOps) (sv0 sv sv' : ContinuousSupervoxels)
    (rows cols : Int) (inputs : List StepInput) (inp : StepInput)
    (sampled : List Cluster × RandomEngine) (W H : Nat)
    (hdims : ∀ i ∈ inputs ++ [inp], i.color.width = W ∧ i.color.height = H)
    (hrun : (sv0.start rows cols).steps ops inputs = some sv)
    (hs : sv.sampleNewClusters inp = some sampled)
    (hstep : sv.step ops inp = some sv') :
    (∀ c ∈ sampled.1, c.valid = true ∧ 0 < c.position.z ∧
      0 ≤ c.pixel.x ∧ c.pixel.x ≤ (W : ℚ) - 1 ∧ 0 ≤ c.pixel.y ∧ c.pixel.y ≤ (H : ℚ) - 1) ∧
    ∀ mid ∈ centerUpdateInputs CLUSTER_ITERATIONS
        (stepWindow sv (CreateRgbdData inp.color inp.depth) sampled.1),
      (∀ f ∈ mid, f.rgbd.rows = W ∧ f.rgbd.cols = H ∧
        ∀ x y : Int, (f.rgbd.get x y).valid = true →
          0 < (f.rgbd.get x y).position.z ∧
          ∃ d : Nat, 1 ≤ d ∧ (f.rgbd.get x y).position.z = DEPTH_TO_Z * (d : ℚ)) ∧
      ∀ (k : Nat) (fk : Frame) (i : Nat) (c : Cluster), mid.get? k = some fk →
        fk.clusters.get? i = some c →
        ∃ frames' fk' c', UpdateClusterCenters mid = some frames' ∧
          frames'.get? k = some fk' ∧ fk'.clusters.get? i = some c' ∧
          (c'.valid = true →
            0 < c'.position.z ∧ c'.pixel = CameraProject c'.position ∧
            0 < weightedSum (centerMembers mid c) (fun _ => 1) ∧
            c'.pixel.x * weightedSum (centerMembers mid c) (fun _ => 1)
              = weightedSum (centerMembers mid c) (fun v => (v.x : ℚ)) ∧
            c'.pixel.y * weightedSum (centerMembers mid c) (fun _ => 1)
              = weightedSum (centerMembers mid c) (fun v => (v.y : ℚ)) ∧
            0 ≤ c'.pixel.x ∧ c'.pixel.x ≤ (W : ℚ) - 1 ∧
            0 ≤ c'.pixel.y ∧ c'.pixel.y ≤ (H : ℚ) - 1) := by
  obtain ⟨hinv, -⟩ := After_run ops sv0 sv rows cols inputs hrun
  generalize (sv0.start rows cols).createdCounts ops inputs = counts at hinv
  have hg0 : ∀ f ∈ sv.series_.frames, gridOf W H f.rgbd :=
    steps_grids ops W H inputs (sv0.start rows cols) sv [] (After_start sv0 rows cols)
      (fun f hf => by simp [ContinuousSupervoxels.start] at hf)
      (fun i hi => hdims i (List.mem_append_left _ hi)) hrun
  have hd := hdims inp (List.mem_append_right _ (List.mem_singleton_self _))
  obtain ⟨hgw, -⟩ := step_grids ops sv sv' inp counts sampled W H hinv hs hstep hg0 hd
  have hgnew : gridOf W H (CreateRgbdData inp.color inp.depth) :=
    ⟨inp.color, inp.depth, rfl, hd.1, hd.2⟩
  refine ⟨?_, ?_⟩
  · intro c hc
    obtain ⟨seeds, -, hok, hcl⟩ := sampleNewClusters_some sv inp sampled hs
    rw [hcl] at hc
    obtain ⟨s, hsm, rfl⟩ := List.mem_map.mp hc
    obtain ⟨sx, sy, rfl, -, -, -, -, hval⟩ := hok s hsm
    obtain ⟨r1, -, -, r4, r5, r6, r7⟩ := gridOf_ray W H _ hgnew sx sy hval
    simp only [seedCluster, truncToInt_intCast]
    exact ⟨trivial, r1, r4, r5, r6, r7⟩
  · obtain ⟨frames', hloop, hwin, hfr, hne⟩ := step_window ops sv sv' inp counts sampled hinv
      hs hstep
    obtain ⟨-, -, -, -, -, -, -, hinv'⟩ := step_shape ops sv sv' inp counts sampled hinv hs
      hstep
    rw [hwin]
    obtain ⟨-, hmids⟩ := centerUpdateInputs_spec _ _ _ hloop
    have hsteps := UpdateClustersLoop_step _ _ _ hloop
    intro mid hmid
    have hm := hmids mid hmid
    have hgm : ∀ f ∈ mid, gridOf W H f.rgbd := FramesStep_grid W H _ _ hm hgw
    have htimes : mid.map (fun f => f.time)
        = consecutiveFrom (purgedCount (counts ++ [sampled.1.length]).length)
            ((counts ++ [sampled.1.length]).length
              - purgedCount (counts ++ [sampled.1.length]).length) := by
      rw [FramesStep_times _ _ hm, ← FramesStep_times _ _ hsteps, ← hfr]
      exact hinv'.times
    have hptrs : mid.map (fun f => f.clusters.map Cluster.ptr)
        = (keyRows (counts ++ [sampled.1.length])).drop
            (purgedCount (counts ++ [sampled.1.length]).length) := by
      rw [FramesStep_ptrs _ _ hm, ← FramesStep_ptrs _ _ hsteps, ← hfr]
      exact hinv'.active
    have hmne : mid ≠ [] := forall₂_ne_nil hm hne
    refine ⟨?_, ?_⟩
    · intro f hf
      obtain ⟨img_color, img_depth, e, e1, e2⟩ := hgm f hf
      refine ⟨by rw [e, ← e1]; rfl, by rw [e, ← e2]; rfl, ?_⟩
      intro x y hv
      obtain ⟨-, -, -, -, -, -, d, hd1, hz, -⟩ := gridOf_point W H _ (hgm f hf) x y hv
      exact ⟨(gridOf_ray W H _ (hgm f hf) x y hv).1, d, hd1, hz⟩
    · cases hmid' : mid with
      | nil => exact absurd hmid' hmne
      | cons front rest =>
        rw [hmid'] at htimes hptrs hgm
        obtain ⟨hfront, -⟩ := keyed_index _ _ _ _ htimes hptrs 0 front rfl
        intro k fk i c hk hi
        obtain ⟨hkt, hkc⟩ := keyed_index _ _ _ _ htimes hptrs k fk hk
        obtain ⟨hct, hcid⟩ := hkc i c hi
        have hptr : c.time = front.time + k ∧ c.id = i := by
          refine ⟨?_, hcid⟩
          rw [hct, hkt, hfront]
          push_cast
          ring
        obtain ⟨out, fk', g1, g2, -, -, -, g6⟩ :=
          UpdateClusterCenters_get? front rest k i fk c hk hi hptr
        refine ⟨out, fk', _, g1, g2, g6, ?_⟩
        intro hvalid
        obtain ⟨hnum, -, hpos⟩ := foldl_add_sums (centerMembers (front :: rest) c)
          ClusterCenterAccumulator.init
        have hcv : c.valid = true := by
          by_contra hcv
          have hcf : c.valid = false := by
            cases hb : c.valid
            · rfl
            · exact absurd hb hcv
          rw [UpdateCenter_invalid c _ hcf, hcf] at hvalid
          exact Bool.noConfusion hvalid
        have hnum0 : ((centerMembers (front :: rest) c).foldl (fun cca v => cca.add v.p)
            ClusterCenterAccumulator.init).num ≠ 0 := by
          intro h0
          rw [UpdateCenter_empty c _ h0] at hvalid
          exact Bool.noConfusion hvalid
        have hmne' : centerMembers (front :: rest) c ≠ [] := by
          intro hnil
          apply hnum0
          rw [hnum, hnil]
          rfl
        have hnumq : (((centerMembers (front :: rest) c).foldl (fun cca v => cca.add v.p)
            ClusterCenterAccumulator.init).num : ℚ)
            = ((centerMembers (front :: rest) c).length : ℚ) := by
          rw [hnum]
          simp [ClusterCenterAccumulator.init]
        have hposv : ((centerMembers (front :: rest) c).foldl (fun cca v => cca.add v.p)
            ClusterCenterAccumulator.init).mean_position
            = vecSum ((centerMembers (front :: rest) c).map (fun v => v.p.position)) := by
          rw [hpos]
          rfl
        have hgood : ∀ v ∈ centerMembers (front :: rest) c, 0 < v.p.position.z ∧
            PX_FOCAL * v.p.position.x = v.p.position.z * ((v.x : ℚ) - CENTER_X) ∧
            PX_FOCAL * v.p.position.y = v.p.position.z * ((v.y : ℚ) - CENTER_Y) ∧
            0 ≤ (v.x : ℚ) ∧ (v.x : ℚ) ≤ (W : ℚ) - 1 ∧ 0 ≤ (v.y : ℚ) ∧
            (v.y : ℚ) ≤ (H : ℚ) - 1 := by
          intro v hv
          obtain ⟨-, -, -, -, -, frame, hget, -, -, hval, hp, -⟩ :=
            (mem_centerMembers front rest c v).mp hv
          rw [hp]
          exact gridOf_ray W H _ (hgm frame (List.get?_mem hget)) v.x v.y hval
        obtain ⟨m1, m2, m3, m4, m5, m6, m7, m8⟩ := mean_pixel ((W : ℚ) - 1) ((H : ℚ) - 1)
          (centerMembers (front :: rest) c) hmne' hgood
        rw [UpdateCenter_mean c _ hcv hnum0, hnumq, hposv]
        exact ⟨m2, rfl, m1, m3, m4, m5, m6, m7, m8⟩

theorem sampled12x6 (sampled : List Cluster × RandomEngine)
    (hs : (freshEngine.start 12 6).sampleNewClusters depthInput12x6 = some sampled) :
    sampled.1 = [seedCluster grid12x6 0 0 ⟨4, 4⟩] := by
  obtain ⟨seeds, h1, -, h2⟩ := sampleNewClusters_some _ depthInput12x6 sampled hs
  have h1' : SampleDensityImpl grid12x6 (ComputeFrameDensity grid12x6) RandomEngine.zeros
      = some (seeds, sampled.2) := h1
  have hseeds := seeds12x6
  rw [h1'] at hseeds
  simp only [Option.map_some', Option.some.injEq] at hseeds
  rw [hseeds] at h2
  exact h2

theorem stepWindow12x6 :
    stepWindow (freshEngine.start 12 6)
        (CreateRgbdData depthInput12x6.color depthInput12x6.depth)
        [seedCluster grid12x6 0 0 ⟨4, 4⟩]
      = [CreateFrame 0 grid12x6 [seedCluster44]] := rfl

/-- Witness of C38: the first call of `step` after `start`, on a 12x6 frame of constant
depth `2000`.  The cluster it creates is valid with its pixel inside the frame; the first
center update of `UpdateClusters` moves it to the pixel `(11/2, 5/2)`, the mean of the
pixels of the frame, with a positive `position.z`, inside `[0, 11] x [0, 5]`. -/
theorem cluster_pixel_inside_witness :
    ∃ (sv' : ContinuousSupervoxels) (sampled : List Cluster × RandomEngine)
      (mid : List Frame) (f : Frame) (c : Cluster),
      (freshEngine.start 12 6).step ⟨fun _ => 1, fun x => x⟩ depthInput12x6 = some sv' ∧
      (freshEngine.start 12 6).sampleNewClusters depthInput12x6 = some sampled ∧
      sampled.1.length = 1 ∧
      (∀ c0 ∈ sampled.1, c0.valid = true ∧ 0 < c0.position.z ∧
        0 ≤ c0.pixel.x ∧ c0.pixel.x ≤ ((12 : Nat) : ℚ) - 1 ∧
        0 ≤ c0.pixel.y ∧ c0.pixel.y ≤ ((6 : Nat) : ℚ) - 1) ∧
      mid ∈ centerUpdateInputs CLUSTER_ITERATIONS
        (stepWindow (freshEngine.start 12 6)
          (CreateRgbdData depthInput12x6.color depthInput12x6.depth) sampled.1) ∧
      UpdateClusterCenters mid = some [f] ∧ f.clusters = [c] ∧ c.valid = true ∧
      c.pixel = ⟨11 / 2, 5 / 2⟩ ∧ 0 < c.position.z ∧ c.pixel = CameraProject c.position ∧
      0 ≤ c.pixel.x ∧ c.pixel.x ≤ ((12 : Nat) : ℚ) - 1 ∧
      0 ≤ c.pixel.y ∧ c.pixel.y ≤ ((6 : Nat) : ℚ) - 1 := by
  obtain ⟨sampled, hs⟩ := sampleNewClusters_isSome (freshEngine.start 12 6) depthInput12x6
    ⟨by decide, by decide⟩
  obtain ⟨sv', hstep⟩ := step_isSome ⟨fun _ => 1, fun x => x⟩ (freshEngine.start 12 6) []
    depthInput12x6 sampled (After_start freshEngine 12 6) hs
  have hsam := sampled12x6 sampled hs
  obtain ⟨hcreate, hupdate⟩ := cluster_pixel_inside ⟨fun _ => 1, fun x => x⟩ freshEngine
    (freshEngine.start 12 6) sv' 12 6 [] depthInput12x6 sampled 12 6
    (fun i hi => by
      simp only [List.nil_append, List.mem_singleton] at hi
      rw [hi]
      exact ⟨rfl, rfl⟩)
    rfl hs hstep
  obtain ⟨f1, frames', g1, g2, f, hf, -, -, hfc, -, -⟩ := round_first
  obtain ⟨f1', k1, -, -, k4, -⟩ := UpdateClusterAssignment_single
    (CreateFrame 0 grid12x6 [seedCluster44]) seedCluster44 rfl rfl rfl
  rw [g1, Option.some.injEq, List.cons.injEq] at k1
  have hf1c : f1.clusters = [seedCluster44] := by
    rw [k1.1]
    exact k4
  have hmid : [f1] ∈ centerUpdateInputs CLUSTER_ITERATIONS
      (stepWindow (freshEngine.start 12 6)
        (CreateRgbdData depthInput12x6.color depthInput12x6.depth) sampled.1) := by
    rw [hsam, stepWindow12x6]
    have h5 : CLUSTER_ITERATIONS = 4 + 1 := rfl
    rw [h5]
    simp only [centerUpdateInputs, g1]
    exact List.mem_cons_self _ _
  obtain ⟨-, hcl⟩ := hupdate [f1] hmid
  obtain ⟨out, fk', c', e1, e2, e3, e4⟩ := hcl 0 f1 0 seedCluster44 rfl (by rw [hf1c]; rfl)
  rw [g2, Option.some.injEq] at e1
  rw [← e1, hf, List.get?_cons_zero, Option.some.injEq] at e2
  rw [← e2, hfc, List.get?_cons_zero, Option.some.injEq] at e3
  obtain ⟨b1, b2, -, -, -, b6, b7, b8, b9⟩ := e4 (by rw [← e3]; rfl)
  rw [hf] at g2
  rw [← e3] at b1 b2 b6 b7 b8 b9
  exact ⟨sv', sampled, [f1], f, movedCluster, hstep, hs, by rw [hsam]; rfl, hcreate, hmid, g2,
    hfc, rfl, rfl, b1, b2, b6, b7, b8, b9⟩

theorem CameraProjectRounded_id (p : Vec3) : CameraProjectRounded id p = CameraProject p := rfl

theorem CreateRgbdDataRounded_id (img_color : Image3ub) (img_depth : Image1ui16) :
    CreateRgbdDataRounded id img_color img_depth = CreateRgbdData img_color img_depth := rfl

theorem PointClusterDistanceRounded_id (p_time : Int) (p : Point) (c : Cluster) :
    PointClusterDistanceRounded id p_time p c = PointClusterDistance p_time p c := rfl

theorem UpdateClusterAssignmentRounded_id (frames : List Frame) :
    UpdateClusterAssignmentRounded id frames = UpdateClusterAssignment frames := rfl

/-- With the rounding `id` the rounded center update is the exact one. -/
theorem UpdateClusterCentersRounded_id (frames : List Frame) :
    UpdateClusterCentersRounded id frames = UpdateClusterCenters frames := rfl

/-- Counterexample to C38 as stated: in binary32 the frame of a 4x4 grid whose only valid
point is the one of the pixel `(3,3)`, with the cluster made of the seed `(3,3)`, holds after
one assignment pass and one center update a valid cluster whose re-projected pixel is
`(3 + 2^-15, 3 + 2^-16)`, outside `[0, rows-1] x [0, cols-1] = [0,3] x [0,3]`: the quotient
`PX_FOCAL*p.x/p.z` is rounded to `-317 + 2^-15`. -/
theorem cluster_pixel_inside_counterexample :
    edgeFrame.rgbd.rows = 4 ∧ edgeFrame.rgbd.cols = 4 ∧
    edgeFrame.clusters.map (fun c => (c.valid, c.pixel)) = [(true, ⟨3, 3⟩)] ∧
    ((UpdateClusterAssignmentRounded roundBinary32 [edgeFrame]).bind
      (UpdateClusterCentersRounded roundBinary32)).map
        (fun frames => frames.map (fun f => f.clusters.map (fun c => (c.valid, c.pixel))))
      = some [[(true, ⟨3 + 1 / 32768, 3 + 1 / 65536⟩)]] ∧
    ((edgeFrame.rgbd.rows : ℚ) - 1 < 3 + 1 / 32768) ∧
    ((edgeFrame.rgbd.cols : ℚ) - 1 < 3 + 1 / 65536) := by
  refine ⟨rfl, rfl, by decide!, by decide!, ?_, ?_⟩
  · show ((4 : Nat) : ℚ) - 1 < 3 + 1 / 32768
    norm_num
  · show ((4 : Nat) : ℚ) - 1 < 3 + 1 / 65536
    norm_num

/-! ## Witnesses and counterexamples on concrete runs -/

theorem evenDims12x6 (n : Nat) : ∀ inp ∈ List.replicate n depthInput12x6, inp.evenDims := by
  intro inp hinp
  rw [List.eq_of_mem_replicate hinp]
  exact ⟨by decide, by decide⟩

/-- A run of `step` calls after `start` whose first frame is `depthInput12x6` creates one
cluster with the frame of time `0`. -/
theorem createdCounts12x6 (ops : FloatOps) (rest : List StepInput) (sv : ContinuousSupervoxels)
    (hrun : (freshEngine.start 12 6).steps ops (depthInput12x6 :: rest) = some sv) :
    ∃ counts, (freshEngine.start 12 6).createdCounts ops (depthInput12x6 :: rest)
      = 1 :: counts := by
  rw [steps_cons] at hrun
  cases h1 : (freshEngine.start 12 6).step ops depthInput12x6 with
  | none => simp [h1] at hrun
  | some sv1 =>
    obtain ⟨sampled, -, hs, -, -⟩ := step_some ops _ sv1 depthInput12x6 h1
    refine ⟨sv1.createdCounts ops rest, ?_⟩
    rw [createdCounts_cons ops _ sv1 depthInput12x6 rest sampled hs h1, sampled12x6 sampled hs]
    rfl

/-- Witness of C6: after thirteen calls of `step` on 12x6 frames of constant depth `2000`,
the first of which creates the cluster `(0,0)`, the frames of times `0` and `1` have been
purged: the cluster `(0,0)` is listed by `getAllClusters`, whose pointers do not repeat and
whose length is the number of clusters created; it is once in the inactive pool and in no
retained frame. -/
theorem getAllClusters_complete_witness :
    ∃ sv, (freshEngine.start 12 6).steps ⟨fun _ => 1, fun x => x⟩
        (List.replicate 13 depthInput12x6) = some sv ∧
      ((0 : Int), 0) ∈ sv.getAllClusters.map Cluster.ptr ∧
      (sv.getAllClusters.map Cluster.ptr).Nodup ∧
      sv.getAllClusters.length = sv.numActiveClusters + sv.numInactiveClusters ∧
      sv.numActiveClusters + sv.numInactiveClusters
        = ((freshEngine.start 12 6).createdCounts ⟨fun _ => 1, fun x => x⟩
            (List.replicate 13 depthInput12x6)).sum ∧
      1 ≤ sv.numInactiveClusters ∧
      (sv.inactive_clusters_.filter (fun c => decide (c.ptr = ((0 : Int), 0)))).length = 1 ∧
      ∀ f ∈ sv.series_.frames, ∀ c ∈ f.clusters, c.ptr ≠ ((0 : Int), 0) := by
  obtain ⟨sv, hrun⟩ := steps_isSome ⟨fun _ => 1, fun x => x⟩ (List.replicate 13 depthInput12x6)
    (freshEngine.start 12 6) [] (After_start freshEngine 12 6) (evenDims12x6 13)
  obtain ⟨counts, hcounts⟩ := createdCounts12x6 ⟨fun _ => 1, fun x => x⟩
    (List.replicate 12 depthInput12x6) sv hrun
  obtain ⟨-, -, -, h4, h5, h6, h7, h8⟩ := getAllClusters_complete ⟨fun _ => 1, fun x => x⟩
    freshEngine sv 12 6 (List.replicate 13 depthInput12x6) hrun
  have hc : (freshEngine.start 12 6).createdCounts ⟨fun _ => 1, fun x => x⟩
      (List.replicate 13 depthInput12x6) = 1 :: counts := hcounts
  rw [hc] at h5 h8
  obtain ⟨k1, k2⟩ := h8 (by decide) 0 (by simp)
  refine ⟨sv, hrun, (h5 0 0).mpr ⟨0, rfl, by simp⟩, h4, h6, h7, ?_, k1, k2⟩
  have hle := List.length_filter_le (fun c => decide (c.ptr = ((0 : Int), 0)))
    sv.inactive_clusters_
  unfold ContinuousSupervoxels.numInactiveClusters
  omega

/-- Witness of C7: after twelve calls of `step` on 12x6 frames of constant depth `2000` the
frame of time `0` has been purged and the inactive pool holds its cluster `(0,0)`; after
three more calls the pool and `getAllClusters` still hold this cluster, with all its
fields, at the same place. -/
theorem purged_clusters_frozen_witness :
    ∃ sv sv' c, (freshEngine.start 12 6).steps ⟨fun _ => 1, fun x => x⟩
        (List.replicate 12 depthInput12x6) = some sv ∧
      sv.steps ⟨fun _ => 1, fun x => x⟩ (List.replicate 3 depthInput12x6) = some sv' ∧
      sv.inactive_clusters_ = [c] ∧ c.ptr = ((0 : Int), 0) ∧
      sv'.inactive_clusters_.get? 0 = some c ∧ sv'.getAllClusters.get? 0 = some c ∧
      ∃ rest, sv'.inactive_clusters_ = sv.inactive_clusters_ ++ rest := by
  obtain ⟨sv, hrun⟩ := steps_isSome ⟨fun _ => 1, fun x => x⟩ (List.replicate 12 depthInput12x6)
    (freshEngine.start 12 6) [] (After_start freshEngine 12 6) (evenDims12x6 12)
  obtain ⟨hinv, hlen⟩ := After_run ⟨fun _ => 1, fun x => x⟩ freshEngine sv 12 6 _ hrun
  obtain ⟨sv', hlater⟩ := steps_isSome ⟨fun _ => 1, fun x => x⟩
    (List.replicate 3 depthInput12x6) sv _ hinv (evenDims12x6 3)
  obtain ⟨counts, hcounts⟩ := createdCounts12x6 ⟨fun _ => 1, fun x => x⟩
    (List.replicate 11 depthInput12x6) sv hrun
  have hc : (freshEngine.start 12 6).createdCounts ⟨fun _ => 1, fun x => x⟩
      (List.replicate 12 depthInput12x6) = 1 :: counts := hcounts
  have hpool := hinv.inactive
  rw [hlen, hc] at hpool
  have hk : ((keyRows (1 :: counts)).take
      (purgedCount (List.replicate 12 depthInput12x6).length)).flatten = [((0 : Int), 0)] := by
    simp [keyRows, List.enum, List.enumFrom, purgedCount, CLUSTER_TIME_RADIUS, keyRow]
    rfl
  rw [hk] at hpool
  obtain ⟨c, hcl, hcp⟩ : ∃ c, sv.inactive_clusters_ = [c] ∧ c.ptr = ((0 : Int), 0) := by
    cases hi : sv.inactive_clusters_ with
    | nil => rw [hi] at hpool; simp at hpool
    | cons c l =>
      rw [hi] at hpool
      simp only [List.map_cons, List.cons.injEq, List.map_eq_nil_iff] at hpool
      exact ⟨c, by rw [hpool.2], hpool.1⟩
  obtain ⟨h1, h2, -⟩ := purged_clusters_frozen ⟨fun _ => 1, fun x => x⟩ freshEngine sv sv' 12 6
    _ _ hrun hlater
  obtain ⟨g1, g2⟩ := h2 0 c (by rw [hcl]; rfl)
  exact ⟨sv, sv', c, hrun, hlater, hcl, hcp, g1, g2, h1⟩

/-! ## A run with a cluster that is marked invalid -/

theorem twinSeeds :
    (SampleDensityImpl twinGrid (ComputeFrameDensity twinGrid) RandomEngine.zeros).map
      (fun r => (r.1, r.2.pos)) = some ([⟨8, 8⟩], 2) := by
  decide!

theorem twinSeeds2 :
    (SampleDensityImpl twinGrid (ComputeFrameDensity twinGrid) ⟨fun _ => 0, 2⟩).map
      (fun r => r.1) = some [⟨8, 8⟩] := by
  decide!

theorem twinVisits :
    gridVisits twinGrid twinSeed = [⟨twinSeed, 0, 0, 8, 8, twinGrid.get 8 8⟩] := by
  decide!

theorem twinCenter : gridCenter twinGrid twinSeed = twinSeed := by
  decide!

theorem twinDistance : PointClusterDistance 0 (twinGrid.get 8 8) twinSeed = 0 := by
  decide!

theorem SampleLeafSeed_stream (rgbd : RgbdData) (level x y : Nat) (v : ℚ) (st : SamplerState) :
    (SampleLeafSeed rgbd level x y v st).2.random_engine.stream = st.random_engine.stream := by
  unfold SampleLeafSeed
  simp only
  split_ifs
  · exact (FindValidSeedPoint_candidates rgbd _ _ _ st.random_engine (Int.natCast_nonneg _)).2.2.1
  · exact (FindValidSeedPoint_candidates rgbd _ _ _ st.random_engine (Int.natCast_nonneg _)).2.2.1
  · rfl

theorem SampleLeaf_stream (rgbd : RgbdData) (mipmaps : List Mat) (level x y : Nat)
    (st : SamplerState) :
    (SampleLeaf rgbd mipmaps level x y st).random_engine.stream = st.random_engine.stream :=
  SampleLeafSeed_stream rgbd level x y _ st

theorem SampleDensityImplRec_stream (rgbd : RgbdData) (mipmaps : List Mat) :
    ∀ (level x y : Nat) (st : SamplerState),
      (SampleDensityImplRec rgbd mipmaps level x y st).random_engine.stream
        = st.random_engine.stream
  | 0, x, y, st => SampleLeaf_stream rgbd mipmaps 0 x y st
  | level + 1, x, y, st => by
    rw [SampleDensityImplRec]
    split_ifs
    · exact SampleLeaf_stream rgbd mipmaps (level + 1) x y st
    · simp only
      rw [SampleDensityImplRec_stream rgbd mipmaps level, SampleDensityImplRec_stream rgbd mipmaps level,
        SampleDensityImplRec_stream rgbd mipmaps level, SampleDensityImplRec_stream rgbd mipmaps level]

/-- The sampler draws from the engine and leaves its stream as it is. -/
theorem SampleDensityImpl_stream (rgbd : RgbdData) (density : Mat) (g : RandomEngine)
    (r : List Vec2 × RandomEngine) (h : SampleDensityImpl rgbd density g = some r) :
    r.2.stream = g.stream := by
  unfold SampleDensityImpl at h
  cases hm : ComputeMipmaps density 1 with
  | none => simp [hm] at h
  | some mipmaps =>
    simp only [hm, Option.some.injEq] at h
    rw [← h]
    exact SampleDensityImplRec_stream rgbd mipmaps _ 0 0 _

theorem twinEven : twinInput.evenDims := ⟨by decide, by decide⟩

/-- The first `step` on `twinInput` samples the seed `(8,8)` and draws two numbers. -/
theorem twinSampled (sampled : List Cluster × RandomEngine)
    (hs : (freshEngine.start 32 10).sampleNewClusters twinInput = some sampled) :
    sampled.1 = [twinSeed] ∧ sampled.2 = ⟨fun _ => 0, 2⟩ := by
  obtain ⟨seeds, h1, -, h2⟩ := sampleNewClusters_some _ twinInput sampled hs
  have h1' : SampleDensityImpl twinGrid (ComputeFrameDensity twinGrid) RandomEngine.zeros
      = some (seeds, sampled.2) := h1
  have hseeds := twinSeeds
  rw [h1'] at hseeds
  simp only [Option.map_some', Option.some.injEq, Prod.mk.injEq] at hseeds
  have hstream := SampleDensityImpl_stream _ _ _ _ h1'
  refine ⟨?_, ?_⟩
  · rw [h2, hseeds.1]
    rfl
  · cases hg : sampled.2 with
    | mk stream pos =>
      rw [hg] at hseeds hstream
      simp only at hseeds hstream
      rw [hseeds.2, hstream]
      rfl

/-- One round of the clustering loop on a window of the first frame of `twinInput`. -/
theorem twinRound (frames : List Frame) (h : twinWindow frames) :
    ∃ f1 frames', UpdateClusterAssignment frames = some [f1] ∧
      UpdateClusterCenters [f1] = some frames' ∧ twinWindow frames' := by
  obtain ⟨f, rfl, ht, hr, hc, h88, hno⟩ := h
  obtain ⟨f1, g1, g2, g3, g4, g5⟩ := UpdateClusterAssignment_single f twinSeed hc rfl ht
  rw [hr] at g3 g5
  rw [twinVisits] at g5
  have hmem : ∀ (x y : Int) (w : Visit),
      w ∈ visitsOf [⟨twinSeed, 0, 0, 8, 8, twinGrid.get 8 8⟩] 0 x y →
      w = ⟨twinSeed, 0, 0, 8, 8, twinGrid.get 8 8⟩ := by
    intro x y w hw
    exact List.mem_singleton.mp ((mem_visitsOf _ _ _ _ _).mp hw).1
  have hd : visitDistance ⟨twinSeed, 0, 0, 8, 8, twinGrid.get 8 8⟩ = 0 := twinDistance
  have hno1 : ∀ x y : Int, (f1.assignment.get x y).cluster ≠ some (1, 0) := by
    intro x y
    rw [g5 x y]
    rcases foldl_assignCell_attained
      (visitsOf [⟨twinSeed, 0, 0, 8, 8, twinGrid.get 8 8⟩] 0 x y) (f.assignment.get x y)
      with e | ⟨w, hw, -, e⟩
    · rw [e]
      exact hno x y
    · rw [e, hmem x y w hw]
      show some twinSeed.ptr ≠ some (1, 0)
      decide
  have h881 : (f1.assignment.get 8 8).cluster = some (0, 0) := by
    have hle := foldl_assignCell_le_mem
      (visitsOf [⟨twinSeed, 0, 0, 8, 8, twinGrid.get 8 8⟩] 0 8 8) (f.assignment.get 8 8)
      ⟨twinSeed, 0, 0, 8, 8, twinGrid.get 8 8⟩
      ((mem_visitsOf _ _ _ _ _).mpr ⟨List.mem_singleton.mpr rfl, rfl, rfl, rfl⟩)
    rw [hd] at hle
    rw [g5 8 8]
    rcases foldl_assignCell_attained
      (visitsOf [⟨twinSeed, 0, 0, 8, 8, twinGrid.get 8 8⟩] 0 8 8) (f.assignment.get 8 8)
      with e | ⟨w, hw, -, e⟩
    · rw [e] at hle ⊢
      rcases h88 with h | h
      · exact h
      · exact absurd hle (not_le.mpr h)
    · rw [e, hmem 8 8 w hw]
      rfl
  obtain ⟨f2, k1, k2, k3, k4, k5⟩ := UpdateClusterCenters_single f1 twinSeed g4 rfl g2 rfl rfl
    (by
      intro v hv
      rw [g3, twinVisits] at hv
      rw [List.mem_singleton.mp hv]
      exact h881)
  refine ⟨f1, [f2], g1, k1, f2, rfl, k2, k3.trans g3, ?_, ?_, ?_⟩
  · rw [k4, g3, twinCenter]
  · rw [k5]
    exact Or.inl h881
  · rw [k5]
    exact hno1

theorem UpdateClustersLoop_twin :
    ∀ (k : Nat) (frames : List Frame), twinWindow frames →
      ∃ frames', UpdateClustersLoop k frames = some frames' ∧ twinWindow frames'
  | 0, frames, h => ⟨frames, rfl, h⟩
  | k + 1, frames, h => by
    obtain ⟨f1, frames1, g1, g2, g3⟩ := twinRound frames h
    obtain ⟨frames', e1, e2⟩ := UpdateClustersLoop_twin k frames1 g3
    refine ⟨frames', ?_, e2⟩
    rw [UpdateClustersLoop]
    simp only [g1, g2]
    exact e1

/-- The state after the first `step` on `twinInput`. -/
theorem twinStep (ops : FloatOps) :
    ∃ sv1, (freshEngine.start 32 10).step ops twinInput = some sv1 ∧
      sv1.After [1] ∧
      twinWindow sv1.series_.frames ∧ sv1.is_first_ = false ∧
      sv1.last_density_ = ComputeClusterDensity ops 32 10 [twinSeed] ∧
      sv1.random_engine = ⟨fun _ => 0, 2⟩ := by
  obtain ⟨sampled, hs⟩ := sampleNewClusters_isSome (freshEngine.start 32 10) twinInput twinEven
  obtain ⟨sv1, hstep⟩ := step_isSome ops (freshEngine.start 32 10) [] twinInput sampled
    (After_start freshEngine 32 10) hs
  obtain ⟨e1, e2⟩ := twinSampled sampled hs
  obtain ⟨-, -, -, -, -, -, -, hafter⟩ := step_shape ops _ sv1 twinInput [] sampled
    (After_start freshEngine 32 10) hs hstep
  obtain ⟨frames', hloop, -, hfr, -⟩ := step_window ops _ sv1 twinInput [] sampled
    (After_start freshEngine 32 10) hs hstep
  obtain ⟨sampled', series, hs', -, hsv⟩ := step_some ops _ sv1 twinInput hstep
  have hsame : sampled' = sampled := Option.some.inj (hs'.symm.trans hs)
  rw [hsame, e1, e2] at hsv
  rw [e1] at hloop hafter
  have hwin : ((freshEngine.start 32 10).addAndPurge
      (CreateRgbdData twinInput.color twinInput.depth) [twinSeed]).2.frames
      = [CreateFrame 0 twinGrid [twinSeed]] := rfl
  rw [hwin] at hloop
  have h0 : twinWindow [CreateFrame 0 twinGrid [twinSeed]] := by
    refine ⟨_, rfl, rfl, rfl, rfl, Or.inr ?_, ?_⟩
    · show (0 : ℚ) < VERY_LARGE_DISTANCE
      norm_num [VERY_LARGE_DISTANCE]
    · intro x y
      show (none : Option (Int × Nat)) ≠ some (1, 0)
      simp
  obtain ⟨frames2, hloop2, htw⟩ := UpdateClustersLoop_twin CLUSTER_ITERATIONS _ h0
  rw [hloop, Option.some.injEq] at hloop2
  refine ⟨sv1, hstep, hafter, ?_, ?_, ?_, ?_⟩
  · rw [hfr, hloop2]
    exact htw
  · rw [hsv]
  · rw [hsv]
    rfl
  · rw [hsv]
theorem twinDensity (ops : FloatOps) (hexp : ∀ x, ops.exp x = 0) (i j : Nat) :
    (ComputeClusterDensity ops 32 10 [twinSeed]).get i j = 0 := by
  have h := (ComputeClusterDensity_foldl ops 32 10 i j [twinSeed] (Mat.Zero 32 10)).1
  unfold ComputeClusterDensity
  rw [h]
  simp [boxDensity, kernelValue, hexp, Mat.Zero]

theorem twinSampleDensity (ops : FloatOps) (hexp : ∀ x, ops.exp x = 0)
    (sv : ContinuousSupervoxels) (h1 : sv.is_first_ = false)
    (h2 : sv.last_density_ = ComputeClusterDensity ops 32 10 [twinSeed]) (target : Mat) :
    sv.sampleDensity target = target := by
  unfold ContinuousSupervoxels.sampleDensity
  rw [h1, h2]
  cases target with
  | mk rows cols get =>
    simp [Mat.sub, Mat.smul, twinDensity ops hexp]

/-- The second `step` on `twinInput` samples the seed `(8,8)` again when the cluster density
of the first frame is zero. -/
theorem twinSampledAgain (ops : FloatOps) (hexp : ∀ x, ops.exp x = 0)
    (sv : ContinuousSupervoxels) (h1 : sv.is_first_ = false)
    (h2 : sv.last_density_ = ComputeClusterDensity ops 32 10 [twinSeed])
    (h3 : sv.random_engine = ⟨fun _ => 0, 2⟩) (sampled : List Cluster × RandomEngine)
    (hs : sv.sampleNewClusters twinInput = some sampled) : sampled.1 = [twinSeed] := by
  obtain ⟨seeds, e1, -, e2⟩ := sampleNewClusters_some _ twinInput sampled hs
  rw [twinSampleDensity ops hexp sv h1 h2, h3] at e1
  have e1' : SampleDensityImpl twinGrid (ComputeFrameDensity twinGrid) ⟨fun _ => 0, 2⟩
      = some (seeds, sampled.2) := e1
  have hseeds := twinSeeds2
  rw [e1'] at hseeds
  simp only [Option.map_some', Option.some.injEq] at hseeds
  rw [e2, hseeds]
  rfl

theorem PointClusterDistance_near (t : Int) (p : Point) (c : Cluster)
    (ht : |t - c.time| ≤ CLUSTER_TIME_RADIUS) :
    PointClusterDistance t p c
      = 67 / 100 * (p.color.sub c.color).squaredNorm
        + 33 / 100 * ((p.position.sub c.position).squaredNorm / CLUSTER_RADIUS ^ 2) := by
  have hm : max 0 (|t - c.time| - CLUSTER_TIME_RADIUS) = 0 := max_eq_left (by omega)
  unfold PointClusterDistance
  simp only [hm, SPATIAL_TIME_INCREASE]
  norm_num
  rw [pow_two]

theorem inSearchBox_retime (NX NY : Nat) (c : Cluster) (t ft x y : Int) :
    inSearchBox NX NY { c with time := t } ft x y ↔ inSearchBox NX NY c ft x y := by
  simp [inSearchBox, SPATIAL_TIME_INCREASE]

theorem visitsOf_append (a b : List Visit) (t : Nat) (x y : Int) :
    visitsOf (a ++ b) t x y = visitsOf a t x y ++ visitsOf b t x y := by
  unfold visitsOf
  rw [List.filter_append]

theorem ClusterBoxVisits_pair (f0 f1 : Frame) (c0 c1 : Cluster) (h0 : f0.clusters = [c0])
    (h1 : f1.clusters = [c1]) (hv0 : c0.valid = true) (hv1 : c1.valid = true) :
    ClusterBoxVisits [f0, f1]
      = (ClusterBoxPoints f0.rgbd.rows f0.rgbd.cols c0 0 f0
          ++ ClusterBoxPoints f0.rgbd.rows f0.rgbd.cols c0 1 f1)
        ++ (ClusterBoxPoints f0.rgbd.rows f0.rgbd.cols c1 0 f0
          ++ ClusterBoxPoints f0.rgbd.rows f0.rgbd.cols c1 1 f1) := by
  simp [ClusterBoxVisits, h0, h1, hv0, hv1, List.enum, List.enumFrom]

/-- An assignment pass over a window of two frames, of times `0` and `1`, whose only
clusters are a valid cluster `c` of pointer `(0,0)` and its copy of time `1`: the copy is
visited after `c` with the same distance at every point, the strict test `d < a.distance`
fails for it, and no cell comes to reference the copy. -/
theorem tiePass (f0 f1 : Frame) (c : Cluster) (h0 : f0.clusters = [c])
    (h1 : f1.clusters = [{ c with time := 1 }]) (hv : c.valid = true) (hct : c.time = 0)
    (hid : c.id = 0) (ht0 : f0.time = 0) (ht1 : f1.time = 1)
    (hno0 : ∀ x y : Int, (f0.assignment.get x y).cluster ≠ some (1, 0))
    (hno1 : ∀ x y : Int, (f1.assignment.get x y).cluster ≠ some (1, 0)) :
    ∃ m0 m1, UpdateClusterAssignment [f0, f1] = some [m0, m1] ∧
      m0.time = 0 ∧ m1.time = 1 ∧ m1.clusters = [{ c with time := 1 }] ∧
      (∀ x y : Int, (m0.assignment.get x y).cluster ≠ some (1, 0)) ∧
      (∀ x y : Int, (m1.assignment.get x y).cluster ≠ some (1, 0)) := by
  have hcell : ∀ (t : Nat) (f : Frame), [f0, f1].get? t = some f →
      (∀ x y : Int, (f.assignment.get x y).cluster ≠ some (1, 0)) →
      ∀ x y : Int,
        (((visitsOf (ClusterBoxVisits [f0, f1]) t x y).foldl assignCell
          (f.assignment.get x y)).cluster ≠ some (1, 0)) := by
    intro t f hf hno x y
    rw [ClusterBoxVisits_pair f0 f1 c _ h0 h1 hv hv, visitsOf_append, List.foldl_append]
    have hfirst : ((visitsOf (ClusterBoxPoints f0.rgbd.rows f0.rgbd.cols c 0 f0
          ++ ClusterBoxPoints f0.rgbd.rows f0.rgbd.cols c 1 f1) t x y).foldl assignCell
        (f.assignment.get x y)).cluster ≠ some (1, 0) := by
      rcases foldl_assignCell_attained
        (visitsOf (ClusterBoxPoints f0.rgbd.rows f0.rgbd.cols c 0 f0
          ++ ClusterBoxPoints f0.rgbd.rows f0.rgbd.cols c 1 f1) t x y) (f.assignment.get x y)
        with e | ⟨w, hw, -, e⟩
      · rw [e]
        exact hno x y
      · rw [e]
        have hwc : w.c = c := by
          rcases List.mem_append.mp ((mem_visitsOf _ _ _ _ _).mp hw).1 with hm | hm
          · have := ((mem_ClusterBoxPoints _ _ _ _ _ _).mp hm).2.2
            rw [this]
          · have := ((mem_ClusterBoxPoints _ _ _ _ _ _).mp hm).2.2
            rw [this]
        show some w.c.ptr ≠ some (1, 0)
        rw [hwc]
        unfold Cluster.ptr
        rw [hct, hid]
        decide
    rw [foldl_assignCell_keep]
    · exact hfirst
    · intro u hu
      obtain ⟨hub, hut, hux, huy⟩ := (mem_visitsOf _ _ _ _ _).mp hu
      have key : ∀ (k : Nat) (fk : Frame), (fk.time = 0 ∨ fk.time = 1) →
          u ∈ ClusterBoxPoints f0.rgbd.rows f0.rgbd.cols { c with time := 1 } k fk →
          (⟨c, k, fk.time, u.x, u.y, fk.rgbd.get u.x u.y⟩ : Visit)
              ∈ ClusterBoxPoints f0.rgbd.rows f0.rgbd.cols c k fk ∧
            u.t = k ∧
            visitDistance ⟨c, k, fk.time, u.x, u.y, fk.rgbd.get u.x u.y⟩ = visitDistance u := by
        intro k fk hfk hm
        obtain ⟨b1, b2, b3⟩ := (mem_ClusterBoxPoints _ _ _ _ _ _).mp hm
        refine ⟨(mem_ClusterBoxPoints _ _ _ _ _ _).mpr
          ⟨(inSearchBox_retime _ _ c 1 _ _ _).mp b1, b2, rfl⟩, ?_, ?_⟩
        · rw [b3]
        · have hu' : visitDistance u
              = PointClusterDistance fk.time (fk.rgbd.get u.x u.y) { c with time := 1 } := by
            conv_lhs => rw [b3]
            rfl
          rw [hu']
          show PointClusterDistance fk.time (fk.rgbd.get u.x u.y) c = _
          rw [PointClusterDistance_near _ _ c, PointClusterDistance_near _ _ { c with time := 1 }]
          · show |fk.time - 1| ≤ CLUSTER_TIME_RADIUS
            rcases hfk with e | e <;> rw [e] <;> decide
          · rw [hct]
            rcases hfk with e | e <;> rw [e] <;> decide
      have hpair : ∃ u0 : Visit,
          u0 ∈ visitsOf (ClusterBoxPoints f0.rgbd.rows f0.rgbd.cols c 0 f0
            ++ ClusterBoxPoints f0.rgbd.rows f0.rgbd.cols c 1 f1) t x y ∧
          visitDistance u0 = visitDistance u := by
        rcases List.mem_append.mp hub with hm | hm
        · obtain ⟨k1, k2, k3⟩ := key 0 f0 (Or.inl ht0) hm
          exact ⟨_, (mem_visitsOf _ _ _ _ _).mpr
            ⟨List.mem_append_left _ k1, k2.symm.trans hut, hux, huy⟩, k3⟩
        · obtain ⟨k1, k2, k3⟩ := key 1 f1 (Or.inr ht1) hm
          exact ⟨_, (mem_visitsOf _ _ _ _ _).mpr
            ⟨List.mem_append_right _ k1, k2.symm.trans hut, hux, huy⟩, k3⟩
      obtain ⟨u0, hu0, hd⟩ := hpair
      rw [← hd]
      exact foldl_assignCell_le_mem _ _ u0 hu0
  obtain ⟨m0, a1, -, a3, -, a5⟩ := AssignVisits_cell (ClusterBoxVisits [f0, f1]) [f0, f1] 0 f0 rfl
  obtain ⟨m1, b1, -, b3, b4, b5⟩ := AssignVisits_cell (ClusterBoxVisits [f0, f1]) [f0, f1] 1 f1 rfl
  have hlen : (AssignVisits (ClusterBoxVisits [f0, f1]) [f0, f1]).length = 2 :=
    (List.Forall₂.length_eq
      (UpdateClusterAssignment_step _ _ (UpdateClusterAssignment_eq f0 [f1]))).symm
  have hmid : AssignVisits (ClusterBoxVisits [f0, f1]) [f0, f1] = [m0, m1] := by
    match hm : AssignVisits (ClusterBoxVisits [f0, f1]) [f0, f1], hlen, a1, b1 with
    | [x0, x1], _, a1, b1 =>
      simp only [List.get?_cons_zero, List.get?_cons_succ, Option.some.injEq] at a1 b1
      rw [a1, b1]
  refine ⟨m0, m1, ?_, a3.trans ht0, b3.trans ht1, b4.trans h1, ?_, ?_⟩
  · rw [UpdateClusterAssignment_eq, hmid]
  · intro x y
    rw [a5]
    exact hcell 0 f0 rfl hno0 x y
  · intro x y
    rw [b5]
    exact hcell 1 f1 rfl hno1 x y

/-- The center update after such a pass: the accumulator of the copy stays empty and the
copy is marked invalid. -/
theorem tieCenters (m0 m1 : Frame) (c1 : Cluster) (h1 : m1.clusters = [c1])
    (ht : m0.time = 0) (hc : c1.time = 1) (hid : c1.id = 0)
    (hno0 : ∀ x y : Int, (m0.assignment.get x y).cluster ≠ some (1, 0))
    (hno1 : ∀ x y : Int, (m1.assignment.get x y).cluster ≠ some (1, 0)) :
    ∃ out f c, UpdateClusterCenters [m0, m1] = some out ∧ out.get? 1 = some f ∧
      f.clusters.get? 0 = some c ∧ c.valid = false ∧ c.time = 1 ∧ c.id = 0 := by
  obtain ⟨out, f, e1, e2, -, -, -, e6⟩ := UpdateClusterCenters_get? m0 [m1] 1 0 m1 c1 rfl
    (by rw [h1]; rfl) ⟨by rw [hc, ht]; rfl, hid⟩
  have hnil : centerMembers [m0, m1] c1 = [] := by
    apply List.eq_nil_iff_forall_not_mem.mpr
    intro v hv
    obtain ⟨-, -, -, -, -, frame, hget, -, -, -, -, hcell⟩ := (mem_centerMembers _ _ _ _).mp hv
    have hptr : c1.ptr = (1, 0) := by
      unfold Cluster.ptr
      rw [hc, hid]
    rw [hptr] at hcell
    have hmem : frame ∈ [m0, m1] := List.get?_mem hget
    simp only [List.mem_cons, List.mem_singleton, List.not_mem_nil, or_false] at hmem
    rcases hmem with e | e
    · rw [e] at hcell
      exact hno0 _ _ hcell
    · rw [e] at hcell
      exact hno1 _ _ hcell
  rw [hnil, List.foldl_nil, UpdateCenter_empty c1 _ rfl] at e6
  exact ⟨out, f, _, e1, e2, e6, rfl, hc, hid⟩

/-- The second `step` on `twinInput`: the new frame, of time `1`, holds the cluster `(1,0)`
marked invalid. -/
theorem twinStepAgain (ops : FloatOps) (hexp : ∀ x, ops.exp x = 0)
    (sv1 : ContinuousSupervoxels) (hafter : sv1.After [1])
    (hw : twinWindow sv1.series_.frames) (h1 : sv1.is_first_ = false)
    (h2 : sv1.last_density_ = ComputeClusterDensity ops 32 10 [twinSeed])
    (h3 : sv1.random_engine = ⟨fun _ => 0, 2⟩) :
    ∃ sv2 f c, sv1.step ops twinInput = some sv2 ∧ sv2.series_.frames.get? 1 = some f ∧
      f.clusters.get? 0 = some c ∧ c.valid = false ∧ c.time = 1 ∧ c.id = 0 := by
  obtain ⟨sampled, hs⟩ := sampleNewClusters_isSome sv1 twinInput twinEven
  obtain ⟨sv2, hstep⟩ := step_isSome ops sv1 [1] twinInput sampled hafter hs
  have e1 := twinSampledAgain ops hexp sv1 h1 h2 h3 sampled hs
  obtain ⟨frames', hloop, -, hfr, -⟩ := step_window ops sv1 sv2 twinInput [1] sampled
    hafter hs hstep
  rw [e1] at hloop
  obtain ⟨f0, hf0, ht, hr, hc, -, hno⟩ := hw
  have hwin : (sv1.addAndPurge (CreateRgbdData twinInput.color twinInput.depth)
      [twinSeed]).2.frames = [f0, CreateFrame 1 twinGrid [twinSeed]] := by
    simp [ContinuousSupervoxels.addAndPurge, Timeseries.purge, Timeseries.purgeFrames,
      Timeseries.add, Timeseries.getEndTime, hf0, ht, CreateFrame, CLUSTER_TIME_RADIUS,
      twinGrid]
  rw [hwin] at hloop
  obtain ⟨m0, m1, a1, a2, a3, a4, a5, a6⟩ := tiePass f0 (CreateFrame 1 twinGrid [twinSeed])
    twinSeed hc rfl rfl rfl rfl ht rfl hno (by
      intro x y
      show (none : Option (Int × Nat)) ≠ some (1, 0)
      simp)
  obtain ⟨out, f, c, b1, b2, b3, b4, b5, b6⟩ := tieCenters m0 m1 _ a4 a2 rfl rfl a5 a6
  have h5 : CLUSTER_ITERATIONS = 4 + 1 := rfl
  rw [h5, UpdateClustersLoop] at hloop
  simp only [a1, b1] at hloop
  have hfs := UpdateClustersLoop_step 4 out frames' hloop
  obtain ⟨f', hf', hff⟩ := forall₂_get? hfs 1 f b2
  obtain ⟨c', hc', hcc⟩ := forall₂_get? hff.2.2 0 c b3
  refine ⟨sv2, f', c', hstep, ?_, hc', hcc.2.2.2 b4, hcc.1.trans b5, hcc.2.1.trans b6⟩
  rw [hfr]
  exact hf'

/-- Witness of C1: two `step` calls on `twinInput`, followed by three more, with the
exponential of the density kernel taken to be `0`.  The first call creates the cluster
`(0,0)` at the seed `(8,8)`; the cluster density it leaves is zero, so the second call
samples the same seed and creates the cluster `(1,0)` with the same center.  In the first
assignment pass of the second call the cluster `(1,0)` is visited after `(0,0)` at equal
distance, gains no point, and the center update marks it invalid.  It is still invalid,
at the same place of the list of all clusters, after the three later calls. -/
theorem tombstone_monotonicity_witness :
    ∃ (sv sv' : ContinuousSupervoxels) (c : Cluster),
      (freshEngine.start 32 10).steps ⟨fun _ => 0, fun x => x⟩ [twinInput, twinInput]
        = some sv ∧
      sv.steps ⟨fun _ => 0, fun x => x⟩ [twinInput, twinInput, twinInput] = some sv' ∧
      c ∈ sv.getAllClusters ∧ c.valid = false ∧ c.time = 1 ∧ c.id = 0 ∧
      (∃ c' ∈ sv'.getAllClusters, c'.time = 1 ∧ c'.id = 0 ∧ c'.valid = false) ∧
      (∀ (frames frames' : List Frame) (rounds : Nat),
        (UpdateClusterAssignment frames = some frames' ∨
          UpdateClusterCenters frames = some frames' ∨
          UpdateClustersLoop rounds frames = some frames') →
        ∀ (t k : Nat) (f : Frame) (c : Cluster), frames.get? t = some f →
          f.clusters.get? k = some c → c.valid = false →
          ∃ f' c', frames'.get? t = some f' ∧ f'.clusters.get? k = some c' ∧
            c'.time = c.time ∧ c'.id = c.id ∧ c'.valid = false) ∧
      (∀ (i : Nat) (c : Cluster), sv.getAllClusters.get? i = some c → c.valid = false →
        ∃ c', sv'.getAllClusters.get? i = some c' ∧ c'.time = c.time ∧ c'.id = c.id ∧
          c'.valid = false) ∧
      (∀ c ∈ sv.getAllClusters, c.valid = false →
        ∀ c' ∈ sv'.getAllClusters, c'.time = c.time → c'.id = c.id → c'.valid = false) := by
  obtain ⟨sv1, hstep1, hafter, hw, h1, h2, h3⟩ := twinStep ⟨fun _ => 0, fun x => x⟩
  obtain ⟨sv, f, c, hstep2, hf, hc, hv, hct, hid⟩ :=
    twinStepAgain ⟨fun _ => 0, fun x => x⟩ (fun _ => rfl) sv1 hafter hw h1 h2 h3
  have hrun : (freshEngine.start 32 10).steps ⟨fun _ => 0, fun x => x⟩ [twinInput, twinInput]
      = some sv := by
    rw [steps_cons, hstep1]
    simp only
    rw [steps_cons, hstep2]
    rfl
  obtain ⟨hinv, -⟩ := After_run ⟨fun _ => 0, fun x => x⟩ freshEngine sv 32 10 _ hrun
  obtain ⟨sv', hlater⟩ := steps_isSome ⟨fun _ => 0, fun x => x⟩
    [twinInput, twinInput, twinInput] sv _ hinv (by
      intro inp hinp
      simp only [List.mem_cons, List.mem_singleton, List.not_mem_nil, or_false, or_self]
        at hinp
      rw [hinp]
      exact twinEven)
  have hmem : c ∈ sv.getAllClusters := by
    unfold ContinuousSupervoxels.getAllClusters
    apply List.mem_append_right
    rw [List.mem_flatten]
    exact ⟨f.clusters, List.mem_map.mpr ⟨f, List.get?_mem hf, rfl⟩, List.get?_mem hc⟩
  obtain ⟨hpass, hpos, hall⟩ := tombstone_monotonicity ⟨fun _ => 0, fun x => x⟩ freshEngine
    sv sv' 32 10 _ _ hrun hlater
  obtain ⟨i, hi⟩ := List.mem_iff_get?.mp hmem
  obtain ⟨c', hc', e1, e2, e3⟩ := hpos i c hi hv
  exact ⟨sv, sv', c, hrun, hlater, hmem, hv, hct, hid,
    ⟨c', List.get?_mem hc', e1.trans hct, e2.trans hid, e3⟩, hpass, hpos, hall⟩

end dasv
